import Mathlib

/-!
SecCtrl: a secure memory controller (counter / MAC / Bonsai Merkle tree traffic).

Shallow embedding of `src/csh/sec_ctrl.hh` and `src/csh/sec_ctrl.cc`.

* `Addr` and `Tick` are `uint64_t`: they are natural numbers here and every
  addition, multiplication and left shift is reduced modulo `2 ^ 64`.
* The C++ object is the record `Ctrl`.  A member function is a function
  `Ctrl → Outcome α`: the list of externally visible actions it performed
  (packets handed to a port, events scheduled, retry requests), the object
  after the call, and either the returned value or the `panic`/`assert` that
  ended it (with the object as it was at that point).
* The transport below the ports (`sendTimingReq`, `sendTimingResp`) is a
  parameter `tr : Transport` that answers every send attempt.
* `curTick()` is the parameter `now`.
* `assert` is taken with its debug-build meaning (a failed assertion ends the
  run); dereferencing a null `PacketPtr` ends the run as well (`Fatal.nullPacket`).
* `schedule(event, tick)` is recorded as an action; the event queue of the
  simulator, with its own assertions, is outside the embedding, and so is what
  the peer does inside `sendRetryReq` and `sendRangeChange`.
-/

namespace SecCtrl

/-! ## Parameters (`sec_ctrl.hh`) -/

def DATA_SPACE : Nat := 0x200000000
def NODE_SPACE : Nat := 0x40
def MT_LEVEL : Nat := 7
def MAC_CYCLE : Nat := 80
def HASH_CYCLE : Nat := 80

/-! ## 64-bit arithmetic -/

def W64 : Nat := 2 ^ 64

def add64 (a b : Nat) : Nat := (a + b) % W64

def mul64 (a b : Nat) : Nat := (a * b) % W64

def shl64 (a k : Nat) : Nat := (a <<< k) % W64

/-- The C++ idiom `a >> k << k`. -/
def alignDown (k a : Nat) : Nat := shl64 (a >>> k) k

/-! ## Data model -/

inductive State where
  | Idle
  | Read
  | Write
  deriving DecidableEq

/-- The part of a gem5 packet (and of its request) the controller looks at. -/
structure Packet where
  addr : Nat
  size : Nat
  isRead : Bool
  flags : Nat
  requestorId : Nat
  needsResponse : Bool
  accessDepth : Nat
  deriving DecidableEq

inductive PortId where
  | cpuSidePort
  | memPort
  | metaPort
  deriving DecidableEq

inductive Event where
  | readVerFinished
  | sendMacWrite
  | sendNextMtWrite
  | writeVerFinished
  deriving DecidableEq

/-- What a call does to the outside world, in order. -/
inductive Action where
  | send (port : PortId) (pkt : Packet) (accepted : Bool)
  | schedule (ev : Event) (tick : Nat)
  | retryReq
  deriving DecidableEq

/-- The places where the code ends the run. -/
inductive Fatal where
  | sendWhileBlocked
  | invalidState
  | invalidBlockedPkt
  | invalidAddr
  | mtNodeAddr
  | multipleAddresses
  | interleavedRange
  | badMemorySpace
  | assertFailed
  | nullPacket
  deriving DecidableEq

structure CPUSidePort where
  needRetry : Bool
  blockedPacket : Option Packet
  deriving DecidableEq

structure MemSidePort where
  blockedPacket : Option Packet
  deriving DecidableEq

/-- The data members of `SecCtrl`. -/
structure Ctrl where
  cpuSidePort : CPUSidePort
  memPort : MemSidePort
  metaPort : MemSidePort
  state : State
  chargeTime : Nat
  verifiedPktAddr : Nat
  verifiedCntOffs : Nat
  flags : Nat
  requestorId : Nat
  needsResponse : Bool
  cntBorder : Nat
  macBorder : Nat
  mtBorders : List Nat
  responsePkt : Option Packet
  counterPkt : Option Packet
  macPkt : Option Packet
  mtPkts : List (Option Packet)
  deriving DecidableEq

inductive Res (α : Type) where
  | ok (val : α)
  | fatal (why : Fatal)
  deriving DecidableEq

structure Outcome (α : Type) where
  acts : List Action
  ctrl : Ctrl
  res : Res α

/-- A member function of the controller. -/
def M (α : Type) : Type := Ctrl → Outcome α

def M.pure {α : Type} (a : α) : M α := fun c => ⟨[], c, .ok a⟩

/-- An outcome, after the actions `pre` were already performed. -/
def Outcome.prepend {α : Type} (pre : List Action) (o : Outcome α) : Outcome α :=
  ⟨pre ++ o.acts, o.ctrl, o.res⟩

/-- Run `f` after an outcome: a fatal outcome stays as it is, otherwise the
actions of the continuation follow the ones already performed. -/
def Outcome.andThen {α β : Type} (o : Outcome α) (f : α → M β) : Outcome β :=
  match o.res with
  | .ok a => (f a o.ctrl).prepend o.acts
  | .fatal k => ⟨o.acts, o.ctrl, .fatal k⟩

def M.bind {α β : Type} (m : M α) (f : α → M β) : M β := fun c => (m c).andThen f

instance : Monad M where
  pure := M.pure
  bind := M.bind

def getCtrl : M Ctrl := fun c => ⟨[], c, .ok c⟩

def modifyCtrl (f : Ctrl → Ctrl) : M Unit := fun c => ⟨[], f c, .ok ()⟩

def emit (a : Action) : M Unit := fun c => ⟨[a], c, .ok ()⟩

def fatal {α : Type} (k : Fatal) : M α := fun c => ⟨[], c, .fatal k⟩

def panic_if (b : Bool) (k : Fatal) : M Unit := if b then fatal k else M.pure ()

/-- The transport's answer to a send attempt on a port. -/
abbrev Transport : Type := PortId → Packet → Bool

/-- A loop `for (i = 0; i < n; i++) s = body(i, s)`. -/
def forUpTo {σ : Type} (n : Nat) (body : Nat → σ → σ) (s : σ) : σ :=
  (List.range n).foldl (fun s i => body i s) s

/-- A loop `for (i = lo; i < lo + n; i++) if (p i) { ...; break or return }`:
the index of the first iteration whose test succeeds. -/
def firstHit (p : Nat → Bool) : Nat → Nat → Option Nat
  | _, 0 => none
  | i, n + 1 => if p i then some i else firstHit p (i + 1) n

/-! ## Constructor (`SecCtrl::SecCtrl`) -/

/-- The border computation of the constructor. -/
def constructBorders : Nat × Nat × List Nat :=
  let cntBorder := DATA_SPACE
  let macBorder := add64 cntBorder (DATA_SPACE / 64)
  let mt0 := forUpTo MT_LEVEL
    (fun i mt => mt.set i (add64 macBorder (DATA_SPACE / 4))) (List.replicate MT_LEVEL 0)
  let r := forUpTo (MT_LEVEL - 1)
    (fun i (s : Nat × List Nat) =>
      let node_space := mul64 s.1 8
      (node_space,
        forUpTo (i + 1)
          (fun j mt => mt.set (MT_LEVEL - 1 - j) (add64 (mt.getD (MT_LEVEL - 1 - j) 0) node_space))
          s.2))
    (NODE_SPACE, mt0)
  (cntBorder, macBorder, r.2)

/-- The object right after construction. -/
def construct : Ctrl :=
  { cpuSidePort := { needRetry := false, blockedPacket := none }
    memPort := { blockedPacket := none }
    metaPort := { blockedPacket := none }
    state := .Idle
    chargeTime := 0
    verifiedPktAddr := 0
    verifiedCntOffs := 0
    flags := 0
    requestorId := 0
    needsResponse := true
    cntBorder := constructBorders.1
    macBorder := constructBorders.2.1
    mtBorders := constructBorders.2.2
    responsePkt := none
    counterPkt := none
    macPkt := none
    mtPkts := List.replicate (MT_LEVEL - 1) none }

/-! ## Ports -/

/-- Embeds `CPUSidePort::sendPacket`. -/
def CPUSidePort.sendPacket (tr : Transport) (pkt : Packet) : M Bool := do
  let c ← getCtrl
  panic_if c.cpuSidePort.blockedPacket.isSome .sendWhileBlocked
  if tr .cpuSidePort pkt then
    emit (.send .cpuSidePort pkt true)
    pure true
  else
    emit (.send .cpuSidePort pkt false)
    modifyCtrl (fun c => { c with cpuSidePort := { c.cpuSidePort with blockedPacket := some pkt } })
    pure false

/-- Embeds `CPUSidePort::trySendRetryReq`. -/
def CPUSidePort.trySendRetryReq : M Unit := do
  let c ← getCtrl
  if c.cpuSidePort.needRetry ∧ c.cpuSidePort.blockedPacket = none then
    modifyCtrl (fun c => { c with cpuSidePort := { c.cpuSidePort with needRetry := false } })
    emit .retryReq
  else
    pure ()

/-- Embeds `MemSidePort::sendPacket` on `memPort`. -/
def memPort_sendPacket (tr : Transport) (pkt : Packet) : M Bool := do
  let c ← getCtrl
  panic_if c.memPort.blockedPacket.isSome .sendWhileBlocked
  if tr .memPort pkt then
    emit (.send .memPort pkt true)
    pure true
  else
    emit (.send .memPort pkt false)
    modifyCtrl (fun c => { c with memPort := { blockedPacket := some pkt } })
    pure false

/-- Embeds `MemSidePort::sendPacket` on `metaPort`. -/
def metaPort_sendPacket (tr : Transport) (pkt : Packet) : M Bool := do
  let c ← getCtrl
  panic_if c.metaPort.blockedPacket.isSome .sendWhileBlocked
  if tr .metaPort pkt then
    emit (.send .metaPort pkt true)
    pure true
  else
    emit (.send .metaPort pkt false)
    modifyCtrl (fun c => { c with metaPort := { blockedPacket := some pkt } })
    pure false

/-! ## Utilities -/

/-- Embeds `SecCtrl::updateChargeTime`. -/
def updateChargeTime (newChargeTime : Nat) : M Unit :=
  modifyCtrl (fun c => if c.chargeTime < newChargeTime then { c with chargeTime := newChargeTime } else c)

/-- Embeds `SecCtrl::createMetaPkt`: a fresh read or write request. -/
def createMetaPkt (c : Ctrl) (addr size : Nat) (isRead : Bool) : Packet :=
  { addr := addr, size := size, isRead := isRead, flags := c.flags, requestorId := c.requestorId,
    needsResponse := true, accessDepth := 0 }

/-- Embeds `SecCtrl::sendCntPkt`. -/
def sendCntPkt (tr : Transport) (isRead : Bool) : M Bool := do
  let c ← getCtrl
  let addr := add64 c.cntBorder (c.verifiedPktAddr >>> 6)
  metaPort_sendPacket tr (createMetaPkt c addr 1 isRead)

/-- Embeds `SecCtrl::sendMacPkt`. -/
def sendMacPkt (tr : Transport) (isRead : Bool) : M Bool := do
  let c ← getCtrl
  let addr := add64 c.macBorder (c.verifiedPktAddr >>> 2)
  metaPort_sendPacket tr (createMetaPkt c (alignDown 4 addr) 16 isRead)

/-- The expression `mtBorders[i] + (verifiedCntOffs >> (i+1)*3)`. -/
def mtNodeAddr (c : Ctrl) (i : Nat) : Nat :=
  add64 (c.mtBorders.getD i 0) (c.verifiedCntOffs >>> ((i + 1) * 3))

/-- Embeds `SecCtrl::sendMtPkt`. -/
def sendMtPkt (tr : Transport) (nth : Nat) (isRead : Bool) : M Bool := do
  let c ← getCtrl
  let addr := mtNodeAddr c nth
  metaPort_sendPacket tr
    (createMetaPkt c (if isRead then alignDown 6 addr else alignDown 3 addr)
      (if isRead then 64 else 8) isRead)

/-! ## Scheduled events -/

/-- The teardown shared by the two `...VerFinished` handlers. -/
def clearTransaction : M Unit :=
  modifyCtrl (fun c =>
    { c with
      state := .Idle
      responsePkt := none
      counterPkt := none
      macPkt := none
      mtPkts := forUpTo (MT_LEVEL - 1) (fun i mt => mt.set i none) c.mtPkts })

/-- The call `cpuSidePort.sendPacket(responsePkt)`.  With a null `responsePkt`
the blocked-slot test of `sendPacket` still comes first and the transport then
dereferences the null pointer. -/
def sendResponsePkt (tr : Transport) : M Bool := do
  let c ← getCtrl
  match c.responsePkt with
  | none =>
    panic_if c.cpuSidePort.blockedPacket.isSome .sendWhileBlocked
    fatal .nullPacket
  | some p => CPUSidePort.sendPacket tr p

/-- Embeds `SecCtrl::processReadVerFinished`. -/
def processReadVerFinished (tr : Transport) : M Unit := do
  if (← sendResponsePkt tr) then
    clearTransaction
    CPUSidePort.trySendRetryReq
  else
    pure ()

/-- Embeds `SecCtrl::processSendMacWrite`. -/
def processSendMacWrite (tr : Transport) : M Unit := do
  let _ ← sendMacPkt tr false

/-- Embeds `SecCtrl::processSendNextMtWrite`. -/
def processSendNextMtWrite (tr : Transport) : M Unit := do
  let c ← getCtrl
  match firstHit (fun i => c.mtPkts.getD i none == none) 0 (MT_LEVEL - 1) with
  | some i =>
    let _ ← sendMtPkt tr i false
  | none => fatal .assertFailed

/-- Embeds `SecCtrl::processWriteVerFinished`. -/
def processWriteVerFinished (tr : Transport) : M Unit := do
  let c ← getCtrl
  if c.needsResponse then
    if (← sendResponsePkt tr) then
      clearTransaction
      CPUSidePort.trySendRetryReq
    else
      pure ()
  else
    clearTransaction
    CPUSidePort.trySendRetryReq

/-! ## Request handler -/

/-- The loop of the retry branch of `handleRequest`: the first level `i < MT_LEVEL`
whose address, in the alignment of the current state, is the packet's. -/
def retryMtLevel (c : Ctrl) (pkt : Packet) : Option Nat :=
  firstHit
    (fun i =>
      decide (pkt.addr =
        (if c.state = .Read then alignDown 6 (mtNodeAddr c i) else alignDown 3 (mtNodeAddr c i))))
    0 MT_LEVEL

/-- The `case Idle` of `handleRequest`: a new transaction. -/
def handleRequestIdle (tr : Transport) (pkt : Packet) : M Unit := do
  modifyCtrl (fun c =>
    { c with
      verifiedPktAddr := pkt.addr
      verifiedCntOffs := pkt.addr >>> 6
      flags := pkt.flags % 2 ^ 32
      requestorId := pkt.requestorId % 2 ^ 16
      needsResponse := pkt.needsResponse })
  if pkt.isRead then
    modifyCtrl (fun c => { c with state := .Read })
    let _ ← memPort_sendPacket tr pkt
    let _ ← sendCntPkt tr true
    let _ ← sendMacPkt tr true
    let _ ← sendMtPkt tr 0 true
  else
    modifyCtrl (fun c => { c with state := .Write })
    let _ ← memPort_sendPacket tr pkt
    let _ ← sendCntPkt tr true

/-- The `default` case of `handleRequest` (reached from `MemSidePort::recvReqRetry`):
the blocked packet is sent again; `c` is the object at entry. -/
def handleRequestRetry (tr : Transport) (pkt : Packet) (c : Ctrl) : M Unit :=
  if pkt.addr = c.verifiedPktAddr then do
    let _ ← memPort_sendPacket tr pkt
  else if pkt.addr = add64 c.cntBorder c.verifiedCntOffs then do
    let _ ← metaPort_sendPacket tr pkt
  else if pkt.addr = add64 c.macBorder (shl64 c.verifiedCntOffs 4) then do
    let _ ← metaPort_sendPacket tr pkt
  else
    match retryMtLevel c pkt with
    | some _ => do
      let _ ← metaPort_sendPacket tr pkt
    | none => fatal .invalidBlockedPkt

/-- Embeds `SecCtrl::handleRequest`. -/
def handleRequest (tr : Transport) (pkt : Packet) : M Unit := do
  let c ← getCtrl
  match c.state with
  | .Idle => handleRequestIdle tr pkt
  | _ => handleRequestRetry tr pkt c

/-! ## Response handler -/

def setMtPkt (i : Nat) (pkt : Packet) : M Unit :=
  modifyCtrl (fun c => { c with mtPkts := c.mtPkts.set i (some pkt) })

/-- The `case Read` of the first `switch` of `handleResponse`. -/
def recordRead (tr : Transport) (now : Nat) (pkt : Packet) : M Unit := do
  let c ← getCtrl
  if pkt.addr = c.verifiedPktAddr then
    modifyCtrl (fun c => { c with responsePkt := some pkt })
  else if pkt.addr = add64 c.cntBorder c.verifiedCntOffs then
    modifyCtrl (fun c => { c with counterPkt := some pkt })
    updateChargeTime (add64 now (HASH_CYCLE * 1000))
  else if pkt.addr = add64 c.macBorder (shl64 c.verifiedCntOffs 4) then
    modifyCtrl (fun c => { c with macPkt := some pkt })
  else
    match firstHit (fun i => decide (pkt.addr = alignDown 6 (mtNodeAddr c i))) 0 (MT_LEVEL - 2) with
    | some i =>
      setMtPkt i pkt
      updateChargeTime (add64 now (HASH_CYCLE * 1000))
      if pkt.accessDepth = 0 then
        pure ()
      else
        let _ ← sendMtPkt tr (i + 1) true
    | none => pure ()
    if pkt.addr = alignDown 6 (mtNodeAddr c (MT_LEVEL - 2)) then
      setMtPkt (MT_LEVEL - 2) pkt
    else
      pure ()
  let c ← getCtrl
  if c.responsePkt.isSome ∧ c.counterPkt.isSome ∧ c.macPkt.isSome then
    updateChargeTime (add64 now (MAC_CYCLE * 1000))
  else
    pure ()

/-- The `case Write` of the first `switch` of `handleResponse`.  The result is
`false` when the C++ leaves `handleResponse` from inside this `switch`
(`return`), `true` when it goes on to the verification check (`break`). -/
def recordWrite (tr : Transport) (now : Nat) (pkt : Packet) : M Bool := do
  let c ← getCtrl
  if pkt.addr = c.verifiedPktAddr then
    panic_if (!c.needsResponse) .assertFailed
    modifyCtrl (fun c => { c with responsePkt := some pkt })
    updateChargeTime now
    pure true
  else if pkt.addr = add64 c.cntBorder c.verifiedCntOffs then
    modifyCtrl (fun c => { c with counterPkt := some pkt })
    emit (.schedule .sendMacWrite (add64 now (MAC_CYCLE * 1000)))
    emit (.schedule .sendNextMtWrite (add64 now (HASH_CYCLE * 1000)))
    pure true
  else if pkt.addr = add64 c.macBorder (shl64 c.verifiedCntOffs 4) then
    modifyCtrl (fun c => { c with macPkt := some pkt })
    updateChargeTime now
    pure true
  else if pkt.isRead then
    match firstHit (fun i => decide (pkt.addr = alignDown 6 (mtNodeAddr c i))) 0 (MT_LEVEL - 2) with
    | some i =>
      panic_if (c.mtPkts.getD i none == none) .assertFailed
      emit (.schedule .sendNextMtWrite (add64 now (HASH_CYCLE * 1000)))
      pure false
    | none =>
      updateChargeTime (add64 now (HASH_CYCLE * 1000))
      panic_if (decide (pkt.addr ≠ alignDown 6 (mtNodeAddr c (MT_LEVEL - 2)))) .invalidAddr
      pure true
  else
    match firstHit (fun i => decide (pkt.addr = alignDown 3 (mtNodeAddr c i))) 0 (MT_LEVEL - 1) with
    | some i =>
      setMtPkt i pkt
      if pkt.accessDepth = 0 then
        updateChargeTime (add64 now (HASH_CYCLE * 1000))
        pure true
      else
        let _ ← sendMtPkt tr i true
        pure false
    | none => pure true

/-- The first loop of a verification check, over `i = i₀ .. i₀ + n - 1`:
`false` when it meets an empty slot (`return`), `true` when it ends or meets a
packet with access depth zero (`break`). -/
def mtWalkFinished (mt : List (Option Packet)) : Nat → Nat → Bool
  | _, 0 => true
  | i, n + 1 =>
    match mt.getD i none with
    | none => false
    | some p => if p.accessDepth = 0 then true else mtWalkFinished mt (i + 1) n

/-- The "Sanity Check" loop of a verification check, with `validAddr >> k << k`. -/
def sanityCheck (c : Ctrl) (k : Nat) : Nat → Nat → Res Unit
  | _, 0 => .ok ()
  | i, n + 1 =>
    match c.mtPkts.getD i none with
    | none => .fatal .nullPacket
    | some p =>
      if p.addr ≠ alignDown k (mtNodeAddr c i) then .fatal .mtNodeAddr
      else if p.accessDepth = 0 then .ok ()
      else sanityCheck c k (i + 1) n

def liftRes (r : Res Unit) : M Unit :=
  match r with
  | .ok _ => M.pure ()
  | .fatal k => fatal k

/-- The `case Read` of the second `switch` of `handleResponse`. -/
def checkRead : M Unit := do
  let c ← getCtrl
  panic_if (!c.needsResponse) .assertFailed
  if c.responsePkt = none ∨ c.counterPkt = none ∨ c.macPkt = none then
    pure ()
  else if !mtWalkFinished c.mtPkts 0 (MT_LEVEL - 1) then
    pure ()
  else
    liftRes (sanityCheck c 6 0 (MT_LEVEL - 1))
    emit (.schedule .readVerFinished c.chargeTime)

/-- The `case Write` of the second `switch` of `handleResponse`. -/
def checkWrite : M Unit := do
  let c ← getCtrl
  if c.needsResponse ∧ c.responsePkt = none then
    pure ()
  else if c.counterPkt = none ∨ c.macPkt = none then
    pure ()
  else if !mtWalkFinished c.mtPkts 0 (MT_LEVEL - 1) then
    pure ()
  else
    liftRes (sanityCheck c 3 0 (MT_LEVEL - 1))
    emit (.schedule .writeVerFinished c.chargeTime)

/-- Embeds `SecCtrl::handleResponse`. -/
def handleResponse (tr : Transport) (now : Nat) (pkt : Packet) : M Unit := do
  let c ← getCtrl
  match c.state with
  | .Idle => fatal .invalidState
  | .Read =>
    recordRead tr now pkt
    checkRead
  | .Write =>
    if (← recordWrite tr now pkt) then
      checkWrite
    else
      pure ()

/-! ## Port callbacks -/

/-- Embeds `CPUSidePort::recvTimingReq`. -/
def recvTimingReq (tr : Transport) (pkt : Packet) : M Bool := do
  let c ← getCtrl
  if c.state = .Idle then
    handleRequest tr pkt
    pure true
  else
    modifyCtrl (fun c => { c with cpuSidePort := { c.cpuSidePort with needRetry := true } })
    pure false

/-- Embeds `CPUSidePort::recvRespRetry`. -/
def recvRespRetry (tr : Transport) (now : Nat) : M Unit := do
  let c ← getCtrl
  match c.cpuSidePort.blockedPacket with
  | none => fatal .assertFailed
  | some pkt =>
    modifyCtrl (fun c => { c with cpuSidePort := { c.cpuSidePort with blockedPacket := none } })
    handleResponse tr now pkt

/-- Embeds `MemSidePort::recvTimingResp` (either memory-side port). -/
def recvTimingResp (tr : Transport) (now : Nat) (pkt : Packet) : M Bool := do
  handleResponse tr now pkt
  pure true

/-- Embeds `MemSidePort::recvReqRetry` on `memPort`. -/
def memPort_recvReqRetry (tr : Transport) : M Unit := do
  let c ← getCtrl
  match c.memPort.blockedPacket with
  | none => fatal .assertFailed
  | some pkt =>
    modifyCtrl (fun c => { c with memPort := { blockedPacket := none } })
    handleRequest tr pkt

/-- Embeds `MemSidePort::recvReqRetry` on `metaPort`. -/
def metaPort_recvReqRetry (tr : Transport) : M Unit := do
  let c ← getCtrl
  match c.metaPort.blockedPacket with
  | none => fatal .assertFailed
  | some pkt =>
    modifyCtrl (fun c => { c with metaPort := { blockedPacket := none } })
    handleRequest tr pkt

/-! ## Address ranges -/

/-- A gem5 `AddrRange`: `[start, end)` and whether it is interleaved. -/
structure AddrRange where
  start : Nat
  end_ : Nat
  interleaved : Bool
  deriving DecidableEq

/-- Embeds `SecCtrl::getAddrRanges`; `downstream` is `memPort.getAddrRanges()`. -/
def getAddrRanges (c : Ctrl) (downstream : List AddrRange) : Res (List AddrRange) :=
  if downstream.length ≠ 1 then .fatal .multipleAddresses
  else
    match downstream.head? with
    | none => .fatal .multipleAddresses
    | some addrRange =>
      if addrRange.interleaved then .fatal .interleavedRange
      else if addrRange.start ≠ 0 then .fatal .badMemorySpace
      else if addrRange.end_ ≠ c.mtBorders.getD (MT_LEVEL - 1) 0 then .fatal .badMemorySpace
      else .ok [{ start := 0, end_ := c.cntBorder, interleaved := false }]

/-! ## The controller as a machine driven by its environment -/

/-- What the environment can do to the controller: the callbacks of the three
ports and the firing of the four events. -/
inductive Input where
  | timingReq (pkt : Packet)
  | timingResp (pkt : Packet)
  | memReqRetry
  | metaReqRetry
  | respRetry
  | fire (ev : Event)
  deriving DecidableEq

/-- Addresses of packets that arrive fit in 64 bits. -/
def Input.WF : Input → Prop
  | .timingReq pkt => pkt.addr < W64
  | .timingResp pkt => pkt.addr < W64
  | _ => True

instance (inp : Input) : Decidable inp.WF := by
  cases inp <;> unfold Input.WF <;> infer_instance

/-- One callback, run to completion. -/
def step (tr : Transport) (now : Nat) : Input → M Unit
  | .timingReq pkt => do
    let _ ← recvTimingReq tr pkt
  | .timingResp pkt => do
    let _ ← recvTimingResp tr now pkt
  | .memReqRetry => memPort_recvReqRetry tr
  | .metaReqRetry => metaPort_recvReqRetry tr
  | .respRetry => recvRespRetry tr now
  | .fire .readVerFinished => processReadVerFinished tr
  | .fire .sendMacWrite => processSendMacWrite tr
  | .fire .sendNextMtWrite => processSendNextMtWrite tr
  | .fire .writeVerFinished => processWriteVerFinished tr

/-- The states of the object that some sequence of callbacks produces from the
constructed object, whatever the transport answers and whenever the callbacks
come. -/
inductive Reachable : Ctrl → Prop where
  | construct : Reachable construct
  | step (c : Ctrl) (tr : Transport) (now : Nat) (inp : Input) :
      Reachable c → inp.WF → (step tr now inp c).res = .ok () →
      Reachable (step tr now inp c).ctrl

/-- Run a list of callbacks, each with its tick, stopping at the first fatal. -/
def runInputs (tr : Transport) : List (Nat × Input) → Ctrl → Res Ctrl
  | [], c => .ok c
  | (now, inp) :: rest, c =>
    match (step tr now inp c).res with
    | .ok _ => runInputs tr rest (step tr now inp c).ctrl
    | .fatal k => .fatal k

/-- The object after a list of callbacks, each with its tick. -/
def stateAfter (tr : Transport) (inputs : List (Nat × Input)) (c : Ctrl) : Ctrl :=
  inputs.foldl (fun c x => (step tr x.1 x.2 c).ctrl) c

/-! ## Vocabulary of the specification -/

/-- An outcome all of whose actions satisfy `R`, and that either returns `v`
with `Q v` true of the object or ends in the fatal `k` with `E k` true of it. -/
def Outcome.Sat {α : Type} (o : Outcome α) (R : Action → Prop) (Q : α → Ctrl → Prop)
    (E : Fatal → Ctrl → Prop) : Prop :=
  (∀ a ∈ o.acts, R a) ∧
    (match o.res with
      | .ok v => Q v o.ctrl
      | .fatal k => E k o.ctrl)

/-- The member function `m` keeps the invariant `I`: from an object satisfying
`I`, every action it performs satisfies `R`, a normal return leaves an object
satisfying `I`, and a fatal leaves one satisfying `F`. -/
def Keeps {α : Type} (R : Action → Prop) (I F : Ctrl → Prop) (m : M α) : Prop :=
  ∀ c, I c → (m c).Sat R (fun _ c' => I c') (fun _ c' => F c')

/-- A Hoare triple for a member function: from an object satisfying `P`, every
action satisfies `R`, a normal return of `v` leaves an object satisfying `Q v`,
and a fatal leaves one satisfying `F`. -/
def Triple {α : Type} (R : Action → Prop) (F : Ctrl → Prop) (P : Ctrl → Prop) (m : M α)
    (Q : α → Ctrl → Prop) : Prop :=
  ∀ c, P c → (m c).Sat R Q (fun _ c' => F c')

/-- The event `ev` is among the actions of a call. -/
def Scheduled (ev : Event) (acts : List Action) : Prop :=
  ∃ t, Action.schedule ev t ∈ acts

/-- The action is not the scheduling of `ev`. -/
def NotScheduling (ev : Event) (a : Action) : Prop :=
  ∀ t, a ≠ Action.schedule ev t

/-- The borders are the ones the constructor computed. -/
def Borders (c : Ctrl) : Prop :=
  c.cntBorder = construct.cntBorder ∧ c.macBorder = construct.macBorder ∧
    c.mtBorders = construct.mtBorders

/-- Counter address of data address `A` (specification, section 3). -/
def specCntAddr (cntBorder A : Nat) : Nat := cntBorder + A / 64

/-- MAC address of data address `A`: `macBorder + (A >> 2)` rounded down to a
multiple of 16 (specification, section 3). -/
def specMacAddr (macBorder A : Nat) : Nat := (macBorder + A / 4) / 16 * 16

/-- The base `mtBorders[i] + (C >> 3(i+1))` with `C = A >> 6`. -/
def specMtBase (mtBorders : List Nat) (A i : Nat) : Nat :=
  mtBorders.getD i 0 + A / 64 / 8 ^ (i + 1)

/-- Merkle level `i` read address: the base rounded down to a multiple of 64. -/
def specMtReadAddr (mtBorders : List Nat) (A i : Nat) : Nat :=
  specMtBase mtBorders A i / 64 * 64

/-- Merkle level `i` write address: the base rounded down to a multiple of 8. -/
def specMtWriteAddr (mtBorders : List Nat) (A i : Nat) : Nat :=
  specMtBase mtBorders A i / 8 * 8

/-- The set of metadata addresses of the transaction on data address `A`
(specification, section 8, item 2), for given borders. -/
def MetaAddrOf (cntBorder macBorder : Nat) (mtBorders : List Nat) (A a : Nat) : Prop :=
  a = specCntAddr cntBorder A ∨ a = specMacAddr macBorder A ∨
    ∃ i, i ≤ MT_LEVEL - 2 ∧ (a = specMtReadAddr mtBorders A i ∨ a = specMtWriteAddr mtBorders A i)

/-- The metadata addresses of the transaction the object is working on. -/
def MetaAddrSet (c : Ctrl) (a : Nat) : Prop :=
  MetaAddrOf c.cntBorder c.macBorder c.mtBorders c.verifiedPktAddr a

/-- The invariant behind address closure, for the transaction on `A`: the
borders are the constructed ones, the recorded address and counter offset are
those of `A`, a packet waiting in the metadata port's blocked slot has a
metadata address of `A`, and a packet waiting in the data port's slot is at `A`. -/
def InvAt (A : Nat) (c : Ctrl) : Prop :=
  Borders c ∧ A < W64 ∧ c.verifiedPktAddr = A ∧ c.verifiedCntOffs = A >>> 6 ∧
    (∀ p, c.metaPort.blockedPacket = some p →
      MetaAddrOf construct.cntBorder construct.macBorder construct.mtBorders A p.addr) ∧
    (∀ p, c.memPort.blockedPacket = some p → p.addr = A)

/-- What holds of the object even where a call ends in a fatal: the borders are
the constructed ones and the recorded address is `A`. -/
def FrameAt (A : Nat) (c : Ctrl) : Prop :=
  Borders c ∧ c.verifiedPktAddr = A

/-- The metadata sends among the actions of a call go to metadata addresses of `A`. -/
def SendsIn (A : Nat) (a : Action) : Prop :=
  ∀ p acc, a = Action.send .metaPort p acc →
    MetaAddrOf construct.cntBorder construct.macBorder construct.mtBorders A p.addr

/-- In the words of the completion laws: every `mtPkts[i]` is set up to and
including the first level whose packet reports access depth zero, or all
`MT_LEVEL - 1` levels are set when none reports zero. -/
def MtLevelsSettled (mt : List (Option Packet)) : Prop :=
  (∃ k, k < MT_LEVEL - 1 ∧ (∃ p, mt.getD k none = some p ∧ p.accessDepth = 0) ∧
      ∀ i, i < k → ∃ p, mt.getD i none = some p ∧ p.accessDepth ≠ 0) ∨
    (∀ i, i < MT_LEVEL - 1 → ∃ p, mt.getD i none = some p ∧ p.accessDepth ≠ 0)

/-- The read completion condition of the specification. -/
def ReadComplete (c : Ctrl) : Prop :=
  c.responsePkt ≠ none ∧ c.counterPkt ≠ none ∧ c.macPkt ≠ none ∧ MtLevelsSettled c.mtPkts

/-- The write completion condition of the specification. -/
def WriteComplete (c : Ctrl) : Prop :=
  c.counterPkt ≠ none ∧ c.macPkt ≠ none ∧ MtLevelsSettled c.mtPkts ∧
    (c.needsResponse = true → c.responsePkt ≠ none)

/-- Every filled Merkle slot holds a packet at the address of its level, in the
alignment `validAddr >> k << k`. -/
def MtSlotsValid (k : Nat) (c : Ctrl) : Prop :=
  ∀ i p, i < MT_LEVEL - 1 → c.mtPkts.getD i none = some p →
    p.addr = alignDown k (mtNodeAddr c i)

/-- The packet is none of the data, counter and MAC responses of the transaction. -/
def IsMerkleResponse (c : Ctrl) (pkt : Packet) : Prop :=
  pkt.addr ≠ c.verifiedPktAddr ∧ pkt.addr ≠ add64 c.cntBorder c.verifiedCntOffs ∧
    pkt.addr ≠ add64 c.macBorder (shl64 c.verifiedCntOffs 4)

/-- The two kinds of write-path response after which `handleResponse` returns
before its verification check: the response to a probe read of a level below
`MT_LEVEL - 2` (the next Merkle write is scheduled), and the response to a
Merkle write that reports a non-zero access depth (the probe read is issued). -/
def WriteCheckDeferred (c : Ctrl) (pkt : Packet) : Prop :=
  IsMerkleResponse c pkt ∧
    ((pkt.isRead = true ∧ ∃ i, i < MT_LEVEL - 2 ∧ pkt.addr = alignDown 6 (mtNodeAddr c i)) ∨
      (pkt.isRead = false ∧ pkt.accessDepth ≠ 0 ∧
        ∃ i, i < MT_LEVEL - 1 ∧ pkt.addr = alignDown 3 (mtNodeAddr c i)))

/-! ## Concrete inputs -/

/-- A transport that accepts every packet. -/
def acceptAll : Transport := fun _ _ => true

/-- A transport that refuses counter packets (size 1) on the metadata port. -/
def refuseCounter : Transport := fun port pkt => !(port = .metaPort && pkt.size = 1)

/-- A 64-byte read request at data address 0. -/
def readReq0 : Packet :=
  { addr := 0, size := 64, isRead := true, flags := 0, requestorId := 0, needsResponse := true,
    accessDepth := 0 }

/-- A 64-byte write request at data address 0 that needs a response. -/
def writeReq0 : Packet :=
  { addr := 0, size := 64, isRead := false, flags := 0, requestorId := 0, needsResponse := true,
    accessDepth := 0 }

/-- A transport that refuses MAC packets (size 16) on the metadata port. -/
def refuseMac : Transport := fun port pkt => !(port = .metaPort && pkt.size = 16)

/-- A 64-byte read request at data address `0x1040`. -/
def readReq1040 : Packet :=
  { addr := 0x1040, size := 64, isRead := true, flags := 0, requestorId := 0,
    needsResponse := true, accessDepth := 0 }

/-- The object after the constructed controller accepted `readReq0`, every send
having gone through: state `Read`, data address 0. -/
def readingAt0 : Ctrl := (recvTimingReq acceptAll readReq0 construct).ctrl

/-- The object after the constructed controller accepted `writeReq0`, every send
having gone through: state `Write`, data address 0. -/
def writingAt0 : Ctrl := (recvTimingReq acceptAll writeReq0 construct).ctrl

/-- The object after the constructed controller accepted `readReq1040`. -/
def readingAt1040 : Ctrl := (recvTimingReq acceptAll readReq1040 construct).ctrl

/-- A response at `addr` with the given command and access depth. -/
def respAt (addr size : Nat) (isRead : Bool) (depth : Nat) : Packet :=
  { addr := addr, size := size, isRead := isRead, flags := 0, requestorId := 0,
    needsResponse := false, accessDepth := depth }

/-- Scenario S1 up to the last response: the read of address 0 is accepted,
then the data, counter and MAC responses arrive. -/
def readTrace : List (Nat × Input) :=
  [(0, .timingReq readReq0),
   (1000, .timingResp (respAt 0 64 true 1)),
   (2000, .timingResp (respAt 0x200000000 1 true 1)),
   (3000, .timingResp (respAt 0x208000000 16 true 1))]

/-- The object after `readTrace`, waiting for the level-0 Merkle response. -/
def readingAwaitingMt : Ctrl := stateAfter acceptAll readTrace construct

/-- One round of the write-path Merkle update at a level whose write reports
access depth 1: the next-MT-write event fires, the write response arrives, the
probe read response arrives. -/
def mtWriteRound (t addr : Nat) : List (Nat × Input) :=
  [(t, .fire .sendNextMtWrite),
   (t + 1000, .timingResp (respAt addr 8 false 1)),
   (t + 2000, .timingResp (respAt addr 64 true 1))]

/-- A write of address 0 that needs a response, no Merkle write reporting
access depth zero: the request, the counter response, the write acknowledgement,
the MAC write and its response, the Merkle rounds of levels 0 to 4, and the
level-5 write issued. -/
def writeTrace : List (Nat × Input) :=
  [(0, .timingReq writeReq0),
   (1000, .timingResp (respAt 0x200000000 1 true 1)),
   (2000, .timingResp (respAt 0 64 false 1)),
   (81000, .fire .sendMacWrite),
   (82000, .timingResp (respAt 0x208000000 16 false 1))] ++
  mtWriteRound 90000 0x288000000 ++ mtWriteRound 180000 0x289000000 ++
  mtWriteRound 270000 0x289200000 ++ mtWriteRound 360000 0x289240000 ++
  mtWriteRound 450000 0x289248000 ++ [(540000, .fire .sendNextMtWrite)]

/-- The object after `writeTrace`, waiting for the level-5 Merkle write response. -/
def writingAwaitingLast : Ctrl := stateAfter acceptAll writeTrace construct

/-- The closed form of `mtBorders[i]` in the words of the specification
(section 3): `macBorder + DATA_SPACE/4` plus the sum of `NODE_SPACE * 8^(k+1)`
over `k < L-1-i`. -/
def specMtBorder (macBorder i : Nat) : Nat :=
  macBorder + DATA_SPACE / 4 +
    ((List.range (MT_LEVEL - 1 - i)).map (fun k => NODE_SPACE * 8 ^ (k + 1))).sum

/-- The same closed form with the sum taken over `L-1-i ≤ k < L-1`: the terms
that the constructor's loops add to `mtBorders[i]`. -/
def loopMtBorder (macBorder i : Nat) : Nat :=
  macBorder + DATA_SPACE / 4 +
    (((List.range (MT_LEVEL - 1)).filter (fun k => decide (MT_LEVEL - 1 - i ≤ k))).map
      (fun k => NODE_SPACE * 8 ^ (k + 1))).sum

/-- The sizes of the Merkle regions below level `i`: level `j` takes
`NODE_SPACE * 8^(L-1-j)` bytes. -/
def regionsBelow (i : Nat) : Nat :=
  ((List.range i).map (fun j => NODE_SPACE * 8 ^ (MT_LEVEL - 1 - j))).sum

/-- The object after `updateChargeTime(t)`. -/
def chargedAt (t : Nat) (c : Ctrl) : Ctrl :=
  if c.chargeTime < t then { c with chargeTime := t } else c

/-- An action on the memory side: a packet handed to the data or metadata
port, or an event scheduled; not a response or a retry request going upstream. -/
def MemSide : Action → Prop
  | .send .cpuSidePort _ _ => False
  | .retryReq => False
  | _ => True

/-- A property of the object that survives what the response handler, the
retry branch of the request handler and the two `send...Write` events do to it:
a packet stored in a memory-side blocked slot, and a response stored in the
counter, MAC or Merkle slots. -/
def Stable (I : Ctrl → Prop) : Prop :=
  (∀ c p, I c → I { c with metaPort := { blockedPacket := some p } }) ∧
  (∀ c p, I c → I { c with memPort := { blockedPacket := some p } }) ∧
  (∀ c p, I c → I { c with counterPkt := some p }) ∧
  (∀ c p, I c → I { c with macPkt := some p }) ∧
  (∀ c i p, I c → I { c with mtPkts := c.mtPkts.set i (some p) })

/-- A property of the object that survives a later `chargeTime`. -/
def StableCharge (I : Ctrl → Prop) : Prop :=
  ∀ c t, I c → c.chargeTime < t → I { c with chargeTime := t }

/-- The invariant behind retry fairness: in `Idle` there is no response packet,
the CPU-side blocked slot is empty and `needRetry` is false; a response packet
or a blocked response exists only for a request that needs a response. -/
def UpstreamInv (c : Ctrl) : Prop :=
  (c.state = .Idle →
    c.responsePkt = none ∧ c.cpuSidePort.blockedPacket = none ∧
      c.cpuSidePort.needRetry = false) ∧
  (c.responsePkt ≠ none → c.needsResponse = true) ∧
  (c.cpuSidePort.blockedPacket ≠ none → c.needsResponse = true)

/-- The state, the CPU-side port and `needsResponse` are those of `c0`. -/
def SameUpstream (c0 c : Ctrl) : Prop :=
  c.state = c0.state ∧ c.cpuSidePort = c0.cpuSidePort ∧ c.needsResponse = c0.needsResponse

/-- The callback is a request from the CPU side. -/
def Input.isRequest : Input → Bool
  | .timingReq _ => true
  | _ => false

/-- Run callbacks, each with its transport and tick, as long as none ends in a
fatal and the controller stays out of `Idle`; the object at the end. -/
def busyRun : List (Transport × Nat × Input) → Ctrl → Option Ctrl
  | [], c => some c
  | (tr, now, inp) :: rest, c =>
    if inp.WF ∧ (step tr now inp c).res = .ok () ∧ (step tr now inp c).ctrl.state ≠ .Idle then
      busyRun rest (step tr now inp c).ctrl
    else none

/-- What retry fairness says of one callback that ran from the object `c`, with
the actions `acts` and the object `c'` at its end: the upstream invariant holds
again; from `Idle` no retry request is emitted and `needRetry` stays false;
while the controller stays busy no retry request is emitted and `needRetry`
records whether a request was rejected; and at a transition to `Idle`, which
only the two `...VerFinished` events make, the CPU-side blocked slot is empty,
`needRetry` is false afterwards and a retry request is emitted once if
`needRetry` was set and not at all otherwise. -/
def RetryFair (c : Ctrl) (inp : Input) (acts : List Action) (c' : Ctrl) : Prop :=
  UpstreamInv c' ∧
  (c.state = .Idle → c'.cpuSidePort.needRetry = false ∧ Action.retryReq ∉ acts) ∧
  (c.state ≠ .Idle → c'.state ≠ .Idle →
    c'.cpuSidePort.needRetry = (c.cpuSidePort.needRetry || inp.isRequest) ∧
      Action.retryReq ∉ acts) ∧
  (c.state ≠ .Idle → c'.state = .Idle →
    (inp = .fire .readVerFinished ∨ inp = .fire .writeVerFinished) ∧
    c'.cpuSidePort.blockedPacket = none ∧ c'.cpuSidePort.needRetry = false ∧
    acts.count .retryReq = if c.cpuSidePort.needRetry then 1 else 0)

/-- Scenario S4: the read of address 0 of `readTrace`, a second request arriving
while the controller is in `Read`, and the level-0 Merkle response (access depth
zero) that completes the verification. -/
def rejectTrace : List (Nat × Input) :=
  readTrace ++
    [(3500, .timingReq writeReq0), (4000, .timingResp (respAt 0x288000000 64 true 0))]

/-- The object after `rejectTrace`: a verified read waiting for `readVerFinished`. -/
def readVerified : Ctrl := stateAfter acceptAll rejectTrace construct

/-- A transport that refuses 64-byte reads on the metadata port. -/
def refuseNodeRead : Transport :=
  fun port pkt => !(port = .metaPort && pkt.isRead && pkt.size = 64)

/-- A 64-byte write request at data address `0x1000` that needs a response. -/
def writeReq1000 : Packet :=
  { addr := 0x1000, size := 64, isRead := false, flags := 0, requestorId := 0,
    needsResponse := true, accessDepth := 0 }

/-- A write of address `0x1000`: the request, the counter response, the
next-MT-write event (it issues the level-0 write at `0x288000008`), and the
response to that write with access depth 1. -/
def probeTrace : List (Nat × Input) :=
  [(0, .timingReq writeReq1000),
   (1000, .timingResp (respAt 0x200000040 1 true 1)),
   (81000, .fire .sendNextMtWrite),
   (82000, .timingResp (respAt 0x288000008 8 false 1))]

/-- The object after `probeTrace` when the metadata port refuses the probe read:
the 64-byte read of level 0 waits in the blocked slot. -/
def probeBlocked : Ctrl := stateAfter refuseNodeRead probeTrace construct

/-- A read of address 0 whose Merkle responses for the levels 0 to 4 arrive at
the ticks 1000 to 5000, each with access depth 1. -/
def walkTrace : List (Nat × Input) :=
  [(0, .timingReq readReq0),
   (1000, .timingResp (respAt 0x288000000 64 true 1)),
   (2000, .timingResp (respAt 0x289000000 64 true 1)),
   (3000, .timingResp (respAt 0x289200000 64 true 1)),
   (4000, .timingResp (respAt 0x289240000 64 true 1)),
   (5000, .timingResp (respAt 0x289248000 64 true 1))]

/-- The object after `walkTrace`, waiting for the level-5 Merkle response. -/
def walkedToLast : Ctrl := stateAfter acceptAll walkTrace construct

/-- The transaction is on a data address below `DATA_SPACE`, with the
constructed borders and the counter offset of that address. -/
def WellAddressed (c : Ctrl) : Prop :=
  Borders c ∧ c.verifiedPktAddr < DATA_SPACE ∧ c.verifiedCntOffs = c.verifiedPktAddr >>> 6

/-- The object after the last statement of the `case Read` of the first
`switch`: with the three scalar slots filled, `updateChargeTime(now + MAC_CYCLE * 1000)`. -/
def macChecked (now : Nat) (c : Ctrl) : Ctrl :=
  if c.responsePkt.isSome ∧ c.counterPkt.isSome ∧ c.macPkt.isSome then
    chargedAt (add64 now (MAC_CYCLE * 1000)) c
  else c

/-- The packets a call handed to its ports, in order, each with its port. -/
def sentPackets (acts : List Action) : List (PortId × Packet) :=
  acts.filterMap (fun a =>
    match a with
    | .send port p _ => some (port, p)
    | _ => none)

/-! ## The controller with an environment that respects the port protocol -/

/-- The controller together with what its environment owes it: the requests
the transport accepted on a memory-side port and did not answer yet, the events
scheduled and not fired yet, and (a ghost) the metadata packets created so far. -/
structure Sys where
  ctrl : Ctrl
  pending : List Packet
  timers : List Event
  issued : List Packet

/-- The response `resp` answers the request `req`: it carries its address and
its command. -/
def answers (resp req : Packet) : Bool :=
  decide (req.addr = resp.addr) && (req.isRead == resp.isRead)

/-- The requests among the actions of a call that the transport accepted and
that will be answered. -/
def acceptedRequests (acts : List Action) : List Packet :=
  acts.filterMap (fun a =>
    match a with
    | .send .memPort p true => if p.needsResponse then some p else none
    | .send .metaPort p true => if p.needsResponse then some p else none
    | _ => none)

/-- The events scheduled by a call. -/
def scheduledEvents (acts : List Action) : List Event :=
  acts.filterMap (fun a =>
    match a with
    | .schedule ev _ => some ev
    | _ => none)

/-- The packets handed to the metadata port by a call. -/
def metaPackets (acts : List Action) : List Packet :=
  acts.filterMap (fun a =>
    match a with
    | .send .metaPort p _ => some p
    | _ => none)

/-- The metadata packets a callback created: the ones it handed to the metadata
port, unless the callback is a request retry (which sends an old packet again). -/
def createdPackets (inp : Input) (acts : List Action) : List Packet :=
  match inp with
  | .memReqRetry => []
  | .metaReqRetry => []
  | _ => metaPackets acts

/-- The environment may make this callback now: a response answers a pending
request, a retry comes to a port with a blocked packet, an event fires when it
was scheduled; requests may come at any time. -/
def Sys.allows (s : Sys) : Input → Bool
  | .timingReq _ => true
  | .timingResp pkt => s.pending.any (answers pkt)
  | .memReqRetry => s.ctrl.memPort.blockedPacket.isSome
  | .metaReqRetry => s.ctrl.metaPort.blockedPacket.isSome
  | .respRetry => s.ctrl.cpuSidePort.blockedPacket.isSome
  | .fire ev => decide (ev ∈ s.timers)

/-- The pending requests once the callback's own request, if it is a response,
is answered. -/
def Sys.pendingBase (s : Sys) : Input → List Packet
  | .timingResp pkt => s.pending.eraseP (answers pkt)
  | _ => s.pending

/-- The scheduled events once the callback's own event, if it is one, fired. -/
def Sys.timersBase (s : Sys) : Input → List Event
  | .fire ev => s.timers.erase ev
  | _ => s.timers

/-- The system after a callback with actions `acts` that left the object `c`. -/
def Sys.after (s : Sys) (inp : Input) (acts : List Action) (c : Ctrl) : Sys :=
  { ctrl := c
    pending := s.pendingBase inp ++ acceptedRequests acts
    timers := s.timersBase inp ++ scheduledEvents acts
    issued := s.issued ++ createdPackets inp acts }

/-- One callback of the environment: it must be allowed and must return. -/
def Sys.next (tr : Transport) (now : Nat) (inp : Input) (s : Sys) : Option Sys :=
  if s.allows inp = true ∧ (step tr now inp s.ctrl).res = .ok () then
    some (s.after inp (step tr now inp s.ctrl).acts (step tr now inp s.ctrl).ctrl)
  else none

/-- A run of callbacks, each with its transport and tick, inside a transaction:
every callback is allowed, returns, and leaves the controller busy. -/
def Sys.run : List (Transport × Nat × Input) → Sys → Option Sys
  | [], s => some s
  | (tr, now, inp) :: rest, s =>
    match s.next tr now inp with
    | some s' => if s'.ctrl.state ≠ .Idle then Sys.run rest s' else none
    | none => none

/-- An idle controller with nothing in flight: the slots and the blocked slots
are empty, no request is pending, no event is scheduled. -/
def Sys.Fresh (s : Sys) : Prop :=
  s.ctrl.state = .Idle ∧ Borders s.ctrl ∧
  s.ctrl.mtPkts = List.replicate (MT_LEVEL - 1) none ∧
  s.ctrl.responsePkt = none ∧ s.ctrl.counterPkt = none ∧ s.ctrl.macPkt = none ∧
  s.ctrl.memPort.blockedPacket = none ∧ s.ctrl.metaPort.blockedPacket = none ∧
  s.ctrl.cpuSidePort.blockedPacket = none ∧
  s.pending = [] ∧ s.timers = [] ∧ s.issued = []

/-- The system right after construction. -/
def Sys.init : Sys := { ctrl := construct, pending := [], timers := [], issued := [] }

/-- A packet for a Merkle node: its address is at or above `mtBorders[0]`. -/
def isNode (p : Packet) : Bool := decide (0x288000000 ≤ p.addr)

/-- The Merkle packets outstanding: accepted and not answered, or waiting in the
metadata port's blocked slot. -/
def Sys.inflight (s : Sys) : List Packet :=
  (s.pending ++ s.ctrl.metaPort.blockedPacket.toList).filter isNode

/-- The counter packets outstanding. -/
def Sys.cntInflight (s : Sys) : List Packet :=
  (s.pending ++ s.ctrl.metaPort.blockedPacket.toList).filter
    (fun p => decide (p.addr = add64 s.ctrl.cntBorder s.ctrl.verifiedCntOffs))

/-- The 8-byte write of Merkle level `i` as `sendMtPkt(i, false)` creates it. -/
def nodeWrite (c : Ctrl) (i : Nat) : Packet :=
  createMetaPkt c (alignDown 3 (mtNodeAddr c i)) 8 false

/-- The 64-byte read of Merkle level `i` as `sendMtPkt(i, true)` creates it. -/
def nodeRead (c : Ctrl) (i : Nat) : Packet :=
  createMetaPkt c (alignDown 6 (mtNodeAddr c i)) 64 true

/-- The Merkle writes created so far, in order. -/
def Sys.writesIssued (s : Sys) : List Packet :=
  s.issued.filter (fun p => isNode p && !p.isRead)

/-- The Merkle reads created so far, in order. -/
def Sys.readsIssued (s : Sys) : List Packet :=
  s.issued.filter (fun p => isNode p && p.isRead)

/-- The slots `0 .. k-1` of `mtPkts` are filled, the others are empty, and every
filled slot but the last reports a non-zero access depth. -/
def PrefixFilled (mt : List (Option Packet)) (k : Nat) : Prop :=
  mt.length = MT_LEVEL - 1 ∧ k ≤ MT_LEVEL - 1 ∧
  (∀ i, i < k → ∃ p, mt.getD i none = some p ∧ (i + 1 < k → p.accessDepth ≠ 0)) ∧
  (∀ i, k ≤ i → mt.getD i none = none)

/-- The last filled slot, if there is one, reports a non-zero access depth. -/
def LastNonzero (mt : List (Option Packet)) (k : Nat) : Prop :=
  ∀ p, 1 ≤ k → mt.getD (k - 1) none = some p → p.accessDepth ≠ 0

/-- The last filled slot reports access depth zero. -/
def LastZero (mt : List (Option Packet)) (k : Nat) : Prop :=
  ∃ p, mt.getD (k - 1) none = some p ∧ p.accessDepth = 0

/-- The packets in the blocked slots and the response packet are where they
belong: the data port and the CPU side hold packets of the data address, the
metadata port a metadata request. -/
def PortsSettled (c : Ctrl) : Prop :=
  (∀ p, c.memPort.blockedPacket = some p → p.addr = c.verifiedPktAddr) ∧
  (∀ p, c.cpuSidePort.blockedPacket = some p → p.addr = c.verifiedPktAddr) ∧
  (∀ p, c.responsePkt = some p → p.addr = c.verifiedPktAddr) ∧
  (∀ p, c.metaPort.blockedPacket = some p → 0x200000000 ≤ p.addr ∧ p.needsResponse = true)

/-- The part of a walk invariant common to the two states: the controller is in
state `st` on a transaction with data address below `DATA_SPACE`, the slots
`0 .. k-1` are the filled ones, the blocked slots are in order. -/
def WalkCommon (st : State) (k : Nat) (s : Sys) : Prop :=
  s.ctrl.state = st ∧ WellAddressed s.ctrl ∧ PrefixFilled s.ctrl.mtPkts k ∧
  PortsSettled s.ctrl

/-- Two objects of the same transaction: the state, the borders and the captured
request are the same. -/
def SameTxn (c c' : Ctrl) : Prop :=
  c'.state = c.state ∧ c'.cntBorder = c.cntBorder ∧ c'.macBorder = c.macBorder ∧
  c'.mtBorders = c.mtBorders ∧ c'.verifiedPktAddr = c.verifiedPktAddr ∧
  c'.verifiedCntOffs = c.verifiedCntOffs ∧ c'.flags = c.flags ∧
  c'.requestorId = c.requestorId

/-- The object `c'` differs from `c` at most in `chargeTime`, `needRetry`, the
scalar slots, and a CPU-side blocked slot that was emptied; a new `responsePkt`
is at the data address. -/
def ScalarUpdate (c c' : Ctrl) : Prop :=
  SameTxn c c' ∧ c'.mtPkts = c.mtPkts ∧ c'.memPort = c.memPort ∧ c'.metaPort = c.metaPort ∧
  (∀ p, c'.cpuSidePort.blockedPacket = some p → c.cpuSidePort.blockedPacket = some p) ∧
  (∀ p, c'.responsePkt = some p → c.responsePkt = some p ∨ p.addr = c.verifiedPktAddr)

/-- A callback that does not touch the walk: same transaction, same Merkle
slots, the same Merkle packets outstanding, the same Merkle packets created, as
many next-MT-write events scheduled. -/
def FrameStep (s s' : Sys) : Prop :=
  SameTxn s.ctrl s'.ctrl ∧ s'.ctrl.mtPkts = s.ctrl.mtPkts ∧ PortsSettled s'.ctrl ∧
  s'.timers.count .sendNextMtWrite = s.timers.count .sendNextMtWrite ∧
  s'.inflight = s.inflight ∧
  s'.writesIssued = s.writesIssued ∧ s'.readsIssued = s.readsIssued

/-- A callback that does not touch the counter: same counter slot, the same
counter packets outstanding. -/
def CounterFrame (s s' : Sys) : Prop :=
  s'.ctrl.counterPkt = s.ctrl.counterPkt ∧ s'.cntInflight = s.cntInflight

/-- Where the write-path Merkle update stands. -/
inductive WalkPhase where
  | awaitCounter
  | timer
  | writing
  | probing
  | settled
  deriving DecidableEq

/-- The write path with `k` Merkle slots filled, by phase.  `awaitCounter`: the
counter read is not answered, nothing of the Merkle update exists.  `timer`: the
next-MT-write event is scheduled once and no Merkle packet is outstanding.
`writing`: the write of level `k` is the one Merkle packet outstanding.
`probing`: the probe read of level `k-1` is.  `settled`: the update stopped, at
a level that reported access depth zero or after the probe of the last level.
The Merkle writes created so far are those of the levels below `k` (and of level
`k` in `writing`), in order; the probe reads, those of the levels whose write
reported a non-zero access depth. -/
def WritePhase (k : Nat) (ph : WalkPhase) (s : Sys) : Prop :=
  match ph with
  | .awaitCounter =>
    s.ctrl.counterPkt = none ∧ k = 0 ∧ s.timers.count .sendNextMtWrite = 0 ∧
    s.inflight = [] ∧ s.cntInflight.length ≤ 1 ∧ s.writesIssued = [] ∧ s.readsIssued = []
  | .timer =>
    s.ctrl.counterPkt ≠ none ∧ s.cntInflight = [] ∧ s.timers.count .sendNextMtWrite = 1 ∧
    s.inflight = [] ∧ k < MT_LEVEL - 1 ∧ LastNonzero s.ctrl.mtPkts k ∧
    s.writesIssued = (List.range k).map (nodeWrite s.ctrl) ∧
    s.readsIssued = (List.range k).map (nodeRead s.ctrl)
  | .writing =>
    s.ctrl.counterPkt ≠ none ∧ s.cntInflight = [] ∧ s.timers.count .sendNextMtWrite = 0 ∧
    s.inflight = [nodeWrite s.ctrl k] ∧ k < MT_LEVEL - 1 ∧ LastNonzero s.ctrl.mtPkts k ∧
    s.writesIssued = (List.range (k + 1)).map (nodeWrite s.ctrl) ∧
    s.readsIssued = (List.range k).map (nodeRead s.ctrl)
  | .probing =>
    s.ctrl.counterPkt ≠ none ∧ s.cntInflight = [] ∧ s.timers.count .sendNextMtWrite = 0 ∧
    s.inflight = [nodeRead s.ctrl (k - 1)] ∧ 1 ≤ k ∧ LastNonzero s.ctrl.mtPkts k ∧
    s.writesIssued = (List.range k).map (nodeWrite s.ctrl) ∧
    s.readsIssued = (List.range k).map (nodeRead s.ctrl)
  | .settled =>
    s.ctrl.counterPkt ≠ none ∧ s.cntInflight = [] ∧ s.timers.count .sendNextMtWrite = 0 ∧
    s.inflight = [] ∧ 1 ≤ k ∧
    s.writesIssued = (List.range k).map (nodeWrite s.ctrl) ∧
    ((LastZero s.ctrl.mtPkts k ∧
        s.readsIssued = (List.range (k - 1)).map (nodeRead s.ctrl)) ∨
      (k = MT_LEVEL - 1 ∧ LastNonzero s.ctrl.mtPkts k ∧
        s.readsIssued = (List.range k).map (nodeRead s.ctrl)))

/-- The invariant of a write transaction. -/
def WriteWalkAt (k : Nat) (ph : WalkPhase) (s : Sys) : Prop :=
  WalkCommon .Write k s ∧ WritePhase k ph s

/-- The read path with `k` Merkle slots filled.  While `walking`, the read of
level `k` is the one Merkle packet outstanding and the reads of the levels
`0 .. k` have been created, in order; otherwise the walk ended, at a level that
reported access depth zero or at the last level, no Merkle packet is
outstanding and the reads of the levels `0 .. k-1` have been created.  No
next-MT-write event is scheduled and no Merkle write exists. -/
def ReadPhase (k : Nat) (walking : Bool) (s : Sys) : Prop :=
  s.timers.count .sendNextMtWrite = 0 ∧ s.writesIssued = [] ∧
  (if walking then
    s.inflight = [nodeRead s.ctrl k] ∧ k < MT_LEVEL - 1 ∧ LastNonzero s.ctrl.mtPkts k ∧
    s.readsIssued = (List.range (k + 1)).map (nodeRead s.ctrl)
  else
    s.inflight = [] ∧ 1 ≤ k ∧ (LastZero s.ctrl.mtPkts k ∨ k = MT_LEVEL - 1) ∧
    s.readsIssued = (List.range k).map (nodeRead s.ctrl))

/-- The invariant of a read transaction. -/
def ReadWalkAt (k : Nat) (walking : Bool) (s : Sys) : Prop :=
  WalkCommon .Read k s ∧ ReadPhase k walking s

/-- A run of a write of address `0x1000` from the constructed controller, every
send accepted: the request, the counter response, the next-MT-write event, and
the response to the level-0 Merkle write with access depth 1. -/
def probeRun : List (Transport × Nat × Input) :=
  probeTrace.map (fun x => (acceptAll, x.1, x.2))

/-- The system after `probeRun`: the probe read of level 0 is outstanding. -/
def probeSys : Sys := (Sys.run probeRun Sys.init).getD Sys.init

/-- A run of a read of address 0 from the constructed controller, every send
accepted: the request and the Merkle responses of the levels 0 to 4, each with
access depth 1. -/
def walkRun : List (Transport × Nat × Input) :=
  walkTrace.map (fun x => (acceptAll, x.1, x.2))

/-- The system after `walkRun`: the read of Merkle level 5 is outstanding. -/
def walkSys : Sys := (Sys.run walkRun Sys.init).getD Sys.init

/-- The object after a teardown: state `Idle`, the three scalar slots and the
`MT_LEVEL - 1` Merkle slots empty. -/
def TornDown (c : Ctrl) : Prop :=
  c.state = .Idle ∧ c.responsePkt = none ∧ c.counterPkt = none ∧ c.macPkt = none ∧
  ∀ i, i < MT_LEVEL - 1 → c.mtPkts.getD i none = none

/-- A transport whose CPU side refuses every response. -/
def refuseResponse : Transport := fun port _ => !(port = .cpuSidePort)

/-- A 64-byte read request at `0x2B5555550`, the one address `A` with
`macBorder + ((A >> 6) << 4) = A`. -/
def readReqMacAlias : Packet :=
  { addr := 0x2B5555550, size := 64, isRead := true, flags := 0, requestorId := 0,
    needsResponse := true, accessDepth := 0 }

/-- The object after the constructed controller accepted `readReqMacAlias`,
every send having gone through. -/
def readingAtMacAlias : Ctrl := (recvTimingReq acceptAll readReqMacAlias construct).ctrl


/-- The four response slots of the transaction: `responsePkt`, `counterPkt`,
`macPkt` and the per-level `mtPkts`. -/
def slots (c : Ctrl) : Option Packet × Option Packet × Option Packet × List (Option Packet) :=
  (c.responsePkt, c.counterPkt, c.macPkt, c.mtPkts)


/-- The state, the Merkle borders, the counter offset and the Merkle slots of
`c` are those of `c0`. -/
def SameSlots (c0 c : Ctrl) : Prop :=
  c.state = c0.state ∧ c.mtBorders = c0.mtBorders ∧
  c.verifiedCntOffs = c0.verifiedCntOffs ∧ c.mtPkts = c0.mtPkts

/-- The Merkle slots fit the state: in `Idle` every slot is empty; in `Read`
every filled slot holds a packet at the 64-byte aligned address of its level,
in `Write` at the 8-byte aligned one, for the current `verifiedCntOffs`. -/
def SlotsInv (c : Ctrl) : Prop :=
  (c.state = .Idle → ∀ i, i < MT_LEVEL - 1 → c.mtPkts.getD i none = none) ∧
  (c.state = .Read → MtSlotsValid 6 c) ∧
  (c.state = .Write → MtSlotsValid 3 c)

/-- Every fatal the member function `m` can end in is of a kind in `E`. -/
def FatalsIn {α : Type} (E : Fatal → Prop) (m : M α) : Prop :=
  ∀ c k, (m c).res = .fatal k → E k


/-- A write of address `0x1000` whose MAC write is refused: the request, the
counter response (it schedules the MAC-write and the next-MT-write events for
the same tick), the next-MT-write event (the level-0 write at `0x288000008` is
accepted), and the MAC-write event, whose packet the metadata port refuses. -/
def macRefusedRun : List (Transport × Nat × Input) :=
  [(acceptAll, 0, .timingReq writeReq1000),
   (acceptAll, 1000, .timingResp (respAt 0x200000040 1 true 1)),
   (acceptAll, 81000, .fire .sendNextMtWrite),
   (refuseMac, 81000, .fire .sendMacWrite)]

/-- The system after `macRefusedRun`: the level-0 Merkle write is outstanding
and the MAC write waits in the metadata port's blocked slot. -/
def macRefusedSys : Sys := (Sys.run macRefusedRun Sys.init).getD Sys.init

section Exec
variable {α β : Type}

@[simp] theorem bind_eq (m : M α) (f : α → M β) : (m >>= f) = M.bind m f := rfl

@[simp] theorem pure_eq (a : α) : (pure a : M α) = M.pure a := rfl

@[simp] theorem M.bind_apply (m : M α) (f : α → M β) (c : Ctrl) :
    M.bind m f c = (m c).andThen f := rfl

@[simp] theorem M.pure_apply (a : α) (c : Ctrl) : M.pure a c = ⟨[], c, .ok a⟩ := rfl

@[simp] theorem getCtrl_apply (c : Ctrl) : getCtrl c = ⟨[], c, .ok c⟩ := rfl

@[simp] theorem fatal_apply (k : Fatal) (c : Ctrl) : (fatal k : M α) c = ⟨[], c, .fatal k⟩ := rfl

@[simp] theorem modifyCtrl_apply (g : Ctrl → Ctrl) (c : Ctrl) :
    modifyCtrl g c = ⟨[], g c, .ok ()⟩ := rfl

@[simp] theorem emit_apply (a : Action) (c : Ctrl) : emit a c = ⟨[a], c, .ok ()⟩ := rfl

@[simp] theorem panic_if_apply (b : Bool) (k : Fatal) (c : Ctrl) :
    panic_if b k c = if b then ⟨[], c, .fatal k⟩ else ⟨[], c, .ok ()⟩ := by
  cases b <;> rfl

@[simp] theorem M.ite_apply (p : Prop) [Decidable p] (m1 m2 : M α) (c : Ctrl) :
    (if p then m1 else m2) c = if p then m1 c else m2 c := by
  split <;> rfl

theorem andThen_ok (acts : List Action) (c : Ctrl) (a : α) (f : α → M β) :
    (Outcome.mk acts c (.ok a)).andThen f = (f a c).prepend acts := rfl

theorem andThen_fatal (acts : List Action) (c : Ctrl) (k : Fatal) (f : α → M β) :
    (Outcome.mk acts c (.fatal k : Res α)).andThen f = ⟨acts, c, .fatal k⟩ := rfl

theorem andThen_ite (p : Prop) [Decidable p] (o1 o2 : Outcome α) (f : α → M β) :
    (if p then o1 else o2).andThen f = if p then o1.andThen f else o2.andThen f := by
  split <;> rfl

theorem prepend_mk (pre acts : List Action) (c : Ctrl) (r : Res α) :
    (Outcome.mk acts c r).prepend pre = ⟨pre ++ acts, c, r⟩ := rfl

theorem prepend_ite (p : Prop) [Decidable p] (pre : List Action) (o1 o2 : Outcome α) :
    (if p then o1 else o2).prepend pre = if p then o1.prepend pre else o2.prepend pre := by
  split <;> rfl

@[simp] theorem prepend_nil (o : Outcome α) : o.prepend [] = o := rfl

@[simp] theorem prepend_acts (pre : List Action) (o : Outcome α) :
    (o.prepend pre).acts = pre ++ o.acts := rfl

@[simp] theorem prepend_ctrl (pre : List Action) (o : Outcome α) :
    (o.prepend pre).ctrl = o.ctrl := rfl

@[simp] theorem prepend_res (pre : List Action) (o : Outcome α) :
    (o.prepend pre).res = o.res := rfl

end Exec

/-! ## Weakest preconditions for `Outcome.Sat` -/

section Wp
variable {α β : Type} (R : Action → Prop) (Q : α → Ctrl → Prop) (E : Fatal → Ctrl → Prop)

@[simp] theorem sat_ok (acts : List Action) (c : Ctrl) (a : α) :
    (Outcome.mk acts c (.ok a)).Sat R Q E ↔ (∀ x ∈ acts, R x) ∧ Q a c := Iff.rfl

@[simp] theorem sat_fatal (acts : List Action) (c : Ctrl) (k : Fatal) :
    (Outcome.mk acts c (.fatal k : Res α)).Sat R Q E ↔ (∀ x ∈ acts, R x) ∧ E k c := Iff.rfl

@[simp] theorem sat_ite (p : Prop) [Decidable p] (o1 o2 : Outcome α) :
    (if p then o1 else o2).Sat R Q E ↔ (p → o1.Sat R Q E) ∧ (¬p → o2.Sat R Q E) := by
  split <;> simp [*]

@[simp] theorem sat_andThen (o : Outcome β) (f : β → M α) :
    (o.andThen f).Sat R Q E ↔ o.Sat R (fun b c => (f b c).Sat R Q E) E := by
  obtain ⟨acts, c, r⟩ := o
  cases r with
  | ok b =>
    simp only [Outcome.andThen, Outcome.Sat, Outcome.prepend, List.mem_append]
    constructor
    · rintro ⟨h1, h2⟩
      exact ⟨fun a ha => h1 a (Or.inl ha), fun a ha => h1 a (Or.inr ha), h2⟩
    · rintro ⟨h1, h2, h3⟩
      exact ⟨fun a ha => ha.elim (h1 a) (h2 a), h3⟩
  | fatal k => rfl

theorem Outcome.Sat.mono {o : Outcome α} {R R2 : Action → Prop} {Q Q2 : α → Ctrl → Prop}
    {E E2 : Fatal → Ctrl → Prop} (h : o.Sat R Q E) (hR : ∀ a, R a → R2 a)
    (hQ : ∀ v c, Q v c → Q2 v c) (hE : ∀ k c, E k c → E2 k c) : o.Sat R2 Q2 E2 := by
  obtain ⟨acts, c, r⟩ := o
  cases r with
  | ok b => exact ⟨fun a ha => hR a (h.1 a ha), hQ _ _ h.2⟩
  | fatal k => exact ⟨fun a ha => hR a (h.1 a ha), hE _ _ h.2⟩

theorem Outcome.Sat.acts {o : Outcome α} {R : Action → Prop} {Q : α → Ctrl → Prop}
    {E : Fatal → Ctrl → Prop} (h : o.Sat R Q E) : ∀ a ∈ o.acts, R a := h.1

theorem Outcome.Sat.ok_post {o : Outcome α} {R : Action → Prop} {Q : α → Ctrl → Prop}
    {E : Fatal → Ctrl → Prop} (h : o.Sat R Q E) {v : α} (hv : o.res = .ok v) : Q v o.ctrl := by
  have h2 := h.2
  rw [hv] at h2
  exact h2

theorem Outcome.Sat.fatal_post {o : Outcome α} {R : Action → Prop} {Q : α → Ctrl → Prop}
    {E : Fatal → Ctrl → Prop} (h : o.Sat R Q E) {k : Fatal} (hv : o.res = .fatal k) :
    E k o.ctrl := by
  have h2 := h.2
  rw [hv] at h2
  exact h2

end Wp

/-! ## Weakest preconditions of the port operations -/

section WpPorts
variable {α : Type} (R : Action → Prop) (E : Fatal → Ctrl → Prop)

theorem metaPort_sendPacket_eq (tr : Transport) (pkt : Packet) (c : Ctrl) :
    metaPort_sendPacket tr pkt c =
      if c.metaPort.blockedPacket.isSome then ⟨[], c, .fatal .sendWhileBlocked⟩
      else if tr .metaPort pkt then ⟨[.send .metaPort pkt true], c, .ok true⟩
      else ⟨[.send .metaPort pkt false], { c with metaPort := { blockedPacket := some pkt } },
        .ok false⟩ := by
  unfold metaPort_sendPacket
  simp [andThen_ok, andThen_fatal, andThen_ite, prepend_mk, prepend_ite]

theorem memPort_sendPacket_eq (tr : Transport) (pkt : Packet) (c : Ctrl) :
    memPort_sendPacket tr pkt c =
      if c.memPort.blockedPacket.isSome then ⟨[], c, .fatal .sendWhileBlocked⟩
      else if tr .memPort pkt then ⟨[.send .memPort pkt true], c, .ok true⟩
      else ⟨[.send .memPort pkt false], { c with memPort := { blockedPacket := some pkt } },
        .ok false⟩ := by
  unfold memPort_sendPacket
  simp [andThen_ok, andThen_fatal, andThen_ite, prepend_mk, prepend_ite]

theorem CPUSidePort.sendPacket_eq (tr : Transport) (pkt : Packet) (c : Ctrl) :
    CPUSidePort.sendPacket tr pkt c =
      if c.cpuSidePort.blockedPacket.isSome then ⟨[], c, .fatal .sendWhileBlocked⟩
      else if tr .cpuSidePort pkt then ⟨[.send .cpuSidePort pkt true], c, .ok true⟩
      else ⟨[.send .cpuSidePort pkt false],
        { c with cpuSidePort := { c.cpuSidePort with blockedPacket := some pkt } }, .ok false⟩ := by
  unfold CPUSidePort.sendPacket
  simp [andThen_ok, andThen_fatal, andThen_ite, prepend_mk, prepend_ite]

@[simp] theorem sat_metaPort_sendPacket (Q : Bool → Ctrl → Prop) (tr : Transport) (pkt : Packet)
    (c : Ctrl) :
    (metaPort_sendPacket tr pkt c).Sat R Q E ↔
      (c.metaPort.blockedPacket ≠ none → E .sendWhileBlocked c) ∧
      (c.metaPort.blockedPacket = none →
        R (.send .metaPort pkt (tr .metaPort pkt)) ∧
        (tr .metaPort pkt = true → Q true c) ∧
        (tr .metaPort pkt = false →
          Q false { c with metaPort := { blockedPacket := some pkt } })) := by
  rw [metaPort_sendPacket_eq]
  cases h1 : c.metaPort.blockedPacket <;> cases h2 : tr .metaPort pkt <;> simp

@[simp] theorem sat_memPort_sendPacket (Q : Bool → Ctrl → Prop) (tr : Transport) (pkt : Packet)
    (c : Ctrl) :
    (memPort_sendPacket tr pkt c).Sat R Q E ↔
      (c.memPort.blockedPacket ≠ none → E .sendWhileBlocked c) ∧
      (c.memPort.blockedPacket = none →
        R (.send .memPort pkt (tr .memPort pkt)) ∧
        (tr .memPort pkt = true → Q true c) ∧
        (tr .memPort pkt = false →
          Q false { c with memPort := { blockedPacket := some pkt } })) := by
  rw [memPort_sendPacket_eq]
  cases h1 : c.memPort.blockedPacket <;> cases h2 : tr .memPort pkt <;> simp

@[simp] theorem sat_cpuSidePort_sendPacket (Q : Bool → Ctrl → Prop) (tr : Transport)
    (pkt : Packet) (c : Ctrl) :
    (CPUSidePort.sendPacket tr pkt c).Sat R Q E ↔
      (c.cpuSidePort.blockedPacket ≠ none → E .sendWhileBlocked c) ∧
      (c.cpuSidePort.blockedPacket = none →
        R (.send .cpuSidePort pkt (tr .cpuSidePort pkt)) ∧
        (tr .cpuSidePort pkt = true → Q true c) ∧
        (tr .cpuSidePort pkt = false →
          Q false { c with cpuSidePort := { c.cpuSidePort with blockedPacket := some pkt } })) := by
  rw [CPUSidePort.sendPacket_eq]
  cases h1 : c.cpuSidePort.blockedPacket <;> cases h2 : tr .cpuSidePort pkt <;> simp

end WpPorts

/-! ## The constructed borders -/

theorem construct_cntBorder : construct.cntBorder = 0x200000000 := by decide

theorem construct_macBorder : construct.macBorder = 0x208000000 := by decide

theorem construct_mtBorders :
    construct.mtBorders =
      [0x288000000, 0x289000000, 0x289200000, 0x289240000, 0x289248000, 0x289249000,
        0x289249200] := by decide

/-! ## Address arithmetic: the 64-bit expressions of the code against plain arithmetic -/

theorem add64_of_lt {a b : Nat} (h : a + b < W64) : add64 a b = a + b := by
  unfold add64
  exact Nat.mod_eq_of_lt h

theorem alignDown_eq (k a : Nat) (h : a < W64) : alignDown k a = a / 2 ^ k * 2 ^ k := by
  unfold alignDown shl64
  rw [Nat.shiftRight_eq_div_pow, Nat.shiftLeft_eq]
  exact Nat.mod_eq_of_lt (lt_of_le_of_lt (Nat.div_mul_le_self a (2 ^ k)) h)

theorem construct_mtBorders_getD_le (i : Nat) : construct.mtBorders.getD i 0 ≤ 0x289249200 := by
  rw [construct_mtBorders]
  match i with
  | 0 | 1 | 2 | 3 | 4 | 5 | 6 => simp
  | n + 7 => simp

theorem shift_levels (C i : Nat) : C >>> ((i + 1) * 3) = C / 8 ^ (i + 1) := by
  rw [Nat.shiftRight_eq_div_pow, Nat.mul_comm, pow_mul]
  norm_num

theorem cnt_addr_spec {A : Nat} (hA : A < W64) :
    add64 construct.cntBorder (A >>> 6) = specCntAddr construct.cntBorder A := by
  have h : A >>> 6 = A / 64 := by rw [Nat.shiftRight_eq_div_pow]
  rw [h, construct_cntBorder, specCntAddr]
  apply add64_of_lt
  unfold W64 at *
  omega

theorem mac_base_lt {A : Nat} (hA : A < W64) : construct.macBorder + A / 4 < W64 := by
  rw [construct_macBorder]
  unfold W64 at *
  omega

theorem mac_addr_spec {A : Nat} (hA : A < W64) :
    alignDown 4 (add64 construct.macBorder (A >>> 2)) = specMacAddr construct.macBorder A := by
  have h : A >>> 2 = A / 4 := by rw [Nat.shiftRight_eq_div_pow]
  rw [h, add64_of_lt (mac_base_lt hA), alignDown_eq _ _ (mac_base_lt hA), specMacAddr]
  norm_num

theorem mt_base_lt {A : Nat} (hA : A < W64) (i : Nat) :
    construct.mtBorders.getD i 0 + A / 64 / 8 ^ (i + 1) < W64 := by
  have h1 := construct_mtBorders_getD_le i
  have h2 : A / 64 / 8 ^ (i + 1) ≤ A / 64 := Nat.div_le_self _ _
  unfold W64 at *
  omega

theorem mt_base_spec {A : Nat} (hA : A < W64) (i : Nat) :
    add64 (construct.mtBorders.getD i 0) ((A >>> 6) >>> ((i + 1) * 3)) =
      specMtBase construct.mtBorders A i := by
  have h : A >>> 6 = A / 64 := by rw [Nat.shiftRight_eq_div_pow]
  rw [shift_levels, h, add64_of_lt (mt_base_lt hA i), specMtBase]

theorem mt_read_addr_spec {A : Nat} (hA : A < W64) (i : Nat) :
    alignDown 6 (add64 (construct.mtBorders.getD i 0) ((A >>> 6) >>> ((i + 1) * 3))) =
      specMtReadAddr construct.mtBorders A i := by
  rw [mt_base_spec hA, specMtReadAddr, alignDown_eq]
  · norm_num
  · exact mt_base_lt hA i

theorem mt_write_addr_spec {A : Nat} (hA : A < W64) (i : Nat) :
    alignDown 3 (add64 (construct.mtBorders.getD i 0) ((A >>> 6) >>> ((i + 1) * 3))) =
      specMtWriteAddr construct.mtBorders A i := by
  rw [mt_base_spec hA, specMtWriteAddr, alignDown_eq]
  · norm_num
  · exact mt_base_lt hA i

theorem firstHit_some {p : Nat → Bool} {lo n i : Nat} (h : firstHit p lo n = some i) :
    lo ≤ i ∧ i < lo + n ∧ p i = true ∧ ∀ j, lo ≤ j → j < i → p j = false := by
  induction n generalizing lo with
  | zero => simp [firstHit] at h
  | succ n ih =>
    unfold firstHit at h
    split at h
    · cases h
      exact ⟨le_refl _, by omega, by assumption, fun j h1 h2 => by omega⟩
    · obtain ⟨h1, h2, h3, h4⟩ := ih h
      refine ⟨by omega, by omega, h3, fun j hj1 hj2 => ?_⟩
      by_cases hj : j = lo
      · subst hj
        simpa using ‹¬p j = true›
      · exact h4 j (by omega) hj2

theorem firstHit_none {p : Nat → Bool} {lo n : Nat} (h : firstHit p lo n = none) :
    ∀ j, lo ≤ j → j < lo + n → p j = false := by
  induction n generalizing lo with
  | zero => intro j h1 h2; omega
  | succ n ih =>
    unfold firstHit at h
    split at h
    · cases h
    · intro j h1 h2
      by_cases hj : j = lo
      · subst hj
        simpa using ‹¬p j = true›
      · exact ih h j (by omega) (by omega)

/-! ## Metadata addresses issued by the code are metadata addresses of the specification -/

@[simp] theorem sendsIn_send_meta (A : Nat) (p : Packet) (acc : Bool) :
    SendsIn A (.send .metaPort p acc) ↔
      MetaAddrOf construct.cntBorder construct.macBorder construct.mtBorders A p.addr := by
  constructor
  · intro h
    exact h p acc rfl
  · intro h q acc2 e
    cases e
    exact h

@[simp] theorem sendsIn_send_mem (A : Nat) (p : Packet) (acc : Bool) :
    SendsIn A (.send .memPort p acc) := by
  intro q acc2 e
  cases e

@[simp] theorem sendsIn_send_cpu (A : Nat) (p : Packet) (acc : Bool) :
    SendsIn A (.send .cpuSidePort p acc) := by
  intro q acc2 e
  cases e

@[simp] theorem sendsIn_schedule (A : Nat) (ev : Event) (t : Nat) :
    SendsIn A (.schedule ev t) := by
  intro q acc2 e
  cases e

@[simp] theorem sendsIn_retryReq (A : Nat) : SendsIn A .retryReq := by
  intro q acc2 e
  cases e

theorem metaAddr_cnt {A : Nat} (hA : A < W64) :
    MetaAddrOf construct.cntBorder construct.macBorder construct.mtBorders A
      (add64 construct.cntBorder (A >>> 6)) :=
  Or.inl (cnt_addr_spec hA)

theorem metaAddr_mac {A : Nat} (hA : A < W64) :
    MetaAddrOf construct.cntBorder construct.macBorder construct.mtBorders A
      (alignDown 4 (add64 construct.macBorder (A >>> 2))) :=
  Or.inr (Or.inl (mac_addr_spec hA))

theorem metaAddr_mt_read (c : Ctrl) {A i : Nat} (hb : c.mtBorders = construct.mtBorders)
    (hc : c.verifiedCntOffs = A >>> 6) (hA : A < W64) (hi : i ≤ 5) :
    MetaAddrOf construct.cntBorder construct.macBorder construct.mtBorders A
      (alignDown 6 (mtNodeAddr c i)) := by
  refine Or.inr (Or.inr ⟨i, hi, Or.inl ?_⟩)
  rw [mtNodeAddr, hb, hc]
  exact mt_read_addr_spec hA i

theorem metaAddr_mt_write (c : Ctrl) {A i : Nat} (hb : c.mtBorders = construct.mtBorders)
    (hc : c.verifiedCntOffs = A >>> 6) (hA : A < W64) (hi : i ≤ 5) :
    MetaAddrOf construct.cntBorder construct.macBorder construct.mtBorders A
      (alignDown 3 (mtNodeAddr c i)) := by
  refine Or.inr (Or.inr ⟨i, hi, Or.inr ?_⟩)
  rw [mtNodeAddr, hb, hc]
  exact mt_write_addr_spec hA i

/-! ## Rules for `Keeps` -/

section KeepsRules
variable {α β : Type} {R : Action → Prop} {I F : Ctrl → Prop}

theorem Keeps.pure (a : α) : Keeps R I F (pure a : M α) := by
  intro c hc
  simpa using hc

theorem Keeps.bind {m : M α} {f : α → M β} (hm : Keeps R I F m) (hf : ∀ a, Keeps R I F (f a)) :
    Keeps R I F (m >>= f) := by
  intro c hc
  simp only [bind_eq, M.bind_apply, sat_andThen]
  exact (hm c hc).mono (fun _ h => h) (fun a c1 h1 => hf a c1 h1) (fun _ _ h => h)

theorem Keeps.bind_get {f : Ctrl → M β} (hf : ∀ c0, I c0 → Keeps R I F (f c0)) :
    Keeps R I F (getCtrl >>= f) := by
  intro c hc
  simpa using hf c hc c hc

theorem Keeps.modify {g : Ctrl → Ctrl} (hg : ∀ c, I c → I (g c)) :
    Keeps R I F (modifyCtrl g) := by
  intro c hc
  simpa using hg c hc

theorem Keeps.emit {a : Action} (ha : R a) : Keeps R I F (emit a) := by
  intro c hc
  simpa using ⟨ha, hc⟩

theorem Keeps.fatal (hIF : ∀ c, I c → F c) (k : Fatal) : Keeps R I F (fatal k : M α) := by
  intro c hc
  simpa using hIF c hc

theorem Keeps.panic_if (hIF : ∀ c, I c → F c) (b : Bool) (k : Fatal) :
    Keeps R I F (panic_if b k) := by
  intro c hc
  cases b <;> simpa using (by first | exact hc | exact hIF c hc)

theorem Keeps.ite {p : Prop} [Decidable p] {m1 m2 : M α} (h1 : p → Keeps R I F m1)
    (h2 : ¬p → Keeps R I F m2) : Keeps R I F (if p then m1 else m2) := by
  split
  · exact h1 ‹_›
  · exact h2 ‹_›

end KeepsRules

/-! ## Rules for `Triple` -/

section TripleRules
variable {α β : Type} {R : Action → Prop} {F P : Ctrl → Prop}

theorem Triple.of_pure {Q : α → Ctrl → Prop} (a : α) (h : ∀ c, P c → Q a c) :
    Triple R F P (pure a : M α) Q := by
  intro c hc
  simpa using h c hc

theorem Triple.of_pure_keep (a : α) : Triple R F P (pure a : M α) (fun _ => P) :=
  Triple.of_pure a (fun _ h => h)

theorem Triple.of_bind {m : M α} {f : α → M β} {Q1 : α → Ctrl → Prop} {Q : β → Ctrl → Prop}
    (hm : Triple R F P m Q1) (hf : ∀ a, Triple R F (Q1 a) (f a) Q) :
    Triple R F P (m >>= f) Q := by
  intro c hc
  simp only [bind_eq, M.bind_apply, sat_andThen]
  exact (hm c hc).mono (fun _ h => h) (fun a c1 h1 => hf a c1 h1) (fun _ _ h => h)

theorem Triple.of_get {f : Ctrl → M β} {Q : β → Ctrl → Prop}
    (hf : ∀ c0, P c0 → Triple R F (fun c => c = c0) (f c0) Q) :
    Triple R F P (getCtrl >>= f) Q := by
  intro c hc
  simpa using hf c hc c rfl

theorem Triple.of_modify {g : Ctrl → Ctrl} {Q : Unit → Ctrl → Prop} (h : ∀ c, P c → Q () (g c)) :
    Triple R F P (modifyCtrl g) Q := by
  intro c hc
  simpa using h c hc

theorem Triple.of_modify_keep {g : Ctrl → Ctrl} (h : ∀ c, P c → P (g c)) :
    Triple R F P (modifyCtrl g) (fun _ => P) :=
  Triple.of_modify h

theorem Triple.of_emit {a : Action} {Q : Unit → Ctrl → Prop} (ha : R a) (h : ∀ c, P c → Q () c) :
    Triple R F P (emit a) Q := by
  intro c hc
  simpa using ⟨ha, h c hc⟩

theorem Triple.of_emit_keep {a : Action} (ha : R a) : Triple R F P (emit a) (fun _ => P) :=
  Triple.of_emit ha (fun _ h => h)

theorem Triple.of_fatal {Q : α → Ctrl → Prop} (k : Fatal) (h : ∀ c, P c → F c) :
    Triple R F P (fatal k : M α) Q := by
  intro c hc
  simpa using h c hc

theorem Triple.of_panic_if_keep (b : Bool) (k : Fatal) (h : b = true → ∀ c, P c → F c) :
    Triple R F P (panic_if b k) (fun _ => P) := by
  intro c hc
  cases b
  · simpa using hc
  · simpa using h rfl c hc

theorem Triple.of_ite {p : Prop} [Decidable p] {m1 m2 : M α} {Q : α → Ctrl → Prop}
    (h1 : p → Triple R F P m1 Q) (h2 : ¬p → Triple R F P m2 Q) :
    Triple R F P (if p then m1 else m2) Q := by
  split
  · exact h1 ‹_›
  · exact h2 ‹_›

theorem Triple.weaken {m : M α} {S : Ctrl → Prop} {Q T : α → Ctrl → Prop}
    (h : Triple R F S m T) (hP : ∀ c, P c → S c) (hQ : ∀ a c, T a c → Q a c) :
    Triple R F P m Q := by
  intro c hc
  exact (h c (hP c hc)).mono (fun _ h => h) hQ (fun _ _ h => h)

end TripleRules

theorem updateChargeTime_triple {R : Action → Prop} {F P : Ctrl → Prop}
    {Q : Unit → Ctrl → Prop} (t : Nat)
    (h : ∀ c, P c → Q () c ∧ ∀ t2, Q () { c with chargeTime := t2 }) :
    Triple R F P (updateChargeTime t) Q := by
  apply Triple.of_modify
  intro c hc
  split
  · exact (h c hc).2 t
  · exact (h c hc).1

theorem updateChargeTime_triple_keep {R : Action → Prop} {F P : Ctrl → Prop} (t : Nat)
    (h : ∀ c t2, P c → P { c with chargeTime := t2 }) :
    Triple R F P (updateChargeTime t) (fun _ => P) :=
  updateChargeTime_triple t (fun c hc => ⟨hc, fun t2 => h c t2 hc⟩)

/-! ## The address-closure invariant is kept by every handler -/

theorem invAt_frameAt {A : Nat} (c : Ctrl) (h : InvAt A c) : FrameAt A c := ⟨h.1, h.2.2.1⟩

theorem invAt_construct : InvAt 0 construct := by
  refine ⟨⟨rfl, rfl, rfl⟩, by decide, rfl, rfl, ?_, ?_⟩
  · intro p h
    cases h
  · intro p h
    cases h

theorem metaAddrOf_lt {A a : Nat} (hA : A < W64)
    (h : MetaAddrOf construct.cntBorder construct.macBorder construct.mtBorders A a) :
    a < W64 := by
  rcases h with h | h | ⟨i, _, h | h⟩
  · rw [h, specCntAddr, construct_cntBorder]
    unfold W64 at *
    omega
  · rw [h, specMacAddr]
    exact lt_of_le_of_lt (Nat.div_mul_le_self _ _) (mac_base_lt hA)
  · rw [h, specMtReadAddr, specMtBase]
    exact lt_of_le_of_lt (Nat.div_mul_le_self _ _) (mt_base_lt hA i)
  · rw [h, specMtWriteAddr, specMtBase]
    exact lt_of_le_of_lt (Nat.div_mul_le_self _ _) (mt_base_lt hA i)

theorem metaPort_sendPacket_keeps (tr : Transport) (A : Nat) (pkt : Packet)
    (hp : MetaAddrOf construct.cntBorder construct.macBorder construct.mtBorders A pkt.addr) :
    Keeps (SendsIn A) (InvAt A) (FrameAt A) (metaPort_sendPacket tr pkt) := by
  intro c hinv
  have hf := invAt_frameAt c hinv
  obtain ⟨⟨hb1, hb2, hb3⟩, hA, hv, hc, hmeta, hmem⟩ := hinv
  simp +contextual [hp, hf, InvAt, Borders, hb1, hb2, hb3, hA, hv, hc, hmem]

theorem memPort_sendPacket_keeps (tr : Transport) (A : Nat) (pkt : Packet) (hp : pkt.addr = A) :
    Keeps (SendsIn A) (InvAt A) (FrameAt A) (memPort_sendPacket tr pkt) := by
  intro c hinv
  have hf := invAt_frameAt c hinv
  obtain ⟨⟨hb1, hb2, hb3⟩, hA, hv, hc, hmeta, hmem⟩ := hinv
  simp +contextual [hp, hf, InvAt, Borders, hb1, hb2, hb3, hA, hv, hc, hmeta]

theorem cpuSidePort_sendPacket_keeps (tr : Transport) (A : Nat) (pkt : Packet) :
    Keeps (SendsIn A) (InvAt A) (FrameAt A) (CPUSidePort.sendPacket tr pkt) := by
  intro c hinv
  have hf := invAt_frameAt c hinv
  obtain ⟨⟨hb1, hb2, hb3⟩, hA, hv, hc, hmeta, hmem⟩ := hinv
  simp +contextual [hf, InvAt, Borders, hb1, hb2, hb3, hA, hv, hc, hmeta, hmem]

theorem trySendRetryReq_keeps (A : Nat) :
    Keeps (SendsIn A) (InvAt A) (FrameAt A) CPUSidePort.trySendRetryReq := by
  unfold CPUSidePort.trySendRetryReq
  repeat' (first
      | with_reducible apply Keeps.bind_get
      | with_reducible apply Keeps.ite
      | with_reducible apply Keeps.bind
      | (with_reducible apply Keeps.modify) <;> exact fun c hc => hc
      | (with_reducible apply Keeps.emit) <;> simp
      | with_reducible apply Keeps.pure
      | with_reducible intro _)

theorem sendCntPkt_keeps (tr : Transport) (A : Nat) (isRead : Bool) :
    Keeps (SendsIn A) (InvAt A) (FrameAt A) (sendCntPkt tr isRead) := by
  unfold sendCntPkt
  apply Keeps.bind_get
  intro c0 h0
  apply metaPort_sendPacket_keeps
  obtain ⟨⟨hb1, hb2, hb3⟩, hA, hv, hc, hmeta, hmem⟩ := h0
  simp only [createMetaPkt, hb1, hv]
  exact metaAddr_cnt hA

theorem sendMacPkt_keeps (tr : Transport) (A : Nat) (isRead : Bool) :
    Keeps (SendsIn A) (InvAt A) (FrameAt A) (sendMacPkt tr isRead) := by
  unfold sendMacPkt
  apply Keeps.bind_get
  intro c0 h0
  apply metaPort_sendPacket_keeps
  obtain ⟨⟨hb1, hb2, hb3⟩, hA, hv, hc, hmeta, hmem⟩ := h0
  simp only [createMetaPkt, hb2, hv]
  exact metaAddr_mac hA

theorem sendMtPkt_keeps (tr : Transport) (A : Nat) (nth : Nat) (isRead : Bool) (hn : nth ≤ 5) :
    Keeps (SendsIn A) (InvAt A) (FrameAt A) (sendMtPkt tr nth isRead) := by
  unfold sendMtPkt
  apply Keeps.bind_get
  intro c0 h0
  apply metaPort_sendPacket_keeps
  cases isRead
  · exact metaAddr_mt_write c0 h0.1.2.2 h0.2.2.2.1 h0.2.1 hn
  · exact metaAddr_mt_read c0 h0.1.2.2 h0.2.2.2.1 h0.2.1 hn

theorem updateChargeTime_keeps (A t : Nat) :
    Keeps (SendsIn A) (InvAt A) (FrameAt A) (updateChargeTime t) := by
  apply Keeps.modify
  intro c hc
  split
  · exact hc
  · exact hc

theorem setMtPkt_keeps (A i : Nat) (pkt : Packet) :
    Keeps (SendsIn A) (InvAt A) (FrameAt A) (setMtPkt i pkt) := by
  apply Keeps.modify
  intro c hc
  exact hc

theorem clearTransaction_keeps (A : Nat) :
    Keeps (SendsIn A) (InvAt A) (FrameAt A) clearTransaction := by
  apply Keeps.modify
  intro c hc
  exact hc

theorem liftRes_keeps (A : Nat) (r : Res Unit) :
    Keeps (SendsIn A) (InvAt A) (FrameAt A) (liftRes r) := by
  cases r with
  | ok v => exact Keeps.pure ()
  | fatal k => exact Keeps.fatal invAt_frameAt k

theorem sendResponsePkt_keeps (tr : Transport) (A : Nat) :
    Keeps (SendsIn A) (InvAt A) (FrameAt A) (sendResponsePkt tr) := by
  unfold sendResponsePkt
  apply Keeps.bind_get
  intro c0 h0
  split
  · exact Keeps.bind (Keeps.panic_if invAt_frameAt _ _) (fun _ => Keeps.fatal invAt_frameAt _)
  · exact cpuSidePort_sendPacket_keeps tr A _

theorem processReadVerFinished_keeps (tr : Transport) (A : Nat) :
    Keeps (SendsIn A) (InvAt A) (FrameAt A) (processReadVerFinished tr) := by
  unfold processReadVerFinished
  repeat' (first
      | with_reducible apply Keeps.ite
      | with_reducible apply Keeps.bind
      | with_reducible apply sendResponsePkt_keeps
      | with_reducible apply clearTransaction_keeps
      | with_reducible apply trySendRetryReq_keeps
      | with_reducible apply Keeps.pure
      | with_reducible intro _)

theorem processWriteVerFinished_keeps (tr : Transport) (A : Nat) :
    Keeps (SendsIn A) (InvAt A) (FrameAt A) (processWriteVerFinished tr) := by
  unfold processWriteVerFinished
  repeat' (first
      | with_reducible apply Keeps.bind_get
      | with_reducible apply Keeps.ite
      | with_reducible apply Keeps.bind
      | with_reducible apply sendResponsePkt_keeps
      | with_reducible apply clearTransaction_keeps
      | with_reducible apply trySendRetryReq_keeps
      | with_reducible apply Keeps.pure
      | with_reducible intro _)

theorem processSendMacWrite_keeps (tr : Transport) (A : Nat) :
    Keeps (SendsIn A) (InvAt A) (FrameAt A) (processSendMacWrite tr) := by
  unfold processSendMacWrite
  exact Keeps.bind (sendMacPkt_keeps tr A false) (fun _ => Keeps.pure _)

theorem processSendNextMtWrite_keeps (tr : Transport) (A : Nat) :
    Keeps (SendsIn A) (InvAt A) (FrameAt A) (processSendNextMtWrite tr) := by
  unfold processSendNextMtWrite
  apply Keeps.bind_get
  intro c0 h0
  split
  · rename_i i heq
    have hi := (firstHit_some heq).2.1
    simp only [MT_LEVEL] at hi
    exact Keeps.bind (sendMtPkt_keeps tr A i false (by omega)) (fun _ => Keeps.pure _)
  · exact Keeps.fatal invAt_frameAt _

theorem recordRead_keeps (tr : Transport) (now : Nat) (pkt : Packet) (A : Nat) :
    Keeps (SendsIn A) (InvAt A) (FrameAt A) (recordRead tr now pkt) := by
  unfold recordRead
  dsimp only
  repeat' (first
      | with_reducible apply Keeps.bind_get
      | with_reducible apply Keeps.ite
      | with_reducible apply Keeps.bind
      | (with_reducible apply Keeps.modify) <;> exact fun c hc => hc
      | with_reducible apply updateChargeTime_keeps
      | with_reducible apply setMtPkt_keeps
      | with_reducible apply sendMtPkt_keeps
      | with_reducible apply Keeps.pure
      | with_reducible intro _
      | split)
  rename_i heq _ _ _
  have hi := (firstHit_some heq).2.1
  simp only [MT_LEVEL] at hi
  omega

theorem recordWrite_keeps (tr : Transport) (now : Nat) (pkt : Packet) (A : Nat) :
    Keeps (SendsIn A) (InvAt A) (FrameAt A) (recordWrite tr now pkt) := by
  unfold recordWrite
  dsimp only
  repeat' (first
      | with_reducible apply Keeps.bind_get
      | with_reducible apply Keeps.ite
      | with_reducible apply Keeps.bind
      | (with_reducible apply Keeps.modify) <;> exact fun c hc => hc
      | (with_reducible apply Keeps.emit) <;> simp
      | with_reducible apply Keeps.panic_if invAt_frameAt
      | with_reducible apply updateChargeTime_keeps
      | with_reducible apply setMtPkt_keeps
      | with_reducible apply sendMtPkt_keeps
      | with_reducible apply Keeps.pure
      | with_reducible intro _
      | split)
  rename_i heq _ _
  have hi := (firstHit_some heq).2.1
  simp only [MT_LEVEL] at hi
  omega

theorem checkRead_keeps (A : Nat) : Keeps (SendsIn A) (InvAt A) (FrameAt A) checkRead := by
  unfold checkRead
  repeat' (first
      | with_reducible apply Keeps.bind_get
      | with_reducible apply Keeps.ite
      | with_reducible apply Keeps.bind
      | (with_reducible apply Keeps.emit) <;> simp
      | with_reducible apply Keeps.panic_if invAt_frameAt
      | with_reducible apply liftRes_keeps
      | with_reducible apply Keeps.pure
      | with_reducible intro _)

theorem checkWrite_keeps (A : Nat) : Keeps (SendsIn A) (InvAt A) (FrameAt A) checkWrite := by
  unfold checkWrite
  repeat' (first
      | with_reducible apply Keeps.bind_get
      | with_reducible apply Keeps.ite
      | with_reducible apply Keeps.bind
      | (with_reducible apply Keeps.emit) <;> simp
      | with_reducible apply liftRes_keeps
      | with_reducible apply Keeps.pure
      | with_reducible intro _)

theorem handleResponse_keeps (tr : Transport) (now : Nat) (pkt : Packet) (A : Nat) :
    Keeps (SendsIn A) (InvAt A) (FrameAt A) (handleResponse tr now pkt) := by
  unfold handleResponse
  apply Keeps.bind_get
  intro c0 h0
  split
  · exact Keeps.fatal invAt_frameAt _
  · exact Keeps.bind (recordRead_keeps tr now pkt A) (fun _ => checkRead_keeps A)
  · refine Keeps.bind (recordWrite_keeps tr now pkt A) (fun b => ?_)
    exact Keeps.ite (fun _ => checkWrite_keeps A) (fun _ => Keeps.pure _)

theorem handleRequestRetry_keeps (tr : Transport) (pkt : Packet) (A : Nat) (c0 : Ctrl)
    (h0 : InvAt A c0)
    (hp : pkt.addr = A ∨
      MetaAddrOf construct.cntBorder construct.macBorder construct.mtBorders A pkt.addr) :
    Keeps (SendsIn A) (InvAt A) (FrameAt A) (handleRequestRetry tr pkt c0) := by
  have hv : c0.verifiedPktAddr = A := h0.2.2.1
  unfold handleRequestRetry
  apply Keeps.ite
  · intro h
    exact Keeps.bind (memPort_sendPacket_keeps tr A pkt (h.trans hv)) (fun _ => Keeps.pure _)
  · intro h
    have hm : MetaAddrOf construct.cntBorder construct.macBorder construct.mtBorders A pkt.addr :=
      hp.resolve_left (fun e => h (e.trans hv.symm))
    have hk := Keeps.bind (metaPort_sendPacket_keeps tr A pkt hm)
      (fun _ => (Keeps.pure PUnit.unit : Keeps (SendsIn A) (InvAt A) (FrameAt A) _))
    apply Keeps.ite
    · intro _
      exact hk
    · intro _
      apply Keeps.ite
      · intro _
        exact hk
      · intro _
        split
        · exact hk
        · exact Keeps.fatal invAt_frameAt _

theorem handleRequestIdle_inv (tr : Transport) (pkt : Packet) (c : Ctrl) (A0 : Nat)
    (hinv : InvAt A0 c) (hwf : pkt.addr < W64) :
    (handleRequestIdle tr pkt c).Sat (SendsIn pkt.addr) (fun _ c' => InvAt pkt.addr c')
      (fun _ c' => FrameAt pkt.addr c') := by
  obtain ⟨⟨hb1, hb2, hb3⟩, hA, hv, hc, hmeta, hmem⟩ := hinv
  simp only [handleRequestIdle, sendCntPkt, sendMacPkt, sendMtPkt, createMetaPkt]
  simp +contextual [FrameAt, InvAt, Borders, hb1, hb2, hb3, hwf, metaAddr_cnt, metaAddr_mac,
    metaAddr_mt_read, metaAddr_mt_write]

/-- The address of the transaction after `handleRequest`. -/
theorem handleRequest_inv (tr : Transport) (pkt : Packet) (c : Ctrl) (A : Nat)
    (hinv : InvAt A c) (hwf : pkt.addr < W64)
    (hp : c.state ≠ .Idle → pkt.addr = A ∨
      MetaAddrOf construct.cntBorder construct.macBorder construct.mtBorders A pkt.addr) :
    ∃ A', (handleRequest tr pkt c).Sat (SendsIn A') (fun _ c' => InvAt A' c')
      (fun _ c' => FrameAt A' c') := by
  unfold handleRequest
  simp only [bind_eq, M.bind_apply, getCtrl_apply, sat_andThen, sat_ok, List.not_mem_nil,
    false_implies, implies_true, true_and]
  cases hs : c.state with
  | Idle => exact ⟨pkt.addr, handleRequestIdle_inv tr pkt c A hinv hwf⟩
  | Read => exact ⟨A, handleRequestRetry_keeps tr pkt A c hinv (hp (by simp [hs])) c hinv⟩
  | Write => exact ⟨A, handleRequestRetry_keeps tr pkt A c hinv (hp (by simp [hs])) c hinv⟩

theorem recvTimingReq_inv (tr : Transport) (pkt : Packet) (c : Ctrl) (A : Nat)
    (hinv : InvAt A c) (hwf : pkt.addr < W64) :
    ∃ A', (recvTimingReq tr pkt c).Sat (SendsIn A') (fun _ c' => InvAt A' c')
      (fun _ c' => FrameAt A' c') := by
  unfold recvTimingReq
  simp only [bind_eq, pure_eq, M.bind_apply, getCtrl_apply, sat_andThen, sat_ok,
    List.not_mem_nil, false_implies, implies_true, true_and, M.ite_apply, modifyCtrl_apply,
    M.pure_apply]
  by_cases hs : c.state = .Idle
  · obtain ⟨A', h⟩ := handleRequest_inv tr pkt c A hinv hwf (fun h => absurd hs h)
    refine ⟨A', ?_⟩
    rw [if_pos hs, sat_andThen]
    exact h.mono (fun _ h => h) (fun _ _ h => by simpa using h) (fun _ _ h => h)
  · refine ⟨A, ?_⟩
    rw [if_neg hs]
    simpa using hinv

theorem recvTimingResp_keeps (tr : Transport) (now : Nat) (pkt : Packet) (A : Nat) :
    Keeps (SendsIn A) (InvAt A) (FrameAt A) (recvTimingResp tr now pkt) := by
  unfold recvTimingResp
  exact Keeps.bind (handleResponse_keeps tr now pkt A) (fun _ => Keeps.pure _)

theorem recvRespRetry_keeps (tr : Transport) (now : Nat) (A : Nat) :
    Keeps (SendsIn A) (InvAt A) (FrameAt A) (recvRespRetry tr now) := by
  unfold recvRespRetry
  apply Keeps.bind_get
  intro c0 h0
  split
  · exact Keeps.fatal invAt_frameAt _
  · exact Keeps.bind (Keeps.modify (fun c hc => hc)) (fun _ => handleResponse_keeps tr now _ A)

theorem memPort_recvReqRetry_inv (tr : Transport) (c : Ctrl) (A : Nat) (hinv : InvAt A c) :
    ∃ A', (memPort_recvReqRetry tr c).Sat (SendsIn A') (fun _ c' => InvAt A' c')
      (fun _ c' => FrameAt A' c') := by
  unfold memPort_recvReqRetry
  simp only [bind_eq, M.bind_apply, getCtrl_apply, sat_andThen, sat_ok, List.not_mem_nil,
    false_implies, implies_true, true_and]
  cases hb : c.memPort.blockedPacket with
  | none => exact ⟨A, by simpa using invAt_frameAt c hinv⟩
  | some p =>
    have hpA : p.addr = A := hinv.2.2.2.2.2 p hb
    have hinv2 : InvAt A { c with memPort := { blockedPacket := none } } := by
      obtain ⟨hb0, hA, hv, hc, hmeta, hmem⟩ := hinv
      exact ⟨hb0, hA, hv, hc, hmeta, fun q hq => by cases hq⟩
    obtain ⟨A', h⟩ := handleRequest_inv tr p _ A hinv2 (hpA ▸ hinv.2.1) (fun _ => Or.inl hpA)
    exact ⟨A', by simpa using h⟩

theorem metaPort_recvReqRetry_inv (tr : Transport) (c : Ctrl) (A : Nat) (hinv : InvAt A c) :
    ∃ A', (metaPort_recvReqRetry tr c).Sat (SendsIn A') (fun _ c' => InvAt A' c')
      (fun _ c' => FrameAt A' c') := by
  unfold metaPort_recvReqRetry
  simp only [bind_eq, M.bind_apply, getCtrl_apply, sat_andThen, sat_ok, List.not_mem_nil,
    false_implies, implies_true, true_and]
  cases hb : c.metaPort.blockedPacket with
  | none => exact ⟨A, by simpa using invAt_frameAt c hinv⟩
  | some p =>
    have hpA := hinv.2.2.2.2.1 p hb
    have hinv2 : InvAt A { c with metaPort := { blockedPacket := none } } := by
      obtain ⟨hb0, hA, hv, hc, hmeta, hmem⟩ := hinv
      exact ⟨hb0, hA, hv, hc, fun q hq => (by cases hq), hmem⟩
    obtain ⟨A', h⟩ := handleRequest_inv tr p _ A hinv2 (metaAddrOf_lt hinv.2.1 hpA)
      (fun _ => Or.inr hpA)
    exact ⟨A', by simpa using h⟩

/-- Every callback keeps the address-closure invariant, for the transaction it
leaves the object in. -/
theorem step_inv (tr : Transport) (now : Nat) (inp : Input) (c : Ctrl) (A : Nat)
    (hinv : InvAt A c) (hwf : inp.WF) :
    ∃ A', (step tr now inp c).Sat (SendsIn A') (fun _ c' => InvAt A' c')
      (fun _ c' => FrameAt A' c') := by
  cases inp with
  | timingReq pkt =>
    obtain ⟨A', h⟩ := recvTimingReq_inv tr pkt c A hinv hwf
    refine ⟨A', ?_⟩
    simp only [step, bind_eq, pure_eq, M.bind_apply, sat_andThen]
    exact h.mono (fun _ h => h) (fun _ _ h => by simpa using h) (fun _ _ h => h)
  | timingResp pkt =>
    refine ⟨A, ?_⟩
    exact Keeps.bind (recvTimingResp_keeps tr now pkt A) (fun _ => Keeps.pure _) c hinv
  | memReqRetry => exact memPort_recvReqRetry_inv tr c A hinv
  | metaReqRetry => exact metaPort_recvReqRetry_inv tr c A hinv
  | respRetry => exact ⟨A, recvRespRetry_keeps tr now A c hinv⟩
  | fire ev =>
    refine ⟨A, ?_⟩
    cases ev with
    | readVerFinished => exact processReadVerFinished_keeps tr A c hinv
    | sendMacWrite => exact processSendMacWrite_keeps tr A c hinv
    | sendNextMtWrite => exact processSendNextMtWrite_keeps tr A c hinv
    | writeVerFinished => exact processWriteVerFinished_keeps tr A c hinv

theorem reachable_inv {c : Ctrl} (h : Reachable c) : ∃ A, InvAt A c := by
  induction h with
  | construct => exact ⟨0, invAt_construct⟩
  | step c tr now inp _ hwf hok ih =>
    obtain ⟨A, hA⟩ := ih
    obtain ⟨A', h⟩ := step_inv tr now inp c A hA hwf
    exact ⟨A', h.ok_post hok⟩

theorem reachable_borders {c : Ctrl} (h : Reachable c) : Borders c := by
  obtain ⟨A, hA⟩ := reachable_inv h
  exact hA.1

/-! ## Admission of requests -/

theorem andThen_of_ok {α β : Type} {o : Outcome α} {a : α} (f : α → M β) (h : o.res = .ok a) :
    o.andThen f = (f a o.ctrl).prepend o.acts := by
  unfold Outcome.andThen
  rw [h]

theorem andThen_of_fatal {α β : Type} {o : Outcome α} {k : Fatal} (f : α → M β)
    (h : o.res = .fatal k) : o.andThen f = ⟨o.acts, o.ctrl, .fatal k⟩ := by
  unfold Outcome.andThen
  rw [h]

theorem Outcome.Sat.res_ok {α : Type} {o : Outcome α} {R : Action → Prop}
    {Q : α → Ctrl → Prop} (h : o.Sat R Q (fun _ _ => False)) : ∃ v, o.res = .ok v := by
  obtain ⟨acts, c, r⟩ := o
  cases r with
  | ok v => exact ⟨v, rfl⟩
  | fatal k => exact h.2.elim

theorem recvTimingReq_busy (tr : Transport) (pkt : Packet) (c : Ctrl) (h : c.state ≠ .Idle) :
    recvTimingReq tr pkt c =
      ⟨[], { c with cpuSidePort := { c.cpuSidePort with needRetry := true } }, .ok false⟩ := by
  unfold recvTimingReq
  simp [h, andThen_ok]

theorem handleRequest_idle (tr : Transport) (pkt : Packet) (c : Ctrl) (h : c.state = .Idle) :
    handleRequest tr pkt c = handleRequestIdle tr pkt c := by
  unfold handleRequest
  simp [h, andThen_ok]

theorem recvTimingReq_idle (tr : Transport) (pkt : Packet) (c : Ctrl) (h : c.state = .Idle) :
    recvTimingReq tr pkt c = (handleRequestIdle tr pkt c).andThen (fun _ => M.pure true) := by
  unfold recvTimingReq
  simp [h, andThen_ok, handleRequest_idle]

/-- What an accepted request leaves in the object; the only fatal on the way is
the blocked-slot panic of `sendPacket`. -/
theorem handleRequestIdle_sat (tr : Transport) (pkt : Packet) (c : Ctrl) :
    (handleRequestIdle tr pkt c).Sat (fun _ => True)
      (fun _ c' =>
        c'.state = (if pkt.isRead then .Read else .Write) ∧
        c'.verifiedPktAddr = pkt.addr ∧ c'.verifiedCntOffs = pkt.addr >>> 6 ∧
        c'.flags = pkt.flags % 2 ^ 32 ∧ c'.requestorId = pkt.requestorId % 2 ^ 16 ∧
        c'.needsResponse = pkt.needsResponse)
      (fun k _ => k = .sendWhileBlocked) := by
  simp only [handleRequestIdle, sendCntPkt, sendMacPkt, sendMtPkt, createMetaPkt]
  simp +contextual

/-- With both memory-side slots empty, a request is taken without a fatal when it
is a write, or when the metadata transport accepts the counter and MAC reads. -/
theorem handleRequestIdle_ok (tr : Transport) (pkt : Packet) (c : Ctrl)
    (hmem : c.memPort.blockedPacket = none) (hmeta : c.metaPort.blockedPacket = none)
    (htr : pkt.isRead = true → ∀ p, p.size < 64 → tr .metaPort p = true) :
    (handleRequestIdle tr pkt c).res = .ok () := by
  have h : (handleRequestIdle tr pkt c).Sat (fun _ => True) (fun _ _ => True)
      (fun _ _ => False) := by
    simp only [handleRequestIdle, sendCntPkt, sendMacPkt, sendMtPkt, createMetaPkt]
    simp +contextual [hmem, hmeta]
    intro hr
    simp [htr hr]
  obtain ⟨v, hv⟩ := h.res_ok
  exact hv

/-- Admission of requests, the branches of `recvTimingReq` (what holds of C1 in
every state): `CPUSidePort::recvTimingReq` takes the accepting branch (it runs
`handleRequest` and then returns `true`) exactly in state `Idle`.  In `Read` or
`Write` it returns `false` and changes nothing but
`needRetry`, which becomes `true` (no action is performed, no field or slot
moves).  In `Idle` it does not return `false`: it returns `true`, and it does so
whenever both memory-side blocked slots are empty and, for a read, the counter
and MAC reads are accepted; the only other way out of the `Idle` branch is the
blocked-slot panic of `sendPacket` inside `handleRequest`.  When it returns
`true` the state is `Read` for a read packet and `Write` otherwise, the
transaction parameters are those of the packet, and a request arriving next is
rejected. -/
theorem recvTimingReq_single_transaction (tr : Transport) (pkt : Packet) (c : Ctrl) :
    (c.state = .Idle →
      recvTimingReq tr pkt c = (handleRequest tr pkt c).andThen (fun _ => M.pure true)) ∧
    ((recvTimingReq tr pkt c).res = .ok true → c.state = .Idle) ∧
    ((recvTimingReq tr pkt c).res = .ok false ↔ c.state ≠ .Idle) ∧
    (c.state ≠ .Idle →
      recvTimingReq tr pkt c =
        ⟨[], { c with cpuSidePort := { c.cpuSidePort with needRetry := true } }, .ok false⟩) ∧
    (c.state = .Idle →
      (recvTimingReq tr pkt c).res = .ok true ∨
        (recvTimingReq tr pkt c).res = .fatal .sendWhileBlocked) ∧
    (c.state = .Idle → c.memPort.blockedPacket = none → c.metaPort.blockedPacket = none →
      (pkt.isRead = true → ∀ p, p.size < 64 → tr .metaPort p = true) →
      (recvTimingReq tr pkt c).res = .ok true) ∧
    ((recvTimingReq tr pkt c).res = .ok true →
      (recvTimingReq tr pkt c).ctrl.state = (if pkt.isRead then .Read else .Write) ∧
      (recvTimingReq tr pkt c).ctrl.verifiedPktAddr = pkt.addr ∧
      (recvTimingReq tr pkt c).ctrl.verifiedCntOffs = pkt.addr >>> 6 ∧
      (recvTimingReq tr pkt c).ctrl.flags = pkt.flags % 2 ^ 32 ∧
      (recvTimingReq tr pkt c).ctrl.requestorId = pkt.requestorId % 2 ^ 16 ∧
      (recvTimingReq tr pkt c).ctrl.needsResponse = pkt.needsResponse ∧
      ∀ tr2 pkt2, (recvTimingReq tr2 pkt2 (recvTimingReq tr pkt c).ctrl).res = .ok false) := by
  refine ⟨fun hs => by rw [recvTimingReq_idle tr pkt c hs, handleRequest_idle tr pkt c hs], ?_⟩
  by_cases hs : c.state = .Idle
  · have hsat := handleRequestIdle_sat tr pkt c
    rw [recvTimingReq_idle tr pkt c hs]
    cases hres : (handleRequestIdle tr pkt c).res with
    | ok v =>
      have hq := hsat.ok_post hres
      rw [andThen_of_ok _ hres]
      refine ⟨fun _ => hs, by simp [hs], fun h => absurd hs h, fun _ => Or.inl (by simp),
        fun _ _ _ _ => by simp, fun _ => ?_⟩
      simp only [M.pure_apply, prepend_mk, hq, true_and]
      intro tr2 pkt2
      rw [recvTimingReq_busy]
      rw [hq.1]
      split <;> simp
    | fatal k =>
      have hk : k = .sendWhileBlocked := hsat.fatal_post hres
      rw [andThen_of_fatal _ hres]
      refine ⟨by simp, by simp [hs], fun h => absurd hs h, fun _ => Or.inr (by simp [hk]),
        fun _ hmem hmeta htr => ?_, by simp⟩
      rw [handleRequestIdle_ok tr pkt c hmem hmeta htr] at hres
      cases hres
  · rw [recvTimingReq_busy tr pkt c hs]
    exact ⟨by simp, by simp [hs], fun _ => rfl, fun h => absurd h hs, fun h => absurd h hs,
      by simp⟩

/-- Instance of the admission law: the constructed object takes a read at address 0, enters
`Read`, and rejects the next request. -/
theorem recvTimingReq_single_transaction_witness :
    (recvTimingReq acceptAll readReq0 construct).res = .ok true ∧
    (recvTimingReq acceptAll readReq0 construct).ctrl.state = .Read ∧
    (recvTimingReq acceptAll writeReq0 (recvTimingReq acceptAll readReq0 construct).ctrl).res =
      .ok false :=
  have h := (recvTimingReq_single_transaction acceptAll readReq0 construct).2
  have hok := h.2.2.2.2.1 rfl rfl rfl (fun _ _ _ => rfl)
  ⟨hok, (h.2.2.2.2.2 hok).1, (h.2.2.2.2.2 hok).2.2.2.2.2.2 acceptAll writeReq0⟩

/-! ## Address derivation -/

theorem metaPort_sendPacket_free (tr : Transport) (p : Packet) (c : Ctrl)
    (hfree : c.metaPort.blockedPacket = none) :
    (metaPort_sendPacket tr p c).acts = [.send .metaPort p (tr .metaPort p)] ∧
    (metaPort_sendPacket tr p c).res = .ok (tr .metaPort p) ∧
    (metaPort_sendPacket tr p c).ctrl =
      (if tr .metaPort p then c else { c with metaPort := { blockedPacket := some p } }) := by
  rw [metaPort_sendPacket_eq]
  cases h : tr .metaPort p <;> simp [hfree]

theorem sendCntPkt_eq (tr : Transport) (isRead : Bool) (c : Ctrl) :
    sendCntPkt tr isRead c =
      metaPort_sendPacket tr
        (createMetaPkt c (add64 c.cntBorder (c.verifiedPktAddr >>> 6)) 1 isRead) c := by
  unfold sendCntPkt
  simp [andThen_ok]

theorem sendMacPkt_eq (tr : Transport) (isRead : Bool) (c : Ctrl) :
    sendMacPkt tr isRead c =
      metaPort_sendPacket tr
        (createMetaPkt c (alignDown 4 (add64 c.macBorder (c.verifiedPktAddr >>> 2))) 16 isRead)
        c := by
  unfold sendMacPkt
  simp [andThen_ok]

theorem sendMtPkt_eq (tr : Transport) (nth : Nat) (isRead : Bool) (c : Ctrl) :
    sendMtPkt tr nth isRead c =
      metaPort_sendPacket tr
        (createMetaPkt c
          (if isRead then alignDown 6 (mtNodeAddr c nth) else alignDown 3 (mtNodeAddr c nth))
          (if isRead then 64 else 8) isRead) c := by
  unfold sendMtPkt
  simp [andThen_ok]

/-- C4: with the constructed borders, a current data address `A` (a 64-bit
value) and `verifiedCntOffs = A >> 6`, and the metadata port free to send:
`sendCntPkt` hands the port one packet at `cntBorder + (A >> 6)` of size 1,
`sendMacPkt` one at `macBorder + (A >> 2)` rounded down to a multiple of 16 of
size 16, `sendMtPkt(nth, true)` one at `mtBorders[nth] + (C >> 3(nth+1))` rounded
down to a multiple of 64 of size 64, and `sendMtPkt(nth, false)` one at the same
base rounded down to a multiple of 8 of size 8, for every `nth ≤ MT_LEVEL - 2`;
the packet is a read exactly when `isRead` is true, and the call returns the
transport's answer. -/
theorem address_derivation (tr : Transport) (isRead : Bool) (nth : Nat) (c : Ctrl)
    (hB : Borders c) (hA : c.verifiedPktAddr < W64)
    (hC : c.verifiedCntOffs = c.verifiedPktAddr >>> 6)
    (hfree : c.metaPort.blockedPacket = none) (_hn : nth ≤ MT_LEVEL - 2) :
    (∀ p, p = createMetaPkt c (specCntAddr c.cntBorder c.verifiedPktAddr) 1 isRead →
      (sendCntPkt tr isRead c).acts = [.send .metaPort p (tr .metaPort p)] ∧
      (sendCntPkt tr isRead c).res = .ok (tr .metaPort p) ∧ p.isRead = isRead) ∧
    (∀ p, p = createMetaPkt c (specMacAddr c.macBorder c.verifiedPktAddr) 16 isRead →
      (sendMacPkt tr isRead c).acts = [.send .metaPort p (tr .metaPort p)] ∧
      (sendMacPkt tr isRead c).res = .ok (tr .metaPort p) ∧ p.isRead = isRead) ∧
    (∀ p, p = createMetaPkt c (specMtReadAddr c.mtBorders c.verifiedPktAddr nth) 64 true →
      (sendMtPkt tr nth true c).acts = [.send .metaPort p (tr .metaPort p)] ∧
      (sendMtPkt tr nth true c).res = .ok (tr .metaPort p) ∧ p.isRead = true) ∧
    (∀ p, p = createMetaPkt c (specMtWriteAddr c.mtBorders c.verifiedPktAddr nth) 8 false →
      (sendMtPkt tr nth false c).acts = [.send .metaPort p (tr .metaPort p)] ∧
      (sendMtPkt tr nth false c).res = .ok (tr .metaPort p) ∧ p.isRead = false) := by
  obtain ⟨hb1, hb2, hb3⟩ := hB
  have hcnt : add64 c.cntBorder (c.verifiedPktAddr >>> 6) =
      specCntAddr c.cntBorder c.verifiedPktAddr := by
    rw [hb1]
    exact cnt_addr_spec hA
  have hmac : alignDown 4 (add64 c.macBorder (c.verifiedPktAddr >>> 2)) =
      specMacAddr c.macBorder c.verifiedPktAddr := by
    rw [hb2]
    exact mac_addr_spec hA
  have hrd : alignDown 6 (mtNodeAddr c nth) =
      specMtReadAddr c.mtBorders c.verifiedPktAddr nth := by
    rw [mtNodeAddr, hC, hb3]
    exact mt_read_addr_spec hA nth
  have hwr : alignDown 3 (mtNodeAddr c nth) =
      specMtWriteAddr c.mtBorders c.verifiedPktAddr nth := by
    rw [mtNodeAddr, hC, hb3]
    exact mt_write_addr_spec hA nth
  refine ⟨?_, ?_, ?_, ?_⟩
  · rintro p rfl
    rw [sendCntPkt_eq, hcnt]
    have h := metaPort_sendPacket_free tr
      (createMetaPkt c (specCntAddr c.cntBorder c.verifiedPktAddr) 1 isRead) c hfree
    exact ⟨h.1, h.2.1, rfl⟩
  · rintro p rfl
    rw [sendMacPkt_eq, hmac]
    have h := metaPort_sendPacket_free tr
      (createMetaPkt c (specMacAddr c.macBorder c.verifiedPktAddr) 16 isRead) c hfree
    exact ⟨h.1, h.2.1, rfl⟩
  · rintro p rfl
    rw [sendMtPkt_eq]
    simp only [if_true, hrd]
    have h := metaPort_sendPacket_free tr
      (createMetaPkt c (specMtReadAddr c.mtBorders c.verifiedPktAddr nth) 64 true) c hfree
    exact ⟨h.1, h.2.1, rfl⟩
  · rintro p rfl
    rw [sendMtPkt_eq]
    simp only [Bool.false_eq_true, if_false, hwr]
    have h := metaPort_sendPacket_free tr
      (createMetaPkt c (specMtWriteAddr c.mtBorders c.verifiedPktAddr nth) 8 false) c hfree
    exact ⟨h.1, h.2.1, rfl⟩

/-- Witness for C4: in the transaction on data address `0x1040` the four
packets go to `0x200000041`, `0x208000410`, `0x288000000` and `0x288000008`. -/
theorem address_derivation_witness :
    (sendCntPkt acceptAll true readingAt1040).acts =
      [.send .metaPort
        { addr := 0x200000041, size := 1, isRead := true, flags := 0, requestorId := 0,
          needsResponse := true, accessDepth := 0 } true] ∧
    (sendMacPkt acceptAll false readingAt1040).acts =
      [.send .metaPort
        { addr := 0x208000410, size := 16, isRead := false, flags := 0, requestorId := 0,
          needsResponse := true, accessDepth := 0 } true] ∧
    (sendMtPkt acceptAll 0 true readingAt1040).acts =
      [.send .metaPort
        { addr := 0x288000000, size := 64, isRead := true, flags := 0, requestorId := 0,
          needsResponse := true, accessDepth := 0 } true] ∧
    (sendMtPkt acceptAll 0 false readingAt1040).acts =
      [.send .metaPort
        { addr := 0x288000008, size := 8, isRead := false, flags := 0, requestorId := 0,
          needsResponse := true, accessDepth := 0 } true] :=
  ⟨((address_derivation acceptAll true 0 readingAt1040 ⟨rfl, rfl, rfl⟩ (by decide) (by decide)
      rfl (by decide)).1 _ rfl).1,
    ((address_derivation acceptAll false 0 readingAt1040 ⟨rfl, rfl, rfl⟩ (by decide) (by decide)
      rfl (by decide)).2.1 _ rfl).1,
    ((address_derivation acceptAll true 0 readingAt1040 ⟨rfl, rfl, rfl⟩ (by decide) (by decide)
      rfl (by decide)).2.2.1 _ rfl).1,
    ((address_derivation acceptAll true 0 readingAt1040 ⟨rfl, rfl, rfl⟩ (by decide) (by decide)
      rfl (by decide)).2.2.2 _ rfl).1⟩

/-! ## Address closure -/

/-- C5: in every state reachable from construction, and for every callback
(request, response, the three retries, the four events), every packet the
callback hands to the metadata port has its address in the set of metadata
addresses of the transaction the object is then working on: the counter
address, the MAC address, or the 64-byte or 8-byte aligned Merkle address of a
level `i ≤ MT_LEVEL - 2`.  Level `MT_LEVEL - 1` is not in that set. -/
theorem address_closure (c : Ctrl) (tr : Transport) (now : Nat) (inp : Input)
    (hr : Reachable c) (hwf : inp.WF) (p : Packet) (acc : Bool)
    (hsend : Action.send .metaPort p acc ∈ (step tr now inp c).acts) :
    MetaAddrSet (step tr now inp c).ctrl p.addr := by
  obtain ⟨A, hA⟩ := reachable_inv hr
  obtain ⟨A', h⟩ := step_inv tr now inp c A hA hwf
  have hp : MetaAddrOf construct.cntBorder construct.macBorder construct.mtBorders A' p.addr :=
    h.acts _ hsend p acc rfl
  have hf : FrameAt A' (step tr now inp c).ctrl := by
    cases hres : (step tr now inp c).res with
    | ok v => exact invAt_frameAt _ (h.ok_post hres)
    | fatal k => exact h.fatal_post hres
  obtain ⟨⟨hb1, hb2, hb3⟩, hv⟩ := hf
  unfold MetaAddrSet
  rw [hb1, hb2, hb3, hv]
  exact hp

/-- Witness for C5: the read of address 0 accepted by the constructed object
sends its counter read to `0x200000000`, a metadata address of that transaction. -/
theorem address_closure_witness :
    MetaAddrSet (step acceptAll 0 (.timingReq readReq0) construct).ctrl 0x200000000 :=
  address_closure construct acceptAll 0 (.timingReq readReq0) Reachable.construct
    (by decide)
    { addr := 0x200000000, size := 1, isRead := true, flags := 0, requestorId := 0,
      needsResponse := true, accessDepth := 0 } true (by decide)

/-! ## Unmatched responses -/

/-- C6 (what the code does): in state `Read` on data address 0, a response at
`0x1234`, which is none of the addresses of the transaction, is not fatal: the
call returns normally, performs no action and leaves the object as it was.  The
same holds in state `Write` for a write-command response at `0x1234`.  Once the
read is complete, the same stray response even schedules `readVerFinished`
again. -/
theorem unmatched_response_not_fatal :
    readingAt0.state = .Read ∧
    handleResponse acceptAll 1000 (respAt 0x1234 64 true 1) readingAt0 =
      ⟨[], readingAt0, .ok ()⟩ ∧
    writingAt0.state = .Write ∧
    handleResponse acceptAll 1000 (respAt 0x1234 8 false 1) writingAt0 =
      ⟨[], writingAt0, .ok ()⟩ ∧
    (handleResponse acceptAll 5000 (respAt 0x1234 64 true 1)
        (handleResponse acceptAll 4000 (respAt 0x288000000 64 true 0)
          readingAwaitingMt).ctrl).acts =
      [.schedule .readVerFinished 85000] := by
  refine ⟨rfl, ?_, rfl, ?_, ?_⟩ <;> rfl

/-! ## Blocked slots -/

/-- C7 (what the code does): the constructed object accepts a read of address 0
and the metadata port refuses the counter read; the counter packet is put in
the blocked slot and the next statement, `sendMacPkt`, runs into the
"Should never try to send if blocked!" panic.  The same happens at `sendMtPkt`
when the MAC read is the one refused. -/
theorem refused_counter_read_is_fatal :
    (recvTimingReq refuseCounter readReq0 construct).res = .fatal .sendWhileBlocked ∧
    (recvTimingReq refuseCounter readReq0 construct).acts =
      [.send .memPort readReq0 true,
        .send .metaPort
          { addr := 0x200000000, size := 1, isRead := true, flags := 0, requestorId := 0,
            needsResponse := true, accessDepth := 0 } false] ∧
    (recvTimingReq refuseCounter readReq0 construct).ctrl.metaPort.blockedPacket =
      some { addr := 0x200000000, size := 1, isRead := true, flags := 0, requestorId := 0,
             needsResponse := true, accessDepth := 0 } ∧
    (recvTimingReq refuseMac readReq0 construct).res = .fatal .sendWhileBlocked ∧
    (recvTimingReq refuseMac readReq0 construct).ctrl.metaPort.blockedPacket =
      some { addr := 0x208000000, size := 16, isRead := true, flags := 0, requestorId := 0,
             needsResponse := true, accessDepth := 0 } := by
  refine ⟨?_, ?_, ?_, ?_, ?_⟩ <;> rfl

/-! ## Address ranges -/

theorem getAddrRanges_ok_iff (c : Ctrl) (ds : List AddrRange) :
    (∃ rs, getAddrRanges c ds = .ok rs) ↔
      ∃ r, ds = [r] ∧ r.interleaved = false ∧ r.start = 0 ∧
        r.end_ = c.mtBorders.getD (MT_LEVEL - 1) 0 := by
  constructor
  · rintro ⟨rs, h⟩
    unfold getAddrRanges at h
    match ds, h with
    | [], h => simp at h
    | [r], h =>
      refine ⟨r, rfl, ?_⟩
      simp only [List.length_singleton, ne_eq, not_true_eq_false, ↓reduceIte, List.head?_cons] at h
      split at h
      · cases h
      · split at h
        · cases h
        · split at h
          · cases h
          · refine ⟨by simpa using ‹¬r.interleaved = true›, by simpa using ‹¬r.start ≠ 0›, ?_⟩
            simpa using ‹¬r.end_ ≠ c.mtBorders.getD (MT_LEVEL - 1) 0›
    | _ :: _ :: _, h => simp at h
  · rintro ⟨r, rfl, h1, h2, h3⟩
    exact ⟨[{ start := 0, end_ := c.cntBorder, interleaved := false }],
      by simp [getAddrRanges, h1, h2, h3]⟩

theorem getAddrRanges_result (c : Ctrl) (ds rs : List AddrRange)
    (h : getAddrRanges c ds = .ok rs) :
    rs = [{ start := 0, end_ := c.cntBorder, interleaved := false }] := by
  unfold getAddrRanges at h
  split at h
  · cases h
  · split at h
    · cases h
    · split at h
      · cases h
      · split at h
        · cases h
        · split at h
          · cases h
          · cases h
            rfl

/-- C8 (counterexample): a single, non-interleaved downstream range that starts
at 0 and ends at `mtBorders[MT_LEVEL-1] + NODE_SPACE = 0x289249240` is fatal
("Bad memory space"), and the one that ends at `mtBorders[MT_LEVEL-1] =
0x289249200` is accepted. -/
theorem getAddrRanges_end_plus_node_space_is_fatal :
    construct.mtBorders.getD (MT_LEVEL - 1) 0 + NODE_SPACE = 0x289249240 ∧
    getAddrRanges construct
        [{ start := 0, end_ := construct.mtBorders.getD (MT_LEVEL - 1) 0 + NODE_SPACE,
           interleaved := false }] = .fatal .badMemorySpace ∧
    getAddrRanges construct [{ start := 0, end_ := 0x289249200, interleaved := false }] =
      .ok [{ start := 0, end_ := 0x200000000, interleaved := false }] := by
  refine ⟨?_, ?_, ?_⟩ <;> rfl

/-- C8 (amended): in every reachable state `getAddrRanges` returns without a
fatal if and only if the data-memory port advertises exactly one range, that
range is not interleaved, it starts at 0 and it ends at `mtBorders[MT_LEVEL-1]`,
which is `0x289249200`; every other downstream range list is fatal. -/
theorem getAddrRanges_succeeds_iff (c : Ctrl) (ds : List AddrRange) (hr : Reachable c) :
    c.mtBorders.getD (MT_LEVEL - 1) 0 = 0x289249200 ∧
    ((∃ rs, getAddrRanges c ds = .ok rs) ↔
      ∃ r, ds = [r] ∧ r.interleaved = false ∧ r.start = 0 ∧
        r.end_ = c.mtBorders.getD (MT_LEVEL - 1) 0) ∧
    ((∃ k, getAddrRanges c ds = .fatal k) ↔
      ¬ ∃ r, ds = [r] ∧ r.interleaved = false ∧ r.start = 0 ∧
        r.end_ = c.mtBorders.getD (MT_LEVEL - 1) 0) := by
  have hb := (reachable_borders hr).2.2
  refine ⟨by rw [hb]; rfl, getAddrRanges_ok_iff c ds, ?_⟩
  rw [← getAddrRanges_ok_iff]
  cases h : getAddrRanges c ds with
  | ok rs => simp
  | fatal k => simp

/-- Witness for C8: the constructed object with the downstream range
`[0, 0x289249200)`. -/
theorem getAddrRanges_succeeds_iff_witness :
    ∃ rs, getAddrRanges construct [{ start := 0, end_ := 0x289249200, interleaved := false }] =
      .ok rs :=
  (getAddrRanges_succeeds_iff construct _ Reachable.construct).2.1.2
    ⟨_, rfl, rfl, rfl, rfl⟩

/-- C9: in every reachable state, whatever the downstream port advertises, a
call of `getAddrRanges` that returns yields exactly one range, `[0, cntBorder)`
with `cntBorder = DATA_SPACE`, so every advertised address is below `cntBorder`. -/
theorem getAddrRanges_hides_metadata (c : Ctrl) (ds rs : List AddrRange) (hr : Reachable c)
    (h : getAddrRanges c ds = .ok rs) :
    rs = [{ start := 0, end_ := DATA_SPACE, interleaved := false }] ∧
    c.cntBorder = DATA_SPACE ∧
    ∀ r ∈ rs, ∀ a, r.start ≤ a → a < r.end_ → a < c.cntBorder := by
  have hb : c.cntBorder = DATA_SPACE := (reachable_borders hr).1
  have hrs := getAddrRanges_result c ds rs h
  rw [hb] at hrs
  refine ⟨hrs, hb, ?_⟩
  intro r hmem a _ ha
  rw [hrs] at hmem
  simp only [List.mem_singleton] at hmem
  rw [hmem] at ha
  rw [hb]
  exact ha

/-- Witness for C9: the object in the middle of a read transaction, asked for its
ranges with the full backing range downstream. -/
theorem getAddrRanges_hides_metadata_witness :
    [({ start := 0, end_ := 0x200000000, interleaved := false } : AddrRange)] =
      [{ start := 0, end_ := DATA_SPACE, interleaved := false }] :=
  (getAddrRanges_hides_metadata readingAt0
    [{ start := 0, end_ := 0x289249200, interleaved := false }]
    [{ start := 0, end_ := 0x200000000, interleaved := false }]
    (Reachable.step construct acceptAll 0 (.timingReq readReq0) Reachable.construct
      (by decide) rfl)
    rfl).1

/-! ## Region layout -/

/-- C10: after construction `cntBorder = DATA_SPACE`, `macBorder = cntBorder +
DATA_SPACE/64`, `mtBorders[0] = macBorder + DATA_SPACE/4`, and for every
`i < MT_LEVEL - 1` the region of level `i` is `mtBorders[i+1] - mtBorders[i] =
NODE_SPACE * 8^(MT_LEVEL-1-i)` bytes long; the borders increase strictly from
`cntBorder` to `mtBorders[MT_LEVEL-1]`, each Merkle region is 8 times the next
one, and the seven Merkle borders are the listed values. -/
theorem construct_layout :
    construct.cntBorder = DATA_SPACE ∧
    construct.macBorder = construct.cntBorder + DATA_SPACE / 64 ∧
    construct.mtBorders.length = MT_LEVEL ∧
    construct.mtBorders.getD 0 0 = construct.macBorder + DATA_SPACE / 4 ∧
    (∀ i, i < MT_LEVEL - 1 →
      construct.mtBorders.getD i 0 < construct.mtBorders.getD (i + 1) 0 ∧
      construct.mtBorders.getD (i + 1) 0 - construct.mtBorders.getD i 0 =
        NODE_SPACE * 8 ^ (MT_LEVEL - 1 - i)) ∧
    construct.cntBorder < construct.macBorder ∧
    construct.macBorder < construct.mtBorders.getD 0 0 ∧
    (∀ i, i < MT_LEVEL - 2 →
      construct.mtBorders.getD (i + 1) 0 - construct.mtBorders.getD i 0 =
        8 * (construct.mtBorders.getD (i + 2) 0 - construct.mtBorders.getD (i + 1) 0)) ∧
    construct.mtBorders =
      [0x288000000, 0x289000000, 0x289200000, 0x289240000, 0x289248000, 0x289249000,
        0x289249200] := by
  decide

/-! ## The verification check -/

theorem mtWalkFinished_iff (mt : List (Option Packet)) (i n : Nat) :
    mtWalkFinished mt i n = true ↔
      (∃ k, i ≤ k ∧ k < i + n ∧ (∃ p, mt.getD k none = some p ∧ p.accessDepth = 0) ∧
        ∀ j, i ≤ j → j < k → ∃ p, mt.getD j none = some p ∧ p.accessDepth ≠ 0) ∨
      (∀ j, i ≤ j → j < i + n → ∃ p, mt.getD j none = some p ∧ p.accessDepth ≠ 0) := by
  induction n generalizing i with
  | zero =>
    simp only [mtWalkFinished, true_iff]
    exact Or.inr (fun j h1 h2 => by omega)
  | succ n ih =>
    unfold mtWalkFinished
    cases hi : mt.getD i none with
    | none =>
      simp only [Bool.false_eq_true, false_iff, not_or]
      constructor
      · rintro ⟨k, hk1, hk2, ⟨p, hp, _⟩, hall⟩
        by_cases hki : k = i
        · subst hki
          rw [hi] at hp
          cases hp
        · obtain ⟨q, hq, _⟩ := hall i (le_refl _) (by omega)
          rw [hi] at hq
          cases hq
      · intro hall
        obtain ⟨q, hq, _⟩ := hall i (le_refl _) (by omega)
        rw [hi] at hq
        cases hq
    | some p =>
      simp only
      by_cases hd : p.accessDepth = 0
      · simp only [hd, if_true, true_iff]
        exact Or.inl ⟨i, le_refl _, by omega, ⟨p, hi, hd⟩, fun j h1 h2 => by omega⟩
      · simp only [hd, if_false]
        rw [ih (i + 1)]
        constructor
        · rintro (⟨k, hk1, hk2, hz, hall⟩ | hall)
          · refine Or.inl ⟨k, by omega, by omega, hz, fun j h1 h2 => ?_⟩
            by_cases hji : j = i
            · subst hji
              exact ⟨p, hi, hd⟩
            · exact hall j (by omega) h2
          · refine Or.inr (fun j h1 h2 => ?_)
            by_cases hji : j = i
            · subst hji
              exact ⟨p, hi, hd⟩
            · exact hall j (by omega) (by omega)
        · rintro (⟨k, hk1, hk2, ⟨q, hq, hqz⟩, hall⟩ | hall)
          · have hki : k ≠ i := by
              rintro rfl
              rw [hi] at hq
              cases hq
              exact hd hqz
            exact Or.inl ⟨k, by omega, by omega, ⟨q, hq, hqz⟩,
              fun j h1 h2 => hall j (by omega) h2⟩
          · exact Or.inr (fun j h1 h2 => hall j (by omega) (by omega))

theorem mtWalkFinished_settled (mt : List (Option Packet)) :
    mtWalkFinished mt 0 (MT_LEVEL - 1) = true ↔ MtLevelsSettled mt := by
  rw [mtWalkFinished_iff]
  unfold MtLevelsSettled
  simp only [Nat.zero_le, true_and, forall_true_left, Nat.zero_add]

theorem sanityCheck_ok (c : Ctrl) (k i n : Nat)
    (hv : ∀ j p, i ≤ j → j < i + n → c.mtPkts.getD j none = some p →
      p.addr = alignDown k (mtNodeAddr c j))
    (hw : mtWalkFinished c.mtPkts i n = true) : sanityCheck c k i n = .ok () := by
  induction n generalizing i with
  | zero => rfl
  | succ n ih =>
    unfold sanityCheck
    unfold mtWalkFinished at hw
    cases hi : c.mtPkts.getD i none with
    | none =>
      rw [hi] at hw
      cases hw
    | some p =>
      rw [hi] at hw
      simp only at hw ⊢
      rw [if_neg (by simpa using hv i p (le_refl _) (by omega) hi)]
      by_cases hd : p.accessDepth = 0
      · rw [if_pos hd]
      · rw [if_neg hd]
        rw [if_neg hd] at hw
        exact ih (i + 1) (fun j q h1 h2 h3 => hv j q (by omega) (by omega) h3) hw

theorem liftRes_apply (r : Res Unit) (c : Ctrl) : liftRes r c = ⟨[], c, r⟩ := by
  cases r <;> rfl

theorem checkRead_eq (c : Ctrl) :
    checkRead c =
      if c.needsResponse = false then ⟨[], c, .fatal .assertFailed⟩
      else if c.responsePkt = none ∨ c.counterPkt = none ∨ c.macPkt = none then ⟨[], c, .ok ()⟩
      else if mtWalkFinished c.mtPkts 0 (MT_LEVEL - 1) = false then ⟨[], c, .ok ()⟩
      else
        match sanityCheck c 6 0 (MT_LEVEL - 1) with
        | .ok _ => ⟨[.schedule .readVerFinished c.chargeTime], c, .ok ()⟩
        | .fatal k => ⟨[], c, .fatal k⟩ := by
  unfold checkRead
  simp only [bind_eq, pure_eq, M.bind_apply, getCtrl_apply, andThen_ok, panic_if_apply,
    prepend_nil, M.ite_apply, M.pure_apply, liftRes_apply, emit_apply]
  cases hn : c.needsResponse <;> simp [andThen_fatal, andThen_ok]
  split
  · rfl
  · split
    · rfl
    · cases hs : sanityCheck c 6 0 (MT_LEVEL - 1) <;>
        simp [andThen_fatal, andThen_ok, liftRes_apply]

theorem checkWrite_eq (c : Ctrl) :
    checkWrite c =
      if c.needsResponse = true ∧ c.responsePkt = none then ⟨[], c, .ok ()⟩
      else if c.counterPkt = none ∨ c.macPkt = none then ⟨[], c, .ok ()⟩
      else if mtWalkFinished c.mtPkts 0 (MT_LEVEL - 1) = false then ⟨[], c, .ok ()⟩
      else
        match sanityCheck c 3 0 (MT_LEVEL - 1) with
        | .ok _ => ⟨[.schedule .writeVerFinished c.chargeTime], c, .ok ()⟩
        | .fatal k => ⟨[], c, .fatal k⟩ := by
  unfold checkWrite
  simp only [bind_eq, pure_eq, M.bind_apply, getCtrl_apply, andThen_ok,
    prepend_nil, M.ite_apply, M.pure_apply, liftRes_apply, emit_apply]
  split
  · rfl
  · split
    · rfl
    · split
      · simp_all
      · cases hs : sanityCheck c 3 0 (MT_LEVEL - 1) <;>
          simp_all [andThen_fatal, andThen_ok, liftRes_apply]

theorem checkRead_ctrl (c : Ctrl) : (checkRead c).ctrl = c := by
  rw [checkRead_eq]
  split
  · rfl
  · split
    · rfl
    · split
      · rfl
      · split <;> rfl

theorem checkWrite_ctrl (c : Ctrl) : (checkWrite c).ctrl = c := by
  rw [checkWrite_eq]
  split
  · rfl
  · split
    · rfl
    · split
      · rfl
      · split <;> rfl

theorem scheduled_nil (ev : Event) : ¬ Scheduled ev [] := by
  rintro ⟨t, h⟩
  cases h

theorem scheduled_singleton (ev : Event) (t : Nat) : Scheduled ev [.schedule ev t] :=
  ⟨t, List.mem_singleton.mpr rfl⟩

/-- The read check schedules `readVerFinished` exactly when it ends normally on
an object that satisfies the read completion condition. -/
theorem checkRead_scheduled (c : Ctrl) :
    Scheduled .readVerFinished (checkRead c).acts ↔
      (checkRead c).res = .ok () ∧ ReadComplete c := by
  rw [checkRead_eq]
  unfold ReadComplete
  rw [← mtWalkFinished_settled]
  split
  · simp [scheduled_nil]
  · split
    · rename_i h
      simp only [scheduled_nil, true_and, false_iff]
      rintro ⟨h1, h2, h3, _⟩
      rcases h with h | h | h
      · exact h1 h
      · exact h2 h
      · exact h3 h
    · split
      · rename_i h
        simp [scheduled_nil, h]
      · rename_i h1 h2 h3
        have h1' : c.responsePkt ≠ none ∧ c.counterPkt ≠ none ∧ c.macPkt ≠ none := by
          simpa [not_or] using h2
        have h3' : mtWalkFinished c.mtPkts 0 (MT_LEVEL - 1) = true := by simpa using h3
        split
        · simp [scheduled_singleton, h1', h3']
        · simp [scheduled_nil]

/-- The write check schedules `writeVerFinished` exactly when it ends normally on
an object that satisfies the write completion condition. -/
theorem checkWrite_scheduled (c : Ctrl) :
    Scheduled .writeVerFinished (checkWrite c).acts ↔
      (checkWrite c).res = .ok () ∧ WriteComplete c := by
  rw [checkWrite_eq]
  unfold WriteComplete
  rw [← mtWalkFinished_settled]
  split
  · rename_i h
    simp only [scheduled_nil, true_and, false_iff]
    rintro ⟨_, _, _, h4⟩
    exact h4 h.1 h.2
  · split
    · rename_i h
      simp only [scheduled_nil, true_and, false_iff]
      rintro ⟨h1, h2, _, _⟩
      rcases h with h | h
      · exact h1 h
      · exact h2 h
    · split
      · rename_i h
        simp [scheduled_nil, h]
      · rename_i h1 h2 h3
        have h2' : c.counterPkt ≠ none ∧ c.macPkt ≠ none := by
          simpa [not_or] using h2
        have h3' : mtWalkFinished c.mtPkts 0 (MT_LEVEL - 1) = true := by simpa using h3
        have h1' : c.needsResponse = true → c.responsePkt ≠ none := by
          intro hn hr
          exact h1 ⟨hn, hr⟩
        split
        · simp only [scheduled_singleton, h2', h3', true_iff]
          exact ⟨trivial, h2'.1, h2'.2, trivial, h1'⟩
        · simp [scheduled_nil]

theorem checkRead_ok (c : Ctrl) (hn : c.needsResponse = true) (hv : MtSlotsValid 6 c) :
    (checkRead c).res = .ok () := by
  rw [checkRead_eq]
  rw [if_neg (by simp [hn])]
  split
  · rfl
  · split
    · rfl
    · rename_i h
      rw [sanityCheck_ok c 6 0 (MT_LEVEL - 1) (fun j p _ h2 h3 => hv j p (by omega) h3)
        (by simpa using h)]

/-! ## Recording a response -/

theorem metaPort_sendPacket_quiet (tr : Transport) (pkt : Packet) (R : Action → Prop)
    (hR : ∀ acc, R (.send .metaPort pkt acc)) :
    Keeps R (fun _ => True) (fun _ => True) (metaPort_sendPacket tr pkt) := by
  intro c _
  simp +contextual [hR]

theorem sendMtPkt_quiet (tr : Transport) (nth : Nat) (isRead : Bool) (R : Action → Prop)
    (hR : ∀ p acc, R (.send .metaPort p acc)) :
    Keeps R (fun _ => True) (fun _ => True) (sendMtPkt tr nth isRead) := by
  unfold sendMtPkt
  apply Keeps.bind_get
  intro c0 _
  exact metaPort_sendPacket_quiet tr _ R (hR _)

theorem notScheduling_send (ev : Event) (port : PortId) (p : Packet) (acc : Bool) :
    NotScheduling ev (.send port p acc) := by
  intro t h
  cases h

/-- Recording a read-path response schedules nothing. -/
theorem recordRead_noSchedule (tr : Transport) (now : Nat) (pkt : Packet) (ev : Event) :
    Keeps (NotScheduling ev) (fun _ => True) (fun _ => True) (recordRead tr now pkt) := by
  unfold recordRead updateChargeTime setMtPkt
  dsimp only
  repeat' (first
      | with_reducible apply Keeps.bind_get
      | with_reducible apply Keeps.ite
      | with_reducible apply Keeps.bind
      | (with_reducible apply Keeps.modify) <;> exact fun c hc => hc
      | (with_reducible apply sendMtPkt_quiet) <;> exact notScheduling_send ev _
      | with_reducible apply Keeps.pure
      | with_reducible intro _
      | split)

/-- Recording a write-path response does not schedule `writeVerFinished`. -/
theorem recordWrite_noSchedule (tr : Transport) (now : Nat) (pkt : Packet) :
    Keeps (NotScheduling .writeVerFinished) (fun _ => True) (fun _ => True)
      (recordWrite tr now pkt) := by
  unfold recordWrite updateChargeTime setMtPkt
  dsimp only
  repeat' (first
      | with_reducible apply Keeps.bind_get
      | with_reducible apply Keeps.ite
      | with_reducible apply Keeps.bind
      | (with_reducible apply Keeps.modify) <;> exact fun c hc => hc
      | (with_reducible apply Keeps.emit) <;> (intro t h; cases h)
      | with_reducible apply Keeps.panic_if (fun _ h => h)
      | (with_reducible apply sendMtPkt_quiet) <;> exact notScheduling_send _ _
      | with_reducible apply Keeps.pure
      | with_reducible intro _
      | split)

theorem not_scheduled_of_sat {α : Type} {o : Outcome α} {ev : Event} {Q : α → Ctrl → Prop}
    {E : Fatal → Ctrl → Prop} (h : o.Sat (NotScheduling ev) Q E) : ¬ Scheduled ev o.acts := by
  rintro ⟨t, ht⟩
  exact h.acts _ ht t rfl

theorem scheduled_append_left {ev : Event} {pre acts : List Action}
    (h : ¬ Scheduled ev pre) : Scheduled ev (pre ++ acts) ↔ Scheduled ev acts := by
  unfold Scheduled at *
  constructor
  · rintro ⟨t, ht⟩
    rcases List.mem_append.mp ht with h1 | h1
    · exact absurd ⟨t, h1⟩ h
    · exact ⟨t, h1⟩
  · rintro ⟨t, ht⟩
    exact ⟨t, List.mem_append.mpr (Or.inr ht)⟩

theorem sendMtPkt_free (tr : Transport) (nth : Nat) (isRead : Bool) (R : Action → Prop)
    (hR : ∀ a, R a) :
    Triple R (fun _ => False) (fun c => c.metaPort.blockedPacket = none)
      (sendMtPkt tr nth isRead) (fun _ _ => True) := by
  intro c hc
  rw [sendMtPkt_eq]
  simp +contextual [hc, hR]

/-- With the metadata port free to send, recording a read-path response ends
normally. -/
theorem recordRead_ok (tr : Transport) (now : Nat) (pkt : Packet) :
    Triple (fun _ => True) (fun _ => False) (fun c => c.metaPort.blockedPacket = none)
      (recordRead tr now pkt) (fun _ _ => True) := by
  unfold recordRead setMtPkt
  dsimp only
  apply Triple.of_get
  intro c0 h0
  refine Triple.weaken (S := fun c => c.metaPort.blockedPacket = none) ?_
    (by rintro c rfl; exact h0) (fun _ _ h => h)
  repeat' (first
      | with_reducible apply Triple.of_get
      | with_reducible apply Triple.of_ite
      | with_reducible apply Triple.of_bind
      | (with_reducible apply Triple.of_modify_keep) <;> exact fun c hc => hc
      | (with_reducible apply updateChargeTime_triple_keep) <;> exact fun c t hc => hc
      | (with_reducible apply updateChargeTime_triple) <;> (intros; exact ⟨trivial, fun _ => trivial⟩)
      | (with_reducible apply sendMtPkt_free) <;> (intros; trivial)
      | with_reducible apply Triple.of_pure_keep
      | (with_reducible apply Triple.of_pure) <;> (intros; trivial)
      | with_reducible intro _
      | split)

theorem getD_set_some {l : List (Option Packet)} {i j : Nat} {pkt p : Packet}
    (h : (l.set i (some pkt)).getD j none = some p) :
    (j = i ∧ p = pkt) ∨ (j ≠ i ∧ l.getD j none = some p) := by
  rw [List.getD_eq_getElem?_getD, List.getElem?_set] at h
  by_cases hji : i = j
  · left
    rw [if_pos hji] at h
    by_cases hlt : i < l.length
    · rw [if_pos hlt] at h
      simp only [Option.getD_some, Option.some.injEq] at h
      exact ⟨hji.symm, h.symm⟩
    · rw [if_neg hlt] at h
      cases h
  · right
    rw [if_neg hji] at h
    rw [List.getD_eq_getElem?_getD]
    exact ⟨fun e => hji e.symm, h⟩

/-- What recording keeps of the Merkle slots: with the Merkle borders `mb` and
the counter offset `co`, every filled slot holds a packet at its level's address
(alignment `k`), and `needsResponse` has the value `nr`. -/
theorem slots_after_set (k : Nat) (mb : List Nat) (co : Nat) (nr : Bool) (i : Nat)
    (pkt : Packet) (c : Ctrl)
    (hp : pkt.addr = alignDown k (add64 (mb.getD i 0) (co >>> ((i + 1) * 3))))
    (hc : c.mtBorders = mb ∧ c.verifiedCntOffs = co ∧ MtSlotsValid k c ∧ c.needsResponse = nr) :
    ({ c with mtPkts := c.mtPkts.set i (some pkt) } : Ctrl).mtBorders = mb ∧
    ({ c with mtPkts := c.mtPkts.set i (some pkt) } : Ctrl).verifiedCntOffs = co ∧
    MtSlotsValid k { c with mtPkts := c.mtPkts.set i (some pkt) } ∧
    ({ c with mtPkts := c.mtPkts.set i (some pkt) } : Ctrl).needsResponse = nr := by
  obtain ⟨h1, h2, h3, h4⟩ := hc
  refine ⟨h1, h2, ?_, h4⟩
  intro j p hj hget
  rcases getD_set_some hget with ⟨rfl, rfl⟩ | ⟨_, hold⟩
  · simp only [mtNodeAddr, h1, h2]
    exact hp
  · exact h3 j p hj hold

theorem setMtPkt_valid {R : Action → Prop} {F : Ctrl → Prop} (k : Nat) (mb : List Nat)
    (co : Nat) (nr : Bool) (i : Nat) (pkt : Packet)
    (hp : pkt.addr = alignDown k (add64 (mb.getD i 0) (co >>> ((i + 1) * 3)))) :
    Triple R F
      (fun c => c.mtBorders = mb ∧ c.verifiedCntOffs = co ∧ MtSlotsValid k c ∧
        c.needsResponse = nr)
      (setMtPkt i pkt)
      (fun _ c => c.mtBorders = mb ∧ c.verifiedCntOffs = co ∧ MtSlotsValid k c ∧
        c.needsResponse = nr) := by
  apply Triple.of_modify
  intro c hc
  exact slots_after_set k mb co nr i pkt c hp hc

theorem sendMtPkt_keeps_of {R : Action → Prop} {F P : Ctrl → Prop} (tr : Transport)
    (nth : Nat) (isRead : Bool) (hR : ∀ a, R a) (hF : ∀ c, P c → F c)
    (hP : ∀ c p, P c → P { c with metaPort := { blockedPacket := some p } }) :
    Triple R F P (sendMtPkt tr nth isRead) (fun _ => P) := by
  intro c hc
  rw [sendMtPkt_eq]
  simp +contextual [hc, hR, hF c hc, hP c _ hc]

/-- Recording a read-path response keeps the Merkle slots valid. -/
theorem recordRead_valid (tr : Transport) (now : Nat) (pkt : Packet) (mb : List Nat)
    (co : Nat) (nr : Bool) :
    Triple (fun _ => True) (fun _ => True)
      (fun c => c.mtBorders = mb ∧ c.verifiedCntOffs = co ∧ MtSlotsValid 6 c ∧
        c.needsResponse = nr)
      (recordRead tr now pkt)
      (fun _ c => c.mtBorders = mb ∧ c.verifiedCntOffs = co ∧ MtSlotsValid 6 c ∧
        c.needsResponse = nr) := by
  unfold recordRead
  dsimp only
  apply Triple.of_get
  intro c0 h0
  refine Triple.weaken (S := fun c => c.mtBorders = mb ∧ c.verifiedCntOffs = co ∧
    MtSlotsValid 6 c ∧ c.needsResponse = nr) ?_ (by rintro c rfl; exact h0) (fun _ _ h => h)
  repeat' (first
      | with_reducible apply Triple.of_get
      | with_reducible apply Triple.of_ite
      | with_reducible apply Triple.of_bind
      | (with_reducible apply Triple.of_modify_keep) <;> exact fun c hc => hc
      | (with_reducible apply updateChargeTime_triple_keep) <;> exact fun c t hc => hc
      | (with_reducible apply updateChargeTime_triple) <;>
          (rintro c rfl; exact ⟨by assumption, fun t => by assumption⟩)
      | with_reducible apply setMtPkt_valid
      | (with_reducible apply sendMtPkt_keeps_of) <;> (intros; trivial)
      | with_reducible apply Triple.of_pure_keep
      | (with_reducible apply Triple.of_pure) <;> (rintro c rfl; assumption)
      | with_reducible intro _
      | split)
  all_goals
    obtain ⟨hmb, hco, -, -⟩ := h0
    subst hmb hco
    first
      | assumption
      | exact of_decide_eq_true (firstHit_some ‹firstHit _ _ _ = some _›).2.2.1

/-! ## Read completion law -/

theorem handleResponse_read (tr : Transport) (now : Nat) (pkt : Packet) (c : Ctrl)
    (hs : c.state = .Read) :
    handleResponse tr now pkt c = (recordRead tr now pkt c).andThen (fun _ => checkRead) := by
  unfold handleResponse
  simp [hs, andThen_ok]

/-- C2: for every call of `handleResponse` in state `Read`, the call schedules
`readVerFinished` if and only if it ends normally and, in the object it leaves
(the response recorded), `responsePkt`, `counterPkt` and `macPkt` are set and
every `mtPkts[i]` is set up to and including the first level whose packet
reports access depth zero (all `MT_LEVEL - 1` levels when none does).  The call
does end normally whenever `needsResponse` holds, every filled Merkle slot holds
a packet at its level's read address, and the metadata port's blocked slot is
empty. -/
theorem handleResponse_read_completion (tr : Transport) (now : Nat) (pkt : Packet) (c : Ctrl)
    (hs : c.state = .Read) :
    (Scheduled .readVerFinished (handleResponse tr now pkt c).acts ↔
      (handleResponse tr now pkt c).res = .ok () ∧
        ReadComplete (handleResponse tr now pkt c).ctrl) ∧
    (c.needsResponse = true → MtSlotsValid 6 c → c.metaPort.blockedPacket = none →
      (handleResponse tr now pkt c).res = .ok ()) := by
  rw [handleResponse_read tr now pkt c hs]
  have hns : ¬ Scheduled .readVerFinished (recordRead tr now pkt c).acts :=
    not_scheduled_of_sat (recordRead_noSchedule tr now pkt .readVerFinished c trivial)
  cases hres : (recordRead tr now pkt c).res with
  | ok v =>
    rw [andThen_of_ok _ hres]
    simp only [prepend_acts, prepend_res, prepend_ctrl, checkRead_ctrl]
    refine ⟨?_, fun hn hv _ => ?_⟩
    · rw [scheduled_append_left hns]
      exact checkRead_scheduled _
    · have hpost := (recordRead_valid tr now pkt c.mtBorders c.verifiedCntOffs true c
        ⟨rfl, rfl, hv, hn⟩).ok_post hres
      exact checkRead_ok _ hpost.2.2.2 hpost.2.2.1
  | fatal k =>
    rw [andThen_of_fatal _ hres]
    refine ⟨?_, fun _ _ hfree => ?_⟩
    · simp only [hns, false_iff]
      rintro ⟨h, _⟩
      cases h
    · obtain ⟨v, hv⟩ := (recordRead_ok tr now pkt c hfree).res_ok
      rw [hres] at hv
      cases hv

/-- Witness for C2 (scenario S1): the read of address 0 has its data, counter
and MAC responses; the level-0 Merkle response arrives with access depth zero
and the call schedules `readVerFinished`. -/
theorem handleResponse_read_completion_witness :
    Scheduled .readVerFinished
      (handleResponse acceptAll 4000 (respAt 0x288000000 64 true 0) readingAwaitingMt).acts :=
  (handleResponse_read_completion acceptAll 4000 (respAt 0x288000000 64 true 0)
    readingAwaitingMt rfl).1.2
    ⟨rfl, by decide, by decide, by decide,
      Or.inl ⟨0, by decide, ⟨respAt 0x288000000 64 true 0, rfl, rfl⟩, fun i hi => by omega⟩⟩

/-! ## Write completion law -/

theorem firstHit_none_of_not {p : Nat → Bool} {lo n : Nat} (h : ∀ j, lo ≤ j → j < lo + n → p j = false) :
    firstHit p lo n = none := by
  cases hc : firstHit p lo n with
  | none => rfl
  | some i =>
    obtain ⟨h1, h2, h3, _⟩ := firstHit_some hc
    rw [h i h1 h2] at h3
    cases h3

theorem not_deferred_data {c : Ctrl} {pkt : Packet} (h : pkt.addr = c.verifiedPktAddr) :
    true = false ↔ WriteCheckDeferred c pkt := by
  simp only [Bool.true_eq_false, false_iff]
  rintro ⟨⟨h1, _, _⟩, _⟩
  exact h1 h

theorem not_deferred_cnt {c : Ctrl} {pkt : Packet}
    (h : pkt.addr = add64 c.cntBorder c.verifiedCntOffs) :
    true = false ↔ WriteCheckDeferred c pkt := by
  simp only [Bool.true_eq_false, false_iff]
  rintro ⟨⟨_, h2, _⟩, _⟩
  exact h2 h

theorem not_deferred_mac {c : Ctrl} {pkt : Packet}
    (h : pkt.addr = add64 c.macBorder (shl64 c.verifiedCntOffs 4)) :
    true = false ↔ WriteCheckDeferred c pkt := by
  simp only [Bool.true_eq_false, false_iff]
  rintro ⟨⟨_, _, h3⟩, _⟩
  exact h3 h

theorem deferred_read_hit {c : Ctrl} {pkt : Packet} {i : Nat}
    (h1 : ¬pkt.addr = c.verifiedPktAddr)
    (h2 : ¬pkt.addr = add64 c.cntBorder c.verifiedCntOffs)
    (h3 : ¬pkt.addr = add64 c.macBorder (shl64 c.verifiedCntOffs 4))
    (hr : pkt.isRead = true)
    (hf : firstHit (fun i => decide (pkt.addr = alignDown 6 (mtNodeAddr c i))) 0 (MT_LEVEL - 2) =
      some i) :
    false = false ↔ WriteCheckDeferred c pkt := by
  simp only [true_iff]
  obtain ⟨_, hi, hp, _⟩ := firstHit_some hf
  exact ⟨⟨h1, h2, h3⟩, Or.inl ⟨hr, i, by omega, of_decide_eq_true hp⟩⟩

theorem not_deferred_read_none {c : Ctrl} {pkt : Packet} (hr : pkt.isRead = true)
    (hf : firstHit (fun i => decide (pkt.addr = alignDown 6 (mtNodeAddr c i))) 0 (MT_LEVEL - 2) =
      none) :
    true = false ↔ WriteCheckDeferred c pkt := by
  simp only [Bool.true_eq_false, false_iff]
  rintro ⟨_, ⟨_, i, hi, hp⟩ | ⟨hw, _⟩⟩
  · have := firstHit_none hf i (Nat.zero_le _) (by omega)
    simp [hp] at this
  · rw [hr] at hw
    cases hw

theorem not_deferred_write_zero {c : Ctrl} {pkt : Packet} (hr : ¬pkt.isRead = true)
    (hd : pkt.accessDepth = 0) : true = false ↔ WriteCheckDeferred c pkt := by
  simp only [Bool.true_eq_false, false_iff]
  rintro ⟨_, ⟨hr2, _⟩ | ⟨_, hd2, _⟩⟩
  · exact hr hr2
  · exact hd2 hd

theorem deferred_write_hit {c : Ctrl} {pkt : Packet} {i : Nat}
    (h1 : ¬pkt.addr = c.verifiedPktAddr)
    (h2 : ¬pkt.addr = add64 c.cntBorder c.verifiedCntOffs)
    (h3 : ¬pkt.addr = add64 c.macBorder (shl64 c.verifiedCntOffs 4))
    (hr : ¬pkt.isRead = true)
    (hf : firstHit (fun i => decide (pkt.addr = alignDown 3 (mtNodeAddr c i))) 0 (MT_LEVEL - 1) =
      some i)
    (hd : ¬pkt.accessDepth = 0) :
    false = false ↔ WriteCheckDeferred c pkt := by
  simp only [true_iff]
  obtain ⟨_, hi, hp, _⟩ := firstHit_some hf
  exact ⟨⟨h1, h2, h3⟩, Or.inr ⟨by simpa using hr, hd, i, by omega, of_decide_eq_true hp⟩⟩

theorem not_deferred_write_none {c : Ctrl} {pkt : Packet} (hr : ¬pkt.isRead = true)
    (hf : firstHit (fun i => decide (pkt.addr = alignDown 3 (mtNodeAddr c i))) 0 (MT_LEVEL - 1) =
      none) :
    true = false ↔ WriteCheckDeferred c pkt := by
  simp only [Bool.true_eq_false, false_iff]
  rintro ⟨_, ⟨hr2, _⟩ | ⟨_, _, i, hi, hp⟩⟩
  · exact hr hr2
  · have := firstHit_none hf i (Nat.zero_le _) (by omega)
    simp [hp] at this

/-- The function `recordWrite` returns `false` (the C++ `return`s from inside the first
`switch`) exactly for the two kinds of deferred response. -/
theorem recordWrite_deferred (tr : Transport) (now : Nat) (pkt : Packet) (c : Ctrl) :
    Triple (fun _ => True) (fun _ => True) (fun c' => c' = c) (recordWrite tr now pkt)
      (fun b _ => (b = false ↔ WriteCheckDeferred c pkt)) := by
  unfold recordWrite setMtPkt
  dsimp only
  apply Triple.of_get
  intro c0 h0
  subst h0
  refine Triple.weaken (S := fun _ => True) (T := fun b _ => (b = false ↔ WriteCheckDeferred c0 pkt))
    ?_ (fun _ _ => trivial) (fun _ _ h => h)
  repeat' (first
      | with_reducible apply Triple.of_ite
      | with_reducible apply Triple.of_bind
      | (with_reducible apply Triple.of_modify_keep) <;> exact fun c hc => hc
      | (with_reducible apply Triple.of_emit_keep) <;> trivial
      | (with_reducible apply Triple.of_panic_if_keep) <;> (intros; trivial)
      | (with_reducible apply updateChargeTime_triple_keep) <;> exact fun c t hc => hc
      | (with_reducible apply sendMtPkt_keeps_of) <;> (intros; trivial)
      | with_reducible apply Triple.of_pure
      | with_reducible intro _
      | split)
  all_goals first
    | exact not_deferred_data (by assumption)
    | exact not_deferred_cnt (by assumption)
    | exact not_deferred_mac (by assumption)
    | exact deferred_read_hit (by assumption) (by assumption) (by assumption) (by assumption)
        (by assumption)
    | exact not_deferred_read_none (by assumption) (by assumption)
    | exact not_deferred_write_zero (by assumption) (by assumption)
    | exact deferred_write_hit (by assumption) (by assumption) (by assumption) (by assumption)
        (by assumption) (by assumption)
    | exact not_deferred_write_none (by assumption) (by assumption)

theorem handleResponse_write (tr : Transport) (now : Nat) (pkt : Packet) (c : Ctrl)
    (hs : c.state = .Write) :
    handleResponse tr now pkt c =
      (recordWrite tr now pkt c).andThen (fun b => if b = true then checkWrite else M.pure ()) := by
  unfold handleResponse
  simp [hs, andThen_ok]

/-- C3 (amended): for every call of `handleResponse` in state `Write`, the call
schedules `writeVerFinished` if and only if it ends normally, the response is not
one of the two kinds after which the handler returns before its check (a probe
read response of a level below `MT_LEVEL - 2`, or a Merkle write response with
non-zero access depth, for which the probe read is issued), and in the object it
leaves `counterPkt` and `macPkt` are set, every `mtPkts[i]` is set up to the
first level that reports access depth zero, and `responsePkt` is set whenever the
request required a response (it is not demanded otherwise). -/
theorem handleResponse_write_completion (tr : Transport) (now : Nat) (pkt : Packet) (c : Ctrl)
    (hs : c.state = .Write) :
    Scheduled .writeVerFinished (handleResponse tr now pkt c).acts ↔
      (handleResponse tr now pkt c).res = .ok () ∧ ¬ WriteCheckDeferred c pkt ∧
        WriteComplete (handleResponse tr now pkt c).ctrl := by
  rw [handleResponse_write tr now pkt c hs]
  have hns : ¬ Scheduled .writeVerFinished (recordWrite tr now pkt c).acts :=
    not_scheduled_of_sat (recordWrite_noSchedule tr now pkt c trivial)
  cases hres : (recordWrite tr now pkt c).res with
  | ok b =>
    have hb := (recordWrite_deferred tr now pkt c c rfl).ok_post hres
    rw [andThen_of_ok _ hres]
    cases b with
    | false =>
      have hd : WriteCheckDeferred c pkt := hb.mp rfl
      simp [hns, hd]
    | true =>
      have hd : ¬ WriteCheckDeferred c pkt := fun h => by
        have := hb.mpr h
        cases this
      simp only [if_true, prepend_acts, prepend_res, prepend_ctrl, checkWrite_ctrl]
      rw [scheduled_append_left hns, checkWrite_scheduled]
      simp [hd]
  | fatal k =>
    rw [andThen_of_fatal _ hres]
    simp only [hns, false_iff]
    rintro ⟨h, _⟩
    cases h

set_option maxRecDepth 100000 in
/-- Witness for C3 (amended): after the level-5 write response of `writeTrace`
the probe read response of level 5 arrives, and that call schedules
`writeVerFinished`. -/
theorem handleResponse_write_completion_witness :
    Scheduled .writeVerFinished
      (handleResponse acceptAll 542000 (respAt 0x289249000 64 true 1)
        (handleResponse acceptAll 541000 (respAt 0x289249000 8 false 1)
          writingAwaitingLast).ctrl).acts := by
  refine (handleResponse_write_completion acceptAll 542000 (respAt 0x289249000 64 true 1)
    (handleResponse acceptAll 541000 (respAt 0x289249000 8 false 1) writingAwaitingLast).ctrl
    (by rfl)).2 ⟨by rfl, ?_, by decide, by decide, Or.inr (fun i hi => ?_), fun _ => by decide⟩
  · rintro ⟨_, ⟨_, i, hi, h⟩ | ⟨h, _⟩⟩
    · have hi5 : i < 5 := hi
      interval_cases i <;> revert h <;> decide
    · cases h
  · have hi6 : i < 6 := hi
    interval_cases i <;> exact ⟨_, by rfl, by decide⟩

set_option maxRecDepth 100000 in
/-- C3 (counterexample): the write of address 0 (response required) of
`writeTrace` runs without a fatal; no Merkle write reported access depth zero.
When the level-5 (`MT_LEVEL - 2`) write response arrives with access depth 1,
the object it leaves satisfies the whole completion condition, yet the call
schedules nothing: it issues the 64-byte probe read of level 5 and returns.
`writeVerFinished` is scheduled by the next call, the one that handles the
probe read response. -/
theorem write_completion_not_scheduled_at_last_level :
    runInputs acceptAll writeTrace construct = .ok writingAwaitingLast ∧
    writingAwaitingLast.state = .Write ∧
    (handleResponse acceptAll 541000 (respAt 0x289249000 8 false 1) writingAwaitingLast).res =
      .ok () ∧
    WriteComplete
      (handleResponse acceptAll 541000 (respAt 0x289249000 8 false 1) writingAwaitingLast).ctrl ∧
    (handleResponse acceptAll 541000 (respAt 0x289249000 8 false 1) writingAwaitingLast).acts =
      [.send .metaPort
        { addr := 0x289249000, size := 64, isRead := true, flags := 0, requestorId := 0,
          needsResponse := true, accessDepth := 0 } true] ∧
    ¬ Scheduled .writeVerFinished
      (handleResponse acceptAll 541000 (respAt 0x289249000 8 false 1) writingAwaitingLast).acts ∧
    (handleResponse acceptAll 542000 (respAt 0x289249000 64 true 1)
        (handleResponse acceptAll 541000 (respAt 0x289249000 8 false 1)
          writingAwaitingLast).ctrl).acts =
      [.schedule .writeVerFinished 622000] := by
  refine ⟨by rfl, by rfl, by rfl,
    ⟨by decide, by decide, Or.inr (fun i hi => ?_), fun _ => by decide⟩, by rfl, ?_, by rfl⟩
  · have hi6 : i < 6 := hi
    interval_cases i <;> exact ⟨_, by rfl, by decide⟩
  · have hacts : (handleResponse acceptAll 541000 (respAt 0x289249000 8 false 1)
        writingAwaitingLast).acts =
      [.send .metaPort
        { addr := 0x289249000, size := 64, isRead := true, flags := 0, requestorId := 0,
          needsResponse := true, accessDepth := 0 } true] := by rfl
    rw [hacts]
    rintro ⟨t, ht⟩
    simp at ht

/-! ## Closed form of the Merkle borders -/

/-- C11 (amended): after construction, for every level `i ≤ MT_LEVEL - 1`,
`mtBorders[i] = macBorder + DATA_SPACE/4` plus the sum of `NODE_SPACE * 8^(k+1)`
over the `k` with `MT_LEVEL-1-i ≤ k < MT_LEVEL-1`; equivalently, plus the sizes
`NODE_SPACE * 8^(MT_LEVEL-1-j)` of the regions of the levels `j < i`. -/
theorem mtBorders_closed_form (i : Nat) (hi : i ≤ MT_LEVEL - 1) :
    construct.mtBorders.getD i 0 = loopMtBorder construct.macBorder i ∧
    construct.mtBorders.getD i 0 = construct.macBorder + DATA_SPACE / 4 + regionsBelow i := by
  have h : i < 7 := Nat.lt_succ_of_le hi
  interval_cases i <;> decide

/-- Witness for C11 (amended): level 3, whose border is `0x289240000`. -/
theorem mtBorders_closed_form_witness :
    construct.mtBorders.getD 3 0 = loopMtBorder construct.macBorder 3 ∧
    loopMtBorder construct.macBorder 3 = 0x289240000 :=
  ⟨(mtBorders_closed_form 3 (by decide)).1, by decide⟩

/-- C11 (counterexample): the closed form with the sum over `k < L-1-i` gives
`0x289249200` for level 0 and `0x288000000` for level `L-1`, the constructor
computes `0x288000000` for level 0 and `0x289249200` for level `L-1`. -/
theorem mtBorders_spec_form_fails :
    construct.mtBorders.getD 0 0 = 0x288000000 ∧
    specMtBorder construct.macBorder 0 = 0x289249200 ∧
    construct.mtBorders.getD (MT_LEVEL - 1) 0 = 0x289249200 ∧
    specMtBorder construct.macBorder (MT_LEVEL - 1) = 0x288000000 ∧
    ¬ (∀ i, i ≤ MT_LEVEL - 1 →
      construct.mtBorders.getD i 0 = specMtBorder construct.macBorder i) := by
  refine ⟨by decide, by decide, by decide, by decide, fun h => ?_⟩
  exact absurd (h 0 (by decide)) (by decide)

/-! ## Properties kept by the memory-side handlers -/

theorem updateChargeTime_apply (t : Nat) (c : Ctrl) :
    updateChargeTime t c = ⟨[], chargedAt t c, .ok ()⟩ := rfl

theorem chargedAt_chargeTime (t : Nat) (c : Ctrl) :
    (chargedAt t c).chargeTime = max c.chargeTime t := by
  unfold chargedAt
  split
  · simp only
    omega
  · omega

section StableRules
variable {I : Ctrl → Prop}

theorem metaPort_sendPacket_stable (tr : Transport) (pkt : Packet) (hI : Stable I) :
    Keeps MemSide I I (metaPort_sendPacket tr pkt) := by
  intro c hc
  have h := hI.1 c pkt hc
  simp +contextual [hc, h, MemSide]

theorem memPort_sendPacket_stable (tr : Transport) (pkt : Packet) (hI : Stable I) :
    Keeps MemSide I I (memPort_sendPacket tr pkt) := by
  intro c hc
  have h := hI.2.1 c pkt hc
  simp +contextual [hc, h, MemSide]

theorem updateChargeTime_stable (t : Nat) (hC : StableCharge I) :
    Keeps MemSide I I (updateChargeTime t) := by
  apply Keeps.modify
  intro c hc
  split
  · exact hC c t hc ‹_›
  · exact hc

theorem setMtPkt_stable (i : Nat) (pkt : Packet) (hI : Stable I) :
    Keeps MemSide I I (setMtPkt i pkt) :=
  Keeps.modify (fun c hc => hI.2.2.2.2 c i pkt hc)

theorem sendCntPkt_stable (tr : Transport) (isRead : Bool) (hI : Stable I) :
    Keeps MemSide I I (sendCntPkt tr isRead) :=
  Keeps.bind_get (fun _ _ => metaPort_sendPacket_stable tr _ hI)

theorem sendMacPkt_stable (tr : Transport) (isRead : Bool) (hI : Stable I) :
    Keeps MemSide I I (sendMacPkt tr isRead) :=
  Keeps.bind_get (fun _ _ => metaPort_sendPacket_stable tr _ hI)

theorem sendMtPkt_stable (tr : Transport) (nth : Nat) (isRead : Bool) (hI : Stable I) :
    Keeps MemSide I I (sendMtPkt tr nth isRead) :=
  Keeps.bind_get (fun _ _ => metaPort_sendPacket_stable tr _ hI)

theorem processSendMacWrite_stable (tr : Transport) (hI : Stable I) :
    Keeps MemSide I I (processSendMacWrite tr) :=
  Keeps.bind (sendMacPkt_stable tr false hI) (fun _ => Keeps.pure _)

theorem processSendNextMtWrite_stable (tr : Transport) (hI : Stable I) :
    Keeps MemSide I I (processSendNextMtWrite tr) := by
  unfold processSendNextMtWrite
  apply Keeps.bind_get
  intro c0 _
  split
  · exact Keeps.bind (sendMtPkt_stable tr _ false hI) (fun _ => Keeps.pure _)
  · exact Keeps.fatal (fun _ h => h) _

theorem handleRequestRetry_stable (tr : Transport) (pkt : Packet) (c0 : Ctrl) (hI : Stable I) :
    Keeps MemSide I I (handleRequestRetry tr pkt c0) := by
  unfold handleRequestRetry
  repeat' (first
      | with_reducible apply Keeps.ite
      | with_reducible apply Keeps.bind
      | with_reducible apply metaPort_sendPacket_stable tr _ hI
      | with_reducible apply memPort_sendPacket_stable tr _ hI
      | with_reducible apply Keeps.fatal (fun _ h => h)
      | with_reducible apply Keeps.pure
      | with_reducible intro _
      | split)

/-- Recording a read-path response keeps every stable property that also
survives `responsePkt` being set. -/
theorem recordRead_stable (tr : Transport) (now : Nat) (pkt : Packet) (hI : Stable I)
    (hC : StableCharge I) (hresp : ∀ c p, I c → I { c with responsePkt := some p }) :
    Keeps MemSide I I (recordRead tr now pkt) := by
  have hcnt := hI.2.2.1
  have hmac := hI.2.2.2.1
  unfold recordRead
  dsimp only
  repeat' (first
      | with_reducible apply Keeps.bind_get
      | with_reducible apply Keeps.ite
      | with_reducible apply Keeps.bind
      | with_reducible exact Keeps.modify (fun c hc => hresp c pkt hc)
      | with_reducible exact Keeps.modify (fun c hc => hcnt c pkt hc)
      | with_reducible exact Keeps.modify (fun c hc => hmac c pkt hc)
      | with_reducible apply updateChargeTime_stable _ hC
      | with_reducible apply setMtPkt_stable _ _ hI
      | with_reducible apply sendMtPkt_stable _ _ _ hI
      | with_reducible apply Keeps.pure
      | with_reducible intro _
      | split)

/-- Recording a write-path response keeps every stable property that also
survives `responsePkt` being set while `needsResponse` holds. -/
theorem recordWrite_stable (tr : Transport) (now : Nat) (pkt : Packet) (hI : Stable I)
    (hC : StableCharge I)
    (hresp : ∀ c p, I c → c.needsResponse = true → I { c with responsePkt := some p }) :
    Keeps MemSide I I (recordWrite tr now pkt) := by
  have hcnt := hI.2.2.1
  have hmac := hI.2.2.2.1
  intro c hc
  have key : Triple MemSide I (fun c1 => c1 = c) (recordWrite tr now pkt) (fun _ => I) := by
    unfold recordWrite
    dsimp only
    apply Triple.of_get
    rintro c0 rfl
    apply Triple.of_ite
    · intro _
      rintro c1 rfl
      cases hn : c1.needsResponse
      · simpa [andThen_fatal] using hc
      · have h1 := hresp c1 pkt hc hn
        have h2 := updateChargeTime_stable now hC _ h1
        simpa [andThen_ok, updateChargeTime_apply] using h2
    · intro _
      refine Triple.weaken (S := I) (T := fun _ => I) ?_ (by rintro c1 rfl; exact hc)
        (fun _ _ h => h)
      show Keeps MemSide I I _
      repeat' (first
        | with_reducible apply Keeps.ite
        | with_reducible apply Keeps.bind
        | with_reducible exact Keeps.modify (fun c hc => hcnt c pkt hc)
        | with_reducible exact Keeps.modify (fun c hc => hmac c pkt hc)
        | (with_reducible apply Keeps.emit) <;> trivial
        | with_reducible apply Keeps.panic_if (fun _ h => h)
        | with_reducible apply updateChargeTime_stable _ hC
        | with_reducible apply setMtPkt_stable _ _ hI
        | with_reducible apply sendMtPkt_stable _ _ _ hI
        | with_reducible apply Keeps.pure
        | with_reducible intro _
        | split)
  exact key c rfl

end StableRules

section StableHandlers
variable {I : Ctrl → Prop}

theorem checkRead_stable : Keeps MemSide I I checkRead := by
  intro c hc
  rw [checkRead_eq]
  split
  · exact ⟨by simp, hc⟩
  · split
    · exact ⟨by simp, hc⟩
    · split
      · exact ⟨by simp, hc⟩
      · split
        · exact ⟨by simp [MemSide], hc⟩
        · exact ⟨by simp, hc⟩

theorem checkWrite_stable : Keeps MemSide I I checkWrite := by
  intro c hc
  rw [checkWrite_eq]
  split
  · exact ⟨by simp, hc⟩
  · split
    · exact ⟨by simp, hc⟩
    · split
      · exact ⟨by simp, hc⟩
      · split
        · exact ⟨by simp [MemSide], hc⟩
        · exact ⟨by simp, hc⟩

/-- The response handler keeps every stable property that survives a later
`chargeTime` and `responsePkt` being set. -/
theorem handleResponse_stable (tr : Transport) (now : Nat) (pkt : Packet) (hI : Stable I)
    (hC : StableCharge I) (hresp : ∀ c p, I c → I { c with responsePkt := some p }) :
    Keeps MemSide I I (handleResponse tr now pkt) := by
  unfold handleResponse
  apply Keeps.bind_get
  intro c0 _
  split
  · exact Keeps.fatal (fun _ h => h) _
  · exact Keeps.bind (recordRead_stable tr now pkt hI hC hresp) (fun _ => checkRead_stable)
  · refine Keeps.bind (recordWrite_stable tr now pkt hI hC (fun c p h _ => hresp c p h))
      (fun b => ?_)
    exact Keeps.ite (fun _ => checkWrite_stable) (fun _ => Keeps.pure _)

theorem handleRequest_busy (tr : Transport) (pkt : Packet) (c : Ctrl) (h : c.state ≠ .Idle) :
    handleRequest tr pkt c = handleRequestRetry tr pkt c c := by
  unfold handleRequest
  cases hs : c.state with
  | Idle => exact absurd hs h
  | Read => simp [hs, andThen_ok]
  | Write => simp [hs, andThen_ok]

end StableHandlers

/-! ## `chargeTime` -/

section Charge
variable (P : Nat → Prop)

theorem stable_charge : Stable (fun c => P c.chargeTime) :=
  ⟨fun _ _ h => h, fun _ _ h => h, fun _ _ h => h, fun _ _ h => h, fun _ _ _ h => h⟩

theorem cpuSidePort_sendPacket_charge (tr : Transport) (pkt : Packet) :
    Keeps (fun _ => True) (fun c => P c.chargeTime) (fun c => P c.chargeTime)
      (CPUSidePort.sendPacket tr pkt) := by
  intro c hc
  simp +contextual [hc]

theorem sendResponsePkt_charge (tr : Transport) :
    Keeps (fun _ => True) (fun c => P c.chargeTime) (fun c => P c.chargeTime)
      (sendResponsePkt tr) := by
  unfold sendResponsePkt
  apply Keeps.bind_get
  intro c0 _
  split
  · exact Keeps.bind (Keeps.panic_if (fun _ h => h) _ _) (fun _ => Keeps.fatal (fun _ h => h) _)
  · exact cpuSidePort_sendPacket_charge P tr _

theorem trySendRetryReq_charge :
    Keeps (fun _ => True) (fun c => P c.chargeTime) (fun c => P c.chargeTime)
      CPUSidePort.trySendRetryReq := by
  unfold CPUSidePort.trySendRetryReq
  repeat' (first
      | with_reducible apply Keeps.bind_get
      | with_reducible apply Keeps.ite
      | with_reducible apply Keeps.bind
      | (with_reducible apply Keeps.modify) <;> exact fun c hc => hc
      | (with_reducible apply Keeps.emit) <;> trivial
      | with_reducible apply Keeps.pure
      | with_reducible intro _)

theorem clearTransaction_charge :
    Keeps (fun _ => True) (fun c => P c.chargeTime) (fun c => P c.chargeTime)
      clearTransaction :=
  Keeps.modify (fun _ h => h)

theorem processReadVerFinished_charge (tr : Transport) :
    Keeps (fun _ => True) (fun c => P c.chargeTime) (fun c => P c.chargeTime)
      (processReadVerFinished tr) := by
  unfold processReadVerFinished
  repeat' (first
      | with_reducible apply Keeps.ite
      | with_reducible apply Keeps.bind
      | with_reducible apply sendResponsePkt_charge
      | with_reducible apply clearTransaction_charge
      | with_reducible apply trySendRetryReq_charge
      | with_reducible apply Keeps.pure
      | with_reducible intro _)

theorem processWriteVerFinished_charge (tr : Transport) :
    Keeps (fun _ => True) (fun c => P c.chargeTime) (fun c => P c.chargeTime)
      (processWriteVerFinished tr) := by
  unfold processWriteVerFinished
  repeat' (first
      | with_reducible apply Keeps.bind_get
      | with_reducible apply Keeps.ite
      | with_reducible apply Keeps.bind
      | with_reducible apply sendResponsePkt_charge
      | with_reducible apply clearTransaction_charge
      | with_reducible apply trySendRetryReq_charge
      | with_reducible apply Keeps.pure
      | with_reducible intro _)

theorem keeps_memSide_weaken {α : Type} {I : Ctrl → Prop} {m : M α} (h : Keeps MemSide I I m) :
    Keeps (fun _ => True) I I m :=
  fun c hc => (h c hc).mono (fun _ _ => trivial) (fun _ _ h => h) (fun _ _ h => h)

theorem handleRequestIdle_charge (tr : Transport) (pkt : Packet) :
    Keeps (fun _ => True) (fun c => P c.chargeTime) (fun c => P c.chargeTime)
      (handleRequestIdle tr pkt) := by
  unfold handleRequestIdle
  repeat' (first
      | with_reducible apply Keeps.ite
      | with_reducible apply Keeps.bind
      | (with_reducible apply Keeps.modify) <;> exact fun c hc => hc
      | with_reducible exact keeps_memSide_weaken (memPort_sendPacket_stable tr _ (stable_charge P))
      | with_reducible exact keeps_memSide_weaken (sendCntPkt_stable tr _ (stable_charge P))
      | with_reducible exact keeps_memSide_weaken (sendMacPkt_stable tr _ (stable_charge P))
      | with_reducible exact keeps_memSide_weaken (sendMtPkt_stable tr _ _ (stable_charge P))
      | with_reducible apply Keeps.pure
      | with_reducible intro _)

theorem handleRequest_charge (tr : Transport) (pkt : Packet) :
    Keeps (fun _ => True) (fun c => P c.chargeTime) (fun c => P c.chargeTime)
      (handleRequest tr pkt) := by
  unfold handleRequest
  apply Keeps.bind_get
  intro c0 _
  split
  · exact handleRequestIdle_charge P tr pkt
  · exact keeps_memSide_weaken (handleRequestRetry_stable tr pkt c0 (stable_charge P))

/-- The callbacks that do not go through the response handler leave `chargeTime`
in whatever set `P` it was in. -/
theorem step_charge_other (tr : Transport) (now : Nat) (inp : Input)
    (h1 : ∀ pkt, inp ≠ .timingResp pkt) (h2 : inp ≠ .respRetry) :
    Keeps (fun _ => True) (fun c => P c.chargeTime) (fun c => P c.chargeTime)
      (step tr now inp) := by
  cases inp with
  | timingReq pkt =>
    unfold step recvTimingReq
    repeat' (first
      | with_reducible apply Keeps.bind_get
      | with_reducible apply Keeps.ite
      | with_reducible apply Keeps.bind
      | (with_reducible apply Keeps.modify) <;> exact fun c hc => hc
      | with_reducible apply handleRequest_charge
      | with_reducible apply Keeps.pure
      | with_reducible intro _)
  | timingResp pkt => exact absurd rfl (h1 pkt)
  | memReqRetry =>
    unfold step memPort_recvReqRetry
    apply Keeps.bind_get
    intro c0 _
    split
    · exact Keeps.fatal (fun _ h => h) _
    · exact Keeps.bind (Keeps.modify (fun _ h => h)) (fun _ => handleRequest_charge P tr _)
  | metaReqRetry =>
    unfold step metaPort_recvReqRetry
    apply Keeps.bind_get
    intro c0 _
    split
    · exact Keeps.fatal (fun _ h => h) _
    · exact Keeps.bind (Keeps.modify (fun _ h => h)) (fun _ => handleRequest_charge P tr _)
  | respRetry => exact absurd rfl h2
  | fire ev =>
    cases ev with
    | readVerFinished => exact processReadVerFinished_charge P tr
    | sendMacWrite => exact keeps_memSide_weaken (processSendMacWrite_stable tr (stable_charge P))
    | sendNextMtWrite =>
      exact keeps_memSide_weaken (processSendNextMtWrite_stable tr (stable_charge P))
    | writeVerFinished => exact processWriteVerFinished_charge P tr

/-- Every callback keeps a lower bound on `chargeTime`. -/
theorem step_charge_mono (tr : Transport) (now : Nat) (inp : Input) (t0 : Nat) :
    Keeps (fun _ => True) (fun c => t0 ≤ c.chargeTime) (fun c => t0 ≤ c.chargeTime)
      (step tr now inp) := by
  have hC : StableCharge (fun c => t0 ≤ c.chargeTime) := by
    intro c t h1 h2
    exact le_trans h1 (le_of_lt h2)
  have hresp : ∀ pkt, Keeps (fun _ => True) (fun c => t0 ≤ c.chargeTime)
      (fun c => t0 ≤ c.chargeTime) (handleResponse tr now pkt) := fun pkt =>
    keeps_memSide_weaken
      (handleResponse_stable tr now pkt (stable_charge (fun t => t0 ≤ t)) hC (fun _ _ h => h))
  cases inp with
  | timingResp pkt =>
    unfold step recvTimingResp
    exact Keeps.bind (Keeps.bind (hresp pkt) (fun _ => Keeps.pure _)) (fun _ => Keeps.pure _)
  | respRetry =>
    unfold step recvRespRetry
    apply Keeps.bind_get
    intro c0 _
    split
    · exact Keeps.fatal (fun _ h => h) _
    · exact Keeps.bind (Keeps.modify (fun _ h => h)) (fun _ => hresp _)
  | timingReq pkt => exact step_charge_other _ tr now _ (fun _ h => by cases h) (fun h => by cases h)
  | memReqRetry => exact step_charge_other _ tr now _ (fun _ h => by cases h) (fun h => by cases h)
  | metaReqRetry => exact step_charge_other _ tr now _ (fun _ h => by cases h) (fun h => by cases h)
  | fire ev => exact step_charge_other _ tr now _ (fun _ h => by cases h) (fun h => by cases h)

theorem sat_ctrl {α : Type} {o : Outcome α} {R : Action → Prop} {Q : Ctrl → Prop}
    (h : o.Sat R (fun _ c => Q c) (fun _ c => Q c)) : Q o.ctrl := by
  obtain ⟨acts, c, r⟩ := o
  cases r with
  | ok v => exact h.2
  | fatal k => exact h.2

theorem stateAfter_charge_mono (tr : Transport) (inputs : List (Nat × Input)) (c : Ctrl)
    (t0 : Nat) (h : t0 ≤ c.chargeTime) : t0 ≤ (stateAfter tr inputs c).chargeTime := by
  induction inputs generalizing c with
  | nil => exact h
  | cons x rest ih =>
    exact ih _ (sat_ctrl (step_charge_mono tr x.1 x.2 t0 c h))

end Charge

/-- C13: `updateChargeTime(t)` returns and leaves `chargeTime` equal to
`max(old chargeTime, t)`.  The callbacks that do not go through the response
handler (requests, request retries, the four events) leave `chargeTime` as it
was; for every callback, whatever the transport answers and also when the call
ends in a fatal, `chargeTime` after the call is at least `chargeTime` before
it, and so it is after every sequence of callbacks. -/
theorem chargeTime_monotone (tr : Transport) (now : Nat) (inp : Input) (c : Ctrl) :
    (∀ t, (updateChargeTime t c).res = .ok () ∧
      (updateChargeTime t c).ctrl.chargeTime = max c.chargeTime t ∧
      (updateChargeTime t c).ctrl = { c with chargeTime := max c.chargeTime t }) ∧
    ((∀ pkt, inp ≠ .timingResp pkt) → inp ≠ .respRetry →
      (step tr now inp c).ctrl.chargeTime = c.chargeTime) ∧
    c.chargeTime ≤ (step tr now inp c).ctrl.chargeTime ∧
    ∀ inputs, c.chargeTime ≤ (stateAfter tr inputs c).chargeTime := by
  refine ⟨fun t => ⟨rfl, chargedAt_chargeTime t c, ?_⟩, fun h1 h2 => ?_, ?_, fun inputs => ?_⟩
  · rw [updateChargeTime_apply]
    unfold chargedAt
    split
    · rw [max_eq_right (le_of_lt ‹_›)]
    · rw [max_eq_left (not_lt.mp ‹_›)]
  · exact sat_ctrl (step_charge_other (fun t => t = c.chargeTime) tr now inp h1 h2 c rfl)
  · exact sat_ctrl (step_charge_mono tr now inp c.chargeTime c (le_refl _))
  · exact stateAfter_charge_mono tr inputs c c.chargeTime (le_refl _)

/-- Witness for C13: accepting a read leaves `chargeTime` where it was. -/
theorem chargeTime_monotone_witness :
    (step acceptAll 0 (.timingReq readReq0) construct).ctrl.chargeTime = construct.chargeTime :=
  (chargeTime_monotone acceptAll 0 (.timingReq readReq0) construct).2.1
    (fun _ h => by cases h) (fun h => by cases h)

/-! ## Read latency -/

theorem chargedAt_le (t : Nat) (c : Ctrl) : t ≤ (chargedAt t c).chargeTime := by
  rw [chargedAt_chargeTime]
  exact le_max_right _ _

/-- The last statement of the `case Read` of the first `switch`: with the three
scalar slots filled, `chargeTime` ends at least at `now + MAC_CYCLE * 1000`. -/
theorem macBump_triple (now : Nat) (P : Ctrl → Prop) :
    Triple (fun _ => True) (fun _ => True) P
      (getCtrl >>= fun c =>
        if c.responsePkt.isSome ∧ c.counterPkt.isSome ∧ c.macPkt.isSome then
          updateChargeTime (add64 now (MAC_CYCLE * 1000))
        else pure ())
      (fun _ c1 => c1.responsePkt.isSome ∧ c1.counterPkt.isSome ∧ c1.macPkt.isSome →
        add64 now (MAC_CYCLE * 1000) ≤ c1.chargeTime) := by
  intro c _
  by_cases h : c.responsePkt.isSome ∧ c.counterPkt.isSome ∧ c.macPkt.isSome
  · have hle := chargedAt_le (add64 now (MAC_CYCLE * 1000)) c
    simp only [bind_eq, pure_eq, M.bind_apply, getCtrl_apply, andThen_ok, prepend_nil,
      M.ite_apply, if_pos h, updateChargeTime_apply, sat_ok]
    exact ⟨by simp, fun _ => hle⟩
  · simp only [bind_eq, pure_eq, M.bind_apply, getCtrl_apply, andThen_ok, prepend_nil,
      M.ite_apply, if_neg h, M.pure_apply, sat_ok]
    exact ⟨by simp, fun h2 => absurd h2 h⟩

/-- After a read-path response is recorded at tick `now`, if the three scalar
slots are filled then `chargeTime` is at least `now + MAC_CYCLE * 1000`. -/
theorem recordRead_macBump (tr : Transport) (now : Nat) (pkt : Packet) :
    Triple (fun _ => True) (fun _ => True) (fun _ => True) (recordRead tr now pkt)
      (fun _ c1 => c1.responsePkt.isSome ∧ c1.counterPkt.isSome ∧ c1.macPkt.isSome →
        add64 now (MAC_CYCLE * 1000) ≤ c1.chargeTime) := by
  unfold recordRead setMtPkt
  dsimp only
  apply Triple.of_get
  intro c0 _
  refine Triple.weaken (S := fun _ => True) (T := fun _ c1 => c1.responsePkt.isSome ∧
    c1.counterPkt.isSome ∧ c1.macPkt.isSome → add64 now (MAC_CYCLE * 1000) ≤ c1.chargeTime)
    ?_ (fun _ _ => trivial) (fun _ _ h => h)
  repeat' (first
      | with_reducible apply macBump_triple
      | with_reducible apply Triple.of_ite
      | with_reducible apply Triple.of_bind
      | (with_reducible apply Triple.of_modify_keep) <;> exact fun c hc => hc
      | (with_reducible apply updateChargeTime_triple_keep) <;> exact fun c t hc => hc
      | (with_reducible apply sendMtPkt_keeps_of) <;> (intros; trivial)
      | with_reducible apply Triple.of_pure_keep
      | with_reducible intro _
      | split)

theorem recordRead_counter (tr : Transport) (now : Nat) (pkt : Packet) (c : Ctrl)
    (h1 : pkt.addr ≠ c.verifiedPktAddr) (h2 : pkt.addr = add64 c.cntBorder c.verifiedCntOffs) :
    add64 now (HASH_CYCLE * 1000) ≤ (recordRead tr now pkt c).ctrl.chargeTime := by
  have hm : StableCharge (fun c1 : Ctrl => add64 now (HASH_CYCLE * 1000) ≤ c1.chargeTime) :=
    fun c1 t h hlt => le_trans h (le_of_lt hlt)
  have key : Triple MemSide (fun c1 => add64 now (HASH_CYCLE * 1000) ≤ c1.chargeTime)
      (fun c1 => c1 = c) (recordRead tr now pkt)
      (fun _ c1 => add64 now (HASH_CYCLE * 1000) ≤ c1.chargeTime) := by
    unfold recordRead
    dsimp only
    generalize add64 now (HASH_CYCLE * 1000) = t at hm ⊢
    apply Triple.of_get
    rintro c0 rfl
    apply Triple.of_ite
    · intro h
      exact absurd h h1
    · intro _
      apply Triple.of_ite
      · intro _
        refine Triple.of_bind (Triple.of_modify (Q := fun _ _ => True) (fun _ _ => trivial))
          (fun _ => ?_)
        refine Triple.of_bind
          (?_ : Triple _ _ _ _ (fun _ c1 => t ≤ c1.chargeTime))
          (fun _ => ?_)
        · intro c1 _
          rw [updateChargeTime_apply]
          exact ⟨by simp, chargedAt_le _ _⟩
        · show Keeps MemSide _ _ _
          apply Keeps.bind_get
          intro c1 _
          exact Keeps.ite (fun _ => updateChargeTime_stable _ hm) (fun _ => Keeps.pure _)
      · intro h
        exact absurd h2 h
  exact sat_ctrl (key c rfl)

/-- C12 (amended): when a call of `handleResponse` in state `Read` at tick `now`
schedules `readVerFinished`, it schedules it at the `chargeTime` it leaves, and
that is at least `now + MAC_CYCLE * 1000`, hence at least `t_req + MAC_CYCLE *
1000` for every `t_req ≤ now`.  Handling the counter response at tick `now`
leaves `chargeTime` at least `now + HASH_CYCLE * 1000`, and so it stays through
every later sequence of callbacks.  The two latencies bound `chargeTime` from
below separately (it is a maximum of ready ticks); they are not added. -/
theorem read_latency_floor (tr : Transport) (now : Nat) (pkt : Packet) (c : Ctrl)
    (hs : c.state = .Read) (hfit : now + MAC_CYCLE * 1000 < W64) :
    (∀ t, Action.schedule .readVerFinished t ∈ (handleResponse tr now pkt c).acts →
      t = (handleResponse tr now pkt c).ctrl.chargeTime ∧ now + MAC_CYCLE * 1000 ≤ t ∧
      ∀ t_req, t_req ≤ now → t_req + MAC_CYCLE * 1000 ≤ t) ∧
    (pkt.addr ≠ c.verifiedPktAddr → pkt.addr = add64 c.cntBorder c.verifiedCntOffs →
      ∀ tr2 inputs, now + HASH_CYCLE * 1000 ≤
        (stateAfter tr2 inputs (handleResponse tr now pkt c).ctrl).chargeTime) := by
  have hmac : add64 now (MAC_CYCLE * 1000) = now + MAC_CYCLE * 1000 := add64_of_lt hfit
  have hhash : add64 now (HASH_CYCLE * 1000) = now + HASH_CYCLE * 1000 := add64_of_lt hfit
  rw [handleResponse_read tr now pkt c hs]
  have hns : ¬ Scheduled .readVerFinished (recordRead tr now pkt c).acts :=
    not_scheduled_of_sat (recordRead_noSchedule tr now pkt .readVerFinished c trivial)
  have hbump := recordRead_macBump tr now pkt c trivial
  constructor
  · intro t ht
    cases hres : (recordRead tr now pkt c).res with
    | fatal k =>
      rw [andThen_of_fatal _ hres] at ht
      exact absurd ⟨t, ht⟩ hns
    | ok v =>
      rw [andThen_of_ok _ hres] at ht ⊢
      simp only [prepend_acts, List.mem_append] at ht
      simp only [prepend_ctrl, checkRead_ctrl]
      have ht2 : Action.schedule .readVerFinished t ∈
          (checkRead (recordRead tr now pkt c).ctrl).acts :=
        ht.resolve_left (fun h => hns ⟨t, h⟩)
      have hq := hbump.ok_post hres
      rw [hmac] at hq
      rw [checkRead_eq] at ht2
      split at ht2
      · simp at ht2
      · split at ht2
        · simp at ht2
        · rename_i hsc
          split at ht2
          · simp at ht2
          · split at ht2
            · simp only [List.mem_singleton, Action.schedule.injEq, true_and] at ht2
              have hsc2 : (recordRead tr now pkt c).ctrl.responsePkt.isSome ∧
                  (recordRead tr now pkt c).ctrl.counterPkt.isSome ∧
                  (recordRead tr now pkt c).ctrl.macPkt.isSome := by
                simp only [not_or] at hsc
                exact ⟨Option.isSome_iff_ne_none.mpr hsc.1, Option.isSome_iff_ne_none.mpr hsc.2.1,
                  Option.isSome_iff_ne_none.mpr hsc.2.2⟩
              have hle := hq hsc2
              refine ⟨ht2, by omega, fun t_req hreq => by omega⟩
            · simp at ht2
  · intro h1 h2 tr2 inputs
    have hrec := recordRead_counter tr now pkt c h1 h2
    rw [hhash] at hrec
    apply stateAfter_charge_mono
    cases hres : (recordRead tr now pkt c).res with
    | fatal k =>
      rw [andThen_of_fatal _ hres]
      exact hrec
    | ok v =>
      rw [andThen_of_ok _ hres]
      simp only [prepend_ctrl, checkRead_ctrl]
      exact hrec

/-- Witness for C12 (amended): scenario S1, the level-0 Merkle response handled
at tick 4000 schedules `readVerFinished` at tick 84000. -/
theorem read_latency_floor_witness :
    (84000 : Nat) =
      (handleResponse acceptAll 4000 (respAt 0x288000000 64 true 0) readingAwaitingMt).ctrl.chargeTime ∧
    4000 + MAC_CYCLE * 1000 ≤ 84000 :=
  have h := (read_latency_floor acceptAll 4000 (respAt 0x288000000 64 true 0) readingAwaitingMt
    rfl (by decide)).1 84000 (by decide)
  ⟨h.1, h.2.1⟩

/-- C12 (counterexample): scenario S1.  The read of address 0 is accepted at
tick 0, its data, counter and MAC responses are handled at ticks 1000, 2000 and
3000, and the level-0 Merkle response (access depth zero) at tick 4000.  The
run has no fatal and `readVerFinished` is scheduled at `chargeTime = 84000`,
which is below `0 + HASH_CYCLE * 1000 + MAC_CYCLE * 1000 = 160000`. -/
theorem read_latency_below_sum :
    runInputs acceptAll readTrace construct = .ok readingAwaitingMt ∧
    (handleResponse acceptAll 4000 (respAt 0x288000000 64 true 0) readingAwaitingMt).res =
      .ok () ∧
    (handleResponse acceptAll 4000 (respAt 0x288000000 64 true 0) readingAwaitingMt).acts =
      [.schedule .readVerFinished 84000] ∧
    (handleResponse acceptAll 4000 (respAt 0x288000000 64 true 0)
      readingAwaitingMt).ctrl.chargeTime = 84000 ∧
    84000 < 0 + HASH_CYCLE * 1000 + MAC_CYCLE * 1000 := by
  refine ⟨by rfl, by rfl, by rfl, by rfl, by decide⟩

theorem teardown_eq (c : Ctrl) :
    (clearTransaction >>= fun _ => CPUSidePort.trySendRetryReq) c =
      if c.cpuSidePort.needRetry = true ∧ c.cpuSidePort.blockedPacket = none then
        ⟨[.retryReq],
          { (clearTransaction c).ctrl with
            cpuSidePort := { c.cpuSidePort with needRetry := false } }, .ok ()⟩
      else ⟨[], (clearTransaction c).ctrl, .ok ()⟩ := by
  unfold clearTransaction CPUSidePort.trySendRetryReq
  simp only [bind_eq, pure_eq, M.bind_apply, modifyCtrl_apply, andThen_ok, prepend_nil,
    getCtrl_apply, M.ite_apply, emit_apply, M.pure_apply]

theorem processReadVerFinished_eq (tr : Transport) (c : Ctrl) :
    processReadVerFinished tr c =
      match c.responsePkt with
      | none =>
        ⟨[], c, .fatal (if c.cpuSidePort.blockedPacket.isSome then .sendWhileBlocked
          else .nullPacket)⟩
      | some p =>
        if c.cpuSidePort.blockedPacket.isSome then ⟨[], c, .fatal .sendWhileBlocked⟩
        else if tr .cpuSidePort p then
          ((clearTransaction >>= fun _ => CPUSidePort.trySendRetryReq) c).prepend
            [.send .cpuSidePort p true]
        else
          ⟨[.send .cpuSidePort p false],
            { c with cpuSidePort := { c.cpuSidePort with blockedPacket := some p } }, .ok ()⟩ := by
  unfold processReadVerFinished sendResponsePkt
  cases hr : c.responsePkt with
  | none =>
    cases hb : c.cpuSidePort.blockedPacket <;>
      simp [hr, hb, andThen_ok, andThen_fatal]
  | some p =>
    simp only [bind_eq, pure_eq, M.bind_apply, getCtrl_apply, andThen_ok, prepend_nil, hr,
      CPUSidePort.sendPacket_eq]
    cases hb : c.cpuSidePort.blockedPacket with
    | some q => simp [andThen_fatal]
    | none =>
      cases ht : tr .cpuSidePort p <;> simp [andThen_ok, prepend_mk]
theorem processWriteVerFinished_eq (tr : Transport) (c : Ctrl) :
    processWriteVerFinished tr c =
      if c.needsResponse = true then processReadVerFinished tr c
      else (clearTransaction >>= fun _ => CPUSidePort.trySendRetryReq) c := by
  unfold processWriteVerFinished processReadVerFinished
  cases hn : c.needsResponse <;> simp [hn, andThen_ok]

theorem stable_sameUpstream (c0 : Ctrl) : Stable (SameUpstream c0) :=
  ⟨fun _ _ h => h, fun _ _ h => h, fun _ _ h => h, fun _ _ h => h, fun _ _ _ h => h⟩

theorem stable_upstreamInv : Stable UpstreamInv :=
  ⟨fun _ _ h => h, fun _ _ h => h, fun _ _ h => h, fun _ _ h => h, fun _ _ _ h => h⟩
theorem handleResponse_sameUpstream (tr : Transport) (now : Nat) (pkt : Packet) (c0 : Ctrl) :
    Keeps MemSide (SameUpstream c0) (SameUpstream c0) (handleResponse tr now pkt) :=
  handleResponse_stable tr now pkt (stable_sameUpstream c0) (fun _ _ h _ => h) (fun _ _ h => h)

theorem handleResponse_idle (tr : Transport) (now : Nat) (pkt : Packet) (c : Ctrl)
    (hs : c.state = .Idle) : handleResponse tr now pkt c = ⟨[], c, .fatal .invalidState⟩ := by
  unfold handleResponse
  simp [hs, andThen_ok]

theorem handleResponse_read_needsResponse (tr : Transport) (now : Nat) (pkt : Packet) (c : Ctrl)
    (hs : c.state = .Read) (hok : (handleResponse tr now pkt c).res = .ok ()) :
    (handleResponse tr now pkt c).ctrl.needsResponse = true := by
  rw [handleResponse_read tr now pkt c hs] at hok ⊢
  cases hres : (recordRead tr now pkt c).res with
  | fatal k =>
    rw [andThen_of_fatal _ hres] at hok
    cases hok
  | ok v =>
    rw [andThen_of_ok _ hres] at hok ⊢
    simp only [prepend_res, prepend_ctrl, checkRead_ctrl] at hok ⊢
    rw [checkRead_eq] at hok
    cases hn : (recordRead tr now pkt c).ctrl.needsResponse with
    | true => rfl
    | false =>
      rw [if_pos hn] at hok
      cases hok

theorem handleResponse_write_ctrl (tr : Transport) (now : Nat) (pkt : Packet) (c : Ctrl)
    (hs : c.state = .Write) :
    (handleResponse tr now pkt c).ctrl = (recordWrite tr now pkt c).ctrl := by
  rw [handleResponse_write tr now pkt c hs]
  cases hres : (recordWrite tr now pkt c).res with
  | fatal k => rw [andThen_of_fatal _ hres]
  | ok b =>
    rw [andThen_of_ok _ hres]
    cases b
    · rfl
    · simp only [if_true, prepend_ctrl, checkWrite_ctrl]

/-- The response handler keeps the upstream invariant. -/
theorem handleResponse_upstreamInv (tr : Transport) (now : Nat) (pkt : Packet) (c : Ctrl)
    (hJ : UpstreamInv c) (hok : (handleResponse tr now pkt c).res = .ok ()) :
    UpstreamInv (handleResponse tr now pkt c).ctrl := by
  obtain ⟨hst, hcp, hnr⟩ : SameUpstream c (handleResponse tr now pkt c).ctrl :=
    sat_ctrl (handleResponse_sameUpstream tr now pkt c c ⟨rfl, rfl, rfl⟩)
  obtain ⟨_, hb, hc⟩ := hJ
  cases hs : c.state with
  | Idle =>
    rw [handleResponse_idle tr now pkt c hs] at hok
    cases hok
  | Read =>
    have hn := handleResponse_read_needsResponse tr now pkt c hs hok
    refine ⟨fun h => ?_, fun _ => hn, fun _ => hn⟩
    rw [hst, hs] at h
    cases h
  | Write =>
    refine ⟨fun h => ?_, fun h => ?_, fun h => ?_⟩
    · rw [hst, hs] at h
      cases h
    · cases hn : c.needsResponse with
      | true => rw [hnr, hn]
      | false =>
        have hr : c.responsePkt = none := by
          by_contra hne
          rw [hb hne] at hn
          cases hn
        have hkeep := recordWrite_stable tr now pkt
          (I := fun c1 => c1.responsePkt = none ∧ c1.needsResponse = false)
          ⟨fun _ _ h => h, fun _ _ h => h, fun _ _ h => h, fun _ _ h => h, fun _ _ _ h => h⟩
          (fun _ _ h _ => h) (fun c1 p h1 h2 => by rw [h1.2] at h2; cases h2) c ⟨hr, hn⟩
        rw [handleResponse_write_ctrl tr now pkt c hs] at h
        exact absurd (sat_ctrl hkeep).1 h
    · rw [hcp] at h
      rw [hnr]
      exact hc h
theorem memSide_no_retry {acts : List Action} (h : ∀ a ∈ acts, MemSide a) :
    Action.retryReq ∉ acts :=
  fun hm => h _ hm

theorem andThen_pure_acts {α β : Type} (o : Outcome α) (b : β) :
    (o.andThen (fun _ => M.pure b)).acts = o.acts := by
  obtain ⟨acts, c, r⟩ := o
  cases r <;> simp [Outcome.andThen, Outcome.prepend]

theorem andThen_pure_ctrl {α β : Type} (o : Outcome α) (b : β) :
    (o.andThen (fun _ => M.pure b)).ctrl = o.ctrl := by
  obtain ⟨acts, c, r⟩ := o
  cases r <;> rfl

theorem andThen_pure_ok {α β : Type} {o : Outcome α} {b b2 : β}
    (h : (o.andThen (fun _ => M.pure b)).res = .ok b2) : ∃ a, o.res = .ok a := by
  obtain ⟨acts, c, r⟩ := o
  cases r with
  | ok a => exact ⟨a, rfl⟩
  | fatal k => cases h

theorem handleRequestIdle_upstream (tr : Transport) (pkt : Packet) (cp : CPUSidePort) :
    Keeps MemSide (fun c => c.cpuSidePort = cp ∧ c.responsePkt = none)
      (fun c => c.cpuSidePort = cp ∧ c.responsePkt = none) (handleRequestIdle tr pkt) := by
  have hI : Stable (fun c : Ctrl => c.cpuSidePort = cp ∧ c.responsePkt = none) :=
    ⟨fun _ _ h => h, fun _ _ h => h, fun _ _ h => h, fun _ _ h => h, fun _ _ _ h => h⟩
  unfold handleRequestIdle
  repeat' (first
      | with_reducible apply Keeps.ite
      | with_reducible apply Keeps.bind
      | (with_reducible apply Keeps.modify) <;> exact fun c hc => hc
      | with_reducible exact memPort_sendPacket_stable tr _ hI
      | with_reducible exact sendCntPkt_stable tr _ hI
      | with_reducible exact sendMacPkt_stable tr _ hI
      | with_reducible exact sendMtPkt_stable tr _ _ hI
      | with_reducible apply Keeps.pure
      | with_reducible intro _)

/-- Retry fairness of a call that starts a transaction. -/
theorem retryFair_accept (tr : Transport) (pkt : Packet) (inp : Input) (c : Ctrl)
    (hJ : UpstreamInv c) (hs : c.state = .Idle)
    (hok : (handleRequestIdle tr pkt c).res = .ok ()) :
    RetryFair c inp (handleRequestIdle tr pkt c).acts (handleRequestIdle tr pkt c).ctrl := by
  obtain ⟨hr, hb, hn⟩ := hJ.1 hs
  have hfr := handleRequestIdle_upstream tr pkt c.cpuSidePort c ⟨rfl, hr⟩
  have hsat := (handleRequestIdle_sat tr pkt c).ok_post hok
  obtain ⟨hcp, hresp⟩ := hfr.ok_post hok
  have hst : (handleRequestIdle tr pkt c).ctrl.state ≠ .Idle := by
    rw [hsat.1]
    split <;> simp
  refine ⟨⟨fun h => absurd h hst, fun h => absurd hresp h, fun h => ?_⟩,
    fun _ => ⟨by rw [hcp, hn], memSide_no_retry hfr.acts⟩, fun h => absurd hs h,
    fun h => absurd hs h⟩
  rw [hcp, hb] at h
  exact absurd rfl h

/-- Retry fairness of a memory-side call: the state, the CPU-side port and
`needsResponse` are left as they were. -/
theorem retryFair_memSide (c c0 : Ctrl) (inp : Input) (acts : List Action) (c' : Ctrl)
    (hJ : UpstreamInv c') (hidle : c.state = .Idle → c.cpuSidePort.needRetry = false)
    (hfr : SameUpstream c0 c')
    (h0 : c0.state = c.state ∧ c0.cpuSidePort.needRetry = c.cpuSidePort.needRetry)
    (hacts : ∀ a ∈ acts, MemSide a) (hreq : inp.isRequest = false) :
    RetryFair c inp acts c' := by
  have hst : c'.state = c.state := hfr.1.trans h0.1
  have hnr : c'.cpuSidePort.needRetry = c.cpuSidePort.needRetry := by rw [hfr.2.1, h0.2]
  refine ⟨hJ, fun h => ⟨hnr.trans (hidle h), memSide_no_retry hacts⟩,
    fun _ _ => ⟨?_, memSide_no_retry hacts⟩, fun hs h => absurd (hst ▸ h) hs⟩
  rw [hnr, hreq, Bool.or_false]
/-- Retry fairness of the teardown (`state = Idle`, the slots cleared,
`trySendRetryReq`), entered with the CPU-side blocked slot empty. -/
theorem retryFair_teardown (c : Ctrl) (inp : Input) (pre : List Action) (hJ : UpstreamInv c)
    (hb : c.cpuSidePort.blockedPacket = none) (hpre : pre.count .retryReq = 0)
    (hinp : inp = .fire .readVerFinished ∨ inp = .fire .writeVerFinished) :
    RetryFair c inp
      (pre ++ ((clearTransaction >>= fun _ => CPUSidePort.trySendRetryReq) c).acts)
      ((clearTransaction >>= fun _ => CPUSidePort.trySendRetryReq) c).ctrl := by
  rw [teardown_eq]
  have hpre2 : Action.retryReq ∉ pre := fun h => by
    have := List.count_pos_iff.mpr h
    omega
  unfold RetryFair
  by_cases hn : c.cpuSidePort.needRetry = true
  · rw [if_pos ⟨hn, hb⟩, if_pos hn]
    refine ⟨⟨fun _ => ⟨rfl, hb, rfl⟩, fun h => absurd rfl h, fun h => absurd hb h⟩,
      fun hs => ?_, fun _ h => absurd rfl h, fun _ _ => ⟨hinp, hb, rfl, ?_⟩⟩
    · rw [(hJ.1 hs).2.2] at hn
      cases hn
    · rw [List.count_append, hpre]
      rfl
  · have hn2 : c.cpuSidePort.needRetry = false := by simpa using hn
    rw [if_neg (fun h => hn h.1), if_neg hn, List.append_nil]
    exact ⟨⟨fun _ => ⟨rfl, hb, hn2⟩, fun h => absurd rfl h, fun h => absurd hb h⟩,
      fun _ => ⟨hn2, hpre2⟩, fun _ h => absurd rfl h, fun _ _ => ⟨hinp, hb, hn2, hpre⟩⟩

/-- Retry fairness of `processReadVerFinished`. -/
theorem retryFair_readVerFinished (tr : Transport) (c : Ctrl) (inp : Input) (hJ : UpstreamInv c)
    (hinp : inp = .fire .readVerFinished ∨ inp = .fire .writeVerFinished)
    (hok : (processReadVerFinished tr c).res = .ok ()) :
    RetryFair c inp (processReadVerFinished tr c).acts (processReadVerFinished tr c).ctrl := by
  have hreq : inp.isRequest = false := by
    rcases hinp with h | h <;> rw [h] <;> rfl
  rw [processReadVerFinished_eq] at hok ⊢
  cases hr : c.responsePkt with
  | none =>
    rw [hr] at hok
    cases hok
  | some p =>
    rw [hr] at hok
    simp only at hok ⊢
    cases hb : c.cpuSidePort.blockedPacket with
    | some q =>
      simp [hb] at hok
    | none =>
      simp only [hb, Option.isSome_none, Bool.false_eq_true, if_false] at hok ⊢
      cases ht : tr .cpuSidePort p with
      | true =>
        simp only [if_true, prepend_acts, prepend_ctrl]
        exact retryFair_teardown c inp _ hJ hb (by simp) hinp
      | false =>
        simp only [Bool.false_eq_true, if_false]
        have hns : c.state ≠ .Idle := fun hs => by
          rw [(hJ.1 hs).1] at hr
          cases hr
        refine ⟨⟨fun hs => absurd hs hns, fun _ => hJ.2.1 (by simp [hr]),
            fun _ => hJ.2.1 (by simp [hr])⟩,
          fun hs => absurd hs hns, fun _ _ => ⟨?_, by simp⟩, fun _ hs => absurd hs hns⟩
        simp [hreq]

/-- Retry fairness of `processWriteVerFinished`. -/
theorem retryFair_writeVerFinished (tr : Transport) (c : Ctrl) (hJ : UpstreamInv c)
    (hok : (processWriteVerFinished tr c).res = .ok ()) :
    RetryFair c (.fire .writeVerFinished) (processWriteVerFinished tr c).acts
      (processWriteVerFinished tr c).ctrl := by
  rw [processWriteVerFinished_eq] at hok ⊢
  cases hn : c.needsResponse with
  | true =>
    simp only [hn, if_true] at hok ⊢
    exact retryFair_readVerFinished tr c _ hJ (Or.inr rfl) hok
  | false =>
    simp only [hn, Bool.false_eq_true, if_false] at hok ⊢
    have hb : c.cpuSidePort.blockedPacket = none := by
      by_contra hne
      rw [hJ.2.2 hne] at hn
      cases hn
    simpa using retryFair_teardown c (.fire .writeVerFinished) [] hJ hb rfl (Or.inr rfl)
theorem memPort_recvReqRetry_eq (tr : Transport) (c : Ctrl) :
    memPort_recvReqRetry tr c =
      match c.memPort.blockedPacket with
      | none => ⟨[], c, .fatal .assertFailed⟩
      | some p => handleRequest tr p { c with memPort := { blockedPacket := none } } := by
  unfold memPort_recvReqRetry
  cases h : c.memPort.blockedPacket <;> simp [h, andThen_ok]

theorem metaPort_recvReqRetry_eq (tr : Transport) (c : Ctrl) :
    metaPort_recvReqRetry tr c =
      match c.metaPort.blockedPacket with
      | none => ⟨[], c, .fatal .assertFailed⟩
      | some p => handleRequest tr p { c with metaPort := { blockedPacket := none } } := by
  unfold metaPort_recvReqRetry
  cases h : c.metaPort.blockedPacket <;> simp [h, andThen_ok]

theorem recvRespRetry_eq (tr : Transport) (now : Nat) (c : Ctrl) :
    recvRespRetry tr now c =
      match c.cpuSidePort.blockedPacket with
      | none => ⟨[], c, .fatal .assertFailed⟩
      | some p =>
        handleResponse tr now p
          { c with cpuSidePort := { c.cpuSidePort with blockedPacket := none } } := by
  unfold recvRespRetry
  cases h : c.cpuSidePort.blockedPacket <;> simp [h, andThen_ok]

theorem step_timingResp_eq (tr : Transport) (now : Nat) (pkt : Packet) (c : Ctrl) :
    step tr now (.timingResp pkt) c =
      ((handleResponse tr now pkt c).andThen (fun _ => M.pure true)).andThen
        (fun _ => M.pure ()) := rfl

theorem step_timingReq_eq (tr : Transport) (now : Nat) (pkt : Packet) (c : Ctrl) :
    step tr now (.timingReq pkt) c =
      (recvTimingReq tr pkt c).andThen (fun _ => M.pure ()) := rfl

/-- Retry fairness of `handleRequest`, called from a request retry of a
memory-side port. -/
theorem retryFair_handleRequest (tr : Transport) (pkt : Packet) (inp : Input) (c : Ctrl)
    (hJ : UpstreamInv c) (hreq : inp.isRequest = false)
    (hok : (handleRequest tr pkt c).res = .ok ()) :
    RetryFair c inp (handleRequest tr pkt c).acts (handleRequest tr pkt c).ctrl := by
  by_cases hs : c.state = .Idle
  · rw [handleRequest_idle tr pkt c hs] at hok ⊢
    exact retryFair_accept tr pkt inp c hJ hs hok
  · rw [handleRequest_busy tr pkt c hs] at hok ⊢
    have h1 := handleRequestRetry_stable tr pkt c (stable_sameUpstream c) c ⟨rfl, rfl, rfl⟩
    have h2 := handleRequestRetry_stable tr pkt c stable_upstreamInv c hJ
    exact retryFair_memSide c c inp _ _ (h2.ok_post hok) (fun h => absurd h hs)
      (h1.ok_post hok) ⟨rfl, rfl⟩ h1.acts hreq

/-- Every callback is fair to the rejected requests. -/
theorem step_retryFair (tr : Transport) (now : Nat) (inp : Input) (c : Ctrl)
    (hJ : UpstreamInv c) (hok : (step tr now inp c).res = .ok ()) :
    RetryFair c inp (step tr now inp c).acts (step tr now inp c).ctrl := by
  have hidle : c.state = .Idle → c.cpuSidePort.needRetry = false := fun h => (hJ.1 h).2.2
  cases inp with
  | timingReq pkt =>
    rw [step_timingReq_eq] at hok ⊢
    rw [andThen_pure_acts, andThen_pure_ctrl]
    obtain ⟨b, hb⟩ := andThen_pure_ok hok
    by_cases hs : c.state = .Idle
    · rw [recvTimingReq_idle tr pkt c hs] at hb ⊢
      rw [andThen_pure_acts, andThen_pure_ctrl]
      obtain ⟨u, hu⟩ := andThen_pure_ok hb
      exact retryFair_accept tr pkt _ c hJ hs hu
    · rw [recvTimingReq_busy tr pkt c hs]
      refine ⟨⟨fun h => absurd h hs, hJ.2.1, hJ.2.2⟩, fun h => absurd h hs,
        fun _ _ => ⟨?_, by simp⟩, fun _ h => absurd h hs⟩
      simp [Input.isRequest]
  | timingResp pkt =>
    rw [step_timingResp_eq] at hok ⊢
    rw [andThen_pure_acts, andThen_pure_ctrl, andThen_pure_acts, andThen_pure_ctrl]
    obtain ⟨b, hb⟩ := andThen_pure_ok hok
    obtain ⟨u, hu⟩ := andThen_pure_ok hb
    have hfr := handleResponse_sameUpstream tr now pkt c c ⟨rfl, rfl, rfl⟩
    exact retryFair_memSide c c _ _ _ (handleResponse_upstreamInv tr now pkt c hJ hu) hidle
      (hfr.ok_post hu) ⟨rfl, rfl⟩ hfr.acts rfl
  | memReqRetry =>
    change (memPort_recvReqRetry tr c).res = .ok () at hok
    change RetryFair c _ (memPort_recvReqRetry tr c).acts (memPort_recvReqRetry tr c).ctrl
    rw [memPort_recvReqRetry_eq] at hok ⊢
    cases hb : c.memPort.blockedPacket with
    | none =>
      rw [hb] at hok
      cases hok
    | some p =>
      rw [hb] at hok
      exact retryFair_handleRequest tr p .memReqRetry
        { c with memPort := { blockedPacket := none } } hJ rfl hok
  | metaReqRetry =>
    change (metaPort_recvReqRetry tr c).res = .ok () at hok
    change RetryFair c _ (metaPort_recvReqRetry tr c).acts (metaPort_recvReqRetry tr c).ctrl
    rw [metaPort_recvReqRetry_eq] at hok ⊢
    cases hb : c.metaPort.blockedPacket with
    | none =>
      rw [hb] at hok
      cases hok
    | some p =>
      rw [hb] at hok
      exact retryFair_handleRequest tr p .metaReqRetry
        { c with metaPort := { blockedPacket := none } } hJ rfl hok
  | respRetry =>
    change (recvRespRetry tr now c).res = .ok () at hok
    change RetryFair c _ (recvRespRetry tr now c).acts (recvRespRetry tr now c).ctrl
    rw [recvRespRetry_eq] at hok ⊢
    cases hb : c.cpuSidePort.blockedPacket with
    | none =>
      rw [hb] at hok
      cases hok
    | some p =>
      rw [hb] at hok
      have hns : c.state ≠ .Idle := fun hs => by
        rw [(hJ.1 hs).2.1] at hb
        cases hb
      have hJ1 : UpstreamInv
          { c with cpuSidePort := { c.cpuSidePort with blockedPacket := none } } :=
        ⟨fun hs => absurd hs hns, hJ.2.1, fun h => absurd rfl h⟩
      have hfr := handleResponse_sameUpstream tr now p _ _
        (⟨rfl, rfl, rfl⟩ : SameUpstream
          { c with cpuSidePort := { c.cpuSidePort with blockedPacket := none } }
          { c with cpuSidePort := { c.cpuSidePort with blockedPacket := none } })
      exact retryFair_memSide c _ _ _ _ (handleResponse_upstreamInv tr now p _ hJ1 hok) hidle
        (hfr.ok_post hok) ⟨rfl, rfl⟩ hfr.acts rfl
  | fire ev =>
    cases ev with
    | readVerFinished => exact retryFair_readVerFinished tr c _ hJ (Or.inl rfl) hok
    | writeVerFinished => exact retryFair_writeVerFinished tr c hJ hok
    | sendMacWrite =>
      have h1 := processSendMacWrite_stable tr (stable_sameUpstream c) c ⟨rfl, rfl, rfl⟩
      have h2 := processSendMacWrite_stable tr stable_upstreamInv c hJ
      exact retryFair_memSide c c _ _ _ (h2.ok_post hok) hidle (h1.ok_post hok) ⟨rfl, rfl⟩
        h1.acts rfl
    | sendNextMtWrite =>
      have h1 := processSendNextMtWrite_stable tr (stable_sameUpstream c) c ⟨rfl, rfl, rfl⟩
      have h2 := processSendNextMtWrite_stable tr stable_upstreamInv c hJ
      exact retryFair_memSide c c _ _ _ (h2.ok_post hok) hidle (h1.ok_post hok) ⟨rfl, rfl⟩
        h1.acts rfl

theorem upstreamInv_construct : UpstreamInv construct :=
  ⟨fun _ => ⟨rfl, rfl, rfl⟩, fun _ => rfl, fun _ => rfl⟩

theorem reachable_upstreamInv {c : Ctrl} (h : Reachable c) : UpstreamInv c := by
  induction h with
  | construct => exact upstreamInv_construct
  | step c tr now inp _ _ hok ih => exact (step_retryFair tr now inp c ih hok).1
theorem reachable_of_runInputs (tr : Transport) (inputs : List (Nat × Input)) (c c' : Ctrl)
    (hc : Reachable c) (hwf : ∀ x ∈ inputs, x.2.WF) (h : runInputs tr inputs c = .ok c') :
    Reachable c' := by
  induction inputs generalizing c with
  | nil =>
    cases h
    exact hc
  | cons x rest ih =>
    obtain ⟨now, inp⟩ := x
    unfold runInputs at h
    cases hres : (step tr now inp c).res with
    | fatal k =>
      rw [hres] at h
      cases h
    | ok v =>
      rw [hres] at h
      exact ih _ (Reachable.step c tr now inp hc (hwf _ (List.mem_cons_self _ _)) hres)
        (fun y hy => hwf y (List.mem_cons_of_mem _ hy)) h

/-- While the controller stays busy, `needRetry` is set exactly when a request
arrived. -/
theorem busyRun_needRetry (mid : List (Transport × Nat × Input)) (c1 c2 : Ctrl)
    (hJ : UpstreamInv c1) (hs : c1.state ≠ .Idle) (h : busyRun mid c1 = some c2) :
    UpstreamInv c2 ∧ c2.state ≠ .Idle ∧
      c2.cpuSidePort.needRetry =
        (c1.cpuSidePort.needRetry || mid.any (fun x => x.2.2.isRequest)) := by
  induction mid generalizing c1 with
  | nil =>
    cases h
    exact ⟨hJ, hs, by simp⟩
  | cons x rest ih =>
    obtain ⟨tr, now, inp⟩ := x
    unfold busyRun at h
    split at h
    · rename_i hstep
      obtain ⟨_, hok, hbusy⟩ := hstep
      have hfair := step_retryFair tr now inp c1 hJ hok
      obtain ⟨h1, h2, h3⟩ := ih _ hfair.1 hbusy h
      refine ⟨h1, h2, ?_⟩
      rw [h3, (hfair.2.2.1 hs hbusy).1, List.any_cons, Bool.or_assoc]
    · cases h

/-- C14: in every state reachable from construction and for every callback that
returns: in `Idle`, `needRetry` is false and the CPU-side blocked slot is empty;
the controller goes from busy to `Idle` only in `processReadVerFinished` and
`processWriteVerFinished`, and then the CPU-side blocked slot is empty,
`needRetry` is false afterwards and the call emits one retry request if
`needRetry` was set and none otherwise; a callback that is not such a transition
emits no retry request; while the controller stays busy `needRetry` is set by a
rejected request and by nothing else, and from `Idle` it stays false.  Hence,
when this callback starts a transaction, the callback that ends it emits one
retry request if a request arrived in between and none otherwise. -/
theorem retry_fairness (c : Ctrl) (tr : Transport) (now : Nat) (inp : Input)
    (hr : Reachable c) (hok : (step tr now inp c).res = .ok ()) :
    (c.state = .Idle → c.cpuSidePort.needRetry = false ∧ c.cpuSidePort.blockedPacket = none) ∧
    (c.state ≠ .Idle → (step tr now inp c).ctrl.state = .Idle →
      (inp = .fire .readVerFinished ∨ inp = .fire .writeVerFinished) ∧
      (step tr now inp c).ctrl.cpuSidePort.blockedPacket = none ∧
      (step tr now inp c).ctrl.cpuSidePort.needRetry = false ∧
      (step tr now inp c).acts.count .retryReq = if c.cpuSidePort.needRetry then 1 else 0) ∧
    (¬ (c.state ≠ .Idle ∧ (step tr now inp c).ctrl.state = .Idle) →
      Action.retryReq ∉ (step tr now inp c).acts) ∧
    (c.state ≠ .Idle → (step tr now inp c).ctrl.state ≠ .Idle →
      (step tr now inp c).ctrl.cpuSidePort.needRetry =
        (c.cpuSidePort.needRetry || inp.isRequest)) ∧
    (c.state = .Idle → (step tr now inp c).ctrl.cpuSidePort.needRetry = false) ∧
    (c.state = .Idle → (step tr now inp c).ctrl.state ≠ .Idle →
      ∀ mid c2 tr2 now2 inp2, busyRun mid (step tr now inp c).ctrl = some c2 →
        (step tr2 now2 inp2 c2).res = .ok () → (step tr2 now2 inp2 c2).ctrl.state = .Idle →
        (step tr2 now2 inp2 c2).acts.count .retryReq =
          if mid.any (fun x => x.2.2.isRequest) then 1 else 0) := by
  have hJ := reachable_upstreamInv hr
  obtain ⟨hJ', hidle, hbusy, htrans⟩ := step_retryFair tr now inp c hJ hok
  refine ⟨fun hs => ⟨(hJ.1 hs).2.2, (hJ.1 hs).2.1⟩, htrans, fun hnt => ?_,
    fun h1 h2 => (hbusy h1 h2).1, fun hs => (hidle hs).1, ?_⟩
  · by_cases hs : c.state = .Idle
    · exact (hidle hs).2
    · exact (hbusy hs (fun h => hnt ⟨hs, h⟩)).2
  · intro hs hns mid c2 tr2 now2 inp2 hrun hok2 hend
    obtain ⟨hJ2, hs2, hn2⟩ := busyRun_needRetry mid _ c2 hJ' hns hrun
    rw [(hidle hs).1, Bool.false_or] at hn2
    rw [(step_retryFair tr2 now2 inp2 c2 hJ2 hok2).2.2.2 hs2 hend |>.2.2.2, hn2]

set_option maxRecDepth 100000 in
/-- Witness for C14 (scenario S4): a second request arrives during the read of
address 0 and is rejected; when `readVerFinished` fires and the response is
sent, one retry request is emitted and `needRetry` is false again. -/
theorem retry_fairness_witness :
    (step acceptAll 84000 (.fire .readVerFinished) readVerified).acts.count .retryReq = 1 ∧
    (step acceptAll 84000 (.fire .readVerFinished) readVerified).ctrl.cpuSidePort.needRetry =
      false :=
  have h := (retry_fairness readVerified acceptAll 84000 (.fire .readVerFinished)
    (reachable_of_runInputs acceptAll rejectTrace construct readVerified Reachable.construct
      (by decide) (by rfl)) (by rfl)).2.1 (by decide) (by rfl)
  ⟨h.2.2.2, h.2.2.1⟩

/-! ## Retry of a blocked packet -/

set_option maxRecDepth 100000 in
/-- C15 (what the code does): in the write of address `0x1000` the level-0 Merkle
write goes to `0x288000008`; its response reports access depth 1 and the handler
issues the probe read of level 0 at `0x288000000` (64-byte alignment), which the
metadata port refuses.  When the port's request retry hands the blocked packet to
`handleRequest`, the controller is in `Write`, the retry branch compares the
address with the 8-byte aligned level addresses only, and the call ends in the
"Invalid blockedPkt" fatal, whether or not the transport would now accept. -/
theorem retry_of_probe_read_is_fatal :
    runInputs refuseNodeRead probeTrace construct = .ok probeBlocked ∧
    probeBlocked.state = .Write ∧
    (step refuseNodeRead 82000 (.timingResp (respAt 0x288000008 8 false 1))
        (stateAfter refuseNodeRead probeTrace.dropLast construct)).acts =
      [.send .metaPort
        { addr := 0x288000000, size := 64, isRead := true, flags := 0, requestorId := 0,
          needsResponse := true, accessDepth := 0 } false] ∧
    probeBlocked.metaPort.blockedPacket =
      some { addr := 0x288000000, size := 64, isRead := true, flags := 0, requestorId := 0,
             needsResponse := true, accessDepth := 0 } ∧
    alignDown 3 (mtNodeAddr probeBlocked 0) = 0x288000008 ∧
    (metaPort_recvReqRetry acceptAll probeBlocked).res = .fatal .invalidBlockedPkt ∧
    (metaPort_recvReqRetry acceptAll probeBlocked).acts = [] ∧
    (step refuseNodeRead 83000 .metaReqRetry probeBlocked).res = .fatal .invalidBlockedPkt := by
  refine ⟨?_, ?_, ?_, ?_, ?_, ?_, ?_, ?_⟩ <;> rfl

/-! ## Hash latency of the last Merkle level -/

set_option maxRecDepth 100000 in
/-- C16 (what the code does): in the read of address 0 the Merkle responses of
the levels 0 to 4 are handled at the ticks 1000 to 5000 (access depth 1), which
leaves `chargeTime = 85000`.  The response of level 5 (`MT_LEVEL - 2`), at its
read address `0x289249000`, is handled at tick 6000: `mtPkts[5]` is filled and
`chargeTime` is still 85000, below `6000 + HASH_CYCLE * 1000`.  The response of
level 4 did raise `chargeTime` to `5000 + HASH_CYCLE * 1000`. -/
theorem last_level_read_not_charged :
    runInputs acceptAll walkTrace construct = .ok walkedToLast ∧
    walkedToLast.state = .Read ∧
    walkedToLast.chargeTime = 5000 + HASH_CYCLE * 1000 ∧
    alignDown 6 (mtNodeAddr walkedToLast (MT_LEVEL - 2)) = 0x289249000 ∧
    (handleResponse acceptAll 6000 (respAt 0x289249000 64 true 1) walkedToLast).res = .ok () ∧
    (handleResponse acceptAll 6000 (respAt 0x289249000 64 true 1) walkedToLast).ctrl.mtPkts.getD
      (MT_LEVEL - 2) none = some (respAt 0x289249000 64 true 1) ∧
    (handleResponse acceptAll 6000 (respAt 0x289249000 64 true 1) walkedToLast).ctrl.chargeTime =
      85000 ∧
    85000 < 6000 + HASH_CYCLE * 1000 := by
  refine ⟨?_, ?_, ?_, ?_, ?_, ?_, ?_, by decide⟩ <;> rfl

/-! ## The next Merkle write -/

theorem firstHit_eq_some {p : Nat → Bool} {lo n j : Nat} (h1 : lo ≤ j) (h2 : j < lo + n)
    (hj : p j = true) (hmin : ∀ i, lo ≤ i → i < j → p i = false) :
    firstHit p lo n = some j := by
  cases hc : firstHit p lo n with
  | none =>
    rw [firstHit_none hc j h1 h2] at hj
    cases hj
  | some i =>
    obtain ⟨hi1, hi2, hi3, hi4⟩ := firstHit_some hc
    rcases Nat.lt_trichotomy i j with h | h | h
    · rw [hmin i hi1 h] at hi3
      cases hi3
    · rw [h]
    · rw [hi4 j h1 h] at hj
      cases hj

theorem processSendNextMtWrite_eq (tr : Transport) (c : Ctrl) :
    processSendNextMtWrite tr c =
      match firstHit (fun i => c.mtPkts.getD i none == none) 0 (MT_LEVEL - 1) with
      | some i => (sendMtPkt tr i false c).andThen (fun _ => M.pure ())
      | none => ⟨[], c, .fatal .assertFailed⟩ := by
  unfold processSendNextMtWrite
  simp only [bind_eq, M.bind_apply, getCtrl_apply, andThen_ok, prepend_nil]
  generalize firstHit (fun i => c.mtPkts.getD i none == none) 0 (MT_LEVEL - 1) = o
  cases o <;> rfl

theorem metaPort_sendPacket_blocked (tr : Transport) (p : Packet) (c : Ctrl)
    (h : c.metaPort.blockedPacket ≠ none) :
    metaPort_sendPacket tr p c = ⟨[], c, .fatal .sendWhileBlocked⟩ := by
  rw [metaPort_sendPacket_eq]
  cases hb : c.metaPort.blockedPacket with
  | none => exact absurd hb h
  | some q => simp

/-- The next Merkle write with the metadata port free (what holds of C20):
`processSendNextMtWrite`, for every content of `mtPkts`.  When `j` is
the smallest index below `MT_LEVEL - 1` with `mtPkts[j]` empty and the metadata
port is free to send, the call hands the port exactly one packet, an 8-byte
write at `mtBorders[j] + (verifiedCntOffs >> 3(j+1))` rounded down to a multiple
of 8, returns, and changes nothing in the object but the port's blocked slot
when the transport refuses; with the constructed borders and `verifiedCntOffs =
A >> 6` that address is `align8(mtBorders[j] + (C >> 3(j+1)))` in plain
arithmetic.  (With the port's blocked slot occupied the send ends in the
blocked-slot panic and no packet is issued.)  When no slot is empty the call
ends in a fatal, issues no packet and leaves the object as it was. -/
theorem processSendNextMtWrite_first_empty (tr : Transport) (c : Ctrl) :
    (∀ j, j < MT_LEVEL - 1 → c.mtPkts.getD j none = none →
      (∀ i, i < j → c.mtPkts.getD i none ≠ none) →
      (c.metaPort.blockedPacket = none →
        ∀ p, p = createMetaPkt c (alignDown 3 (mtNodeAddr c j)) 8 false →
          (processSendNextMtWrite tr c).acts = [.send .metaPort p (tr .metaPort p)] ∧
          (processSendNextMtWrite tr c).res = .ok () ∧
          (processSendNextMtWrite tr c).ctrl =
            (if tr .metaPort p then c else { c with metaPort := { blockedPacket := some p } }) ∧
          (processSendNextMtWrite tr c).ctrl.mtPkts = c.mtPkts ∧
          p.size = 8 ∧ p.isRead = false) ∧
      (c.metaPort.blockedPacket ≠ none →
        processSendNextMtWrite tr c = ⟨[], c, .fatal .sendWhileBlocked⟩) ∧
      (Borders c → c.verifiedPktAddr < W64 → c.verifiedCntOffs = c.verifiedPktAddr >>> 6 →
        alignDown 3 (mtNodeAddr c j) = specMtWriteAddr c.mtBorders c.verifiedPktAddr j)) ∧
    ((∀ j, j < MT_LEVEL - 1 → c.mtPkts.getD j none ≠ none) →
      processSendNextMtWrite tr c = ⟨[], c, .fatal .assertFailed⟩) := by
  constructor
  · intro j hj hempty hmin
    have hfirst : firstHit (fun i => c.mtPkts.getD i none == none) 0 (MT_LEVEL - 1) = some j :=
      firstHit_eq_some (Nat.zero_le _) (by omega) (beq_iff_eq.mpr hempty)
        (fun i _ hi => beq_eq_false_iff_ne.mpr (hmin i hi))
    have heq : processSendNextMtWrite tr c =
        (sendMtPkt tr j false c).andThen (fun _ => M.pure ()) := by
      rw [processSendNextMtWrite_eq, hfirst]
    rw [heq]
    refine ⟨fun hfree p hp => ?_, fun hb => ?_, fun hB hA hC => ?_⟩
    · subst hp
      simp only [andThen_pure_acts, andThen_pure_ctrl, sendMtPkt_eq, Bool.false_eq_true,
        if_false]
      obtain ⟨h1, h2, h3⟩ := metaPort_sendPacket_free tr
        (createMetaPkt c (alignDown 3 (mtNodeAddr c j)) 8 false) c hfree
      refine ⟨h1, ?_, h3, ?_, rfl, rfl⟩
      · rw [andThen_of_ok _ h2]
        rfl
      · rw [h3]
        split <;> rfl
    · rw [sendMtPkt_eq, metaPort_sendPacket_blocked tr _ c hb]
      rfl
    · rw [mtNodeAddr, hC, hB.2.2]
      exact mt_write_addr_spec hA j
  · intro hfull
    have hnone : firstHit (fun i => c.mtPkts.getD i none == none) 0 (MT_LEVEL - 1) = none :=
      firstHit_none_of_not (fun j _ hj => beq_eq_false_iff_ne.mpr (hfull j (by omega)))
    rw [processSendNextMtWrite_eq, hnone]

set_option maxRecDepth 100000 in
/-- Instance of the next Merkle write: in the write of address `0x1000`, after the counter
response, the first empty slot is level 0 and the event issues the 8-byte write
at `0x288000008`. -/
theorem processSendNextMtWrite_first_empty_witness :
    (processSendNextMtWrite acceptAll
        (stateAfter acceptAll (probeTrace.take 2) construct)).acts =
      [.send .metaPort
        { addr := 0x288000008, size := 8, isRead := false, flags := 0, requestorId := 0,
          needsResponse := true, accessDepth := 0 } true] :=
  ((processSendNextMtWrite_first_empty acceptAll
    (stateAfter acceptAll (probeTrace.take 2) construct)).1 0 (by decide) (by rfl)
    (fun i hi => absurd hi (Nat.not_lt_zero i))).1 (by rfl) _ (by rfl) |>.1

/-! ## The regions of the derived addresses -/

theorem borders_step_le {i j : Nat} (hij : i < j) (hj : j ≤ 6) :
    construct.mtBorders.getD (i + 1) 0 ≤ construct.mtBorders.getD j 0 := by
  rw [construct_mtBorders]
  interval_cases j <;> interval_cases i <;> simp

/-- With the constructed borders, a data address below `DATA_SPACE` and its
counter offset: the counter address is in `[cntBorder, macBorder)` and the MAC
address the handlers test for is in `[macBorder, mtBorders[0])`. -/
theorem scalar_regions (c : Ctrl) (hB : Borders c) (hA : c.verifiedPktAddr < DATA_SPACE)
    (hC : c.verifiedCntOffs = c.verifiedPktAddr >>> 6) :
    c.verifiedPktAddr < 0x200000000 ∧
    0x200000000 ≤ add64 c.cntBorder c.verifiedCntOffs ∧
    add64 c.cntBorder c.verifiedCntOffs < 0x208000000 ∧
    0x208000000 ≤ add64 c.macBorder (shl64 c.verifiedCntOffs 4) ∧
    add64 c.macBorder (shl64 c.verifiedCntOffs 4) < 0x288000000 := by
  obtain ⟨hb1, hb2, _⟩ := hB
  have hA2 : c.verifiedPktAddr < 0x200000000 := hA
  have hsh : c.verifiedPktAddr >>> 6 = c.verifiedPktAddr / 64 := by
    rw [Nat.shiftRight_eq_div_pow]
  have hshl : shl64 (c.verifiedPktAddr / 64) 4 = c.verifiedPktAddr / 64 * 16 := by
    unfold shl64
    rw [Nat.shiftLeft_eq]
    apply Nat.mod_eq_of_lt
    unfold W64
    omega
  rw [hb1, hb2, hC, hsh, hshl, construct_cntBorder, construct_macBorder,
    add64_of_lt (by unfold W64; omega), add64_of_lt (by unfold W64; omega)]
  omega

/-- With the constructed borders, a data address below `DATA_SPACE` and its
counter offset, both alignments of the level-`i` Merkle address lie in
`[mtBorders[i], mtBorders[i+1])`, for `i ≤ MT_LEVEL - 2`. -/
theorem node_region (c : Ctrl) (hB : Borders c) (hA : c.verifiedPktAddr < DATA_SPACE)
    (hC : c.verifiedCntOffs = c.verifiedPktAddr >>> 6) (i : Nat) (hi : i ≤ 5) :
    construct.mtBorders.getD i 0 ≤ alignDown 6 (mtNodeAddr c i) ∧
    alignDown 6 (mtNodeAddr c i) ≤ alignDown 3 (mtNodeAddr c i) ∧
    alignDown 3 (mtNodeAddr c i) < construct.mtBorders.getD (i + 1) 0 := by
  have hA2 : c.verifiedPktAddr < 0x200000000 := hA
  have hW : c.verifiedPktAddr < W64 := by
    unfold W64
    omega
  have hr : alignDown 6 (mtNodeAddr c i) = specMtReadAddr construct.mtBorders c.verifiedPktAddr i := by
    rw [mtNodeAddr, hC, hB.2.2]
    exact mt_read_addr_spec hW i
  have hw : alignDown 3 (mtNodeAddr c i) = specMtWriteAddr construct.mtBorders c.verifiedPktAddr i := by
    rw [mtNodeAddr, hC, hB.2.2]
    exact mt_write_addr_spec hW i
  rw [hr, hw, specMtReadAddr, specMtWriteAddr, specMtBase, construct_mtBorders]
  interval_cases i <;> simp <;> omega

/-! ## The response handler, case by case -/

theorem macCheck_apply (now : Nat) (c : Ctrl) :
    (getCtrl >>= fun c =>
      if c.responsePkt.isSome ∧ c.counterPkt.isSome ∧ c.macPkt.isSome then
        updateChargeTime (add64 now (MAC_CYCLE * 1000))
      else pure ()) c = ⟨[], macChecked now c, .ok ()⟩ := by
  simp only [bind_eq, pure_eq, M.bind_apply, getCtrl_apply, andThen_ok, prepend_nil,
    M.ite_apply, updateChargeTime_apply, M.pure_apply, macChecked]
  split <;> rfl

/-- Read path, data response. -/
theorem recordRead_data (tr : Transport) (now : Nat) (pkt : Packet) (c : Ctrl)
    (h1 : pkt.addr = c.verifiedPktAddr) :
    recordRead tr now pkt c = ⟨[], macChecked now { c with responsePkt := some pkt }, .ok ()⟩ := by
  unfold recordRead
  simp only [bind_eq, M.bind_apply, getCtrl_apply, andThen_ok, prepend_nil]
  rw [M.ite_apply, if_pos h1]
  simp only [pure_eq, M.bind_apply, M.pure_apply, andThen_ok, prepend_nil, getCtrl_apply,
    modifyCtrl_apply, M.ite_apply, updateChargeTime_apply, macChecked]
  split <;> rfl

/-- Read path, counter response. -/
theorem recordRead_cnt (tr : Transport) (now : Nat) (pkt : Packet) (c : Ctrl)
    (h1 : pkt.addr ≠ c.verifiedPktAddr) (h2 : pkt.addr = add64 c.cntBorder c.verifiedCntOffs) :
    recordRead tr now pkt c =
      ⟨[], macChecked now
        (chargedAt (add64 now (HASH_CYCLE * 1000)) { c with counterPkt := some pkt }), .ok ()⟩ := by
  unfold recordRead
  simp only [bind_eq, M.bind_apply, getCtrl_apply, andThen_ok, prepend_nil]
  rw [M.ite_apply, if_neg h1, M.ite_apply, if_pos h2]
  simp only [pure_eq, M.bind_apply, M.pure_apply, andThen_ok, prepend_nil, getCtrl_apply,
    modifyCtrl_apply, M.ite_apply, updateChargeTime_apply, macChecked]
  split <;> rfl

/-- Read path, MAC response. -/
theorem recordRead_mac (tr : Transport) (now : Nat) (pkt : Packet) (c : Ctrl)
    (h1 : pkt.addr ≠ c.verifiedPktAddr) (h2 : pkt.addr ≠ add64 c.cntBorder c.verifiedCntOffs)
    (h3 : pkt.addr = add64 c.macBorder (shl64 c.verifiedCntOffs 4)) :
    recordRead tr now pkt c = ⟨[], macChecked now { c with macPkt := some pkt }, .ok ()⟩ := by
  unfold recordRead
  simp only [bind_eq, M.bind_apply, getCtrl_apply, andThen_ok, prepend_nil]
  rw [M.ite_apply, if_neg h1, M.ite_apply, if_neg h2, M.ite_apply, if_pos h3]
  simp only [pure_eq, M.bind_apply, M.pure_apply, andThen_ok, prepend_nil, getCtrl_apply,
    modifyCtrl_apply, M.ite_apply, updateChargeTime_apply, macChecked]
  split <;> rfl

/-- Read path, response of a Merkle level below `MT_LEVEL - 2`. -/
theorem recordRead_node (tr : Transport) (now : Nat) (pkt : Packet) (c : Ctrl) (i : Nat)
    (h1 : pkt.addr ≠ c.verifiedPktAddr) (h2 : pkt.addr ≠ add64 c.cntBorder c.verifiedCntOffs)
    (h3 : pkt.addr ≠ add64 c.macBorder (shl64 c.verifiedCntOffs 4))
    (hf : firstHit (fun i => decide (pkt.addr = alignDown 6 (mtNodeAddr c i))) 0 (MT_LEVEL - 2) =
      some i)
    (h5 : pkt.addr ≠ alignDown 6 (mtNodeAddr c (MT_LEVEL - 2))) :
    recordRead tr now pkt c =
      if pkt.accessDepth = 0 then
        ⟨[], macChecked now
          (chargedAt (add64 now (HASH_CYCLE * 1000)) { c with mtPkts := c.mtPkts.set i (some pkt) }),
          .ok ()⟩
      else
        (sendMtPkt tr (i + 1) true
          (chargedAt (add64 now (HASH_CYCLE * 1000))
            { c with mtPkts := c.mtPkts.set i (some pkt) })).andThen
          (fun _ c2 => ⟨[], macChecked now c2, .ok ()⟩) := by
  unfold recordRead
  simp only [bind_eq, M.bind_apply, getCtrl_apply, andThen_ok, prepend_nil]
  rw [M.ite_apply, if_neg h1, M.ite_apply, if_neg h2, M.ite_apply, if_neg h3]
  simp only [hf, bind_eq, M.bind_apply, setMtPkt, modifyCtrl_apply, andThen_ok, prepend_nil,
    updateChargeTime_apply]
  rw [M.ite_apply]
  by_cases hd : pkt.accessDepth = 0
  · rw [if_pos hd, if_pos hd]
    simp only [pure_eq, M.bind_apply, M.pure_apply, andThen_ok, prepend_nil]
    rw [M.ite_apply, if_neg h5]
    simp only [pure_eq, M.bind_apply, M.pure_apply, andThen_ok, prepend_nil, getCtrl_apply,
      M.ite_apply, updateChargeTime_apply, macChecked]
    split <;> rfl
  · rw [if_neg hd, if_neg hd]
    simp only [M.bind_apply]
    congr 1
    funext _ c2
    simp only [pure_eq, M.bind_apply, M.pure_apply, andThen_ok, prepend_nil]
    rw [M.ite_apply, if_neg h5]
    simp only [pure_eq, M.bind_apply, M.pure_apply, andThen_ok, prepend_nil, getCtrl_apply,
      M.ite_apply, updateChargeTime_apply, macChecked]
    split <;> rfl

/-- Read path, response of Merkle level `MT_LEVEL - 2`. -/
theorem recordRead_last (tr : Transport) (now : Nat) (pkt : Packet) (c : Ctrl)
    (h1 : pkt.addr ≠ c.verifiedPktAddr) (h2 : pkt.addr ≠ add64 c.cntBorder c.verifiedCntOffs)
    (h3 : pkt.addr ≠ add64 c.macBorder (shl64 c.verifiedCntOffs 4))
    (hf : firstHit (fun i => decide (pkt.addr = alignDown 6 (mtNodeAddr c i))) 0 (MT_LEVEL - 2) =
      none)
    (h5 : pkt.addr = alignDown 6 (mtNodeAddr c (MT_LEVEL - 2))) :
    recordRead tr now pkt c =
      ⟨[], macChecked now { c with mtPkts := c.mtPkts.set (MT_LEVEL - 2) (some pkt) }, .ok ()⟩ := by
  unfold recordRead
  simp only [bind_eq, M.bind_apply, getCtrl_apply, andThen_ok, prepend_nil]
  rw [M.ite_apply, if_neg h1, M.ite_apply, if_neg h2, M.ite_apply, if_neg h3]
  simp only [hf, pure_eq, bind_eq, M.bind_apply, M.pure_apply, andThen_ok, prepend_nil]
  rw [M.ite_apply, if_pos h5]
  simp only [pure_eq, M.bind_apply, M.pure_apply, andThen_ok, prepend_nil, getCtrl_apply,
    setMtPkt, modifyCtrl_apply, M.ite_apply, updateChargeTime_apply, macChecked]
  split <;> rfl

/-- Read path, a response at none of the addresses of the transaction. -/
theorem recordRead_unmatched (tr : Transport) (now : Nat) (pkt : Packet) (c : Ctrl)
    (h1 : pkt.addr ≠ c.verifiedPktAddr) (h2 : pkt.addr ≠ add64 c.cntBorder c.verifiedCntOffs)
    (h3 : pkt.addr ≠ add64 c.macBorder (shl64 c.verifiedCntOffs 4))
    (hf : firstHit (fun i => decide (pkt.addr = alignDown 6 (mtNodeAddr c i))) 0 (MT_LEVEL - 2) =
      none)
    (h5 : pkt.addr ≠ alignDown 6 (mtNodeAddr c (MT_LEVEL - 2))) :
    recordRead tr now pkt c = ⟨[], macChecked now c, .ok ()⟩ := by
  unfold recordRead
  simp only [bind_eq, M.bind_apply, getCtrl_apply, andThen_ok, prepend_nil]
  rw [M.ite_apply, if_neg h1, M.ite_apply, if_neg h2, M.ite_apply, if_neg h3]
  simp only [hf, pure_eq, bind_eq, M.bind_apply, M.pure_apply, andThen_ok, prepend_nil]
  rw [M.ite_apply, if_neg h5]
  simp only [pure_eq, M.bind_apply, M.pure_apply, andThen_ok, prepend_nil, getCtrl_apply,
    M.ite_apply, updateChargeTime_apply, macChecked]
  split <;> rfl

/-- Write path, data response (the write acknowledgement). -/
theorem recordWrite_data (tr : Transport) (now : Nat) (pkt : Packet) (c : Ctrl)
    (h1 : pkt.addr = c.verifiedPktAddr) :
    recordWrite tr now pkt c =
      if c.needsResponse = true then
        ⟨[], chargedAt now { c with responsePkt := some pkt }, .ok true⟩
      else ⟨[], c, .fatal .assertFailed⟩ := by
  unfold recordWrite
  simp only [bind_eq, M.bind_apply, getCtrl_apply, andThen_ok, prepend_nil]
  rw [M.ite_apply, if_pos h1]
  simp only [bind_eq, M.bind_apply, panic_if_apply]
  by_cases hn : c.needsResponse = true
  · rw [if_pos hn, if_neg (by simp [hn]), andThen_ok]
    simp only [pure_eq, M.bind_apply, M.pure_apply, andThen_ok, prepend_nil, modifyCtrl_apply,
      updateChargeTime_apply]
  · rw [if_neg hn, if_pos (by simpa using hn), andThen_fatal]

/-- Write path, counter response. -/
theorem recordWrite_cnt (tr : Transport) (now : Nat) (pkt : Packet) (c : Ctrl)
    (h1 : pkt.addr ≠ c.verifiedPktAddr) (h2 : pkt.addr = add64 c.cntBorder c.verifiedCntOffs) :
    recordWrite tr now pkt c =
      ⟨[.schedule .sendMacWrite (add64 now (MAC_CYCLE * 1000)),
        .schedule .sendNextMtWrite (add64 now (HASH_CYCLE * 1000))],
        { c with counterPkt := some pkt }, .ok true⟩ := by
  unfold recordWrite
  simp only [bind_eq, M.bind_apply, getCtrl_apply, andThen_ok, prepend_nil]
  rw [M.ite_apply, if_neg h1, M.ite_apply, if_pos h2]
  simp only [pure_eq, M.bind_apply, M.pure_apply, andThen_ok, prepend_nil, modifyCtrl_apply,
    emit_apply, prepend_mk, List.append_nil, List.singleton_append, List.nil_append]

/-- Write path, MAC response. -/
theorem recordWrite_mac (tr : Transport) (now : Nat) (pkt : Packet) (c : Ctrl)
    (h1 : pkt.addr ≠ c.verifiedPktAddr) (h2 : pkt.addr ≠ add64 c.cntBorder c.verifiedCntOffs)
    (h3 : pkt.addr = add64 c.macBorder (shl64 c.verifiedCntOffs 4)) :
    recordWrite tr now pkt c = ⟨[], chargedAt now { c with macPkt := some pkt }, .ok true⟩ := by
  unfold recordWrite
  simp only [bind_eq, M.bind_apply, getCtrl_apply, andThen_ok, prepend_nil]
  rw [M.ite_apply, if_neg h1, M.ite_apply, if_neg h2, M.ite_apply, if_pos h3]
  simp only [pure_eq, M.bind_apply, M.pure_apply, andThen_ok, prepend_nil, modifyCtrl_apply,
    updateChargeTime_apply]

/-- Write path, response of the probe read of a level below `MT_LEVEL - 2`. -/
theorem recordWrite_probe (tr : Transport) (now : Nat) (pkt : Packet) (c : Ctrl) (i : Nat)
    (h1 : pkt.addr ≠ c.verifiedPktAddr) (h2 : pkt.addr ≠ add64 c.cntBorder c.verifiedCntOffs)
    (h3 : pkt.addr ≠ add64 c.macBorder (shl64 c.verifiedCntOffs 4)) (hr : pkt.isRead = true)
    (hf : firstHit (fun i => decide (pkt.addr = alignDown 6 (mtNodeAddr c i))) 0 (MT_LEVEL - 2) =
      some i) :
    recordWrite tr now pkt c =
      if c.mtPkts.getD i none = none then ⟨[], c, .fatal .assertFailed⟩
      else ⟨[.schedule .sendNextMtWrite (add64 now (HASH_CYCLE * 1000))], c, .ok false⟩ := by
  unfold recordWrite
  simp only [bind_eq, M.bind_apply, getCtrl_apply, andThen_ok, prepend_nil]
  rw [M.ite_apply, if_neg h1, M.ite_apply, if_neg h2, M.ite_apply, if_neg h3, M.ite_apply,
    if_pos hr]
  simp only [hf, bind_eq, M.bind_apply, panic_if_apply]
  by_cases hs : c.mtPkts.getD i none = none
  · rw [if_pos hs, if_pos (beq_iff_eq.mpr hs), andThen_fatal]
  · rw [if_neg hs, if_neg (by simpa using hs), andThen_ok]
    simp only [pure_eq, M.bind_apply, M.pure_apply, andThen_ok, prepend_nil, emit_apply,
      prepend_mk, List.append_nil, List.nil_append]

/-- Write path, a read response at no probe address of a level below
`MT_LEVEL - 2`: the level `MT_LEVEL - 2` probe, or the "Invalid addr" fatal. -/
theorem recordWrite_probe_last (tr : Transport) (now : Nat) (pkt : Packet) (c : Ctrl)
    (h1 : pkt.addr ≠ c.verifiedPktAddr) (h2 : pkt.addr ≠ add64 c.cntBorder c.verifiedCntOffs)
    (h3 : pkt.addr ≠ add64 c.macBorder (shl64 c.verifiedCntOffs 4)) (hr : pkt.isRead = true)
    (hf : firstHit (fun i => decide (pkt.addr = alignDown 6 (mtNodeAddr c i))) 0 (MT_LEVEL - 2) =
      none) :
    recordWrite tr now pkt c =
      ⟨[], chargedAt (add64 now (HASH_CYCLE * 1000)) c,
        if pkt.addr = alignDown 6 (mtNodeAddr c (MT_LEVEL - 2)) then .ok true
        else .fatal .invalidAddr⟩ := by
  unfold recordWrite
  simp only [bind_eq, M.bind_apply, getCtrl_apply, andThen_ok, prepend_nil]
  rw [M.ite_apply, if_neg h1, M.ite_apply, if_neg h2, M.ite_apply, if_neg h3, M.ite_apply,
    if_pos hr]
  simp only [hf, bind_eq, M.bind_apply, panic_if_apply, updateChargeTime_apply, andThen_ok,
    prepend_nil]
  by_cases hs : pkt.addr = alignDown 6 (mtNodeAddr c (MT_LEVEL - 2))
  · rw [if_pos hs, if_neg (by simpa using hs), andThen_ok]
    simp only [pure_eq, M.pure_apply, prepend_nil]
  · rw [if_neg hs, if_pos (by simpa using hs), andThen_fatal]

/-- Write path, response of the Merkle write of level `i`. -/
theorem recordWrite_node (tr : Transport) (now : Nat) (pkt : Packet) (c : Ctrl) (i : Nat)
    (h1 : pkt.addr ≠ c.verifiedPktAddr) (h2 : pkt.addr ≠ add64 c.cntBorder c.verifiedCntOffs)
    (h3 : pkt.addr ≠ add64 c.macBorder (shl64 c.verifiedCntOffs 4)) (hr : pkt.isRead = false)
    (hf : firstHit (fun i => decide (pkt.addr = alignDown 3 (mtNodeAddr c i))) 0 (MT_LEVEL - 1) =
      some i) :
    recordWrite tr now pkt c =
      if pkt.accessDepth = 0 then
        ⟨[], chargedAt (add64 now (HASH_CYCLE * 1000))
          { c with mtPkts := c.mtPkts.set i (some pkt) }, .ok true⟩
      else
        (sendMtPkt tr i true { c with mtPkts := c.mtPkts.set i (some pkt) }).andThen
          (fun _ => M.pure false) := by
  unfold recordWrite
  simp only [bind_eq, M.bind_apply, getCtrl_apply, andThen_ok, prepend_nil]
  rw [M.ite_apply, if_neg h1, M.ite_apply, if_neg h2, M.ite_apply, if_neg h3, M.ite_apply,
    if_neg (by simp [hr])]
  simp only [hf, bind_eq, M.bind_apply, setMtPkt, modifyCtrl_apply, andThen_ok, prepend_nil]
  rw [M.ite_apply]
  by_cases hd : pkt.accessDepth = 0
  · rw [if_pos hd, if_pos hd]
    simp only [pure_eq, M.bind_apply, M.pure_apply, andThen_ok, prepend_nil,
      updateChargeTime_apply]
  · rw [if_neg hd, if_neg hd]
    simp only [pure_eq, M.bind_apply]

/-- Write path, a write response at none of the addresses of the transaction. -/
theorem recordWrite_unmatched (tr : Transport) (now : Nat) (pkt : Packet) (c : Ctrl)
    (h1 : pkt.addr ≠ c.verifiedPktAddr) (h2 : pkt.addr ≠ add64 c.cntBorder c.verifiedCntOffs)
    (h3 : pkt.addr ≠ add64 c.macBorder (shl64 c.verifiedCntOffs 4)) (hr : pkt.isRead = false)
    (hf : firstHit (fun i => decide (pkt.addr = alignDown 3 (mtNodeAddr c i))) 0 (MT_LEVEL - 1) =
      none) :
    recordWrite tr now pkt c = ⟨[], c, .ok true⟩ := by
  unfold recordWrite
  simp only [bind_eq, M.bind_apply, getCtrl_apply, andThen_ok, prepend_nil]
  rw [M.ite_apply, if_neg h1, M.ite_apply, if_neg h2, M.ite_apply, if_neg h3, M.ite_apply,
    if_neg (by simp [hr])]
  simp only [hf, pure_eq, M.pure_apply]

/-! ## Which branch a response takes -/

theorem node_sep (c : Ctrl) (hW : WellAddressed c) {i j : Nat} (hij : i < j) (hj : j ≤ 5) :
    alignDown 3 (mtNodeAddr c i) < alignDown 6 (mtNodeAddr c j) := by
  have h1 := (node_region c hW.1 hW.2.1 hW.2.2 i (by omega)).2.2
  have h2 := (node_region c hW.1 hW.2.1 hW.2.2 j hj).1
  have h3 := borders_step_le hij (by omega : j ≤ 6)
  omega

theorem node_ge (c : Ctrl) (hW : WellAddressed c) {i : Nat} (hi : i ≤ 5) :
    0x288000000 ≤ alignDown 6 (mtNodeAddr c i) ∧ 0x288000000 ≤ alignDown 3 (mtNodeAddr c i) := by
  have h1 := node_region c hW.1 hW.2.1 hW.2.2 i hi
  have h2 : construct.mtBorders.getD 0 0 ≤ construct.mtBorders.getD i 0 := by
    rcases Nat.eq_zero_or_pos i with h | h
    · rw [h]
    · have h3 := borders_step_le (i := 0) (j := i) h (by omega)
      have h4 : construct.mtBorders.getD 0 0 ≤ construct.mtBorders.getD (0 + 1) 0 := by decide
      omega
  have h5 : construct.mtBorders.getD 0 0 = 0x288000000 := by decide
  omega

/-- A response at or above `mtBorders[0]` is none of the data, counter and MAC
responses. -/
theorem merkle_of_ge (c : Ctrl) (hW : WellAddressed c) (pkt : Packet)
    (h : 0x288000000 ≤ pkt.addr) : IsMerkleResponse c pkt := by
  obtain ⟨h1, h2, h3, h4, h5⟩ := scalar_regions c hW.1 hW.2.1 hW.2.2
  refine ⟨fun e => ?_, fun e => ?_, fun e => ?_⟩ <;> omega

theorem firstHit_read_level (c : Ctrl) (hW : WellAddressed c) (pkt : Packet) {i : Nat}
    (hi : i ≤ 5) (hp : pkt.addr = alignDown 6 (mtNodeAddr c i)) :
    (i < 5 →
      firstHit (fun k => decide (pkt.addr = alignDown 6 (mtNodeAddr c k))) 0 (MT_LEVEL - 2) =
        some i ∧ pkt.addr ≠ alignDown 6 (mtNodeAddr c (MT_LEVEL - 2))) ∧
    (i = 5 →
      firstHit (fun k => decide (pkt.addr = alignDown 6 (mtNodeAddr c k))) 0 (MT_LEVEL - 2) =
        none) := by
  have hsep : ∀ k, k ≤ 5 → k ≠ i → pkt.addr ≠ alignDown 6 (mtNodeAddr c k) := by
    intro k hk hne e
    rw [hp] at e
    rcases Nat.lt_or_gt_of_ne hne with h | h
    · have h1 := node_sep c hW h hi
      have h2 := (node_region c hW.1 hW.2.1 hW.2.2 k hk).2.1
      omega
    · have h1 := node_sep c hW h hk
      have h2 := (node_region c hW.1 hW.2.1 hW.2.2 i hi).2.1
      omega
  constructor
  · intro h5
    refine ⟨firstHit_eq_some (Nat.zero_le _) (by simp only [MT_LEVEL]; omega)
      (decide_eq_true hp) (fun k _ hk => decide_eq_false (hsep k (by omega) (by omega))), ?_⟩
    exact hsep 5 (le_refl _) (by omega)
  · intro h5
    refine firstHit_none_of_not (fun k _ hk => decide_eq_false (hsep k ?_ ?_))
    · simp only [MT_LEVEL] at hk
      omega
    · simp only [MT_LEVEL] at hk
      omega

theorem firstHit_write_level (c : Ctrl) (hW : WellAddressed c) (pkt : Packet) {i : Nat}
    (hi : i ≤ 5) (hp : pkt.addr = alignDown 3 (mtNodeAddr c i)) :
    firstHit (fun k => decide (pkt.addr = alignDown 3 (mtNodeAddr c k))) 0 (MT_LEVEL - 1) =
      some i := by
  refine firstHit_eq_some (Nat.zero_le _) (by simp only [MT_LEVEL]; omega) (decide_eq_true hp)
    (fun k _ hk => decide_eq_false (fun e => ?_))
  rw [hp] at e
  have h1 := node_sep c hW hk hi
  have h2 := (node_region c hW.1 hW.2.1 hW.2.2 i hi).2.1
  omega

/-- A response below `mtBorders[0]` matches no Merkle level. -/
theorem firstHit_below (c : Ctrl) (hW : WellAddressed c) (pkt : Packet)
    (h : pkt.addr < 0x288000000) :
    firstHit (fun k => decide (pkt.addr = alignDown 6 (mtNodeAddr c k))) 0 (MT_LEVEL - 2) = none ∧
    pkt.addr ≠ alignDown 6 (mtNodeAddr c (MT_LEVEL - 2)) ∧
    firstHit (fun k => decide (pkt.addr = alignDown 3 (mtNodeAddr c k))) 0 (MT_LEVEL - 1) =
      none := by
  refine ⟨firstHit_none_of_not (fun k _ hk => decide_eq_false (fun e => ?_)), fun e => ?_,
    firstHit_none_of_not (fun k _ hk => decide_eq_false (fun e => ?_))⟩
  · simp only [MT_LEVEL] at hk
    have := (node_ge c hW (i := k) (by omega)).1
    omega
  · have := (node_ge c hW (i := 5) (by omega)).1
    have h52 : MT_LEVEL - 2 = 5 := rfl
    rw [h52] at e
    omega
  · simp only [MT_LEVEL] at hk
    have := (node_ge c hW (i := k) (by omega)).2
    omega

/-! ## Merkle responses, one call -/

theorem getD_set_self {l : List (Option Packet)} {i : Nat} (pkt : Packet) (h : i < l.length) :
    (l.set i (some pkt)).getD i none = some pkt := by
  rw [List.getD_eq_getElem?_getD, List.getElem?_set]
  simp [h]

theorem getD_set_other {l : List (Option Packet)} {i j : Nat} (pkt : Packet) (h : i ≠ j) :
    (l.set i (some pkt)).getD j none = l.getD j none := by
  rw [List.getD_eq_getElem?_getD, List.getElem?_set, if_neg h, List.getD_eq_getElem?_getD]

theorem sentPackets_append (a b : List Action) :
    sentPackets (a ++ b) = sentPackets a ++ sentPackets b := by
  unfold sentPackets
  rw [List.filterMap_append]

theorem checkRead_sent (c : Ctrl) : sentPackets (checkRead c).acts = [] := by
  rw [checkRead_eq]
  split
  · rfl
  · split
    · rfl
    · split
      · rfl
      · split <;> rfl

theorem checkWrite_sent (c : Ctrl) : sentPackets (checkWrite c).acts = [] := by
  rw [checkWrite_eq]
  split
  · rfl
  · split
    · rfl
    · split
      · rfl
      · split <;> rfl

theorem macChecked_frame (now : Nat) (c : Ctrl) :
    (macChecked now c).mtPkts = c.mtPkts ∧ (macChecked now c).metaPort = c.metaPort ∧
    (macChecked now c).memPort = c.memPort ∧ (macChecked now c).state = c.state := by
  unfold macChecked chargedAt
  split
  · split <;> exact ⟨rfl, rfl, rfl, rfl⟩
  · exact ⟨rfl, rfl, rfl, rfl⟩

theorem chargedAt_frame (t : Nat) (c : Ctrl) :
    (chargedAt t c).mtPkts = c.mtPkts ∧ (chargedAt t c).metaPort = c.metaPort ∧
    (chargedAt t c).memPort = c.memPort ∧ (chargedAt t c).state = c.state ∧
    (∀ k, mtNodeAddr (chargedAt t c) k = mtNodeAddr c k) ∧
    (∀ a s r, createMetaPkt (chargedAt t c) a s r = createMetaPkt c a s r) := by
  unfold chargedAt
  split
  · exact ⟨rfl, rfl, rfl, rfl, fun _ => rfl, fun _ _ _ => rfl⟩
  · exact ⟨rfl, rfl, rfl, rfl, fun _ => rfl, fun _ _ _ => rfl⟩

/-- The outcome of `sendMtPkt` in full. -/
theorem sendMtPkt_outcome (tr : Transport) (nth : Nat) (isRead : Bool) (c : Ctrl) :
    sendMtPkt tr nth isRead c =
      if c.metaPort.blockedPacket.isSome then ⟨[], c, .fatal .sendWhileBlocked⟩
      else if tr .metaPort (createMetaPkt c
          (if isRead then alignDown 6 (mtNodeAddr c nth) else alignDown 3 (mtNodeAddr c nth))
          (if isRead then 64 else 8) isRead) then
        ⟨[.send .metaPort (createMetaPkt c
          (if isRead then alignDown 6 (mtNodeAddr c nth) else alignDown 3 (mtNodeAddr c nth))
          (if isRead then 64 else 8) isRead) true], c, .ok true⟩
      else
        ⟨[.send .metaPort (createMetaPkt c
          (if isRead then alignDown 6 (mtNodeAddr c nth) else alignDown 3 (mtNodeAddr c nth))
          (if isRead then 64 else 8) isRead) false],
          { c with metaPort := { blockedPacket := some (createMetaPkt c
            (if isRead then alignDown 6 (mtNodeAddr c nth) else alignDown 3 (mtNodeAddr c nth))
            (if isRead then 64 else 8) isRead) } }, .ok false⟩ := by
  rw [sendMtPkt_eq, metaPort_sendPacket_eq]

/-- C18 in one call: the response of the Merkle write of level `i`. -/
theorem handleResponse_write_node (tr : Transport) (now : Nat) (pkt : Packet) (c : Ctrl) (i : Nat)
    (hW : WellAddressed c) (hs : c.state = .Write) (hi : i ≤ MT_LEVEL - 2)
    (hp : pkt.addr = alignDown 3 (mtNodeAddr c i)) (hcmd : pkt.isRead = false) :
    (pkt.accessDepth = 0 →
      handleResponse tr now pkt c =
        checkWrite (chargedAt (add64 now (HASH_CYCLE * 1000))
          { c with mtPkts := c.mtPkts.set i (some pkt) })) ∧
    (pkt.accessDepth ≠ 0 → c.metaPort.blockedPacket = none →
      handleResponse tr now pkt c =
        ⟨[.send .metaPort (createMetaPkt c (alignDown 6 (mtNodeAddr c i)) 64 true)
            (tr .metaPort (createMetaPkt c (alignDown 6 (mtNodeAddr c i)) 64 true))],
          if tr .metaPort (createMetaPkt c (alignDown 6 (mtNodeAddr c i)) 64 true) then
            { c with mtPkts := c.mtPkts.set i (some pkt) }
          else
            { c with
              mtPkts := c.mtPkts.set i (some pkt),
              metaPort :=
                { blockedPacket := some (createMetaPkt c (alignDown 6 (mtNodeAddr c i)) 64 true) } },
          .ok ()⟩) ∧
    (pkt.accessDepth ≠ 0 → c.metaPort.blockedPacket ≠ none →
      handleResponse tr now pkt c =
        ⟨[], { c with mtPkts := c.mtPkts.set i (some pkt) }, .fatal .sendWhileBlocked⟩) := by
  have hi5 : i ≤ 5 := hi
  obtain ⟨h1, h2, h3⟩ := merkle_of_ge c hW pkt (hp ▸ (node_ge c hW hi5).2)
  have hf := firstHit_write_level c hW pkt hi5 hp
  rw [handleResponse_write tr now pkt c hs, recordWrite_node tr now pkt c i h1 h2 h3 hcmd hf]
  refine ⟨fun hd => ?_, fun hd hfree => ?_, fun hd hb => ?_⟩
  · rw [if_pos hd, andThen_ok]
    simp only [if_true, prepend_nil]
  · rw [if_neg hd, sendMtPkt_outcome]
    simp only [hfree, Option.isSome_none, Bool.false_eq_true, if_false, if_true]
    cases ht : tr .metaPort (createMetaPkt c (alignDown 6 (mtNodeAddr c i)) 64 true)
    · have ht2 : tr .metaPort (createMetaPkt { c with mtPkts := c.mtPkts.set i (some pkt) }
          (alignDown 6 (mtNodeAddr { c with mtPkts := c.mtPkts.set i (some pkt) } i)) 64 true) =
          false := ht
      rw [if_neg (by simp [ht2])]
      rfl
    · have ht2 : tr .metaPort (createMetaPkt { c with mtPkts := c.mtPkts.set i (some pkt) }
          (alignDown 6 (mtNodeAddr { c with mtPkts := c.mtPkts.set i (some pkt) } i)) 64 true) =
          true := ht
      rw [if_pos ht2]
      rfl
  · rw [if_neg hd, sendMtPkt_outcome]
    have hb2 : ({ c with mtPkts := c.mtPkts.set i (some pkt) } : Ctrl).metaPort.blockedPacket.isSome
        = true := by
      cases hq : c.metaPort.blockedPacket with
      | none => exact absurd hq hb
      | some q => simp [hq]
    rw [if_pos hb2]
    rfl

/-- C17 in one call: the response of the read of Merkle level `i < MT_LEVEL - 2`. -/
theorem handleResponse_read_node (tr : Transport) (now : Nat) (pkt : Packet) (c : Ctrl) (i : Nat)
    (hW : WellAddressed c) (hs : c.state = .Read) (hi : i < MT_LEVEL - 2)
    (hp : pkt.addr = alignDown 6 (mtNodeAddr c i)) :
    (pkt.accessDepth = 0 →
      handleResponse tr now pkt c =
        checkRead (macChecked now (chargedAt (add64 now (HASH_CYCLE * 1000))
          { c with mtPkts := c.mtPkts.set i (some pkt) }))) ∧
    (pkt.accessDepth ≠ 0 → c.metaPort.blockedPacket = none →
      handleResponse tr now pkt c =
        (checkRead (macChecked now
          (if tr .metaPort (createMetaPkt c (alignDown 6 (mtNodeAddr c (i + 1))) 64 true) then
            chargedAt (add64 now (HASH_CYCLE * 1000))
              { c with mtPkts := c.mtPkts.set i (some pkt) }
          else
            { chargedAt (add64 now (HASH_CYCLE * 1000))
                { c with mtPkts := c.mtPkts.set i (some pkt) } with
              metaPort :=
                { blockedPacket :=
                    some (createMetaPkt c (alignDown 6 (mtNodeAddr c (i + 1))) 64 true) } }))).prepend
          [.send .metaPort (createMetaPkt c (alignDown 6 (mtNodeAddr c (i + 1))) 64 true)
            (tr .metaPort (createMetaPkt c (alignDown 6 (mtNodeAddr c (i + 1))) 64 true))]) ∧
    (pkt.accessDepth ≠ 0 → c.metaPort.blockedPacket ≠ none →
      handleResponse tr now pkt c =
        ⟨[], chargedAt (add64 now (HASH_CYCLE * 1000))
          { c with mtPkts := c.mtPkts.set i (some pkt) }, .fatal .sendWhileBlocked⟩) := by
  have hi5 : i < 5 := hi
  obtain ⟨h1, h2, h3⟩ := merkle_of_ge c hW pkt (hp ▸ (node_ge c hW (by omega : i ≤ 5)).1)
  obtain ⟨hf, h5⟩ := (firstHit_read_level c hW pkt (by omega : i ≤ 5) hp).1 hi5
  rw [handleResponse_read tr now pkt c hs, recordRead_node tr now pkt c i h1 h2 h3 hf h5]
  generalize add64 now (HASH_CYCLE * 1000) = tH
  obtain ⟨_, hmp, _, _, hna, hcp⟩ := chargedAt_frame tH { c with mtPkts := c.mtPkts.set i (some pkt) }
  refine ⟨fun hd => ?_, fun hd hfree => ?_, fun hd hb => ?_⟩
  · rw [if_pos hd, andThen_ok, prepend_nil]
  · rw [if_neg hd, sendMtPkt_outcome]
    simp only [if_true, hna, hcp, hmp]
    have hq : createMetaPkt { c with mtPkts := c.mtPkts.set i (some pkt) }
        (alignDown 6 (mtNodeAddr { c with mtPkts := c.mtPkts.set i (some pkt) } (i + 1))) 64 true =
        createMetaPkt c (alignDown 6 (mtNodeAddr c (i + 1))) 64 true := rfl
    rw [hq, if_neg (by simp [hfree])]
    cases ht : tr .metaPort (createMetaPkt c (alignDown 6 (mtNodeAddr c (i + 1))) 64 true)
    · simp only [Bool.false_eq_true, if_false, andThen_ok, prepend_mk, List.append_nil]
    · simp only [if_true, andThen_ok, prepend_mk, List.append_nil]
  · rw [if_neg hd, sendMtPkt_outcome, hmp]
    have hb2 : ({ c with mtPkts := c.mtPkts.set i (some pkt) } : Ctrl).metaPort.blockedPacket.isSome
        = true := by
      cases hq : c.metaPort.blockedPacket with
      | none => exact absurd hq hb
      | some q => simp [hq]
    rw [if_pos hb2, andThen_fatal, andThen_fatal]

/-- C17 in one call: the response of the read of Merkle level `MT_LEVEL - 2`. -/
theorem handleResponse_read_last (tr : Transport) (now : Nat) (pkt : Packet) (c : Ctrl)
    (hW : WellAddressed c) (hs : c.state = .Read)
    (hp : pkt.addr = alignDown 6 (mtNodeAddr c (MT_LEVEL - 2))) :
    handleResponse tr now pkt c =
      checkRead (macChecked now { c with mtPkts := c.mtPkts.set (MT_LEVEL - 2) (some pkt) }) := by
  have h52 : MT_LEVEL - 2 = 5 := rfl
  have hp5 : pkt.addr = alignDown 6 (mtNodeAddr c 5) := hp
  obtain ⟨h1, h2, h3⟩ := merkle_of_ge c hW pkt (hp5 ▸ (node_ge c hW (le_refl 5)).1)
  have hf := (firstHit_read_level c hW pkt (le_refl 5) hp5).2 rfl
  rw [handleResponse_read tr now pkt c hs, recordRead_last tr now pkt c h1 h2 h3 hf hp, andThen_ok,
    prepend_nil]

/-! ## The response to a Merkle write -/

/-- The response to a Merkle write with the metadata port free (what holds of
C18): in state `Write` on a transaction with data address below `DATA_SPACE`,
handling a write-command response at the 8-byte aligned address of level `i`
(`0 ≤ i ≤ MT_LEVEL - 2`) at tick `now` fills `mtPkts[i]`.  With access depth zero
the call is the completion check on the object with the slot filled and
`chargeTime` raised to `now + HASH_CYCLE * 1000`: no packet is handed to a port,
and `chargeTime` ends at least at `now + HASH_CYCLE * 1000` (64-bit ticks).  With
a non-zero access depth and the metadata port free to send, the call's actions
are exactly one send, the 64-byte read of the same level `i` on the metadata
port; the call returns and schedules no event.  (With the port's blocked slot
occupied that send ends in the blocked-slot panic and no packet is issued.) -/
theorem write_node_response (tr : Transport) (now : Nat) (pkt : Packet) (c : Ctrl) (i : Nat)
    (hW : WellAddressed c) (hs : c.state = .Write) (hlen : c.mtPkts.length = MT_LEVEL - 1)
    (hi : i ≤ MT_LEVEL - 2) (hp : pkt.addr = alignDown 3 (mtNodeAddr c i))
    (hcmd : pkt.isRead = false) :
    (handleResponse tr now pkt c).ctrl.mtPkts.getD i none = some pkt ∧
    (pkt.accessDepth = 0 →
      handleResponse tr now pkt c =
        checkWrite (chargedAt (add64 now (HASH_CYCLE * 1000))
          { c with mtPkts := c.mtPkts.set i (some pkt) }) ∧
      sentPackets (handleResponse tr now pkt c).acts = [] ∧
      (now + HASH_CYCLE * 1000 < W64 →
        now + HASH_CYCLE * 1000 ≤ (handleResponse tr now pkt c).ctrl.chargeTime)) ∧
    (pkt.accessDepth ≠ 0 → c.metaPort.blockedPacket = none →
      (handleResponse tr now pkt c).acts =
        [.send .metaPort (nodeRead c i) (tr .metaPort (nodeRead c i))] ∧
      (handleResponse tr now pkt c).res = .ok () ∧
      (nodeRead c i).addr = alignDown 6 (mtNodeAddr c i) ∧
      (nodeRead c i).size = 64 ∧ (nodeRead c i).isRead = true ∧
      scheduledEvents (handleResponse tr now pkt c).acts = []) ∧
    (pkt.accessDepth ≠ 0 → c.metaPort.blockedPacket ≠ none →
      (handleResponse tr now pkt c).acts = [] ∧
      (handleResponse tr now pkt c).res = .fatal .sendWhileBlocked) := by
  obtain ⟨h0, h1, h2⟩ := handleResponse_write_node tr now pkt c i hW hs hi hp hcmd
  have hset : (c.mtPkts.set i (some pkt)).getD i none = some pkt :=
    getD_set_self pkt (by rw [hlen]; simp only [MT_LEVEL] at hi ⊢; omega)
  refine ⟨?_, fun hd => ?_, fun hd hb => ?_, fun hd hb => ?_⟩
  · by_cases hd : pkt.accessDepth = 0
    · rw [h0 hd, checkWrite_ctrl, (chargedAt_frame _ _).1]
      exact hset
    · by_cases hb : c.metaPort.blockedPacket = none
      · rw [h1 hd hb]
        show (if tr .metaPort _ = true then _ else _ : Ctrl).mtPkts.getD i none = some pkt
        split <;> exact hset
      · rw [h2 hd hb]
        exact hset
  · refine ⟨h0 hd, ?_, fun hlt => ?_⟩
    · rw [h0 hd]
      exact checkWrite_sent _
    · rw [h0 hd, checkWrite_ctrl]
      have heq : add64 now (HASH_CYCLE * 1000) = now + HASH_CYCLE * 1000 :=
        Nat.mod_eq_of_lt hlt
      have hle := chargedAt_le (add64 now (HASH_CYCLE * 1000))
        { c with mtPkts := c.mtPkts.set i (some pkt) }
      generalize add64 now (HASH_CYCLE * 1000) = t at heq hle ⊢
      rw [← heq]
      exact hle
  · rw [h1 hd hb]
    exact ⟨rfl, rfl, rfl, rfl, rfl, rfl⟩
  · rw [h2 hd hb]
    exact ⟨rfl, rfl⟩

set_option maxRecDepth 100000 in
/-- Instance of the response to a Merkle write: in the write of address `0x1000`, the response to the
level-0 write at `0x288000008` with access depth 1 issues the probe read of
level 0 at `0x288000000`. -/
theorem write_node_response_witness :
    (handleResponse acceptAll 82000 (respAt 0x288000008 8 false 1)
        (stateAfter acceptAll (probeTrace.take 3) construct)).acts =
      [.send .metaPort
        { addr := 0x288000000, size := 64, isRead := true, flags := 0, requestorId := 0,
          needsResponse := true, accessDepth := 0 } true] :=
  ((write_node_response acceptAll 82000 (respAt 0x288000008 8 false 1)
    (stateAfter acceptAll (probeTrace.take 3) construct) 0
    ⟨⟨rfl, rfl, rfl⟩, by decide, rfl⟩ rfl rfl (by decide) rfl rfl).2.2.1
    (by decide) rfl).1

/-! ## Lists of outstanding packets -/

theorem filter_eraseP_of_neg {α : Type} (p q : α → Bool) (l : List α)
    (h : ∀ x, q x = true → p x = false) : (l.eraseP q).filter p = l.filter p := by
  induction l with
  | nil => rfl
  | cons a l ih =>
    by_cases hq : q a = true
    · rw [List.eraseP_cons_of_pos hq, List.filter_cons_of_neg (by simp [h a hq])]
    · rw [List.eraseP_cons_of_neg hq]
      by_cases hp : p a = true
      · rw [List.filter_cons_of_pos hp, List.filter_cons_of_pos hp, ih]
      · rw [List.filter_cons_of_neg hp, List.filter_cons_of_neg hp, ih]

theorem filter_eraseP_of_imp {α : Type} (p q : α → Bool) (l : List α)
    (h : ∀ x, q x = true → p x = true) : (l.eraseP q).filter p = (l.filter p).eraseP q := by
  induction l with
  | nil => rfl
  | cons a l ih =>
    by_cases hq : q a = true
    · rw [List.eraseP_cons_of_pos hq, List.filter_cons_of_pos (h a hq),
        List.eraseP_cons_of_pos hq]
    · rw [List.eraseP_cons_of_neg hq]
      by_cases hp : p a = true
      · rw [List.filter_cons_of_pos hp, List.filter_cons_of_pos hp,
          List.eraseP_cons_of_neg hq, ih]
      · rw [List.filter_cons_of_neg hp, List.filter_cons_of_neg hp, ih]

/-- The one tracked packet is answered: nothing tracked stays outstanding. -/
theorem filter_answered {p : Packet → Bool} {pkt x : Packet} {l b : List Packet}
    (hone : (l ++ b).filter p = [x]) (hany : l.any (answers pkt) = true)
    (himp : ∀ q, answers pkt q = true → p q = true) :
    answers pkt x = true ∧ b.filter p = [] ∧ (l.eraseP (answers pkt)).filter p = [] := by
  obtain ⟨q, hq, hans⟩ := List.any_eq_true.mp hany
  rw [List.filter_append] at hone
  have hmem : q ∈ l.filter p := List.mem_filter.mpr ⟨hq, himp q hans⟩
  cases hf : l.filter p with
  | nil =>
    rw [hf] at hmem
    cases hmem
  | cons a t =>
    rw [hf, List.cons_append] at hone
    injection hone with ha ht
    obtain ⟨ht1, ht2⟩ := List.append_eq_nil.mp ht
    subst ha ht1
    rw [hf] at hmem
    have hqx : q = a := List.mem_singleton.mp hmem
    subst hqx
    refine ⟨hans, ht2, ?_⟩
    rw [filter_eraseP_of_imp p _ l himp, hf, List.eraseP_cons_of_pos hans]

/-- At most one tracked packet is outstanding and a pending one is answered:
nothing tracked stays outstanding. -/
theorem filter_answered_le {p : Packet → Bool} {pkt : Packet} {l b : List Packet}
    (hone : ((l ++ b).filter p).length ≤ 1) (hany : l.any (answers pkt) = true)
    (himp : ∀ q, answers pkt q = true → p q = true) :
    b.filter p = [] ∧ (l.eraseP (answers pkt)).filter p = [] := by
  obtain ⟨q, hq, hans⟩ := List.any_eq_true.mp hany
  have hmem : q ∈ (l ++ b).filter p :=
    List.mem_filter.mpr ⟨List.mem_append_left _ hq, himp q hans⟩
  match hl : (l ++ b).filter p, hone, hmem with
  | [x], _, _ => exact (filter_answered hl hany himp).2
  | [], _, hm => cases hm
  | _ :: _ :: _, h, _ => simp at h

theorem answers_addr {pkt q : Packet} (h : answers pkt q = true) :
    q.addr = pkt.addr ∧ q.isRead = pkt.isRead := by
  unfold answers at h
  simpa using h

theorem acceptedRequests_append (a b : List Action) :
    acceptedRequests (a ++ b) = acceptedRequests a ++ acceptedRequests b := by
  unfold acceptedRequests
  exact List.filterMap_append _ _ _

theorem scheduledEvents_append (a b : List Action) :
    scheduledEvents (a ++ b) = scheduledEvents a ++ scheduledEvents b := by
  unfold scheduledEvents
  exact List.filterMap_append _ _ _

theorem metaPackets_append (a b : List Action) :
    metaPackets (a ++ b) = metaPackets a ++ metaPackets b := by
  unfold metaPackets
  exact List.filterMap_append _ _ _

/-- The completion check of a write sends nothing and schedules at most the
completion event. -/
theorem checkWrite_effects (c : Ctrl) :
    acceptedRequests (checkWrite c).acts = [] ∧ metaPackets (checkWrite c).acts = [] ∧
    (scheduledEvents (checkWrite c).acts).count .sendNextMtWrite = 0 ∧
    ∀ ev ∈ scheduledEvents (checkWrite c).acts, ev = .writeVerFinished := by
  rw [checkWrite_eq]
  split
  · simp [acceptedRequests, metaPackets, scheduledEvents]
  · split
    · simp [acceptedRequests, metaPackets, scheduledEvents]
    · split
      · simp [acceptedRequests, metaPackets, scheduledEvents]
      · split <;> simp [acceptedRequests, metaPackets, scheduledEvents]

/-- The completion check of a read sends nothing and schedules at most the
completion event. -/
theorem checkRead_effects (c : Ctrl) :
    acceptedRequests (checkRead c).acts = [] ∧ metaPackets (checkRead c).acts = [] ∧
    ∀ ev ∈ scheduledEvents (checkRead c).acts, ev = .readVerFinished := by
  rw [checkRead_eq]
  split
  · simp [acceptedRequests, metaPackets, scheduledEvents]
  · split
    · simp [acceptedRequests, metaPackets, scheduledEvents]
    · split
      · simp [acceptedRequests, metaPackets, scheduledEvents]
      · split <;> simp [acceptedRequests, metaPackets, scheduledEvents]

/-! ## Callbacks that do not touch the walk -/

theorem sameTxn_refl (c : Ctrl) : SameTxn c c := ⟨rfl, rfl, rfl, rfl, rfl, rfl, rfl, rfl⟩

theorem sameTxn_chargedAt (t : Nat) (c c' : Ctrl) (h : SameTxn c c') :
    SameTxn c (chargedAt t c') := by
  unfold chargedAt
  split
  · exact h
  · exact h

theorem sameTxn_wellAddressed {c c' : Ctrl} (h : SameTxn c c') (hW : WellAddressed c) :
    WellAddressed c' := by
  obtain ⟨_, h1, h2, h3, h4, h5, _, _⟩ := h
  obtain ⟨⟨b1, b2, b3⟩, hA, hC⟩ := hW
  exact ⟨⟨h1.trans b1, h2.trans b2, h3.trans b3⟩, h4 ▸ hA, by rw [h5, h4]; exact hC⟩

theorem sameTxn_nodeWrite {c c' : Ctrl} (h : SameTxn c c') : nodeWrite c' = nodeWrite c := by
  obtain ⟨_, _, _, h3, _, h5, h6, h7⟩ := h
  funext i
  simp only [nodeWrite, createMetaPkt, mtNodeAddr, h3, h5, h6, h7]

theorem sameTxn_nodeRead {c c' : Ctrl} (h : SameTxn c c') : nodeRead c' = nodeRead c := by
  obtain ⟨_, _, _, h3, _, h5, h6, h7⟩ := h
  funext i
  simp only [nodeRead, createMetaPkt, mtNodeAddr, h3, h5, h6, h7]

theorem walkCommon_frame {st : State} {k : Nat} {s s' : Sys} (hF : FrameStep s s')
    (h : WalkCommon st k s) : WalkCommon st k s' := by
  obtain ⟨hT, hmt, hP, _⟩ := hF
  obtain ⟨hs, hW, hpre, _⟩ := h
  exact ⟨hT.1.trans hs, sameTxn_wellAddressed hT hW, hmt ▸ hpre, hP⟩

theorem writeWalkAt_frame {k : Nat} {ph : WalkPhase} {s s' : Sys}
    (hF : FrameStep s s' ∧ CounterFrame s s')
    (h : WriteWalkAt k ph s) : WriteWalkAt k ph s' := by
  refine ⟨walkCommon_frame hF.1 h.1, ?_⟩
  obtain ⟨⟨hT, hmt, _, htm, hin, hwi, hri⟩, hcp, hcn⟩ := hF
  have hph := h.2
  unfold WritePhase at hph ⊢
  rw [hmt, hcp, htm, hin, hcn, hwi, hri, sameTxn_nodeWrite hT, sameTxn_nodeRead hT]
  exact hph

theorem readWalkAt_frame {k : Nat} {w : Bool} {s s' : Sys} (hF : FrameStep s s')
    (h : ReadWalkAt k w s) : ReadWalkAt k w s' := by
  refine ⟨walkCommon_frame hF h.1, ?_⟩
  obtain ⟨hT, hmt, _, htm, hin, hwi, hri⟩ := hF
  have hph := h.2
  unfold ReadPhase at hph ⊢
  rw [hmt, htm, hin, hwi, hri, sameTxn_nodeRead hT]
  exact hph

theorem sameTxn_trans {a b c : Ctrl} (h1 : SameTxn a b) (h2 : SameTxn b c) : SameTxn a c := by
  obtain ⟨a1, a2, a3, a4, a5, a6, a7, a8⟩ := h1
  obtain ⟨b1, b2, b3, b4, b5, b6, b7, b8⟩ := h2
  exact ⟨b1.trans a1, b2.trans a2, b3.trans a3, b4.trans a4, b5.trans a5, b6.trans a6,
    b7.trans a7, b8.trans a8⟩

theorem scalarUpdate_refl (c : Ctrl) : ScalarUpdate c c :=
  ⟨sameTxn_refl c, rfl, rfl, rfl, fun _ h => h, fun _ h => Or.inl h⟩

theorem scalarUpdate_trans {a b c : Ctrl} (h1 : ScalarUpdate a b) (h2 : ScalarUpdate b c) :
    ScalarUpdate a c := by
  obtain ⟨a1, a2, a3, a4, a5, a6⟩ := h1
  obtain ⟨b1, b2, b3, b4, b5, b6⟩ := h2
  refine ⟨sameTxn_trans a1 b1, b2.trans a2, b3.trans a3, b4.trans a4,
    fun p hp => a5 p (b5 p hp), fun p hp => ?_⟩
  rcases b6 p hp with h | h
  · exact a6 p h
  · exact Or.inr (h.trans a1.2.2.2.2.1)

theorem scalarUpdate_chargedAt (t : Nat) {c c' : Ctrl} (h : ScalarUpdate c c') :
    ScalarUpdate c (chargedAt t c') := by
  unfold chargedAt
  split
  · exact h
  · exact h

theorem scalarUpdate_macChecked (now : Nat) {c c' : Ctrl} (h : ScalarUpdate c c') :
    ScalarUpdate c (macChecked now c') := by
  unfold macChecked
  split
  · exact scalarUpdate_chargedAt _ h
  · exact h

theorem scalarUpdate_ports {c c' : Ctrl} (h : ScalarUpdate c c') (hP : PortsSettled c) :
    PortsSettled c' := by
  obtain ⟨hT, _, h3, h4, h5, h6⟩ := h
  obtain ⟨p1, p2, p3, p4⟩ := hP
  have hA := hT.2.2.2.2.1
  refine ⟨fun p hp => ?_, fun p hp => ?_, fun p hp => ?_, fun p hp => ?_⟩
  · rw [hA]
    exact p1 p (h3 ▸ hp)
  · rw [hA]
    exact p2 p (h5 p hp)
  · rw [hA]
    rcases h6 p hp with h | h
    · exact p3 p h
    · exact h
  · exact p4 p (h4 ▸ hp)

/-- A predicate on packets that holds of Merkle packets only. -/
theorem isNode_tracked (c : Ctrl) :
    ∀ p, isNode p = true → isNode p = true ∨ p.addr = add64 c.cntBorder c.verifiedCntOffs :=
  fun _ hp => Or.inl hp

theorem frameStep_mk {s : Sys} {inp : Input} {acts : List Action} {c' : Ctrl}
    (hT : SameTxn s.ctrl c') (hmt : c'.mtPkts = s.ctrl.mtPkts) (hP : PortsSettled c')
    (htm : (s.timersBase inp ++ scheduledEvents acts).count .sendNextMtWrite =
      s.timers.count .sendNextMtWrite)
    (hL : ((s.pendingBase inp ++ acceptedRequests acts) ++
        c'.metaPort.blockedPacket.toList).filter isNode =
      (s.pending ++ s.ctrl.metaPort.blockedPacket.toList).filter isNode)
    (hcr : ∀ p ∈ createdPackets inp acts, isNode p = false) :
    FrameStep s (s.after inp acts c') := by
  refine ⟨hT, hmt, hP, htm, hL, ?_, ?_⟩
  · have h : (createdPackets inp acts).filter (fun p => isNode p && !p.isRead) = [] := by
      rw [List.filter_eq_nil_iff]
      intro p hp
      simp [hcr p hp]
    unfold Sys.writesIssued Sys.after
    simp only [List.filter_append, h, List.append_nil]
  · have h : (createdPackets inp acts).filter (fun p => isNode p && p.isRead) = [] := by
      rw [List.filter_eq_nil_iff]
      intro p hp
      simp [hcr p hp]
    unfold Sys.readsIssued Sys.after
    simp only [List.filter_append, h, List.append_nil]

theorem counterFrame_mk {s : Sys} {inp : Input} {acts : List Action} {c' : Ctrl}
    (hT : SameTxn s.ctrl c') (hcp : c'.counterPkt = s.ctrl.counterPkt)
    (hL : ∀ f : Packet → Bool,
      (∀ p, f p = true →
        isNode p = true ∨ p.addr = add64 s.ctrl.cntBorder s.ctrl.verifiedCntOffs) →
      ((s.pendingBase inp ++ acceptedRequests acts) ++
        c'.metaPort.blockedPacket.toList).filter f =
      (s.pending ++ s.ctrl.metaPort.blockedPacket.toList).filter f) :
    CounterFrame s (s.after inp acts c') := by
  refine ⟨hcp, ?_⟩
  unfold Sys.cntInflight
  show List.filter (fun p : Packet => decide (p.addr = add64 c'.cntBorder c'.verifiedCntOffs))
    _ = _
  rw [hT.2.1, hT.2.2.2.2.2.1]
  exact hL _ (fun p hp => Or.inr (of_decide_eq_true hp))

/-- A packet at the data address is neither a Merkle nor a counter packet. -/
theorem untracked_data {c : Ctrl} (hW : WellAddressed c) {p : Packet}
    (hp : p.addr = c.verifiedPktAddr) {f : Packet → Bool}
    (hf : ∀ p, f p = true → isNode p = true ∨ p.addr = add64 c.cntBorder c.verifiedCntOffs) :
    f p = false := by
  obtain ⟨h1, h2, _⟩ := scalar_regions c hW.1 hW.2.1 hW.2.2
  cases hfp : f p with
  | false => rfl
  | true =>
    rcases hf p hfp with h | h
    · unfold isNode at h
      have := of_decide_eq_true h
      omega
    · omega

/-- A packet below the Merkle region and not at the counter address is neither
a Merkle nor a counter packet. -/
theorem untracked_below {c : Ctrl} {p : Packet} (hlt : p.addr < 0x288000000)
    (hne : p.addr ≠ add64 c.cntBorder c.verifiedCntOffs) {f : Packet → Bool}
    (hf : ∀ p, f p = true → isNode p = true ∨ p.addr = add64 c.cntBorder c.verifiedCntOffs) :
    f p = false := by
  cases hfp : f p with
  | false => rfl
  | true =>
    rcases hf p hfp with h | h
    · unfold isNode at h
      have := of_decide_eq_true h
      omega
    · exact absurd h hne

/-- The address `sendMacPkt` sends to lies in `[macBorder, mtBorders[0])`. -/
theorem mac_send_region (c : Ctrl) (hW : WellAddressed c) :
    0x208000000 ≤ alignDown 4 (add64 c.macBorder (c.verifiedPktAddr >>> 2)) ∧
    alignDown 4 (add64 c.macBorder (c.verifiedPktAddr >>> 2)) < 0x288000000 := by
  obtain ⟨⟨_, hb2, _⟩, hA, _⟩ := hW
  have hA2 : c.verifiedPktAddr < 0x200000000 := hA
  have hsh : c.verifiedPktAddr >>> 2 = c.verifiedPktAddr / 4 := by
    rw [Nat.shiftRight_eq_div_pow]
  rw [hb2, hsh, construct_macBorder, add64_of_lt (by unfold W64; omega),
    alignDown_eq _ _ (by unfold W64; omega)]
  omega

/-- A callback that updates scalar slots only, sends nothing, schedules no
next-MT-write event and answers no Merkle packet does not touch the walk. -/
theorem frame_scalar {s : Sys} {inp : Input} {acts : List Action} {c' : Ctrl}
    (hP : PortsSettled s.ctrl) (hU : ScalarUpdate s.ctrl c')
    (ha : acceptedRequests acts = []) (hm : metaPackets acts = [])
    (hsch : (scheduledEvents acts).count .sendNextMtWrite = 0)
    (htb : s.timersBase inp = s.timers)
    (hpb : (s.pendingBase inp).filter isNode = s.pending.filter isNode) :
    FrameStep s (s.after inp acts c') := by
  refine frameStep_mk hU.1 hU.2.1 (scalarUpdate_ports hU hP) ?_ ?_ ?_
  · rw [htb, List.count_append, hsch, Nat.add_zero]
  · rw [ha, List.append_nil, hU.2.2.2.1, List.filter_append, hpb, List.filter_append]
  · intro p hp
    have : createdPackets inp acts = [] := by
      unfold createdPackets
      split <;> first | rfl | exact hm
    rw [this] at hp
    cases hp

/-- A callback that leaves the counter slot, sends nothing and answers no
counter packet does not touch the counter. -/
theorem counter_scalar {s : Sys} {inp : Input} {acts : List Action} {c' : Ctrl}
    (hU : ScalarUpdate s.ctrl c') (hcp : c'.counterPkt = s.ctrl.counterPkt)
    (ha : acceptedRequests acts = [])
    (hpb : ∀ f : Packet → Bool,
      (∀ p, f p = true →
        isNode p = true ∨ p.addr = add64 s.ctrl.cntBorder s.ctrl.verifiedCntOffs) →
      (s.pendingBase inp).filter f = s.pending.filter f) :
    CounterFrame s (s.after inp acts c') := by
  refine counterFrame_mk hU.1 hcp (fun f hf => ?_)
  rw [ha, List.append_nil, hU.2.2.2.1, List.filter_append, hpb f hf, List.filter_append]

/-- A request arriving while the controller is busy does not touch the walk. -/
theorem frame_timingReq (tr : Transport) (now : Nat) (pkt : Packet) (s : Sys)
    (hst : s.ctrl.state ≠ .Idle) (hP : PortsSettled s.ctrl) :
    FrameStep s (s.after (.timingReq pkt) (step tr now (.timingReq pkt) s.ctrl).acts
        (step tr now (.timingReq pkt) s.ctrl).ctrl) ∧
      CounterFrame s (s.after (.timingReq pkt) (step tr now (.timingReq pkt) s.ctrl).acts
        (step tr now (.timingReq pkt) s.ctrl).ctrl) := by
  rw [step_timingReq_eq, recvTimingReq_busy tr pkt s.ctrl hst]
  have hU : ScalarUpdate s.ctrl
      { s.ctrl with cpuSidePort := { s.ctrl.cpuSidePort with needRetry := true } } :=
    ⟨sameTxn_refl _, rfl, rfl, rfl, fun _ h => h, fun _ h => Or.inl h⟩
  exact ⟨frame_scalar hP hU rfl rfl rfl rfl rfl, counter_scalar hU rfl rfl (fun _ _ => rfl)⟩

/-! ## Responses that fill a scalar slot -/

theorem chargedAt_cases (t : Nat) (c : Ctrl) :
    chargedAt t c = c ∨ chargedAt t c = { c with chargeTime := t } := by
  unfold chargedAt
  split
  · exact Or.inr rfl
  · exact Or.inl rfl

theorem chargedAt_counterPkt (t : Nat) (c : Ctrl) : (chargedAt t c).counterPkt = c.counterPkt := by
  rcases chargedAt_cases t c with h | h <;> rw [h]

theorem macChecked_counterPkt (now : Nat) (c : Ctrl) :
    (macChecked now c).counterPkt = c.counterPkt := by
  unfold macChecked
  split
  · exact chargedAt_counterPkt _ _
  · rfl

theorem scalarUpdate_response (c : Ctrl) (pkt : Packet) (h : pkt.addr = c.verifiedPktAddr) :
    ScalarUpdate c { c with responsePkt := some pkt } :=
  ⟨sameTxn_refl c, rfl, rfl, rfl, fun _ hp => hp,
    fun p hp => Or.inr (by
      have : pkt = p := Option.some.inj hp
      rw [← this]
      exact h)⟩

/-- A response below the Merkle region (and, in `Write`, not at the counter
address), when the handler returns: the handler updates scalar slots only, sends
nothing and schedules no next-MT-write event. -/
theorem scalar_response (tr : Transport) (now : Nat) (pkt : Packet) (c : Ctrl)
    (hW : WellAddressed c) (hst : c.state ≠ .Idle) (hlt : pkt.addr < 0x288000000)
    (hne : c.state = .Write → pkt.addr ≠ add64 c.cntBorder c.verifiedCntOffs)
    (hok : (handleResponse tr now pkt c).res = .ok ()) :
    ScalarUpdate c (handleResponse tr now pkt c).ctrl ∧
    (pkt.addr ≠ add64 c.cntBorder c.verifiedCntOffs →
      (handleResponse tr now pkt c).ctrl.counterPkt = c.counterPkt) ∧
    acceptedRequests (handleResponse tr now pkt c).acts = [] ∧
    metaPackets (handleResponse tr now pkt c).acts = [] ∧
    (scheduledEvents (handleResponse tr now pkt c).acts).count .sendNextMtWrite = 0 := by
  obtain ⟨hf1, hf2, hf3⟩ := firstHit_below c hW pkt hlt
  cases hs : c.state with
  | Idle => exact absurd hs hst
  | Read =>
    have key : ∃ c', (ScalarUpdate c c' ∧
          (pkt.addr ≠ add64 c.cntBorder c.verifiedCntOffs → c'.counterPkt = c.counterPkt)) ∧
        handleResponse tr now pkt c = checkRead c' := by
      rw [handleResponse_read tr now pkt c hs]
      by_cases h1 : pkt.addr = c.verifiedPktAddr
      · rw [recordRead_data tr now pkt c h1, andThen_ok, prepend_nil]
        exact ⟨_, ⟨scalarUpdate_macChecked _ (scalarUpdate_response c pkt h1),
          fun _ => by rw [macChecked_counterPkt]⟩, rfl⟩
      · by_cases h2 : pkt.addr = add64 c.cntBorder c.verifiedCntOffs
        · rw [recordRead_cnt tr now pkt c h1 h2, andThen_ok, prepend_nil]
          refine ⟨_, ⟨scalarUpdate_macChecked _ (scalarUpdate_chargedAt _ ?_),
            fun h => absurd h2 h⟩, rfl⟩
          exact ⟨sameTxn_refl c, rfl, rfl, rfl, fun _ hp => hp, fun _ hp => Or.inl hp⟩
        · by_cases h3 : pkt.addr = add64 c.macBorder (shl64 c.verifiedCntOffs 4)
          · rw [recordRead_mac tr now pkt c h1 h2 h3, andThen_ok, prepend_nil]
            refine ⟨_, ⟨scalarUpdate_macChecked _ ?_,
              fun _ => by rw [macChecked_counterPkt]⟩, rfl⟩
            exact ⟨sameTxn_refl c, rfl, rfl, rfl, fun _ hp => hp, fun _ hp => Or.inl hp⟩
          · rw [recordRead_unmatched tr now pkt c h1 h2 h3 hf1 hf2, andThen_ok, prepend_nil]
            exact ⟨_, ⟨scalarUpdate_macChecked _ (scalarUpdate_refl c),
              fun _ => by rw [macChecked_counterPkt]⟩, rfl⟩
    obtain ⟨c', ⟨hU, hcp⟩, heq⟩ := key
    rw [heq, checkRead_ctrl]
    obtain ⟨e1, e2, e3⟩ := checkRead_effects c'
    refine ⟨hU, hcp, e1, e2, ?_⟩
    rw [List.count_eq_zero]
    intro hmem
    cases e3 _ hmem
  | Write =>
    have hne2 := hne hs
    have key : ∃ c', (ScalarUpdate c c' ∧ c'.counterPkt = c.counterPkt) ∧
        handleResponse tr now pkt c = checkWrite c' := by
      rw [handleResponse_write tr now pkt c hs] at hok ⊢
      by_cases h1 : pkt.addr = c.verifiedPktAddr
      · rw [recordWrite_data tr now pkt c h1] at hok ⊢
        by_cases hn : c.needsResponse = true
        · rw [if_pos hn, andThen_ok]
          simp only [if_true, prepend_nil]
          exact ⟨_, ⟨scalarUpdate_chargedAt _ (scalarUpdate_response c pkt h1),
            by rw [chargedAt_counterPkt]⟩, rfl⟩
        · rw [if_neg hn] at hok
          cases hok
      · by_cases h3 : pkt.addr = add64 c.macBorder (shl64 c.verifiedCntOffs 4)
        · rw [recordWrite_mac tr now pkt c h1 hne2 h3, andThen_ok]
          simp only [if_true, prepend_nil]
          refine ⟨_, ⟨scalarUpdate_chargedAt _ ?_, by rw [chargedAt_counterPkt]⟩, rfl⟩
          exact ⟨sameTxn_refl c, rfl, rfl, rfl, fun _ hp => hp, fun _ hp => Or.inl hp⟩
        · cases hr : pkt.isRead with
          | true =>
            rw [recordWrite_probe_last tr now pkt c h1 hne2 h3 hr hf1, if_neg hf2] at hok
            cases hok
          | false =>
            rw [recordWrite_unmatched tr now pkt c h1 hne2 h3 hr hf3, andThen_ok]
            simp only [if_true, prepend_nil]
            exact ⟨_, ⟨scalarUpdate_refl c, rfl⟩, rfl⟩
    obtain ⟨c', ⟨hU, hcp⟩, heq⟩ := key
    rw [heq, checkWrite_ctrl]
    obtain ⟨e1, e2, e3, _⟩ := checkWrite_effects c'
    exact ⟨hU, fun _ => hcp, e1, e2, e3⟩

theorem step_timingResp_acts (tr : Transport) (now : Nat) (pkt : Packet) (c : Ctrl) :
    (step tr now (.timingResp pkt) c).acts = (handleResponse tr now pkt c).acts := by
  rw [step_timingResp_eq, andThen_pure_acts, andThen_pure_acts]

theorem step_timingResp_ctrl (tr : Transport) (now : Nat) (pkt : Packet) (c : Ctrl) :
    (step tr now (.timingResp pkt) c).ctrl = (handleResponse tr now pkt c).ctrl := by
  rw [step_timingResp_eq, andThen_pure_ctrl, andThen_pure_ctrl]

theorem step_timingResp_ok (tr : Transport) (now : Nat) (pkt : Packet) (c : Ctrl)
    (h : (step tr now (.timingResp pkt) c).res = .ok ()) :
    (handleResponse tr now pkt c).res = .ok () := by
  rw [step_timingResp_eq] at h
  obtain ⟨_, h1⟩ := andThen_pure_ok h
  obtain ⟨_, h2⟩ := andThen_pure_ok h1
  exact h2

/-- Answering a request that is neither a Merkle nor a counter packet leaves
the outstanding Merkle and counter packets as they are. -/
theorem pendingBase_untracked (s : Sys) (pkt : Packet) (f : Packet → Bool)
    (hf : ∀ p, f p = true → isNode p = true ∨ p.addr = add64 s.ctrl.cntBorder s.ctrl.verifiedCntOffs)
    (hlt : pkt.addr < 0x288000000)
    (hne : pkt.addr ≠ add64 s.ctrl.cntBorder s.ctrl.verifiedCntOffs) :
    (s.pendingBase (.timingResp pkt)).filter f = s.pending.filter f := by
  refine filter_eraseP_of_neg f _ _ (fun x hx => ?_)
  obtain ⟨hxa, _⟩ := answers_addr hx
  exact untracked_below (hxa ▸ hlt) (hxa ▸ hne) hf

/-- Answering a request below the Merkle region leaves the outstanding Merkle
packets as they are. -/
theorem pendingBase_below (s : Sys) (pkt : Packet) (hlt : pkt.addr < 0x288000000) :
    (s.pendingBase (.timingResp pkt)).filter isNode = s.pending.filter isNode := by
  refine filter_eraseP_of_neg isNode _ _ (fun x hx => ?_)
  obtain ⟨hxa, _⟩ := answers_addr hx
  unfold isNode
  rw [hxa]
  exact decide_eq_false (by omega)

/-- A response below the Merkle region (in `Write`, not the counter response)
does not touch the walk; unless it is the counter response, it does not touch
the counter. -/
theorem frame_timingResp (tr : Transport) (now : Nat) (pkt : Packet) (s : Sys)
    (hW : WellAddressed s.ctrl) (hP : PortsSettled s.ctrl) (hst : s.ctrl.state ≠ .Idle)
    (hlt : pkt.addr < 0x288000000)
    (hne : s.ctrl.state = .Write → pkt.addr ≠ add64 s.ctrl.cntBorder s.ctrl.verifiedCntOffs)
    (hok : (step tr now (.timingResp pkt) s.ctrl).res = .ok ()) :
    FrameStep s (s.after (.timingResp pkt) (step tr now (.timingResp pkt) s.ctrl).acts
        (step tr now (.timingResp pkt) s.ctrl).ctrl) ∧
      (pkt.addr ≠ add64 s.ctrl.cntBorder s.ctrl.verifiedCntOffs →
        CounterFrame s (s.after (.timingResp pkt) (step tr now (.timingResp pkt) s.ctrl).acts
          (step tr now (.timingResp pkt) s.ctrl).ctrl)) := by
  obtain ⟨hU, hcp, e1, e2, e3⟩ :=
    scalar_response tr now pkt s.ctrl hW hst hlt hne (step_timingResp_ok tr now pkt s.ctrl hok)
  rw [step_timingResp_acts, step_timingResp_ctrl]
  exact ⟨frame_scalar hP hU e1 e2 e3 rfl (pendingBase_below s pkt hlt),
    fun h => counter_scalar hU (hcp h) e1 (fun f hf => pendingBase_untracked s pkt f hf hlt h)⟩

/-- The CPU side asking again for a refused response does not touch the walk. -/
theorem frame_respRetry (tr : Transport) (now : Nat) (s : Sys)
    (hW : WellAddressed s.ctrl) (hP : PortsSettled s.ctrl) (hst : s.ctrl.state ≠ .Idle)
    (hok : (step tr now .respRetry s.ctrl).res = .ok ()) :
    FrameStep s (s.after .respRetry (step tr now .respRetry s.ctrl).acts
        (step tr now .respRetry s.ctrl).ctrl) ∧
      CounterFrame s (s.after .respRetry (step tr now .respRetry s.ctrl).acts
        (step tr now .respRetry s.ctrl).ctrl) := by
  have hstep : step tr now .respRetry s.ctrl = recvRespRetry tr now s.ctrl := rfl
  rw [hstep, recvRespRetry_eq] at hok ⊢
  cases hb : s.ctrl.cpuSidePort.blockedPacket with
  | none =>
    rw [hb] at hok
    cases hok
  | some p =>
    rw [hb] at hok
    simp only at hok ⊢
    have hpa : p.addr = s.ctrl.verifiedPktAddr := hP.2.1 p hb
    obtain ⟨r1, r2, _⟩ := scalar_regions s.ctrl hW.1 hW.2.1 hW.2.2
    have hU0 : ScalarUpdate s.ctrl
        { s.ctrl with cpuSidePort := { s.ctrl.cpuSidePort with blockedPacket := none } } := by
      refine ⟨sameTxn_refl _, rfl, rfl, rfl, ?_, fun _ h => Or.inl h⟩
      intro q hq
      cases hq
    have hne : p.addr ≠ add64 s.ctrl.cntBorder s.ctrl.verifiedCntOffs := by omega
    obtain ⟨hU, hcp, e1, e2, e3⟩ := scalar_response tr now p
      { s.ctrl with cpuSidePort := { s.ctrl.cpuSidePort with blockedPacket := none } }
      hW hst (by omega) (fun _ => hne) hok
    exact ⟨frame_scalar hP (scalarUpdate_trans hU0 hU) e1 e2 e3 rfl rfl,
      counter_scalar (scalarUpdate_trans hU0 hU) (hcp hne) e1 (fun _ _ => rfl)⟩

/-! ## Retries and events that do not touch the walk -/

theorem handleRequestRetry_data (tr : Transport) (p : Packet) (c : Ctrl)
    (h : p.addr = c.verifiedPktAddr) (hb : c.memPort.blockedPacket = none) :
    handleRequestRetry tr p c c =
      ⟨[.send .memPort p (tr .memPort p)],
        if tr .memPort p then c else { c with memPort := { blockedPacket := some p } },
        .ok ()⟩ := by
  unfold handleRequestRetry
  rw [if_pos h]
  simp only [bind_eq, pure_eq, M.bind_apply, memPort_sendPacket_eq, hb, Option.isSome_none,
    Bool.false_eq_true, if_false]
  cases tr .memPort p <;> rfl

/-- The retry branch on a packet that is not at the data address: it is sent
again on the metadata port, or the call ends in the "Invalid blockedPkt" panic. -/
theorem handleRequestRetry_meta (tr : Transport) (p : Packet) (c : Ctrl)
    (h : p.addr ≠ c.verifiedPktAddr) (hb : c.metaPort.blockedPacket = none) :
    handleRequestRetry tr p c c =
        ⟨[.send .metaPort p (tr .metaPort p)],
          if tr .metaPort p then c else { c with metaPort := { blockedPacket := some p } },
          .ok ()⟩ ∨
      handleRequestRetry tr p c c = ⟨[], c, .fatal .invalidBlockedPkt⟩ := by
  have hsend : (metaPort_sendPacket tr p >>= fun _ => (pure () : M Unit)) c =
      ⟨[.send .metaPort p (tr .metaPort p)],
        if tr .metaPort p then c else { c with metaPort := { blockedPacket := some p } },
        .ok ()⟩ := by
    simp only [bind_eq, pure_eq, M.bind_apply, metaPort_sendPacket_eq, hb, Option.isSome_none,
      Bool.false_eq_true, if_false]
    cases tr .metaPort p <;> rfl
  unfold handleRequestRetry
  rw [if_neg h]
  by_cases h2 : p.addr = add64 c.cntBorder c.verifiedCntOffs
  · rw [if_pos h2]
    exact Or.inl hsend
  · rw [if_neg h2]
    by_cases h3 : p.addr = add64 c.macBorder (shl64 c.verifiedCntOffs 4)
    · rw [if_pos h3]
      exact Or.inl hsend
    · rw [if_neg h3]
      cases hm : retryMtLevel c p with
      | some _ => exact Or.inl hsend
      | none => exact Or.inr rfl

/-- A callback that changes at most `needRetry` and the blocked slots of the
memory-side ports, creates no Merkle packet, schedules or fires no next-MT-write
event and keeps the outstanding Merkle and counter packets does not touch the
walk. -/
theorem frame_ports {s : Sys} {inp : Input} {acts : List Action} {c' : Ctrl}
    (hP : PortsSettled s.ctrl)
    (hT : SameTxn s.ctrl c') (hmt : c'.mtPkts = s.ctrl.mtPkts)
    (hcp : c'.counterPkt = s.ctrl.counterPkt)
    (hresp : c'.responsePkt = s.ctrl.responsePkt)
    (hcpu : ∀ q, c'.cpuSidePort.blockedPacket = some q →
      s.ctrl.cpuSidePort.blockedPacket = some q ∨ s.ctrl.responsePkt = some q)
    (hmem : ∀ q, c'.memPort.blockedPacket = some q → q.addr = s.ctrl.verifiedPktAddr)
    (hmeta : ∀ q, c'.metaPort.blockedPacket = some q →
      0x200000000 ≤ q.addr ∧ q.needsResponse = true)
    (htm : (s.timersBase inp ++ scheduledEvents acts).count .sendNextMtWrite =
      s.timers.count .sendNextMtWrite)
    (hL : ∀ f : Packet → Bool,
      (∀ p, f p = true →
        isNode p = true ∨ p.addr = add64 s.ctrl.cntBorder s.ctrl.verifiedCntOffs) →
      ((s.pendingBase inp ++ acceptedRequests acts) ++
        c'.metaPort.blockedPacket.toList).filter f =
      (s.pending ++ s.ctrl.metaPort.blockedPacket.toList).filter f)
    (hcr : ∀ p ∈ createdPackets inp acts, isNode p = false) :
    FrameStep s (s.after inp acts c') ∧ CounterFrame s (s.after inp acts c') := by
  have hA := hT.2.2.2.2.1
  refine ⟨frameStep_mk hT hmt ⟨fun q hq => ?_, fun q hq => ?_, fun q hq => ?_, hmeta⟩ htm
    (hL isNode (isNode_tracked _)) hcr, counterFrame_mk hT hcp hL⟩
  · rw [hA]
    exact hmem q hq
  · rw [hA]
    rcases hcpu q hq with h | h
    · exact hP.2.1 q h
    · exact hP.2.2.1 q h
  · rw [hA]
    exact hP.2.2.1 q (hresp ▸ hq)

/-- The data port asking again for the refused data packet does not touch the
walk. -/
theorem frame_memReqRetry (tr : Transport) (now : Nat) (s : Sys)
    (hW : WellAddressed s.ctrl) (hP : PortsSettled s.ctrl) (hst : s.ctrl.state ≠ .Idle)
    (hok : (step tr now .memReqRetry s.ctrl).res = .ok ()) :
    FrameStep s (s.after .memReqRetry (step tr now .memReqRetry s.ctrl).acts
        (step tr now .memReqRetry s.ctrl).ctrl) ∧
      CounterFrame s (s.after .memReqRetry (step tr now .memReqRetry s.ctrl).acts
        (step tr now .memReqRetry s.ctrl).ctrl) := by
  have hstep : step tr now .memReqRetry s.ctrl = memPort_recvReqRetry tr s.ctrl := rfl
  rw [hstep, memPort_recvReqRetry_eq] at hok ⊢
  cases hb : s.ctrl.memPort.blockedPacket with
  | none =>
    rw [hb] at hok
    cases hok
  | some p =>
    simp only at hok ⊢
    have hpa : p.addr = s.ctrl.verifiedPktAddr := hP.1 p hb
    rw [handleRequest_busy tr p { s.ctrl with memPort := { blockedPacket := none } } hst,
      handleRequestRetry_data tr p { s.ctrl with memPort := { blockedPacket := none } } hpa rfl]
    have hgen : ∀ f : Packet → Bool,
        (∀ p, f p = true →
          isNode p = true ∨ p.addr = add64 s.ctrl.cntBorder s.ctrl.verifiedCntOffs) →
        ((s.pendingBase .memReqRetry ++
            acceptedRequests [.send .memPort p (tr .memPort p)]) ++
          (if tr .memPort p = true then
              { s.ctrl with memPort := { blockedPacket := none } }
            else { s.ctrl with memPort := { blockedPacket := some p } } :
            Ctrl).metaPort.blockedPacket.toList).filter f =
        (s.pending ++ s.ctrl.metaPort.blockedPacket.toList).filter f := by
      intro f hf
      have hfp : f p = false := untracked_data hW hpa hf
      cases tr .memPort p <;> cases p.needsResponse <;>
        simp [acceptedRequests, Sys.pendingBase, List.filter_append, hfp]
    refine frame_ports hP ?_ ?_ ?_ ?_ ?_ ?_ ?_
      (by simp [scheduledEvents, Sys.timersBase]) hgen ?_
    · split <;> exact ⟨rfl, rfl, rfl, rfl, rfl, rfl, rfl, rfl⟩
    · split <;> rfl
    · split <;> rfl
    · split <;> rfl
    · intro q hq
      refine Or.inl ?_
      split at hq <;> exact hq
    · intro q hq
      split at hq
      · cases hq
      · cases hq
        exact hpa
    · intro q hq
      refine hP.2.2.2 q ?_
      split at hq <;> exact hq
    · intro q hq
      cases hq

/-- The metadata port asking again for its refused packet does not touch the
walk: the packet moves from the blocked slot to the pending requests, or stays. -/
theorem frame_metaReqRetry (tr : Transport) (now : Nat) (s : Sys)
    (hW : WellAddressed s.ctrl) (hP : PortsSettled s.ctrl) (hst : s.ctrl.state ≠ .Idle)
    (hok : (step tr now .metaReqRetry s.ctrl).res = .ok ()) :
    FrameStep s (s.after .metaReqRetry (step tr now .metaReqRetry s.ctrl).acts
        (step tr now .metaReqRetry s.ctrl).ctrl) ∧
      CounterFrame s (s.after .metaReqRetry (step tr now .metaReqRetry s.ctrl).acts
        (step tr now .metaReqRetry s.ctrl).ctrl) := by
  have hstep : step tr now .metaReqRetry s.ctrl = metaPort_recvReqRetry tr s.ctrl := rfl
  rw [hstep, metaPort_recvReqRetry_eq] at hok ⊢
  cases hb : s.ctrl.metaPort.blockedPacket with
  | none =>
    rw [hb] at hok
    cases hok
  | some p =>
    rw [hb] at hok
    simp only at hok ⊢
    obtain ⟨hge, hnr⟩ := hP.2.2.2 p hb
    obtain ⟨r1, _⟩ := scalar_regions s.ctrl hW.1 hW.2.1 hW.2.2
    have hpa : p.addr ≠ s.ctrl.verifiedPktAddr := by omega
    rw [handleRequest_busy tr p { s.ctrl with metaPort := { blockedPacket := none } } hst]
      at hok ⊢
    rcases handleRequestRetry_meta tr p { s.ctrl with metaPort := { blockedPacket := none } }
      hpa rfl with h | h
    · rw [h]
      have hgen : ∀ f : Packet → Bool,
          (∀ p, f p = true →
            isNode p = true ∨ p.addr = add64 s.ctrl.cntBorder s.ctrl.verifiedCntOffs) →
          ((s.pendingBase .metaReqRetry ++
              acceptedRequests [.send .metaPort p (tr .metaPort p)]) ++
            (if tr .metaPort p = true then
                { s.ctrl with metaPort := { blockedPacket := none } }
              else { s.ctrl with metaPort := { blockedPacket := some p } } :
              Ctrl).metaPort.blockedPacket.toList).filter f =
          (s.pending ++ s.ctrl.metaPort.blockedPacket.toList).filter f := by
        intro f hf
        cases tr .metaPort p <;>
          simp [acceptedRequests, Sys.pendingBase, List.filter_append, hnr, hb]
      refine frame_ports hP ?_ ?_ ?_ ?_ ?_ ?_ ?_
        (by simp [scheduledEvents, Sys.timersBase]) hgen ?_
      · split <;> exact ⟨rfl, rfl, rfl, rfl, rfl, rfl, rfl, rfl⟩
      · split <;> rfl
      · split <;> rfl
      · split <;> rfl
      · intro q hq
        refine Or.inl ?_
        split at hq <;> exact hq
      · intro q hq
        refine hP.1 q ?_
        split at hq <;> exact hq
      · intro q hq
        split at hq
        · cases hq
        · cases hq
          exact ⟨hge, hnr⟩
      · intro q hq
        cases hq
    · rw [h] at hok
      cases hok

/-- The MAC packet `sendMacPkt` creates is neither a Merkle nor a counter
packet. -/
theorem untracked_mac {c : Ctrl} (hW : WellAddressed c) (r : Bool) {f : Packet → Bool}
    (hf : ∀ p, f p = true → isNode p = true ∨ p.addr = add64 c.cntBorder c.verifiedCntOffs) :
    f (createMetaPkt c (alignDown 4 (add64 c.macBorder (c.verifiedPktAddr >>> 2))) 16 r) =
      false := by
  obtain ⟨m1, m2⟩ := mac_send_region c hW
  obtain ⟨_, _, r3, _⟩ := scalar_regions c hW.1 hW.2.1 hW.2.2
  refine untracked_below (c := c) ?_ ?_ hf
  · exact m2
  · show alignDown 4 (add64 c.macBorder (c.verifiedPktAddr >>> 2)) ≠ _
    omega

/-- The MAC write event does not touch the walk. -/
theorem frame_sendMacWrite (tr : Transport) (now : Nat) (s : Sys)
    (hW : WellAddressed s.ctrl) (hP : PortsSettled s.ctrl)
    (hok : (step tr now (.fire .sendMacWrite) s.ctrl).res = .ok ()) :
    FrameStep s (s.after (.fire .sendMacWrite) (step tr now (.fire .sendMacWrite) s.ctrl).acts
        (step tr now (.fire .sendMacWrite) s.ctrl).ctrl) ∧
      CounterFrame s
        (s.after (.fire .sendMacWrite) (step tr now (.fire .sendMacWrite) s.ctrl).acts
          (step tr now (.fire .sendMacWrite) s.ctrl).ctrl) := by
  have hstep : step tr now (.fire .sendMacWrite) s.ctrl =
      (sendMacPkt tr false s.ctrl).andThen (fun _ => M.pure ()) := rfl
  rw [hstep, sendMacPkt_eq, metaPort_sendPacket_eq] at hok ⊢
  cases hb : s.ctrl.metaPort.blockedPacket with
  | some q =>
    rw [hb] at hok
    cases hok
  | none =>
    simp only [Option.isSome_none, Bool.false_eq_true, if_false]
    have hgen : ∀ f : Packet → Bool,
        (∀ p, f p = true →
          isNode p = true ∨ p.addr = add64 s.ctrl.cntBorder s.ctrl.verifiedCntOffs) →
        f (createMetaPkt s.ctrl
          (alignDown 4 (add64 s.ctrl.macBorder (s.ctrl.verifiedPktAddr >>> 2))) 16 false) =
          false := fun f hf => untracked_mac hW false hf
    obtain ⟨m1, m2⟩ := mac_send_region s.ctrl hW
    generalize hmp : createMetaPkt s.ctrl
      (alignDown 4 (add64 s.ctrl.macBorder (s.ctrl.verifiedPktAddr >>> 2))) 16 false = mp
      at hgen ⊢
    have hmpa : 0x208000000 ≤ mp.addr ∧ mp.needsResponse = true := by
      rw [← hmp]
      exact ⟨m1, rfl⟩
    cases ht : tr .metaPort mp
    · simp only [Bool.false_eq_true, if_false, andThen_ok, M.pure, Outcome.prepend,
        List.append_nil]
      refine frame_ports hP ⟨rfl, rfl, rfl, rfl, rfl, rfl, rfl, rfl⟩ rfl rfl rfl
        (fun q hq => Or.inl hq) hP.1 ?_ ?_ ?_ ?_
      · intro q hq
        cases hq
        exact ⟨by omega, hmpa.2⟩
      · simp [scheduledEvents, Sys.timersBase, List.count_erase_of_ne]
      · intro f hf
        simp [acceptedRequests, Sys.pendingBase, List.filter_append, hgen f hf, hb]
      · intro q hq
        simp only [createdPackets, metaPackets, List.filterMap_cons, List.filterMap_nil,
          List.mem_singleton] at hq
        subst hq
        exact hgen isNode (isNode_tracked _)
    · simp only [if_true, andThen_ok, M.pure, Outcome.prepend, List.append_nil]
      refine frame_ports hP ⟨rfl, rfl, rfl, rfl, rfl, rfl, rfl, rfl⟩ rfl rfl rfl
        (fun q hq => Or.inl hq) hP.1 hP.2.2.2 ?_ ?_ ?_
      · simp [scheduledEvents, Sys.timersBase, List.count_erase_of_ne]
      · intro f hf
        cases hn : mp.needsResponse <;>
          simp [acceptedRequests, Sys.pendingBase, List.filter_append, hgen f hf, hb, hn]
      · intro q hq
        simp only [createdPackets, metaPackets, List.filterMap_cons, List.filterMap_nil,
          List.mem_singleton] at hq
        subst hq
        exact hgen isNode (isNode_tracked _)

theorem teardown_state (c : Ctrl) :
    ((clearTransaction >>= fun _ => CPUSidePort.trySendRetryReq) c).ctrl.state = .Idle := by
  rw [teardown_eq]
  split <;> rfl

/-- A completion event that returns and leaves the controller busy: the response
was refused and waits in the CPU-side blocked slot. -/
theorem readVerFinished_busy (tr : Transport) (c : Ctrl)
    (hok : (processReadVerFinished tr c).res = .ok ())
    (hbusy : (processReadVerFinished tr c).ctrl.state ≠ .Idle) :
    ∃ p, c.responsePkt = some p ∧
      processReadVerFinished tr c =
        ⟨[.send .cpuSidePort p false],
          { c with cpuSidePort := { c.cpuSidePort with blockedPacket := some p } }, .ok ()⟩ := by
  rw [processReadVerFinished_eq] at hok hbusy ⊢
  cases hr : c.responsePkt with
  | none =>
    rw [hr] at hok
    cases hok
  | some p =>
    rw [hr] at hok hbusy
    simp only at hok hbusy ⊢
    refine ⟨p, rfl, ?_⟩
    by_cases hb : c.cpuSidePort.blockedPacket.isSome = true
    · rw [if_pos hb] at hok
      cases hok
    · rw [if_neg hb] at hbusy ⊢
      by_cases ht : tr .cpuSidePort p = true
      · rw [if_pos ht] at hbusy
        exact absurd (teardown_state c) hbusy
      · rw [if_neg ht]

theorem writeVerFinished_busy (tr : Transport) (c : Ctrl)
    (hok : (processWriteVerFinished tr c).res = .ok ())
    (hbusy : (processWriteVerFinished tr c).ctrl.state ≠ .Idle) :
    ∃ p, c.responsePkt = some p ∧
      processWriteVerFinished tr c =
        ⟨[.send .cpuSidePort p false],
          { c with cpuSidePort := { c.cpuSidePort with blockedPacket := some p } }, .ok ()⟩ := by
  rw [processWriteVerFinished_eq] at hok hbusy ⊢
  by_cases hn : c.needsResponse = true
  · rw [if_pos hn] at hok hbusy ⊢
    exact readVerFinished_busy tr c hok hbusy
  · rw [if_neg hn] at hbusy
    exact absurd (teardown_state c) hbusy

/-- A completion event whose response the CPU side refuses does not touch the
walk. -/
theorem frame_verFinished (tr : Transport) (now : Nat) (s : Sys) (ev : Event)
    (hev : ev = .readVerFinished ∨ ev = .writeVerFinished)
    (hP : PortsSettled s.ctrl)
    (hok : (step tr now (.fire ev) s.ctrl).res = .ok ())
    (hbusy : (step tr now (.fire ev) s.ctrl).ctrl.state ≠ .Idle) :
    FrameStep s (s.after (.fire ev) (step tr now (.fire ev) s.ctrl).acts
        (step tr now (.fire ev) s.ctrl).ctrl) ∧
      CounterFrame s (s.after (.fire ev) (step tr now (.fire ev) s.ctrl).acts
        (step tr now (.fire ev) s.ctrl).ctrl) := by
  have key : ∃ p, s.ctrl.responsePkt = some p ∧
      step tr now (.fire ev) s.ctrl =
        ⟨[.send .cpuSidePort p false],
          { s.ctrl with cpuSidePort := { s.ctrl.cpuSidePort with blockedPacket := some p } },
          .ok ()⟩ := by
    rcases hev with h | h <;> subst h
    · exact readVerFinished_busy tr s.ctrl hok hbusy
    · exact writeVerFinished_busy tr s.ctrl hok hbusy
  obtain ⟨p, hr, heq⟩ := key
  rw [heq]
  refine frame_ports hP ⟨rfl, rfl, rfl, rfl, rfl, rfl, rfl, rfl⟩ rfl rfl rfl ?_ hP.1 hP.2.2.2
    ?_ ?_ ?_
  · intro q hq
    cases hq
    exact Or.inr hr
  · have hne : ev ≠ .sendNextMtWrite := by
      rcases hev with h | h <;> subst h <;> decide
    simp [scheduledEvents, Sys.timersBase, List.count_erase_of_ne hne.symm]
  · intro f hf
    simp [acceptedRequests, Sys.pendingBase, List.filter_append]
  · intro q hq
    simp [createdPackets, metaPackets] at hq

/-! ## The ledger after a callback -/

theorem after_ctrl (s : Sys) (inp : Input) (acts : List Action) (c' : Ctrl) :
    (s.after inp acts c').ctrl = c' := rfl

theorem after_inflight (s : Sys) (inp : Input) (acts : List Action) (c' : Ctrl) :
    (s.after inp acts c').inflight =
      (s.pendingBase inp).filter isNode ++ (acceptedRequests acts).filter isNode ++
        c'.metaPort.blockedPacket.toList.filter isNode := by
  unfold Sys.inflight Sys.after
  simp only [List.filter_append]

theorem after_cntInflight (s : Sys) (inp : Input) (acts : List Action) (c' : Ctrl)
    (hT : SameTxn s.ctrl c') :
    (s.after inp acts c').cntInflight =
      (s.pendingBase inp).filter
          (fun p => decide (p.addr = add64 s.ctrl.cntBorder s.ctrl.verifiedCntOffs)) ++
        (acceptedRequests acts).filter
          (fun p => decide (p.addr = add64 s.ctrl.cntBorder s.ctrl.verifiedCntOffs)) ++
        c'.metaPort.blockedPacket.toList.filter
          (fun p => decide (p.addr = add64 s.ctrl.cntBorder s.ctrl.verifiedCntOffs)) := by
  unfold Sys.cntInflight Sys.after
  simp only [List.filter_append, hT.2.1, hT.2.2.2.2.2.1]

theorem after_count (s : Sys) (inp : Input) (acts : List Action) (c' : Ctrl) :
    (s.after inp acts c').timers.count .sendNextMtWrite =
      (s.timersBase inp).count .sendNextMtWrite +
        (scheduledEvents acts).count .sendNextMtWrite := by
  unfold Sys.after
  simp only [List.count_append]

theorem after_writesIssued (s : Sys) (inp : Input) (acts : List Action) (c' : Ctrl) :
    (s.after inp acts c').writesIssued =
      s.writesIssued ++ (createdPackets inp acts).filter (fun p => isNode p && !p.isRead) := by
  unfold Sys.writesIssued Sys.after
  simp only [List.filter_append]

theorem after_readsIssued (s : Sys) (inp : Input) (acts : List Action) (c' : Ctrl) :
    (s.after inp acts c').readsIssued =
      s.readsIssued ++ (createdPackets inp acts).filter (fun p => isNode p && p.isRead) := by
  unfold Sys.readsIssued Sys.after
  simp only [List.filter_append]

theorem inflight_split (s : Sys) :
    s.inflight = s.pending.filter isNode ++ s.ctrl.metaPort.blockedPacket.toList.filter isNode := by
  unfold Sys.inflight
  simp only [List.filter_append]

theorem cntInflight_split (s : Sys) :
    s.cntInflight =
      s.pending.filter
          (fun p => decide (p.addr = add64 s.ctrl.cntBorder s.ctrl.verifiedCntOffs)) ++
        s.ctrl.metaPort.blockedPacket.toList.filter
          (fun p => decide (p.addr = add64 s.ctrl.cntBorder s.ctrl.verifiedCntOffs)) := by
  unfold Sys.cntInflight
  simp only [List.filter_append]

/-! ## Write path: the counter response -/

theorem handleResponse_write_cnt (tr : Transport) (now : Nat) (pkt : Packet) (c : Ctrl)
    (hW : WellAddressed c) (hs : c.state = .Write)
    (h2 : pkt.addr = add64 c.cntBorder c.verifiedCntOffs) :
    handleResponse tr now pkt c =
      (checkWrite { c with counterPkt := some pkt }).prepend
        [.schedule .sendMacWrite (add64 now (MAC_CYCLE * 1000)),
          .schedule .sendNextMtWrite (add64 now (HASH_CYCLE * 1000))] := by
  obtain ⟨r1, r2, _⟩ := scalar_regions c hW.1 hW.2.1 hW.2.2
  have h1 : pkt.addr ≠ c.verifiedPktAddr := by omega
  rw [handleResponse_write tr now pkt c hs, recordWrite_cnt tr now pkt c h1 h2, andThen_ok]
  simp only [if_true]

/-- Write path, the counter response arrives: the next-MT-write event is
scheduled, once. -/
theorem writeWalk_counter (tr : Transport) (now : Nat) (pkt : Packet) (s : Sys) (k : Nat)
    (h : WriteWalkAt k .awaitCounter s)
    (hall : s.pending.any (answers pkt) = true)
    (h2 : pkt.addr = add64 s.ctrl.cntBorder s.ctrl.verifiedCntOffs) :
    WriteWalkAt 0 .timer
      (s.after (.timingResp pkt) (step tr now (.timingResp pkt) s.ctrl).acts
        (step tr now (.timingResp pkt) s.ctrl).ctrl) := by
  obtain ⟨⟨hs, hW, hpre, hP⟩, hcp, hk, htm, hin, hcn, hwi, hri⟩ := h
  subst hk
  obtain ⟨r1, r2, r3, _⟩ := scalar_regions s.ctrl hW.1 hW.2.1 hW.2.2
  rw [step_timingResp_acts, step_timingResp_ctrl, handleResponse_write_cnt tr now pkt s.ctrl hW hs h2]
  obtain ⟨e1, e2, e3, _⟩ := checkWrite_effects { s.ctrl with counterPkt := some pkt }
  have hT : SameTxn s.ctrl { s.ctrl with counterPkt := some pkt } :=
    ⟨rfl, rfl, rfl, rfl, rfl, rfl, rfl, rfl⟩
  have hacts : ∀ l, ((checkWrite { s.ctrl with counterPkt := some pkt }).prepend l).acts =
      l ++ (checkWrite { s.ctrl with counterPkt := some pkt }).acts := fun _ => rfl
  have hctrl : ∀ l, ((checkWrite { s.ctrl with counterPkt := some pkt }).prepend l).ctrl =
      { s.ctrl with counterPkt := some pkt } := fun _ => checkWrite_ctrl _
  rw [hacts, hctrl]
  unfold Sys.cntInflight at hcn
  obtain ⟨c1, c2⟩ := filter_answered_le hcn hall
    (fun q hq => decide_eq_true ((answers_addr hq).1.trans h2))
  refine ⟨⟨hs, hW, hpre, hP⟩, ?_⟩
  refine ⟨Option.some_ne_none pkt, ?_, ?_, ?_, by decide, fun _ h1 => absurd h1 (by decide),
    ?_, ?_⟩
  · rw [after_cntInflight _ _ _ _ hT, acceptedRequests_append, e1]
    simp only [acceptedRequests, List.filterMap_cons, List.filterMap_nil, List.filter_nil,
      List.append_nil]
    rw [c1]
    exact List.append_eq_nil.mpr ⟨c2, rfl⟩
  · rw [after_count, scheduledEvents_append, List.count_append, e3]
    simp only [Sys.timersBase, htm]
    rfl
  · rw [after_inflight, acceptedRequests_append, e1, pendingBase_below s pkt (by omega)]
    simp only [acceptedRequests, List.filterMap_cons, List.filterMap_nil, List.filter_nil,
      List.append_nil]
    rw [inflight_split] at hin
    exact hin
  · rw [after_writesIssued, hwi]
    simp only [createdPackets, metaPackets_append, e2]
    rfl
  · rw [after_readsIssued, hri]
    simp only [createdPackets, metaPackets_append, e2]
    rfl

/-! ## Write path: the next-MT-write event -/

theorem prefixFilled_first {mt : List (Option Packet)} {k : Nat} (h : PrefixFilled mt k)
    (hk : k < MT_LEVEL - 1) :
    firstHit (fun i => mt.getD i none == none) 0 (MT_LEVEL - 1) = some k := by
  obtain ⟨_, _, h3, h4⟩ := h
  refine firstHit_eq_some (Nat.zero_le _) (by omega) (beq_iff_eq.mpr (h4 k (Nat.le_refl k)))
    (fun i _ hi => beq_eq_false_iff_ne.mpr ?_)
  obtain ⟨p, hp, _⟩ := h3 i hi
  rw [hp]
  exact Option.some_ne_none p

theorem nodeWrite_isNode (c : Ctrl) (hW : WellAddressed c) {i : Nat} (hi : i ≤ 5) :
    isNode (nodeWrite c i) = true ∧
      (nodeWrite c i).addr ≠ add64 c.cntBorder c.verifiedCntOffs ∧
      0x200000000 ≤ (nodeWrite c i).addr := by
  obtain ⟨_, h2⟩ := node_ge c hW hi
  obtain ⟨_, _, r3, _⟩ := scalar_regions c hW.1 hW.2.1 hW.2.2
  have ha : (nodeWrite c i).addr = alignDown 3 (mtNodeAddr c i) := rfl
  refine ⟨?_, ?_, ?_⟩
  · unfold isNode
    rw [ha]
    exact decide_eq_true h2
  · rw [ha]
    omega
  · rw [ha]
    omega

theorem nodeRead_isNode (c : Ctrl) (hW : WellAddressed c) {i : Nat} (hi : i ≤ 5) :
    isNode (nodeRead c i) = true ∧
      (nodeRead c i).addr ≠ add64 c.cntBorder c.verifiedCntOffs ∧
      0x200000000 ≤ (nodeRead c i).addr := by
  obtain ⟨h2, _⟩ := node_ge c hW hi
  obtain ⟨_, _, r3, _⟩ := scalar_regions c hW.1 hW.2.1 hW.2.2
  have ha : (nodeRead c i).addr = alignDown 6 (mtNodeAddr c i) := rfl
  refine ⟨?_, ?_, ?_⟩
  · unfold isNode
    rw [ha]
    exact decide_eq_true h2
  · rw [ha]
    omega
  · rw [ha]
    omega

/-- Write path, the next-MT-write event fires: the write of the first empty
level is created and is the one Merkle packet outstanding. -/
theorem writeWalk_sendNext (tr : Transport) (now : Nat) (s : Sys) (k : Nat)
    (h : WriteWalkAt k .timer s)
    (hok : (step tr now (.fire .sendNextMtWrite) s.ctrl).res = .ok ()) :
    WriteWalkAt k .writing
      (s.after (.fire .sendNextMtWrite) (step tr now (.fire .sendNextMtWrite) s.ctrl).acts
        (step tr now (.fire .sendNextMtWrite) s.ctrl).ctrl) := by
  obtain ⟨⟨hs, hW, hpre, hP⟩, hcp, hcn, htm, hin, hk, hlast, hwi, hri⟩ := h
  have hk5 : k ≤ 5 := by
    simp only [MT_LEVEL] at hk
    omega
  obtain ⟨n1, n2, n3⟩ := nodeWrite_isNode s.ctrl hW hk5
  have hstep : step tr now (.fire .sendNextMtWrite) s.ctrl =
      (sendMtPkt tr k false s.ctrl).andThen (fun _ => M.pure ()) := by
    show processSendNextMtWrite tr s.ctrl = _
    rw [processSendNextMtWrite_eq, prefixFilled_first hpre hk]
  have hsend : sendMtPkt tr k false s.ctrl =
      metaPort_sendPacket tr (nodeWrite s.ctrl k) s.ctrl := by
    rw [sendMtPkt_eq]
    rfl
  rw [hstep, hsend, metaPort_sendPacket_eq] at hok ⊢
  rw [inflight_split] at hin
  rw [cntInflight_split] at hcn
  cases hb : s.ctrl.metaPort.blockedPacket with
  | some q =>
    rw [hb] at hok
    cases hok
  | none =>
    rw [hb] at hin hcn
    simp only [Option.toList_none, List.filter_nil, List.append_nil] at hin hcn
    simp only [Option.isSome_none, Bool.false_eq_true, if_false]
    have hnr : (nodeWrite s.ctrl k).needsResponse = true := rfl
    have hwr : (nodeWrite s.ctrl k).isRead = false := rfl
    have hcount : (s.timersBase (.fire .sendNextMtWrite)).count .sendNextMtWrite = 0 := by
      simp only [Sys.timersBase, List.count_erase_self, htm]
    have hT : ∀ c' : Ctrl, c' = s.ctrl ∨
        c' = { s.ctrl with metaPort := { blockedPacket := some (nodeWrite s.ctrl k) } } →
        SameTxn s.ctrl c' := by
      rintro c' (h | h) <;> subst h <;> exact ⟨rfl, rfl, rfl, rfl, rfl, rfl, rfl, rfl⟩
    cases ht : tr .metaPort (nodeWrite s.ctrl k)
    · simp only [Bool.false_eq_true, if_false, andThen_ok, M.pure, Outcome.prepend,
        List.append_nil]
      have hT' := hT _ (Or.inr rfl)
      refine ⟨⟨hs, hW, hpre, hP.1, hP.2.1, hP.2.2.1, ?_⟩, ?_⟩
      · intro q hq
        cases hq
        exact ⟨n3, rfl⟩
      simp only [WritePhase, after_ctrl]
      rw [sameTxn_nodeWrite hT', sameTxn_nodeRead hT', after_cntInflight _ _ _ _ hT',
        after_count, after_inflight, after_writesIssued, after_readsIssued, hcount, hwi, hri,
        List.range_succ, List.map_append]
      refine ⟨hcp, ?_, rfl, ?_, hk, hlast, ?_, ?_⟩
      · simp [acceptedRequests, Sys.pendingBase, hcn, n2]
      · simp [acceptedRequests, Sys.pendingBase, hin, n1]
      · simp [createdPackets, metaPackets, n1, hwr]
      · simp [createdPackets, metaPackets, n1, hwr]
    · simp only [if_true, andThen_ok, M.pure, Outcome.prepend, List.append_nil]
      have hT' := hT _ (Or.inl rfl)
      refine ⟨⟨hs, hW, hpre, hP⟩, ?_⟩
      simp only [WritePhase, after_ctrl]
      rw [after_cntInflight _ _ _ _ hT',
        after_count, after_inflight, after_writesIssued, after_readsIssued, hcount, hwi, hri,
        List.range_succ, List.map_append]
      refine ⟨hcp, ?_, rfl, ?_, hk, hlast, ?_, ?_⟩
      · simp [acceptedRequests, Sys.pendingBase, hcn, n2, hnr, hb]
      · simp [acceptedRequests, Sys.pendingBase, hin, n1, hnr, hb]
      · simp [createdPackets, metaPackets, n1, hwr]
      · simp [createdPackets, metaPackets, n1, hwr]

/-! ## Write path: the responses of the Merkle update -/

theorem prefixFilled_set {mt : List (Option Packet)} {k : Nat} (pkt : Packet)
    (h : PrefixFilled mt k) (hk : k < MT_LEVEL - 1) (hlast : LastNonzero mt k) :
    PrefixFilled (mt.set k (some pkt)) (k + 1) := by
  obtain ⟨h1, _, h3, h4⟩ := h
  refine ⟨by rw [List.length_set]; exact h1, hk, fun i hi => ?_, fun i hi => ?_⟩
  · by_cases hik : i = k
    · subst hik
      exact ⟨pkt, getD_set_self pkt (by omega), fun hlt => absurd hlt (Nat.lt_irrefl _)⟩
    · have hlt : i < k := by omega
      obtain ⟨p, hp, hd⟩ := h3 i hlt
      refine ⟨p, by rw [getD_set_other pkt (Ne.symm hik)]; exact hp, fun _ => ?_⟩
      by_cases h2 : i + 1 < k
      · exact hd h2
      · have hik2 : i = k - 1 := by omega
        subst hik2
        exact hlast p (by omega) hp
  · rw [getD_set_other pkt (by omega)]
    exact h4 i (by omega)

theorem portsSettled_congr {c c' : Ctrl} (h1 : c'.memPort = c.memPort)
    (h2 : c'.metaPort = c.metaPort) (h3 : c'.cpuSidePort = c.cpuSidePort)
    (h4 : c'.responsePkt = c.responsePkt) (hA : c'.verifiedPktAddr = c.verifiedPktAddr)
    (h : PortsSettled c) : PortsSettled c' := by
  obtain ⟨p1, p2, p3, p4⟩ := h
  refine ⟨fun p hp => ?_, fun p hp => ?_, fun p hp => ?_, fun p hp => ?_⟩
  · rw [hA]
    exact p1 p (h1 ▸ hp)
  · rw [hA]
    exact p2 p (h3 ▸ hp)
  · rw [hA]
    exact p3 p (h4 ▸ hp)
  · exact p4 p (h2 ▸ hp)

/-- Answering a Merkle request leaves the outstanding counter packets as they
are. -/
theorem pendingBase_node (s : Sys) (hW : WellAddressed s.ctrl) (pkt : Packet)
    (hge : 0x288000000 ≤ pkt.addr) :
    (s.pendingBase (.timingResp pkt)).filter
        (fun p => decide (p.addr = add64 s.ctrl.cntBorder s.ctrl.verifiedCntOffs)) =
      s.pending.filter
        (fun p => decide (p.addr = add64 s.ctrl.cntBorder s.ctrl.verifiedCntOffs)) := by
  obtain ⟨_, _, r3, _⟩ := scalar_regions s.ctrl hW.1 hW.2.1 hW.2.2
  refine filter_eraseP_of_neg _ _ _ (fun x hx => ?_)
  obtain ⟨hxa, _⟩ := answers_addr hx
  exact decide_eq_false (by omega)

theorem answers_isNode {pkt : Packet} (hge : 0x288000000 ≤ pkt.addr) :
    ∀ q, answers pkt q = true → isNode q = true := by
  intro q hq
  unfold isNode
  rw [(answers_addr hq).1]
  exact decide_eq_true hge

/-- Write path, the response to the Merkle write of level `k` arrives: with
access depth zero the update stops; otherwise the probe read of level `k` is
created and is the one Merkle packet outstanding. -/
theorem writeWalk_written (tr : Transport) (now : Nat) (pkt : Packet) (s : Sys) (k : Nat)
    (h : WriteWalkAt k .writing s)
    (hall : s.pending.any (answers pkt) = true) (hge : 0x288000000 ≤ pkt.addr)
    (hok : (step tr now (.timingResp pkt) s.ctrl).res = .ok ()) :
    ∃ ph, WriteWalkAt (k + 1) ph
      (s.after (.timingResp pkt) (step tr now (.timingResp pkt) s.ctrl).acts
        (step tr now (.timingResp pkt) s.ctrl).ctrl) := by
  obtain ⟨⟨hs, hW, hpre, hP⟩, hcp, hcn, htm, hin, hk, hlast, hwi, hri⟩ := h
  have hk5 : k ≤ 5 := by
    simp only [MT_LEVEL] at hk
    omega
  have hok2 := step_timingResp_ok tr now pkt s.ctrl hok
  unfold Sys.inflight at hin
  obtain ⟨hans, hbf, hpf0⟩ := filter_answered hin hall (answers_isNode hge)
  have hpf : (s.pendingBase (.timingResp pkt)).filter isNode = [] := hpf0
  obtain ⟨hpa, hpr⟩ := answers_addr hans
  have hp : pkt.addr = alignDown 3 (mtNodeAddr s.ctrl k) := hpa.symm
  have hcmd : pkt.isRead = false := hpr.symm
  rw [cntInflight_split] at hcn
  obtain ⟨hcn1, hcn2⟩ := List.append_eq_nil.mp hcn
  obtain ⟨n1, n2, n3⟩ := nodeRead_isNode s.ctrl hW hk5
  have hpre2 := prefixFilled_set pkt hpre hk hlast
  have hslot : (s.ctrl.mtPkts.set k (some pkt)).getD (k + 1 - 1) none = some pkt :=
    getD_set_self pkt (by rw [hpre.1]; exact hk)
  obtain ⟨h0, h1, h2⟩ := handleResponse_write_node tr now pkt s.ctrl k hW hs
    (by simp only [MT_LEVEL]; omega) hp hcmd
  rw [step_timingResp_acts, step_timingResp_ctrl]
  by_cases hd : pkt.accessDepth = 0
  · refine ⟨.settled, ?_⟩
    rw [h0 hd, checkWrite_ctrl]
    generalize add64 now (HASH_CYCLE * 1000) = t
    obtain ⟨e1, e2, e3, _⟩ := checkWrite_effects
      (chargedAt t { s.ctrl with mtPkts := s.ctrl.mtPkts.set k (some pkt) })
    generalize (checkWrite
      (chargedAt t { s.ctrl with mtPkts := s.ctrl.mtPkts.set k (some pkt) })).acts = acts
      at e1 e2 e3 ⊢
    have key : ∀ c' : Ctrl, c' = { s.ctrl with mtPkts := s.ctrl.mtPkts.set k (some pkt) } ∨
        c' = { s.ctrl with mtPkts := s.ctrl.mtPkts.set k (some pkt), chargeTime := t } →
        WriteWalkAt (k + 1) .settled (s.after (.timingResp pkt) acts c') := by
      intro c' hc'
      have hT' : SameTxn s.ctrl c' := by
        rcases hc' with h | h <;> subst h <;> exact ⟨rfl, rfl, rfl, rfl, rfl, rfl, rfl, rfl⟩
      have hmt : c'.mtPkts = s.ctrl.mtPkts.set k (some pkt) := by
        rcases hc' with h | h <;> subst h <;> rfl
      have hrest : c'.counterPkt = s.ctrl.counterPkt ∧ c'.metaPort = s.ctrl.metaPort ∧
          c'.memPort = s.ctrl.memPort ∧ c'.cpuSidePort = s.ctrl.cpuSidePort ∧
          c'.responsePkt = s.ctrl.responsePkt ∧ c'.state = s.ctrl.state := by
        rcases hc' with h | h <;> subst h <;> exact ⟨rfl, rfl, rfl, rfl, rfl, rfl⟩
      obtain ⟨q1, q2, q3, q4, q5, q6⟩ := hrest
      refine ⟨⟨q6.trans hs, sameTxn_wellAddressed hT' hW, hmt ▸ hpre2,
        portsSettled_congr q3 q2 q4 q5 hT'.2.2.2.2.1 hP⟩, ?_⟩
      simp only [WritePhase, after_ctrl]
      rw [sameTxn_nodeWrite hT', sameTxn_nodeRead hT', after_cntInflight _ _ _ _ hT',
        after_count, after_inflight, after_writesIssued, after_readsIssued, hwi, hri, e1, hpf,
        pendingBase_node s hW pkt hge, hcn1, q1, q2, hbf, hcn2, e3, hmt]
      refine ⟨hcp, rfl, ?_, rfl, by omega, ?_, Or.inl ⟨⟨pkt, hslot, hd⟩, ?_⟩⟩
      · simp only [Sys.timersBase, htm]
      · simp [createdPackets, e2]
      · simp [createdPackets, e2]
    rcases chargedAt_cases t { s.ctrl with mtPkts := s.ctrl.mtPkts.set k (some pkt) } with h | h
    · rw [h]
      exact key _ (Or.inl rfl)
    · rw [h]
      exact key _ (Or.inr rfl)
  · by_cases hb : s.ctrl.metaPort.blockedPacket = none
    · refine ⟨.probing, ?_⟩
      have hnr : (nodeRead s.ctrl k).needsResponse = true := rfl
      have hrd : (nodeRead s.ctrl k).isRead = true := rfl
      have h1' := h1 hd hb
      change handleResponse tr now pkt s.ctrl =
        ⟨[.send .metaPort (nodeRead s.ctrl k) (tr .metaPort (nodeRead s.ctrl k))],
          if tr .metaPort (nodeRead s.ctrl k) = true then
            { s.ctrl with mtPkts := s.ctrl.mtPkts.set k (some pkt) }
          else
            { s.ctrl with
              mtPkts := s.ctrl.mtPkts.set k (some pkt),
              metaPort := { blockedPacket := some (nodeRead s.ctrl k) } },
          .ok ()⟩ at h1'
      rw [h1']
      have hlast2 : LastNonzero (s.ctrl.mtPkts.set k (some pkt)) (k + 1) := by
        intro p _ hp2
        rw [hslot] at hp2
        cases hp2
        exact hd
      have hbf0 : s.ctrl.metaPort.blockedPacket.toList = [] := by rw [hb]; rfl
      cases ht : tr .metaPort (nodeRead s.ctrl k)
      · simp only [Bool.false_eq_true, if_false]
        have hT' : SameTxn s.ctrl { s.ctrl with
            mtPkts := s.ctrl.mtPkts.set k (some pkt),
            metaPort := { blockedPacket := some (nodeRead s.ctrl k) } } :=
          ⟨rfl, rfl, rfl, rfl, rfl, rfl, rfl, rfl⟩
        refine ⟨⟨hs, hW, hpre2, hP.1, hP.2.1, hP.2.2.1, ?_⟩, ?_⟩
        · intro q hq
          cases hq
          exact ⟨n3, rfl⟩
        simp only [WritePhase, after_ctrl]
        rw [sameTxn_nodeWrite hT', sameTxn_nodeRead hT', after_cntInflight _ _ _ _ hT',
          after_count, after_inflight, after_writesIssued, after_readsIssued, hwi, hri, hpf,
          pendingBase_node s hW pkt hge, hcn1, List.range_succ (n := k), List.map_append]
        refine ⟨hcp, ?_, ?_, ?_, by omega, hlast2, ?_, ?_⟩
        · simp [acceptedRequests, n2]
        · simp [Sys.timersBase, htm, scheduledEvents]
        · simp [acceptedRequests, n1]
        · simp [createdPackets, metaPackets, n1, hrd]
        · simp [createdPackets, metaPackets, n1, hrd]
      · simp only [if_true]
        have hT' : SameTxn s.ctrl { s.ctrl with mtPkts := s.ctrl.mtPkts.set k (some pkt) } :=
          ⟨rfl, rfl, rfl, rfl, rfl, rfl, rfl, rfl⟩
        refine ⟨⟨hs, hW, hpre2, hP⟩, ?_⟩
        simp only [WritePhase, after_ctrl]
        rw [sameTxn_nodeWrite hT', sameTxn_nodeRead hT', after_cntInflight _ _ _ _ hT',
          after_count, after_inflight, after_writesIssued, after_readsIssued, hwi, hri, hpf,
          pendingBase_node s hW pkt hge, hcn1, List.range_succ (n := k), List.map_append]
        refine ⟨hcp, ?_, ?_, ?_, by omega, hlast2, ?_, ?_⟩
        · simp [acceptedRequests, n2, hnr, hb]
        · simp [Sys.timersBase, htm, scheduledEvents]
        · simp [acceptedRequests, n1, hnr, hb]
        · simp [createdPackets, metaPackets, n1, hrd]
        · simp [createdPackets, metaPackets, n1, hrd]
    · rw [h2 hd hb] at hok2
      cases hok2

/-- Write path, the response to the probe read of level `k-1` arrives: below the
last level the next-MT-write event is scheduled, once; at the last level the
update is over. -/
theorem writeWalk_probed (tr : Transport) (now : Nat) (pkt : Packet) (s : Sys) (k : Nat)
    (h : WriteWalkAt k .probing s)
    (hall : s.pending.any (answers pkt) = true) (hge : 0x288000000 ≤ pkt.addr)
    (hok : (step tr now (.timingResp pkt) s.ctrl).res = .ok ()) :
    ∃ ph, WriteWalkAt k ph
      (s.after (.timingResp pkt) (step tr now (.timingResp pkt) s.ctrl).acts
        (step tr now (.timingResp pkt) s.ctrl).ctrl) := by
  obtain ⟨⟨hs, hW, hpre, hP⟩, hcp, hcn, htm, hin, hk1, hlast, hwi, hri⟩ := h
  have hk6 : k ≤ 6 := hpre.2.1
  have hok2 := step_timingResp_ok tr now pkt s.ctrl hok
  unfold Sys.inflight at hin
  obtain ⟨hans, hbf, hpf0⟩ := filter_answered hin hall (answers_isNode hge)
  have hpf : (s.pendingBase (.timingResp pkt)).filter isNode = [] := hpf0
  obtain ⟨hpa, hpr⟩ := answers_addr hans
  have hp : pkt.addr = alignDown 6 (mtNodeAddr s.ctrl (k - 1)) := hpa.symm
  have hcmd : pkt.isRead = true := hpr.symm
  rw [cntInflight_split] at hcn
  obtain ⟨hcn1, hcn2⟩ := List.append_eq_nil.mp hcn
  obtain ⟨m1, m2, m3⟩ := merkle_of_ge s.ctrl hW pkt hge
  obtain ⟨f1, f2⟩ := firstHit_read_level s.ctrl hW pkt (i := k - 1) (by omega) hp
  obtain ⟨q, hq, _⟩ := hpre.2.2.1 (k - 1) (by omega)
  rw [step_timingResp_acts, step_timingResp_ctrl, handleResponse_write tr now pkt s.ctrl hs]
  rw [handleResponse_write tr now pkt s.ctrl hs] at hok2
  by_cases hk5 : k - 1 < 5
  · refine ⟨.timer, ?_⟩
    rw [recordWrite_probe tr now pkt s.ctrl (k - 1) m1 m2 m3 hcmd (f1 hk5).1,
      if_neg (by rw [hq]; exact Option.some_ne_none q), andThen_ok]
    simp only [Bool.false_eq_true, if_false, M.pure, Outcome.prepend, List.append_nil]
    refine ⟨⟨hs, hW, hpre, hP⟩, ?_⟩
    simp only [WritePhase, after_ctrl]
    rw [after_cntInflight _ _ _ _ (sameTxn_refl _),
      after_count, after_inflight, after_writesIssued, after_readsIssued, hwi, hri, hpf,
      pendingBase_node s hW pkt hge, hcn1, hcn2, hbf]
    refine ⟨hcp, ?_, ?_, ?_, ?_, hlast, ?_, ?_⟩
    · simp [acceptedRequests]
    · simp [Sys.timersBase, htm, scheduledEvents]
    · simp [acceptedRequests]
    · simp only [MT_LEVEL]
      omega
    · simp [createdPackets, metaPackets]
    · simp [createdPackets, metaPackets]
  · refine ⟨.settled, ?_⟩
    have hk : k = 6 := by omega
    rw [recordWrite_probe_last tr now pkt s.ctrl m1 m2 m3 hcmd (f2 (by omega)),
      if_pos (by rw [hp, hk]; rfl), andThen_ok]
    simp only [if_true, prepend_nil]
    rw [checkWrite_ctrl]
    generalize add64 now (HASH_CYCLE * 1000) = t
    obtain ⟨e1, e2, e3, _⟩ := checkWrite_effects (chargedAt t s.ctrl)
    generalize (checkWrite (chargedAt t s.ctrl)).acts = acts at e1 e2 e3 ⊢
    have key : ∀ c' : Ctrl, c' = s.ctrl ∨ c' = { s.ctrl with chargeTime := t } →
        WriteWalkAt k .settled (s.after (.timingResp pkt) acts c') := by
      intro c' hc'
      have hT' : SameTxn s.ctrl c' := by
        rcases hc' with h | h <;> subst h <;> exact ⟨rfl, rfl, rfl, rfl, rfl, rfl, rfl, rfl⟩
      have hrest : c'.counterPkt = s.ctrl.counterPkt ∧ c'.metaPort = s.ctrl.metaPort ∧
          c'.memPort = s.ctrl.memPort ∧ c'.cpuSidePort = s.ctrl.cpuSidePort ∧
          c'.responsePkt = s.ctrl.responsePkt ∧ c'.state = s.ctrl.state ∧
          c'.mtPkts = s.ctrl.mtPkts := by
        rcases hc' with h | h <;> subst h <;> exact ⟨rfl, rfl, rfl, rfl, rfl, rfl, rfl⟩
      obtain ⟨q1, q2, q3, q4, q5, q6, q7⟩ := hrest
      refine ⟨⟨q6.trans hs, sameTxn_wellAddressed hT' hW, q7 ▸ hpre,
        portsSettled_congr q3 q2 q4 q5 hT'.2.2.2.2.1 hP⟩, ?_⟩
      simp only [WritePhase, after_ctrl]
      rw [sameTxn_nodeWrite hT', sameTxn_nodeRead hT', after_cntInflight _ _ _ _ hT',
        after_count, after_inflight, after_writesIssued, after_readsIssued, hwi, hri, e1, hpf,
        pendingBase_node s hW pkt hge, hcn1, q1, q2, hbf, hcn2, e3, q7]
      refine ⟨hcp, rfl, ?_, rfl, hk1, ?_, Or.inr ⟨hk, hlast, ?_⟩⟩
      · simp only [Sys.timersBase, htm]
      · simp [createdPackets, e2]
      · simp [createdPackets, e2]
    rcases chargedAt_cases t s.ctrl with h | h
    · rw [h]
      exact key _ (Or.inl rfl)
    · rw [h]
      exact key _ (Or.inr rfl)

/-! ## Write path: every callback keeps the invariant -/

theorem no_node_answer {s : Sys} {pkt : Packet} (hin : s.inflight = [])
    (hall : s.pending.any (answers pkt) = true) (hge : 0x288000000 ≤ pkt.addr) : False := by
  obtain ⟨q, hq, hans⟩ := List.any_eq_true.mp hall
  have hmem : q ∈ s.inflight := by
    unfold Sys.inflight
    exact List.mem_filter.mpr ⟨List.mem_append_left _ hq, answers_isNode hge q hans⟩
  rw [hin] at hmem
  cases hmem

theorem no_counter_answer {s : Sys} {pkt : Packet} (hcn : s.cntInflight = [])
    (hall : s.pending.any (answers pkt) = true)
    (h2 : pkt.addr = add64 s.ctrl.cntBorder s.ctrl.verifiedCntOffs) : False := by
  obtain ⟨q, hq, hans⟩ := List.any_eq_true.mp hall
  have hmem : q ∈ s.cntInflight := by
    unfold Sys.cntInflight
    exact List.mem_filter.mpr ⟨List.mem_append_left _ hq,
      decide_eq_true ((answers_addr hans).1.trans h2)⟩
  rw [hcn] at hmem
  cases hmem

/-- Every callback the environment may make in a write transaction, when it
returns and leaves the controller busy, keeps the invariant of the write path. -/
theorem writeWalk_step (tr : Transport) (now : Nat) (inp : Input) (s : Sys) (k : Nat)
    (ph : WalkPhase) (h : WriteWalkAt k ph s) (hall : s.allows inp = true)
    (hok : (step tr now inp s.ctrl).res = .ok ())
    (hbusy : (step tr now inp s.ctrl).ctrl.state ≠ .Idle) :
    ∃ k' ph', WriteWalkAt k' ph'
      (s.after inp (step tr now inp s.ctrl).acts (step tr now inp s.ctrl).ctrl) := by
  have hC := h.1
  obtain ⟨hs, hW, hpre, hP⟩ := hC
  have hst : s.ctrl.state ≠ .Idle := by rw [hs]; decide
  cases inp with
  | timingReq pkt => exact ⟨k, ph, writeWalkAt_frame (frame_timingReq tr now pkt s hst hP) h⟩
  | memReqRetry => exact ⟨k, ph, writeWalkAt_frame (frame_memReqRetry tr now s hW hP hst hok) h⟩
  | metaReqRetry =>
    exact ⟨k, ph, writeWalkAt_frame (frame_metaReqRetry tr now s hW hP hst hok) h⟩
  | respRetry => exact ⟨k, ph, writeWalkAt_frame (frame_respRetry tr now s hW hP hst hok) h⟩
  | fire ev =>
    cases ev with
    | readVerFinished =>
      exact ⟨k, ph, writeWalkAt_frame
        (frame_verFinished tr now s _ (Or.inl rfl) hP hok hbusy) h⟩
    | writeVerFinished =>
      exact ⟨k, ph, writeWalkAt_frame
        (frame_verFinished tr now s _ (Or.inr rfl) hP hok hbusy) h⟩
    | sendMacWrite => exact ⟨k, ph, writeWalkAt_frame (frame_sendMacWrite tr now s hW hP hok) h⟩
    | sendNextMtWrite =>
      have hmem : Event.sendNextMtWrite ∈ s.timers := of_decide_eq_true hall
      have hpos : 0 < s.timers.count .sendNextMtWrite := List.count_pos_iff.mpr hmem
      cases ph with
      | timer => exact ⟨k, .writing, writeWalk_sendNext tr now s k h hok⟩
      | awaitCounter =>
        have := h.2.2.2.1
        omega
      | writing =>
        have := h.2.2.2.1
        omega
      | probing =>
        have := h.2.2.2.1
        omega
      | settled =>
        have := h.2.2.2.1
        omega
  | timingResp pkt =>
    have hall2 : s.pending.any (answers pkt) = true := hall
    by_cases hge : 0x288000000 ≤ pkt.addr
    · cases ph with
      | writing =>
        obtain ⟨ph', h'⟩ := writeWalk_written tr now pkt s k h hall2 hge hok
        exact ⟨k + 1, ph', h'⟩
      | probing =>
        obtain ⟨ph', h'⟩ := writeWalk_probed tr now pkt s k h hall2 hge hok
        exact ⟨k, ph', h'⟩
      | awaitCounter => exact (no_node_answer h.2.2.2.2.1 hall2 hge).elim
      | timer => exact (no_node_answer h.2.2.2.2.1 hall2 hge).elim
      | settled => exact (no_node_answer h.2.2.2.2.1 hall2 hge).elim
    · by_cases h2 : pkt.addr = add64 s.ctrl.cntBorder s.ctrl.verifiedCntOffs
      · cases ph with
        | awaitCounter => exact ⟨0, .timer, writeWalk_counter tr now pkt s k h hall2 h2⟩
        | timer => exact (no_counter_answer h.2.2.1 hall2 h2).elim
        | writing => exact (no_counter_answer h.2.2.1 hall2 h2).elim
        | probing => exact (no_counter_answer h.2.2.1 hall2 h2).elim
        | settled => exact (no_counter_answer h.2.2.1 hall2 h2).elim
      · obtain ⟨hF, hCF⟩ := frame_timingResp tr now pkt s hW hP hst (by omega) (fun _ => h2) hok
        exact ⟨k, ph, writeWalkAt_frame ⟨hF, hCF h2⟩ h⟩

/-- The invariant of the write path holds along every run inside the
transaction. -/
theorem writeWalk_run (run : List (Transport × Nat × Input)) :
    ∀ (s : Sys) (k : Nat) (ph : WalkPhase), WriteWalkAt k ph s →
      ∀ s', Sys.run run s = some s' → ∃ k' ph', WriteWalkAt k' ph' s' := by
  induction run with
  | nil =>
    intro s k ph h s' hrun
    cases hrun
    exact ⟨k, ph, h⟩
  | cons x rest ih =>
    obtain ⟨tr, now, inp⟩ := x
    intro s k ph h s' hrun
    unfold Sys.run at hrun
    unfold Sys.next at hrun
    by_cases hc : s.allows inp = true ∧ (step tr now inp s.ctrl).res = .ok ()
    · rw [if_pos hc] at hrun
      simp only at hrun
      by_cases hb : (s.after inp (step tr now inp s.ctrl).acts
          (step tr now inp s.ctrl).ctrl).ctrl.state ≠ .Idle
      · rw [if_pos hb] at hrun
        obtain ⟨k1, ph1, h1⟩ := writeWalk_step tr now inp s k ph h hc.1 hc.2 hb
        exact ih _ k1 ph1 h1 s' hrun
      · rw [if_neg hb] at hrun
        cases hrun
    · rw [if_neg hc] at hrun
      cases hrun

/-! ## The start of a transaction -/

theorem memSidePort_none (p : MemSidePort) (h : p.blockedPacket = none) :
    p = { blockedPacket := none } := by
  cases p
  simp only at h
  rw [h]

/-- An accepted write request, the memory-side blocked slots being empty: the
data packet goes to the data port and the counter read to the metadata port. -/
theorem handleRequestIdle_write (tr : Transport) (pkt : Packet) (c : Ctrl)
    (hw : pkt.isRead = false) (hmem : c.memPort.blockedPacket = none)
    (hmeta : c.metaPort.blockedPacket = none) :
    ∃ cp : Packet, cp.addr = add64 c.cntBorder (pkt.addr >>> 6) ∧ cp.needsResponse = true ∧
      handleRequestIdle tr pkt c =
        ⟨[.send .memPort pkt (tr .memPort pkt), .send .metaPort cp (tr .metaPort cp)],
          { c with
            verifiedPktAddr := pkt.addr,
            verifiedCntOffs := pkt.addr >>> 6,
            flags := pkt.flags % 2 ^ 32,
            requestorId := pkt.requestorId % 2 ^ 16,
            needsResponse := pkt.needsResponse,
            state := .Write,
            memPort := { blockedPacket := if tr .memPort pkt then none else some pkt },
            metaPort := { blockedPacket := if tr .metaPort cp then none else some cp } },
          .ok ()⟩ := by
  refine ⟨createMetaPkt
    { c with
      verifiedPktAddr := pkt.addr,
      verifiedCntOffs := pkt.addr >>> 6,
      flags := pkt.flags % 2 ^ 32,
      requestorId := pkt.requestorId % 2 ^ 16,
      needsResponse := pkt.needsResponse }
    (add64 c.cntBorder (pkt.addr >>> 6)) 1 true, rfl, rfl, ?_⟩
  have e1 := memSidePort_none c.memPort hmem
  have e2 := memSidePort_none c.metaPort hmeta
  unfold handleRequestIdle
  simp only [bind_eq, pure_eq, M.bind_apply, modifyCtrl_apply, andThen_ok, prepend_nil, hw,
    Bool.false_eq_true, if_false, M.ite_apply, memPort_sendPacket_eq, sendCntPkt_eq,
    metaPort_sendPacket_eq, hmem, hmeta, Option.isSome_none]
  cases h1 : tr .memPort pkt <;>
    cases h2 : tr .metaPort (createMetaPkt
      { c with
        verifiedPktAddr := pkt.addr,
        verifiedCntOffs := pkt.addr >>> 6,
        flags := pkt.flags % 2 ^ 32,
        requestorId := pkt.requestorId % 2 ^ 16,
        needsResponse := pkt.needsResponse }
      (add64 c.cntBorder (pkt.addr >>> 6)) 1 true) <;>
    simp [createMetaPkt] at h2 <;>
    simp [M.pure, createMetaPkt, sendCntPkt_eq, metaPort_sendPacket_eq, andThen_ok,
      Outcome.prepend, h2, e1, e2]

theorem step_timingReq_idle (tr : Transport) (now : Nat) (pkt : Packet) (c : Ctrl)
    (h : c.state = .Idle) :
    (step tr now (.timingReq pkt) c).acts = (handleRequestIdle tr pkt c).acts ∧
    (step tr now (.timingReq pkt) c).ctrl = (handleRequestIdle tr pkt c).ctrl ∧
    ((handleRequestIdle tr pkt c).res = .ok () → (step tr now (.timingReq pkt) c).res = .ok ()) ∧
    ((step tr now (.timingReq pkt) c).res = .ok () → (handleRequestIdle tr pkt c).res = .ok ()) := by
  rw [step_timingReq_eq, recvTimingReq_idle tr pkt c h]
  refine ⟨by rw [andThen_pure_acts, andThen_pure_acts],
    by rw [andThen_pure_ctrl, andThen_pure_ctrl], fun hok => ?_, fun hok => ?_⟩
  · rw [andThen_of_ok _ (andThen_of_ok _ hok ▸ rfl : ((handleRequestIdle tr pkt c).andThen
      (fun _ => M.pure true)).res = .ok true)]
    rfl
  · obtain ⟨_, h1⟩ := andThen_pure_ok hok
    obtain ⟨_, h2⟩ := andThen_pure_ok h1
    exact h2

theorem prefixFilled_empty : PrefixFilled (List.replicate (MT_LEVEL - 1) none) 0 := by
  refine ⟨by simp, Nat.zero_le _, fun i hi => absurd hi (Nat.not_lt_zero i), fun i _ => ?_⟩
  rw [List.getD_eq_getElem?_getD]
  by_cases h : i < MT_LEVEL - 1
  · simp [h]
  · simp [List.getElem?_eq_none (l := List.replicate (MT_LEVEL - 1) (none : Option Packet))
      (by simpa using h)]

theorem accepted_two (req cp : Packet) (a1 a2 : Bool) (hcp : cp.needsResponse = true) :
    acceptedRequests [.send .memPort req a1, .send .metaPort cp a2] =
      (if a1 = true ∧ req.needsResponse = true then [req] else []) ++
        (if a2 = true then [cp] else []) := by
  cases a1 <;> cases a2 <;> cases h1 : req.needsResponse <;>
    simp [acceptedRequests, h1, hcp]

/-- A write request accepted by a fresh controller starts the write path: the
counter read is the only metadata packet. -/
theorem writeWalk_start (tr : Transport) (now : Nat) (req : Packet) (s0 : Sys)
    (hF : s0.Fresh) (hw : req.isRead = false) (hA : req.addr < DATA_SPACE) :
    WriteWalkAt 0 .awaitCounter
      (s0.after (.timingReq req) (step tr now (.timingReq req) s0.ctrl).acts
        (step tr now (.timingReq req) s0.ctrl).ctrl) := by
  obtain ⟨f1, f2, f3, f4, f5, f6, f7, f8, f9, f10, f11, f12⟩ := hF
  obtain ⟨e1, e2, _, _⟩ := step_timingReq_idle tr now req s0.ctrl f1
  obtain ⟨cp, hcpa, hcpn, heq⟩ := handleRequestIdle_write tr req s0.ctrl hw f7 f8
  rw [e1, e2, heq]
  have hA2 : req.addr < 0x200000000 := hA
  have hcp : cp.addr = add64 0x200000000 (req.addr >>> 6) := by
    rw [hcpa, f2.1, construct_cntBorder]
  have hsh : req.addr >>> 6 = req.addr / 64 := by rw [Nat.shiftRight_eq_div_pow]
  rw [hsh, add64_of_lt (by unfold W64; omega)] at hcp
  have hcnode : isNode cp = false := by
    unfold isNode
    exact decide_eq_false (by omega)
  have hrnode : isNode req = false := by
    unfold isNode
    exact decide_eq_false (by omega)
  refine ⟨⟨rfl, ⟨f2, hA, rfl⟩, f3 ▸ prefixFilled_empty, ?_, ?_, ?_, ?_⟩, ?_⟩
  · intro p hp
    have hp2 : (if tr .memPort req = true then none else some req) = some p := hp
    by_cases ht : tr .memPort req = true
    · rw [if_pos ht] at hp2
      cases hp2
    · rw [if_neg ht] at hp2
      cases hp2
      rfl
  · intro p hp
    have hp2 : s0.ctrl.cpuSidePort.blockedPacket = some p := hp
    rw [f9] at hp2
    cases hp2
  · intro p hp
    have hp2 : s0.ctrl.responsePkt = some p := hp
    rw [f4] at hp2
    cases hp2
  · intro p hp
    have hp2 : (if tr .metaPort cp = true then none else some cp) = some p := hp
    by_cases ht : tr .metaPort cp = true
    · rw [if_pos ht] at hp2
      cases hp2
    · rw [if_neg ht] at hp2
      cases hp2
      exact ⟨by omega, hcpn⟩
  · simp only [WritePhase, after_ctrl]
    have hcne : req.addr ≠ cp.addr := by omega
    have hcaddr : add64 s0.ctrl.cntBorder (req.addr >>> 6) = cp.addr := hcpa.symm
    refine ⟨f5, trivial, ?_, ?_, ?_, ?_, ?_⟩
    · rw [after_count]
      simp [Sys.timersBase, f11, scheduledEvents]
    · rw [after_inflight, accepted_two req cp _ _ hcpn]
      simp only [Sys.pendingBase, f10, List.filter_nil, List.nil_append, List.filter_append]
      have h1 : List.filter isNode
          (if tr .memPort req = true ∧ req.needsResponse = true then [req] else []) = [] := by
        split <;> simp [hrnode]
      have h2 : List.filter isNode (if tr .metaPort cp = true then [cp] else []) = [] := by
        split <;> simp [hcnode]
      have h3 : List.filter isNode
          (if tr .metaPort cp = true then none else some cp).toList = [] := by
        split <;> simp [hcnode]
      rw [h1, h2, h3]
      rfl
    · unfold Sys.cntInflight Sys.after
      simp only [hcaddr]
      rw [accepted_two req cp _ _ hcpn]
      simp only [Sys.pendingBase, f10, List.filter_nil, List.nil_append, List.filter_append]
      have h1 : List.filter (fun p : Packet => decide (p.addr = cp.addr))
          (if tr .memPort req = true ∧ req.needsResponse = true then [req] else []) = [] := by
        split <;> simp [hcne]
      rw [h1]
      by_cases ht : tr .metaPort cp = true
      · simp [ht]
      · simp [ht]
    · rw [after_writesIssued]
      simp [Sys.writesIssued, f12, createdPackets, metaPackets, hcnode]
    · rw [after_readsIssued]
      simp [Sys.readsIssued, f12, createdPackets, metaPackets, hcnode]

/-! ## What the invariant of the write path says -/

theorem nodeRead_ne_of_lt (c : Ctrl) (hW : WellAddressed c) {i j : Nat} (hij : i < j)
    (hj : j ≤ 5) : nodeRead c i ≠ nodeRead c j := by
  intro h
  have ha : alignDown 6 (mtNodeAddr c i) = alignDown 6 (mtNodeAddr c j) :=
    congrArg Packet.addr h
  have h1 := node_sep c hW hij hj
  have h2 := (node_region c hW.1 hW.2.1 hW.2.2 i (by omega)).2.1
  omega

theorem nodeWrite_addr_lt (c : Ctrl) (hW : WellAddressed c) {i j : Nat} (hij : i < j)
    (hj : j ≤ 5) : (nodeWrite c i).addr < (nodeWrite c j).addr := by
  have h1 := node_sep c hW hij hj
  have h2 := (node_region c hW.1 hW.2.1 hW.2.2 j hj).2.1
  show alignDown 3 (mtNodeAddr c i) < alignDown 3 (mtNodeAddr c j)
  omega

/-- The next-MT-write event on a prefix of filled slots that is not all of
them: the first empty slot is found, the assertion does not fail. -/
theorem sendNext_no_assert (tr : Transport) (c : Ctrl) {k : Nat}
    (hpre : PrefixFilled c.mtPkts k) (hk : k < MT_LEVEL - 1) :
    (processSendNextMtWrite tr c).res ≠ .fatal .assertFailed := by
  have hsend : sendMtPkt tr k false c = metaPort_sendPacket tr (nodeWrite c k) c := by
    rw [sendMtPkt_eq]
    rfl
  rw [processSendNextMtWrite_eq, prefixFilled_first hpre hk]
  simp only
  rw [hsend, metaPort_sendPacket_eq]
  by_cases hb : c.metaPort.blockedPacket.isSome = true
  · rw [if_pos hb]
    simp [Outcome.andThen]
  · rw [if_neg hb]
    cases tr .metaPort (nodeWrite c k) <;> simp [Outcome.andThen, M.pure, Outcome.prepend]

/-- The content of the invariant of the write path. -/
theorem writeWalk_facts {s : Sys} {k : Nat} {ph : WalkPhase} (h : WriteWalkAt k ph s) :
    s.ctrl.state = .Write ∧
    (∃ n k, n ≤ MT_LEVEL - 1 ∧
      s.writesIssued = (List.range n).map (nodeWrite s.ctrl) ∧
      PrefixFilled s.ctrl.mtPkts k ∧
      (∀ i, i + 1 < n →
        (∃ p, s.ctrl.mtPkts.getD i none = some p ∧ p.accessDepth ≠ 0) ∧
        nodeRead s.ctrl i ∈ s.readsIssued ∧ nodeRead s.ctrl i ∉ s.inflight)) ∧
    s.writesIssued.Pairwise (fun a b => a.addr < b.addr) ∧
    s.inflight.length ≤ 1 ∧
    (∀ tr now, s.allows (.fire .sendNextMtWrite) = true →
      (∃ j, j < MT_LEVEL - 1 ∧ s.ctrl.mtPkts.getD j none = none ∧
        ∀ i, i < j → s.ctrl.mtPkts.getD i none ≠ none) ∧
      (step tr now (.fire .sendNextMtWrite) s.ctrl).res ≠ .fatal .assertFailed) := by
  obtain ⟨⟨hs, hW, hpre, hP⟩, hph⟩ := h
  have hk6 : k ≤ 6 := hpre.2.1
  have hdepth : ∀ i, i + 1 < k → ∃ p, s.ctrl.mtPkts.getD i none = some p ∧ p.accessDepth ≠ 0 := by
    intro i hi
    obtain ⟨p, hp, hd⟩ := hpre.2.2.1 i (by omega)
    exact ⟨p, hp, hd hi⟩
  have hmemR : ∀ i n, i < n → nodeRead s.ctrl i ∈ (List.range n).map (nodeRead s.ctrl) :=
    fun i n hi => List.mem_map.mpr ⟨i, List.mem_range.mpr hi, rfl⟩
  have hpair : ∀ n, n ≤ 6 →
      ((List.range n).map (nodeWrite s.ctrl)).Pairwise (fun a b => a.addr < b.addr) := by
    intro n hn
    rw [List.pairwise_map]
    refine List.Pairwise.imp_of_mem ?_ (List.pairwise_lt_range n)
    intro a b _ hb hab
    exact nodeWrite_addr_lt s.ctrl hW hab (by have := List.mem_range.mp hb; omega)
  have hfire : ∀ (T : Nat), s.timers.count .sendNextMtWrite = T → T = 0 →
      s.allows (.fire .sendNextMtWrite) = true → False := by
    intro T hT h0 hall
    have hmem : Event.sendNextMtWrite ∈ s.timers := of_decide_eq_true hall
    have := List.count_pos_iff.mpr hmem
    omega
  refine ⟨hs, ?_⟩
  cases ph with
  | awaitCounter =>
    obtain ⟨_, hk, htm, hin, _, hwi, hri⟩ := hph
    refine ⟨⟨0, k, Nat.zero_le _, hwi, hpre, fun i hi => absurd hi (Nat.not_lt_zero _)⟩, ?_, ?_,
      fun tr now hall => (hfire _ rfl htm hall).elim⟩
    · rw [hwi]
      exact List.Pairwise.nil
    · rw [hin]
      exact Nat.zero_le _
  | timer =>
    obtain ⟨_, _, htm, hin, hk, hlast, hwi, hri⟩ := hph
    refine ⟨⟨k, k, hk6, hwi, hpre, fun i hi => ⟨hdepth i hi, ?_, ?_⟩⟩, ?_, ?_, fun tr now _ => ?_⟩
    · rw [hri]
      exact hmemR i k (by omega)
    · rw [hin]
      exact List.not_mem_nil _
    · rw [hwi]
      exact hpair k hk6
    · rw [hin]
      exact Nat.zero_le _
    · refine ⟨⟨k, hk, hpre.2.2.2 k (Nat.le_refl k), fun i hi => ?_⟩,
        sendNext_no_assert tr s.ctrl hpre hk⟩
      obtain ⟨p, hp, _⟩ := hpre.2.2.1 i hi
      rw [hp]
      exact Option.some_ne_none p
  | writing =>
    obtain ⟨_, _, htm, hin, hk, hlast, hwi, hri⟩ := hph
    have hk5 : k ≤ 5 := by
      simp only [MT_LEVEL] at hk
      omega
    refine ⟨⟨k + 1, k, hk, hwi, hpre, fun i hi => ⟨?_, ?_, ?_⟩⟩, ?_, ?_,
      fun tr now hall => (hfire _ rfl htm hall).elim⟩
    · obtain ⟨p, hp, hd⟩ := hpre.2.2.1 i (by omega)
      refine ⟨p, hp, ?_⟩
      by_cases h2 : i + 1 < k
      · exact hd h2
      · have hik : i = k - 1 := by omega
        subst hik
        exact hlast p (by omega) hp
    · rw [hri]
      exact hmemR i k (by omega)
    · rw [hin]
      intro hmem
      have := congrArg Packet.isRead (List.mem_singleton.mp hmem)
      cases this
    · rw [hwi]
      exact hpair (k + 1) (by omega)
    · rw [hin]
      exact Nat.le_refl 1
  | probing =>
    obtain ⟨_, _, htm, hin, hk, hlast, hwi, hri⟩ := hph
    refine ⟨⟨k, k, hk6, hwi, hpre, fun i hi => ⟨hdepth i hi, ?_, ?_⟩⟩, ?_, ?_,
      fun tr now hall => (hfire _ rfl htm hall).elim⟩
    · rw [hri]
      exact hmemR i k (by omega)
    · rw [hin]
      intro hmem
      exact nodeRead_ne_of_lt s.ctrl hW (show i < k - 1 by omega) (by omega)
        (List.mem_singleton.mp hmem)
    · rw [hwi]
      exact hpair k hk6
    · rw [hin]
      exact Nat.le_refl 1
  | settled =>
    obtain ⟨_, _, htm, hin, hk, hwi, hri⟩ := hph
    refine ⟨⟨k, k, hk6, hwi, hpre, fun i hi => ⟨hdepth i hi, ?_, ?_⟩⟩, ?_, ?_,
      fun tr now hall => (hfire _ rfl htm hall).elim⟩
    · rcases hri with ⟨_, hri⟩ | ⟨_, _, hri⟩
      · rw [hri]
        exact hmemR i (k - 1) (by omega)
      · rw [hri]
        exact hmemR i k (by omega)
    · rw [hin]
      exact List.not_mem_nil _
    · rw [hwi]
      exact hpair k hk6
    · rw [hin]
      exact Nat.zero_le _

/-! ## The write-path Merkle update is sequential -/

/-- C19: a write transaction on a data address below `DATA_SPACE`, started on a
fresh controller and driven by an environment that respects the port protocol
(a response answers a request the transport accepted and did not answer yet, a
retry comes to a port with a blocked packet, an event fires when it was
scheduled).  At every point of the transaction: the Merkle writes created so far
are the 8-byte writes of the levels `0, 1, .., n-1`, in this order, at strictly
increasing addresses; the filled slots of `mtPkts` are a prefix `0 .. k-1`; for
every level `i` whose successor's write exists, slot `i` holds the write
response of level `i` with a non-zero access depth and the probe read of level
`i` was created and is no longer outstanding; at most one Merkle packet is
outstanding; and whenever the next-MT-write event can fire, some slot is empty
(the first empty one follows a prefix of filled ones) and the event does not
reach its assertion failure. -/
theorem write_updates_sequential (s0 : Sys) (tr0 : Transport) (now0 : Nat) (req : Packet)
    (run : List (Transport × Nat × Input)) (s : Sys)
    (hfresh : s0.Fresh) (hw : req.isRead = false) (hA : req.addr < DATA_SPACE)
    (hrun : Sys.run ((tr0, now0, .timingReq req) :: run) s0 = some s) :
    s.ctrl.state = .Write ∧
    (∃ n k, n ≤ MT_LEVEL - 1 ∧
      s.writesIssued = (List.range n).map (nodeWrite s.ctrl) ∧
      PrefixFilled s.ctrl.mtPkts k ∧
      (∀ i, i + 1 < n →
        (∃ p, s.ctrl.mtPkts.getD i none = some p ∧ p.accessDepth ≠ 0) ∧
        nodeRead s.ctrl i ∈ s.readsIssued ∧ nodeRead s.ctrl i ∉ s.inflight)) ∧
    s.writesIssued.Pairwise (fun a b => a.addr < b.addr) ∧
    s.inflight.length ≤ 1 ∧
    (∀ tr now, s.allows (.fire .sendNextMtWrite) = true →
      (∃ j, j < MT_LEVEL - 1 ∧ s.ctrl.mtPkts.getD j none = none ∧
        ∀ i, i < j → s.ctrl.mtPkts.getD i none ≠ none) ∧
      (step tr now (.fire .sendNextMtWrite) s.ctrl).res ≠ .fatal .assertFailed) := by
  unfold Sys.run at hrun
  unfold Sys.next at hrun
  by_cases hc : s0.allows (.timingReq req) = true ∧
      (step tr0 now0 (.timingReq req) s0.ctrl).res = .ok ()
  · rw [if_pos hc] at hrun
    simp only at hrun
    by_cases hb : (s0.after (.timingReq req) (step tr0 now0 (.timingReq req) s0.ctrl).acts
        (step tr0 now0 (.timingReq req) s0.ctrl).ctrl).ctrl.state ≠ .Idle
    · rw [if_pos hb] at hrun
      obtain ⟨k, ph, h⟩ := writeWalk_run run _ 0 .awaitCounter
        (writeWalk_start tr0 now0 req s0 hfresh hw hA) s hrun
      exact writeWalk_facts h
    · rw [if_neg hb] at hrun
      cases hrun
  · rw [if_neg hc] at hrun
    cases hrun

set_option maxRecDepth 100000 in
/-- Witness for C19: the write of address `0x1000` from the constructed
controller, up to the response of the level-0 Merkle write. -/
theorem write_updates_sequential_witness :
    Sys.run probeRun Sys.init = some probeSys ∧
    probeSys.writesIssued = [nodeWrite probeSys.ctrl 0] ∧
    probeSys.inflight.length ≤ 1 :=
  ⟨rfl, rfl,
    (write_updates_sequential Sys.init acceptAll 0 writeReq1000
      (probeRun.tail) probeSys
      ⟨rfl, ⟨rfl, rfl, rfl⟩, rfl, rfl, rfl, rfl, rfl, rfl, rfl, rfl, rfl, rfl⟩ rfl (by decide)
      rfl).2.2.2.1⟩

/-! ## The start of a read transaction -/

/-- An accepted read request that returns, the memory-side blocked slots being
empty: the data packet goes to the data port, the counter read, the MAC read
and the read of Merkle level 0 to the metadata port, and the first two of these
were accepted. -/
theorem handleRequestIdle_read (tr : Transport) (pkt : Packet) (c : Ctrl)
    (hr : pkt.isRead = true) (hmem : c.memPort.blockedPacket = none)
    (hmeta : c.metaPort.blockedPacket = none)
    (hok : (handleRequestIdle tr pkt c).res = .ok ()) :
    ∃ cp mp np : Packet,
      cp.addr = add64 c.cntBorder (pkt.addr >>> 6) ∧ cp.needsResponse = true ∧
      mp.addr = alignDown 4 (add64 c.macBorder (pkt.addr >>> 2)) ∧ mp.needsResponse = true ∧
      np = nodeRead
        { c with
          verifiedCntOffs := pkt.addr >>> 6,
          flags := pkt.flags % 2 ^ 32,
          requestorId := pkt.requestorId % 2 ^ 16 } 0 ∧
      handleRequestIdle tr pkt c =
        ⟨[.send .memPort pkt (tr .memPort pkt), .send .metaPort cp true,
            .send .metaPort mp true, .send .metaPort np (tr .metaPort np)],
          { c with
            verifiedPktAddr := pkt.addr,
            verifiedCntOffs := pkt.addr >>> 6,
            flags := pkt.flags % 2 ^ 32,
            requestorId := pkt.requestorId % 2 ^ 16,
            needsResponse := pkt.needsResponse,
            state := .Read,
            memPort := { blockedPacket := if tr .memPort pkt then none else some pkt },
            metaPort := { blockedPacket := if tr .metaPort np then none else some np } },
          .ok ()⟩ := by
  refine ⟨createMetaPkt
      { c with flags := pkt.flags % 2 ^ 32, requestorId := pkt.requestorId % 2 ^ 16 }
      (add64 c.cntBorder (pkt.addr >>> 6)) 1 true,
    createMetaPkt
      { c with flags := pkt.flags % 2 ^ 32, requestorId := pkt.requestorId % 2 ^ 16 }
      (alignDown 4 (add64 c.macBorder (pkt.addr >>> 2))) 16 true,
    _, rfl, rfl, rfl, rfl, rfl, ?_⟩
  have e1 := memSidePort_none c.memPort hmem
  have e2 := memSidePort_none c.metaPort hmeta
  revert hok
  unfold handleRequestIdle
  simp only [bind_eq, pure_eq, M.bind_apply, modifyCtrl_apply, andThen_ok, prepend_nil, hr,
    if_true, M.ite_apply, memPort_sendPacket_eq, hmem, Option.isSome_none,
    Bool.false_eq_true, if_false]
  cases h1 : tr .memPort pkt <;>
    cases h2 : tr .metaPort (createMetaPkt
      { c with flags := pkt.flags % 2 ^ 32, requestorId := pkt.requestorId % 2 ^ 16 }
      (add64 c.cntBorder (pkt.addr >>> 6)) 1 true) <;>
    cases h3 : tr .metaPort (createMetaPkt
      { c with flags := pkt.flags % 2 ^ 32, requestorId := pkt.requestorId % 2 ^ 16 }
      (alignDown 4 (add64 c.macBorder (pkt.addr >>> 2))) 16 true) <;>
    cases h4 : tr .metaPort (nodeRead
      { c with
        verifiedCntOffs := pkt.addr >>> 6,
        flags := pkt.flags % 2 ^ 32,
        requestorId := pkt.requestorId % 2 ^ 16 } 0) <;>
    simp [createMetaPkt, nodeRead, mtNodeAddr] at h2 h3 h4 <;>
    simp [M.pure, createMetaPkt, nodeRead, mtNodeAddr, sendCntPkt_eq, sendMacPkt_eq,
      sendMtPkt_eq, metaPort_sendPacket_eq, andThen_ok, andThen_fatal, Outcome.prepend,
      h2, h3, h4, e1, e2]

theorem accepted_four (req cp mp np : Packet) (a1 a4 : Bool) (hcp : cp.needsResponse = true)
    (hmp : mp.needsResponse = true) (hnp : np.needsResponse = true) :
    acceptedRequests [.send .memPort req a1, .send .metaPort cp true, .send .metaPort mp true,
        .send .metaPort np a4] =
      (if a1 = true ∧ req.needsResponse = true then [req] else []) ++ [cp, mp] ++
        (if a4 = true then [np] else []) := by
  cases a1 <;> cases a4 <;> cases h1 : req.needsResponse <;>
    simp [acceptedRequests, h1, hcp, hmp, hnp]

/-- A read request accepted by a fresh controller starts the read path: the read
of Merkle level 0 is the one Merkle packet. -/
theorem readWalk_start (tr : Transport) (now : Nat) (req : Packet) (s0 : Sys)
    (hF : s0.Fresh) (hr : req.isRead = true) (hA : req.addr < DATA_SPACE)
    (hok : (step tr now (.timingReq req) s0.ctrl).res = .ok ()) :
    ReadWalkAt 0 true
      (s0.after (.timingReq req) (step tr now (.timingReq req) s0.ctrl).acts
        (step tr now (.timingReq req) s0.ctrl).ctrl) := by
  obtain ⟨f1, f2, f3, f4, f5, f6, f7, f8, f9, f10, f11, f12⟩ := hF
  obtain ⟨e1, e2, _, e4⟩ := step_timingReq_idle tr now req s0.ctrl f1
  obtain ⟨cp, mp, np, hcpa, hcpn, hmpa, hmpn, hnp, heq⟩ :=
    handleRequestIdle_read tr req s0.ctrl hr f7 f8 (e4 hok)
  rw [e1, e2, heq]
  have hA2 : req.addr < 0x200000000 := hA
  have hW : WellAddressed
      { s0.ctrl with
        verifiedPktAddr := req.addr,
        verifiedCntOffs := req.addr >>> 6,
        flags := req.flags % 2 ^ 32,
        requestorId := req.requestorId % 2 ^ 16,
        needsResponse := req.needsResponse,
        state := .Read,
        memPort := { blockedPacket := if tr .memPort req then none else some req },
        metaPort := { blockedPacket := if tr .metaPort np then none else some np } } :=
    ⟨f2, hA, rfl⟩
  have hnp2 : np = nodeRead
      { s0.ctrl with
        verifiedPktAddr := req.addr,
        verifiedCntOffs := req.addr >>> 6,
        flags := req.flags % 2 ^ 32,
        requestorId := req.requestorId % 2 ^ 16,
        needsResponse := req.needsResponse,
        state := .Read,
        memPort := { blockedPacket := if tr .memPort req then none else some req },
        metaPort := { blockedPacket := if tr .metaPort np then none else some np } } 0 := hnp
  obtain ⟨n1, n2, n3⟩ := nodeRead_isNode _ hW (i := 0) (by omega)
  rw [← hnp2] at n1 n2 n3
  have hnpn : np.needsResponse = true := by rw [hnp]; rfl
  have hnpr : np.isRead = true := by rw [hnp]; rfl
  obtain ⟨m1, m2⟩ := mac_send_region _ hW
  have hmp : 0x208000000 ≤ mp.addr ∧ mp.addr < 0x288000000 := by
    rw [hmpa]
    exact ⟨m1, m2⟩
  have hcp : cp.addr = add64 0x200000000 (req.addr >>> 6) := by
    rw [hcpa, f2.1, construct_cntBorder]
  have hsh : req.addr >>> 6 = req.addr / 64 := by rw [Nat.shiftRight_eq_div_pow]
  rw [hsh, add64_of_lt (by unfold W64; omega)] at hcp
  have hcnode : isNode cp = false := by
    unfold isNode
    exact decide_eq_false (by omega)
  have hmnode : isNode mp = false := by
    unfold isNode
    exact decide_eq_false (by omega)
  have hrnode : isNode req = false := by
    unfold isNode
    exact decide_eq_false (by omega)
  refine ⟨⟨rfl, hW, f3 ▸ prefixFilled_empty, ?_, ?_, ?_, ?_⟩, ?_⟩
  · intro p hp
    have hp2 : (if tr .memPort req = true then none else some req) = some p := hp
    by_cases ht : tr .memPort req = true
    · rw [if_pos ht] at hp2
      cases hp2
    · rw [if_neg ht] at hp2
      cases hp2
      rfl
  · intro p hp
    have hp2 : s0.ctrl.cpuSidePort.blockedPacket = some p := hp
    rw [f9] at hp2
    cases hp2
  · intro p hp
    have hp2 : s0.ctrl.responsePkt = some p := hp
    rw [f4] at hp2
    cases hp2
  · intro p hp
    have hp2 : (if tr .metaPort np = true then none else some np) = some p := hp
    by_cases ht : tr .metaPort np = true
    · rw [if_pos ht] at hp2
      cases hp2
    · rw [if_neg ht] at hp2
      cases hp2
      exact ⟨n3, hnpn⟩
  · simp only [ReadPhase, after_ctrl, if_true]
    rw [← hnp2]
    refine ⟨?_, ?_, ?_, by decide, fun _ h1 => absurd h1 (by decide), ?_⟩
    · rw [after_count]
      simp [Sys.timersBase, f11, scheduledEvents]
    · rw [after_writesIssued]
      simp [Sys.writesIssued, f12, createdPackets, metaPackets, hcnode, hmnode, hnpr]
    · rw [after_inflight, accepted_four req cp mp np _ _ hcpn hmpn hnpn]
      simp only [Sys.pendingBase, f10, List.filter_nil, List.nil_append, List.filter_append]
      have h1 : List.filter isNode
          (if tr .memPort req = true ∧ req.needsResponse = true then [req] else []) = [] := by
        split <;> simp [hrnode]
      have h2 : List.filter isNode [cp, mp] = [] := by simp [hcnode, hmnode]
      rw [h1, h2]
      by_cases ht : tr .metaPort np = true
      · simp [ht, n1]
      · simp [ht, n1]
    · rw [after_readsIssued]
      simp only [Sys.readsIssued, f12, createdPackets, metaPackets, List.filter_nil,
        List.nil_append, List.filterMap_cons, List.filterMap_nil, List.filter_cons, hcnode,
        hmnode, hnpr, n1, Bool.false_and, Bool.and_self, Bool.false_eq_true, if_false, if_true]
      exact congrArg (fun x => [x]) hnp2

/-! ## Read path: the responses of the Merkle walk -/

theorem chargedAt_with (t : Nat) (c : Ctrl) : ∃ t', chargedAt t c = { c with chargeTime := t' } := by
  rcases chargedAt_cases t c with h | h
  · exact ⟨c.chargeTime, h⟩
  · exact ⟨t, h⟩

theorem macChecked_with (now : Nat) (c : Ctrl) :
    ∃ t', macChecked now c = { c with chargeTime := t' } := by
  unfold macChecked
  split
  · exact chargedAt_with _ c
  · exact ⟨c.chargeTime, rfl⟩

/-- Read path, the response to the read of Merkle level `k` arrives: with access
depth zero or at the last level the walk ends; otherwise the read of level
`k + 1` is created and is the one Merkle packet outstanding. -/
theorem readWalk_node (tr : Transport) (now : Nat) (pkt : Packet) (s : Sys) (k : Nat)
    (h : ReadWalkAt k true s)
    (hall : s.pending.any (answers pkt) = true) (hge : 0x288000000 ≤ pkt.addr)
    (hok : (step tr now (.timingResp pkt) s.ctrl).res = .ok ()) :
    ∃ w, ReadWalkAt (k + 1) w
      (s.after (.timingResp pkt) (step tr now (.timingResp pkt) s.ctrl).acts
        (step tr now (.timingResp pkt) s.ctrl).ctrl) := by
  obtain ⟨⟨hs, hW, hpre, hP⟩, hph⟩ := h
  simp only [ReadPhase, if_true] at hph
  obtain ⟨htm, hwi, hin, hk, hlast, hri⟩ := hph
  have hk5 : k ≤ 5 := by
    simp only [MT_LEVEL] at hk
    omega
  have hok2 := step_timingResp_ok tr now pkt s.ctrl hok
  unfold Sys.inflight at hin
  obtain ⟨hans, hbf, hpf0⟩ := filter_answered hin hall (answers_isNode hge)
  have hpf : (s.pendingBase (.timingResp pkt)).filter isNode = [] := hpf0
  obtain ⟨hpa, hpr⟩ := answers_addr hans
  have hp : pkt.addr = alignDown 6 (mtNodeAddr s.ctrl k) := hpa.symm
  have hpre2 := prefixFilled_set pkt hpre hk hlast
  have hslot : (s.ctrl.mtPkts.set k (some pkt)).getD (k + 1 - 1) none = some pkt :=
    getD_set_self pkt (by rw [hpre.1]; exact hk)
  rw [step_timingResp_acts, step_timingResp_ctrl]
  -- the state after a walk that ended
  have ended : ∀ (c' : Ctrl) (acts : List Action) (t : Nat),
      c' = { s.ctrl with mtPkts := s.ctrl.mtPkts.set k (some pkt), chargeTime := t } →
      acceptedRequests acts = [] → metaPackets acts = [] →
      (scheduledEvents acts).count .sendNextMtWrite = 0 →
      (pkt.accessDepth = 0 ∨ k + 1 = MT_LEVEL - 1) →
      ReadWalkAt (k + 1) false (s.after (.timingResp pkt) acts c') := by
    intro c' acts t hc' e1 e2 e3 hend
    subst hc'
    have hT' : SameTxn s.ctrl
        { s.ctrl with mtPkts := s.ctrl.mtPkts.set k (some pkt), chargeTime := t } :=
      ⟨rfl, rfl, rfl, rfl, rfl, rfl, rfl, rfl⟩
    refine ⟨⟨hs, hW, hpre2, hP⟩, ?_⟩
    simp only [ReadPhase, after_ctrl, Bool.false_eq_true, if_false]
    rw [sameTxn_nodeRead hT', after_count, after_inflight, after_writesIssued,
      after_readsIssued, hwi, hri, e1, hpf, hbf, e3]
    refine ⟨?_, ?_, rfl, by omega, ?_, ?_⟩
    · simp only [Sys.timersBase, htm]
    · simp [createdPackets, e2]
    · rcases hend with hd | hl
      · exact Or.inl ⟨pkt, hslot, hd⟩
      · exact Or.inr hl
    · simp [createdPackets, e2]
  by_cases hlt : k < MT_LEVEL - 2
  · obtain ⟨h0, h1, h2⟩ := handleResponse_read_node tr now pkt s.ctrl k hW hs hlt hp
    by_cases hd : pkt.accessDepth = 0
    · refine ⟨false, ?_⟩
      rw [h0 hd, checkRead_ctrl]
      obtain ⟨t1, q1⟩ := chargedAt_with (add64 now (HASH_CYCLE * 1000))
        { s.ctrl with mtPkts := s.ctrl.mtPkts.set k (some pkt) }
      rw [q1]
      obtain ⟨t2, q2⟩ := macChecked_with now
        { s.ctrl with mtPkts := s.ctrl.mtPkts.set k (some pkt), chargeTime := t1 }
      rw [q2]
      obtain ⟨e1, e2, e3⟩ := checkRead_effects
        { s.ctrl with mtPkts := s.ctrl.mtPkts.set k (some pkt), chargeTime := t2 }
      refine ended _ _ t2 rfl e1 e2 ?_ (Or.inl hd)
      rw [List.count_eq_zero]
      intro hmem
      cases e3 _ hmem
    · by_cases hb : s.ctrl.metaPort.blockedPacket = none
      · refine ⟨true, ?_⟩
        have hk1 : k + 1 ≤ 5 := by
          simp only [MT_LEVEL] at hlt
          omega
        obtain ⟨n1, n2, n3⟩ := nodeRead_isNode s.ctrl hW hk1
        have hnr : (nodeRead s.ctrl (k + 1)).needsResponse = true := rfl
        have hrd : (nodeRead s.ctrl (k + 1)).isRead = true := rfl
        have hlast2 : LastNonzero (s.ctrl.mtPkts.set k (some pkt)) (k + 1) := by
          intro p _ hp2
          rw [hslot] at hp2
          cases hp2
          exact hd
        have h1' := h1 hd hb
        change handleResponse tr now pkt s.ctrl =
          (checkRead (macChecked now
            (if tr .metaPort (nodeRead s.ctrl (k + 1)) = true then
              chargedAt (add64 now (HASH_CYCLE * 1000))
                { s.ctrl with mtPkts := s.ctrl.mtPkts.set k (some pkt) }
            else
              { chargedAt (add64 now (HASH_CYCLE * 1000))
                  { s.ctrl with mtPkts := s.ctrl.mtPkts.set k (some pkt) } with
                metaPort := { blockedPacket := some (nodeRead s.ctrl (k + 1)) } }))).prepend
            [.send .metaPort (nodeRead s.ctrl (k + 1))
              (tr .metaPort (nodeRead s.ctrl (k + 1)))] at h1'
        rw [h1']
        have hacts : ∀ (o : Outcome Unit) (l : List Action), (o.prepend l).acts = l ++ o.acts :=
          fun _ _ => rfl
        have hctrl : ∀ (o : Outcome Unit) (l : List Action), (o.prepend l).ctrl = o.ctrl :=
          fun _ _ => rfl
        rw [hacts, hctrl, checkRead_ctrl]
        have going : ∀ (c' : Ctrl) (acts : List Action) (t : Nat) (acc : Bool),
            c' = { s.ctrl with
              mtPkts := s.ctrl.mtPkts.set k (some pkt),
              chargeTime := t,
              metaPort :=
                { blockedPacket := if acc then none else some (nodeRead s.ctrl (k + 1)) } } →
            acceptedRequests acts = [] → metaPackets acts = [] →
            (scheduledEvents acts).count .sendNextMtWrite = 0 →
            ReadWalkAt (k + 1) true
              (s.after (.timingResp pkt)
                ([.send .metaPort (nodeRead s.ctrl (k + 1)) acc] ++ acts) c') := by
          intro c' acts t acc hc' e1 e2 e3
          subst hc'
          have hT' : SameTxn s.ctrl
              { s.ctrl with
                mtPkts := s.ctrl.mtPkts.set k (some pkt),
                chargeTime := t,
                metaPort :=
                  { blockedPacket :=
                      if acc then none else some (nodeRead s.ctrl (k + 1)) } } :=
            ⟨rfl, rfl, rfl, rfl, rfl, rfl, rfl, rfl⟩
          refine ⟨⟨hs, hW, hpre2, hP.1, hP.2.1, hP.2.2.1, ?_⟩, ?_⟩
          · intro q hq
            have hq2 : (if acc = true then none else some (nodeRead s.ctrl (k + 1))) =
                some q := hq
            cases acc
            · cases hq2
              exact ⟨n3, rfl⟩
            · cases hq2
          simp only [ReadPhase, after_ctrl, if_true]
          rw [sameTxn_nodeRead hT', after_count, after_inflight, after_writesIssued,
            after_readsIssued, hwi, hri, hpf, acceptedRequests_append, scheduledEvents_append,
            e1, List.count_append, e3, List.range_succ (n := k + 1), List.map_append]
          refine ⟨?_, ?_, ?_, by simp only [MT_LEVEL] at hlt ⊢; omega, hlast2, ?_⟩
          · simp [Sys.timersBase, htm, scheduledEvents]
          · simp only [createdPackets]
            rw [metaPackets_append, e2]
            simp [metaPackets, hrd]
          · cases acc <;> simp [acceptedRequests, hnr, n1]
          · simp only [createdPackets]
            rw [metaPackets_append, e2]
            simp [metaPackets, hrd, n1]
        obtain ⟨t1, q1⟩ := chargedAt_with (add64 now (HASH_CYCLE * 1000))
          { s.ctrl with mtPkts := s.ctrl.mtPkts.set k (some pkt) }
        rw [q1]
        cases ht : tr .metaPort (nodeRead s.ctrl (k + 1))
        · simp only [Bool.false_eq_true, if_false]
          obtain ⟨t2, q2⟩ := macChecked_with now
            { s.ctrl with
              mtPkts := s.ctrl.mtPkts.set k (some pkt),
              chargeTime := t1,
              metaPort := { blockedPacket := some (nodeRead s.ctrl (k + 1)) } }
          rw [q2]
          obtain ⟨e1, e2, e3⟩ := checkRead_effects
            { s.ctrl with
              mtPkts := s.ctrl.mtPkts.set k (some pkt),
              chargeTime := t2,
              metaPort := { blockedPacket := some (nodeRead s.ctrl (k + 1)) } }
          refine going _ _ t2 false rfl e1 e2 ?_
          rw [List.count_eq_zero]
          intro hmem
          cases e3 _ hmem
        · simp only [if_true]
          obtain ⟨t2, q2⟩ := macChecked_with now
            { s.ctrl with mtPkts := s.ctrl.mtPkts.set k (some pkt), chargeTime := t1 }
          rw [q2]
          obtain ⟨e1, e2, e3⟩ := checkRead_effects
            { s.ctrl with mtPkts := s.ctrl.mtPkts.set k (some pkt), chargeTime := t2 }
          have hbm : s.ctrl.metaPort = { blockedPacket := none } :=
            memSidePort_none _ hb
          refine going _ _ t2 true ?_ e1 e2 ?_
          · simp only [if_true]
            rw [← hbm]
          · rw [List.count_eq_zero]
            intro hmem
            cases e3 _ hmem
      · rw [h2 hd hb] at hok2
        cases hok2
  · refine ⟨false, ?_⟩
    have hk5' : k = 5 := by
      simp only [MT_LEVEL] at hlt hk
      omega
    subst hk5'
    rw [handleResponse_read_last tr now pkt s.ctrl hW hs hp, checkRead_ctrl]
    obtain ⟨t2, q2⟩ := macChecked_with now
      { s.ctrl with mtPkts := s.ctrl.mtPkts.set (MT_LEVEL - 2) (some pkt) }
    rw [q2]
    obtain ⟨e1, e2, e3⟩ := checkRead_effects
      { s.ctrl with mtPkts := s.ctrl.mtPkts.set (MT_LEVEL - 2) (some pkt), chargeTime := t2 }
    refine ended _ _ t2 rfl e1 e2 ?_ (Or.inr rfl)
    rw [List.count_eq_zero]
    intro hmem
    cases e3 _ hmem

/-! ## Read path: every callback keeps the invariant -/

/-- Every callback the environment may make in a read transaction, when it
returns and leaves the controller busy, keeps the invariant of the read path. -/
theorem readWalk_step (tr : Transport) (now : Nat) (inp : Input) (s : Sys) (k : Nat)
    (w : Bool) (h : ReadWalkAt k w s) (hall : s.allows inp = true)
    (hok : (step tr now inp s.ctrl).res = .ok ())
    (hbusy : (step tr now inp s.ctrl).ctrl.state ≠ .Idle) :
    ∃ k' w', ReadWalkAt k' w'
      (s.after inp (step tr now inp s.ctrl).acts (step tr now inp s.ctrl).ctrl) := by
  have hC := h.1
  obtain ⟨hs, hW, hpre, hP⟩ := hC
  have hst : s.ctrl.state ≠ .Idle := by rw [hs]; decide
  cases inp with
  | timingReq pkt => exact ⟨k, w, readWalkAt_frame (frame_timingReq tr now pkt s hst hP).1 h⟩
  | memReqRetry => exact ⟨k, w, readWalkAt_frame (frame_memReqRetry tr now s hW hP hst hok).1 h⟩
  | metaReqRetry =>
    exact ⟨k, w, readWalkAt_frame (frame_metaReqRetry tr now s hW hP hst hok).1 h⟩
  | respRetry => exact ⟨k, w, readWalkAt_frame (frame_respRetry tr now s hW hP hst hok).1 h⟩
  | fire ev =>
    cases ev with
    | readVerFinished =>
      exact ⟨k, w, readWalkAt_frame
        (frame_verFinished tr now s _ (Or.inl rfl) hP hok hbusy).1 h⟩
    | writeVerFinished =>
      exact ⟨k, w, readWalkAt_frame
        (frame_verFinished tr now s _ (Or.inr rfl) hP hok hbusy).1 h⟩
    | sendMacWrite =>
      exact ⟨k, w, readWalkAt_frame (frame_sendMacWrite tr now s hW hP hok).1 h⟩
    | sendNextMtWrite =>
      have hmem : Event.sendNextMtWrite ∈ s.timers := of_decide_eq_true hall
      have hpos : 0 < s.timers.count .sendNextMtWrite := List.count_pos_iff.mpr hmem
      have := h.2.1
      omega
  | timingResp pkt =>
    have hall2 : s.pending.any (answers pkt) = true := hall
    by_cases hge : 0x288000000 ≤ pkt.addr
    · cases w with
      | true =>
        obtain ⟨w', h'⟩ := readWalk_node tr now pkt s k h hall2 hge hok
        exact ⟨k + 1, w', h'⟩
      | false =>
        have hph := h.2
        simp only [ReadPhase, Bool.false_eq_true, if_false] at hph
        exact (no_node_answer hph.2.2.1 hall2 hge).elim
    · obtain ⟨hF, _⟩ := frame_timingResp tr now pkt s hW hP hst (by omega)
        (fun hw => absurd (hs ▸ hw : State.Read = State.Write) (by decide)) hok
      exact ⟨k, w, readWalkAt_frame hF h⟩

/-- The invariant of the read path holds along every run inside the
transaction. -/
theorem readWalk_run (run : List (Transport × Nat × Input)) :
    ∀ (s : Sys) (k : Nat) (w : Bool), ReadWalkAt k w s →
      ∀ s', Sys.run run s = some s' → ∃ k' w', ReadWalkAt k' w' s' := by
  induction run with
  | nil =>
    intro s k w h s' hrun
    cases hrun
    exact ⟨k, w, h⟩
  | cons x rest ih =>
    obtain ⟨tr, now, inp⟩ := x
    intro s k w h s' hrun
    unfold Sys.run at hrun
    unfold Sys.next at hrun
    by_cases hc : s.allows inp = true ∧ (step tr now inp s.ctrl).res = .ok ()
    · rw [if_pos hc] at hrun
      simp only at hrun
      by_cases hb : (s.after inp (step tr now inp s.ctrl).acts
          (step tr now inp s.ctrl).ctrl).ctrl.state ≠ .Idle
      · rw [if_pos hb] at hrun
        obtain ⟨k1, w1, h1⟩ := readWalk_step tr now inp s k w h hc.1 hc.2 hb
        exact ih _ k1 w1 h1 s' hrun
      · rw [if_neg hb] at hrun
        cases hrun
    · rw [if_neg hc] at hrun
      cases hrun

theorem nodeRead_addr_lt (c : Ctrl) (hW : WellAddressed c) {i j : Nat} (hij : i < j)
    (hj : j ≤ 5) : (nodeRead c i).addr < (nodeRead c j).addr := by
  have h1 := node_sep c hW hij hj
  have h2 := (node_region c hW.1 hW.2.1 hW.2.2 i (by omega)).2.1
  show alignDown 6 (mtNodeAddr c i) < alignDown 6 (mtNodeAddr c j)
  omega

/-- The content of the invariant of the read path. -/
theorem readWalk_facts {s : Sys} {k : Nat} {w : Bool} (h : ReadWalkAt k w s) :
    s.ctrl.state = .Read ∧
    (∃ n, n ≤ MT_LEVEL - 1 ∧
      s.readsIssued = (List.range n).map (nodeRead s.ctrl) ∧
      (∀ i p, s.ctrl.mtPkts.getD i none = some p → p.accessDepth = 0 → n ≤ i + 1)) ∧
    s.readsIssued.Pairwise (fun a b => a.addr < b.addr) ∧
    s.writesIssued = [] ∧ s.inflight.length ≤ 1 := by
  obtain ⟨⟨hs, hW, hpre, hP⟩, hph⟩ := h
  have hk6 : k ≤ 6 := hpre.2.1
  have hpair : ∀ n, n ≤ 6 →
      ((List.range n).map (nodeRead s.ctrl)).Pairwise (fun a b => a.addr < b.addr) := by
    intro n hn
    rw [List.pairwise_map]
    refine List.Pairwise.imp_of_mem ?_ (List.pairwise_lt_range n)
    intro a b _ hb hab
    exact nodeRead_addr_lt s.ctrl hW hab (by have := List.mem_range.mp hb; omega)
  have hzero : ∀ i p, s.ctrl.mtPkts.getD i none = some p → p.accessDepth = 0 →
      i + 1 < k → False := by
    intro i p hp hd hi
    obtain ⟨q, hq, hdq⟩ := hpre.2.2.1 i (by omega)
    rw [hp] at hq
    cases hq
    exact hdq hi hd
  refine ⟨hs, ?_⟩
  cases w with
  | true =>
    simp only [ReadPhase, if_true] at hph
    obtain ⟨_, hwi, hin, hk, hlast, hri⟩ := hph
    refine ⟨⟨k + 1, hk, hri, fun i p hp hd => ?_⟩, ?_, hwi, ?_⟩
    · by_contra hlt
      have hik : i + 1 < k ∨ i = k - 1 ∧ 1 ≤ k := by omega
      rcases hik with h1 | ⟨h1, h2⟩
      · exact hzero i p hp hd h1
      · subst h1
        exact hlast p h2 hp hd
    · rw [hri]
      exact hpair (k + 1) (by simp only [MT_LEVEL] at hk; omega)
    · rw [hin]
      exact Nat.le_refl 1
  | false =>
    simp only [ReadPhase, Bool.false_eq_true, if_false] at hph
    obtain ⟨_, hwi, hin, hk, _, hri⟩ := hph
    refine ⟨⟨k, hk6, hri, fun i p hp hd => ?_⟩, ?_, hwi, ?_⟩
    · by_contra hlt
      exact hzero i p hp hd (by omega)
    · rw [hri]
      exact hpair k hk6
    · rw [hin]
      exact Nat.zero_le _

/-! ## The read-path Merkle walk -/

/-- C17: the read-path Merkle walk.  In state `Read` on a transaction with data
address below `DATA_SPACE`: handling the response of Merkle level `i`, for
`i < MT_LEVEL - 2`, hands no packet to a port when the access depth is zero, and
when it is non-zero and the metadata port is free to send it hands exactly one,
the 64-byte read of level `i + 1`, to the metadata port (with the port's blocked
slot occupied that send ends in the blocked-slot panic and nothing is issued);
handling the response of level `MT_LEVEL - 2` hands no packet to a port.  Hence,
at every point of a read transaction started on a fresh controller and driven by
an environment that respects the port protocol, the Merkle reads created so far
are the reads of the levels `0, 1, .., n-1`, one for each level and in this
order, at strictly increasing addresses, with `n ≤ MT_LEVEL - 1`; no level
after one whose slot reports access depth zero has been read; no Merkle write
exists and at most one Merkle packet is outstanding. -/
theorem read_walk_chain :
    (∀ (tr : Transport) (now : Nat) (pkt : Packet) (c : Ctrl) (i : Nat),
      WellAddressed c → c.state = .Read → i < MT_LEVEL - 2 →
      pkt.addr = alignDown 6 (mtNodeAddr c i) →
      (pkt.accessDepth = 0 → sentPackets (handleResponse tr now pkt c).acts = []) ∧
      (pkt.accessDepth ≠ 0 → c.metaPort.blockedPacket = none →
        sentPackets (handleResponse tr now pkt c).acts = [(.metaPort, nodeRead c (i + 1))] ∧
        (nodeRead c (i + 1)).size = 64 ∧ (nodeRead c (i + 1)).isRead = true ∧
        (nodeRead c (i + 1)).addr = alignDown 6 (mtNodeAddr c (i + 1))) ∧
      (pkt.accessDepth ≠ 0 → c.metaPort.blockedPacket ≠ none →
        (handleResponse tr now pkt c).acts = [] ∧
        (handleResponse tr now pkt c).res = .fatal .sendWhileBlocked)) ∧
    (∀ (tr : Transport) (now : Nat) (pkt : Packet) (c : Ctrl),
      WellAddressed c → c.state = .Read →
      pkt.addr = alignDown 6 (mtNodeAddr c (MT_LEVEL - 2)) →
      sentPackets (handleResponse tr now pkt c).acts = []) ∧
    (∀ (s0 : Sys) (tr0 : Transport) (now0 : Nat) (req : Packet)
      (run : List (Transport × Nat × Input)) (s : Sys),
      s0.Fresh → req.isRead = true → req.addr < DATA_SPACE →
      Sys.run ((tr0, now0, .timingReq req) :: run) s0 = some s →
      s.ctrl.state = .Read ∧
      (∃ n, n ≤ MT_LEVEL - 1 ∧
        s.readsIssued = (List.range n).map (nodeRead s.ctrl) ∧
        (∀ i p, s.ctrl.mtPkts.getD i none = some p → p.accessDepth = 0 → n ≤ i + 1)) ∧
      s.readsIssued.Pairwise (fun a b => a.addr < b.addr) ∧
      s.writesIssued = [] ∧ s.inflight.length ≤ 1) := by
  refine ⟨fun tr now pkt c i hW hs hi hp => ?_, fun tr now pkt c hW hs hp => ?_,
    fun s0 tr0 now0 req run s hfresh hr hA hrun => ?_⟩
  · obtain ⟨h0, h1, h2⟩ := handleResponse_read_node tr now pkt c i hW hs hi hp
    refine ⟨fun hd => ?_, fun hd hb => ⟨?_, rfl, rfl, rfl⟩, fun hd hb => ?_⟩
    · rw [h0 hd]
      exact checkRead_sent _
    · rw [h1 hd hb]
      show sentPackets ([_] ++ (checkRead _).acts) = _
      rw [sentPackets_append, checkRead_sent]
      rfl
    · rw [h2 hd hb]
      exact ⟨rfl, rfl⟩
  · rw [handleResponse_read_last tr now pkt c hW hs hp]
    exact checkRead_sent _
  · unfold Sys.run at hrun
    unfold Sys.next at hrun
    by_cases hc : s0.allows (.timingReq req) = true ∧
        (step tr0 now0 (.timingReq req) s0.ctrl).res = .ok ()
    · rw [if_pos hc] at hrun
      simp only at hrun
      by_cases hb : (s0.after (.timingReq req) (step tr0 now0 (.timingReq req) s0.ctrl).acts
          (step tr0 now0 (.timingReq req) s0.ctrl).ctrl).ctrl.state ≠ .Idle
      · rw [if_pos hb] at hrun
        obtain ⟨k, w, h⟩ := readWalk_run run _ 0 true
          (readWalk_start tr0 now0 req s0 hfresh hr hA hc.2) s hrun
        exact readWalk_facts h
      · rw [if_neg hb] at hrun
        cases hrun
    · rw [if_neg hc] at hrun
      cases hrun

set_option maxRecDepth 100000 in
/-- Witness for C17: in the read of address 0 from the constructed controller,
the response of level 4 with access depth 1 issues the read of level 5, and
after the responses of the levels 0 to 4 the reads of the levels 0 to 5 exist. -/
theorem read_walk_chain_witness :
    sentPackets (handleResponse acceptAll 5000 (respAt 0x289248000 64 true 1)
        (stateAfter acceptAll walkTrace.dropLast construct)).acts =
      [(.metaPort, nodeRead (stateAfter acceptAll walkTrace.dropLast construct) 5)] ∧
    Sys.run walkRun Sys.init = some walkSys ∧
    walkSys.readsIssued.length = 6 ∧
    walkSys.inflight.length ≤ 1 :=
  ⟨(read_walk_chain.1 acceptAll 5000 (respAt 0x289248000 64 true 1)
      (stateAfter acceptAll walkTrace.dropLast construct) 4
      ⟨⟨rfl, rfl, rfl⟩, by decide, rfl⟩ rfl (by decide) rfl).2.1 (by decide) rfl |>.1,
    rfl, rfl,
    (read_walk_chain.2.2 Sys.init acceptAll 0 readReq0 walkRun.tail walkSys
      ⟨rfl, ⟨rfl, rfl, rfl⟩, rfl, rfl, rfl, rfl, rfl, rfl, rfl, rfl, rfl, rfl⟩ rfl (by decide)
      rfl).2.2.2.2⟩

/-! ## Teardown -/

theorem getD_set_none (l : List (Option Packet)) (i j : Nat) :
    (l.set j none).getD i none = if i = j then none else l.getD i none := by
  by_cases h : i = j
  · subst h
    rw [if_pos rfl, List.getD_eq_getElem?_getD]
    by_cases hl : i < l.length
    · rw [List.getElem?_set_self hl]
      rfl
    · rw [List.getElem?_eq_none (by rw [List.length_set]; omega)]
      rfl
  · rw [if_neg h, List.getD_eq_getElem?_getD, List.getD_eq_getElem?_getD,
      List.getElem?_set_ne (Ne.symm h)]

/-- The loop `for (i = 0; i < MT_LEVEL - 1; i++) mtPkts[i] = nullptr` empties
the `MT_LEVEL - 1` Merkle slots. -/
theorem cleared_slots (mt : List (Option Packet)) (i : Nat) (hi : i < MT_LEVEL - 1) :
    (forUpTo (MT_LEVEL - 1) (fun i mt => mt.set i none) mt).getD i none = none := by
  have h6 : MT_LEVEL - 1 = 6 := rfl
  rw [h6] at hi ⊢
  simp only [forUpTo, List.range, List.range.loop, List.foldl]
  interval_cases i <;> simp only [getD_set_none] <;> simp

theorem clearTransaction_tornDown (c : Ctrl) : TornDown (clearTransaction c).ctrl :=
  ⟨rfl, rfl, rfl, rfl, fun i hi => cleared_slots c.mtPkts i hi⟩

/-- The teardown followed by the retry request leaves a torn-down object, sends
no packet and returns. -/
theorem teardown_tornDown (c : Ctrl) :
    TornDown ((clearTransaction >>= fun _ => CPUSidePort.trySendRetryReq) c).ctrl ∧
    sentPackets ((clearTransaction >>= fun _ => CPUSidePort.trySendRetryReq) c).acts = [] ∧
    ((clearTransaction >>= fun _ => CPUSidePort.trySendRetryReq) c).res = .ok () ∧
    ((clearTransaction >>= fun _ => CPUSidePort.trySendRetryReq) c).ctrl.mtPkts =
      (clearTransaction c).ctrl.mtPkts := by
  rw [teardown_eq]
  split
  · exact ⟨clearTransaction_tornDown c, rfl, rfl, rfl⟩
  · exact ⟨clearTransaction_tornDown c, rfl, rfl, rfl⟩

/-- C21: the teardown is atomic on the final send.  When `processReadVerFinished`
runs with a response packet and the CPU-side blocked slot empty: if the CPU side
accepts the response, it is the one packet sent, the call returns, the state is
`Idle` and `responsePkt`, `counterPkt`, `macPkt` and the `MT_LEVEL - 1` slots of
`mtPkts` are empty; if the CPU side refuses it, nothing in the object changes
but the CPU-side blocked slot, which now holds the response packet.
`processWriteVerFinished` for a request that needs a response does the same.
For a request that needs no response `processWriteVerFinished` sends no packet,
returns and leaves the state `Idle` with all slots empty.  (Without a response
packet, or with the CPU-side blocked slot occupied, `processReadVerFinished` ends
in a fatal and leaves the object as it was.) -/
theorem teardown_atomic :
    (∀ (tr : Transport) (c : Ctrl) (p : Packet),
      c.responsePkt = some p → c.cpuSidePort.blockedPacket = none →
      (tr .cpuSidePort p = true →
        sentPackets (processReadVerFinished tr c).acts = [(.cpuSidePort, p)] ∧
        (processReadVerFinished tr c).res = .ok () ∧
        TornDown (processReadVerFinished tr c).ctrl) ∧
      (tr .cpuSidePort p = false →
        processReadVerFinished tr c =
          ⟨[.send .cpuSidePort p false],
            { c with cpuSidePort := { c.cpuSidePort with blockedPacket := some p } },
            .ok ()⟩) ∧
      (c.needsResponse = true →
        processWriteVerFinished tr c = processReadVerFinished tr c)) ∧
    (∀ (tr : Transport) (c : Ctrl), c.needsResponse = false →
      sentPackets (processWriteVerFinished tr c).acts = [] ∧
      (processWriteVerFinished tr c).res = .ok () ∧
      TornDown (processWriteVerFinished tr c).ctrl) ∧
    (∀ (tr : Transport) (c : Ctrl),
      c.responsePkt = none ∨ c.cpuSidePort.blockedPacket ≠ none →
      (processReadVerFinished tr c).acts = [] ∧ (processReadVerFinished tr c).ctrl = c ∧
      ∃ k, (processReadVerFinished tr c).res = .fatal k) := by
  refine ⟨fun tr c p hr hb => ⟨fun ht => ?_, fun ht => ?_, fun hn => ?_⟩,
    fun tr c hn => ?_, fun tr c h => ?_⟩
  · rw [processReadVerFinished_eq, hr]
    simp only [hb, Option.isSome_none, Bool.false_eq_true, if_false, ht, if_true]
    obtain ⟨t1, t2, t3, _⟩ := teardown_tornDown c
    refine ⟨?_, t3, t1⟩
    show sentPackets ([_] ++ _) = _
    rw [sentPackets_append, t2]
    rfl
  · rw [processReadVerFinished_eq, hr]
    simp only [hb, Option.isSome_none, Bool.false_eq_true, if_false, ht]
  · rw [processWriteVerFinished_eq, if_pos hn]
  · rw [processWriteVerFinished_eq, if_neg (by simp [hn])]
    obtain ⟨t1, t2, t3, _⟩ := teardown_tornDown c
    exact ⟨t2, t3, t1⟩
  · have hcases : c.responsePkt = none ∨ ∃ p, c.responsePkt = some p := by
      cases c.responsePkt with
      | none => exact Or.inl rfl
      | some p => exact Or.inr ⟨p, rfl⟩
    rw [processReadVerFinished_eq]
    rcases hcases with hr | ⟨p, hr⟩
    · rw [hr]
      exact ⟨rfl, rfl, _, rfl⟩
    · rw [hr]
      rcases h with h | h
      · rw [hr] at h
        cases h
      · have hb : c.cpuSidePort.blockedPacket.isSome = true := by
          cases hq : c.cpuSidePort.blockedPacket with
          | none => exact absurd hq h
          | some q => rfl
        simp only
        rw [if_pos hb]
        exact ⟨rfl, rfl, _, rfl⟩

set_option maxRecDepth 100000 in
/-- Witness for C21: the verified read of address 0.  When the CPU side accepts
the response the object is torn down; when it refuses, the state stays `Read`
and the response waits in the CPU-side blocked slot. -/
theorem teardown_atomic_witness :
    TornDown (processReadVerFinished acceptAll readVerified).ctrl ∧
    (processReadVerFinished refuseResponse readVerified).ctrl.state = .Read ∧
    (processReadVerFinished refuseResponse readVerified).ctrl.cpuSidePort.blockedPacket =
      some (respAt 0 64 true 1) :=
  ⟨((teardown_atomic.1 acceptAll readVerified (respAt 0 64 true 1) rfl rfl).1 rfl).2.2,
    by rw [(teardown_atomic.1 refuseResponse readVerified (respAt 0 64 true 1) rfl rfl).2.1 rfl]
       rfl,
    by rw [(teardown_atomic.1 refuseResponse readVerified (respAt 0 64 true 1) rfl rfl).2.1 rfl]⟩

/-! ## The MAC address at issue and at correlation -/

theorem mac_test_addr {A : Nat} (hA : A < W64) :
    add64 construct.macBorder (shl64 (A >>> 6) 4) = construct.macBorder + A / 64 * 16 := by
  have hsh : A >>> 6 = A / 64 := by rw [Nat.shiftRight_eq_div_pow]
  have hA2 : A < 2 ^ 64 := hA
  have hshl : shl64 (A / 64) 4 = A / 64 * 16 := by
    unfold shl64
    rw [Nat.shiftLeft_eq]
    apply Nat.mod_eq_of_lt
    unfold W64
    omega
  rw [hsh, hshl, construct_macBorder, add64_of_lt (by unfold W64; omega)]

theorem mac_issue_eq_test {A : Nat} (hA : A < W64) :
    alignDown 4 (add64 construct.macBorder (A >>> 2)) =
      add64 construct.macBorder (shl64 (A >>> 6) 4) := by
  rw [mac_addr_spec hA, mac_test_addr hA, specMacAddr, construct_macBorder]
  omega

theorem macChecked_macPkt (now : Nat) (c : Ctrl) :
    (macChecked now c).macPkt = c.macPkt ∧ (macChecked now c).responsePkt = c.responsePkt := by
  obtain ⟨t, h⟩ := macChecked_with now c
  rw [h]
  exact ⟨rfl, rfl⟩

theorem chargedAt_macPkt (t : Nat) (c : Ctrl) :
    (chargedAt t c).macPkt = c.macPkt ∧ (chargedAt t c).responsePkt = c.responsePkt := by
  obtain ⟨t', h⟩ := chargedAt_with t c
  rw [h]
  exact ⟨rfl, rfl⟩

set_option maxRecDepth 100000 in
/-- C22 (what the code does): the read of data address `0x2B5555550`.  The MAC
read is issued at `0x2B5555550`, the data address itself.  Its response is taken
by the first test of `handleResponse`, the one for the data address: it is
recorded in `responsePkt` and `macPkt` stays empty. -/
theorem mac_response_recorded_as_data :
    (recvTimingReq acceptAll readReqMacAlias construct).res = .ok true ∧
    readingAtMacAlias.state = .Read ∧ readingAtMacAlias.verifiedPktAddr = 0x2B5555550 ∧
    sentPackets (recvTimingReq acceptAll readReqMacAlias construct).acts =
      [(.memPort, readReqMacAlias),
       (.metaPort, createMetaPkt construct 0x20AD55555 1 true),
       (.metaPort, createMetaPkt construct 0x2B5555550 16 true),
       (.metaPort, createMetaPkt construct 0x2895aaa80 64 true)] ∧
    alignDown 4 (add64 readingAtMacAlias.macBorder (readingAtMacAlias.verifiedPktAddr >>> 2)) =
      0x2B5555550 ∧
    add64 readingAtMacAlias.macBorder (shl64 readingAtMacAlias.verifiedCntOffs 4) =
      0x2B5555550 ∧
    (handleResponse acceptAll 1000 (respAt 0x2B5555550 16 true 1) readingAtMacAlias).res =
      .ok () ∧
    (handleResponse acceptAll 1000 (respAt 0x2B5555550 16 true 1) readingAtMacAlias).ctrl.macPkt =
      none ∧
    (handleResponse acceptAll 1000 (respAt 0x2B5555550 16 true 1)
        readingAtMacAlias).ctrl.responsePkt = some (respAt 0x2B5555550 16 true 1) := by
  refine ⟨?_, ?_, ?_, ?_, ?_, ?_, ?_, ?_, ?_⟩ <;> rfl

theorem handleRequestRetry_mac (tr : Transport) (p : Packet) (c : Ctrl)
    (h1 : p.addr ≠ c.verifiedPktAddr) (h2 : p.addr ≠ add64 c.cntBorder c.verifiedCntOffs)
    (h3 : p.addr = add64 c.macBorder (shl64 c.verifiedCntOffs 4)) :
    handleRequestRetry tr p c c = (metaPort_sendPacket tr p c).andThen (fun _ => M.pure ()) := by
  unfold handleRequestRetry
  rw [if_neg h1, if_neg h2, if_pos h3]
  rfl

/-- C22 (amended): with the constructed borders, for every data address `A`
that fits in 64 bits (aligned or not) and its counter offset `A >> 6`: the
address `sendMacPkt` issues the MAC packet at equals the address the response
and retry handlers test for the MAC slot, both are `macBorder + (A / 64) * 16`,
and that address is never the counter address.  It is the data address exactly
for `A = 0x2B5555550`; it is not for `A < DATA_SPACE`.  For a packet at that
address, when it is not the data address: `handleResponse` records it in
`macPkt`, in `Read` and (returning) in `Write`, and the retry branch of
`handleRequest` sends it again on the metadata port.  When it is the data
address, `handleResponse` in `Read` records the packet in `responsePkt` and
leaves `macPkt` as it was. -/
theorem mac_address_agreement (c : Ctrl) (hB : Borders c) (hA : c.verifiedPktAddr < W64)
    (hC : c.verifiedCntOffs = c.verifiedPktAddr >>> 6) :
    alignDown 4 (add64 c.macBorder (c.verifiedPktAddr >>> 2)) =
      add64 c.macBorder (shl64 c.verifiedCntOffs 4) ∧
    add64 c.macBorder (shl64 c.verifiedCntOffs 4) =
      c.macBorder + c.verifiedPktAddr / 64 * 16 ∧
    add64 c.macBorder (shl64 c.verifiedCntOffs 4) ≠ add64 c.cntBorder c.verifiedCntOffs ∧
    (add64 c.macBorder (shl64 c.verifiedCntOffs 4) = c.verifiedPktAddr ↔
      c.verifiedPktAddr = 0x2B5555550) ∧
    (c.verifiedPktAddr < DATA_SPACE →
      add64 c.macBorder (shl64 c.verifiedCntOffs 4) ≠ c.verifiedPktAddr) ∧
    (∀ (tr : Transport) (now : Nat) (pkt : Packet),
      pkt.addr = alignDown 4 (add64 c.macBorder (c.verifiedPktAddr >>> 2)) →
      (pkt.addr ≠ c.verifiedPktAddr →
        (c.state = .Read → (handleResponse tr now pkt c).ctrl.macPkt = some pkt) ∧
        (c.state = .Write →
          (handleResponse tr now pkt c).ctrl.macPkt = some pkt ∧
          (recordWrite tr now pkt c).res = .ok true) ∧
        handleRequestRetry tr pkt c c =
          (metaPort_sendPacket tr pkt c).andThen (fun _ => M.pure ())) ∧
      (pkt.addr = c.verifiedPktAddr → c.state = .Read →
        (handleResponse tr now pkt c).ctrl.responsePkt = some pkt ∧
        (handleResponse tr now pkt c).ctrl.macPkt = c.macPkt)) := by
  obtain ⟨hb1, hb2, _⟩ := hB
  have hA2 : c.verifiedPktAddr < 2 ^ 64 := hA
  have hsh : c.verifiedPktAddr >>> 6 = c.verifiedPktAddr / 64 := by
    rw [Nat.shiftRight_eq_div_pow]
  have e1 : alignDown 4 (add64 c.macBorder (c.verifiedPktAddr >>> 2)) =
      add64 c.macBorder (shl64 c.verifiedCntOffs 4) := by
    rw [hb2, hC]
    exact mac_issue_eq_test hA
  have e2 : add64 c.macBorder (shl64 c.verifiedCntOffs 4) =
      c.macBorder + c.verifiedPktAddr / 64 * 16 := by
    rw [hb2, hC]
    exact mac_test_addr hA
  have e3 : add64 c.cntBorder c.verifiedCntOffs = 0x200000000 + c.verifiedPktAddr / 64 := by
    rw [hb1, hC, hsh, construct_cntBorder, add64_of_lt (by unfold W64; omega)]
  have hne : add64 c.macBorder (shl64 c.verifiedCntOffs 4) ≠
      add64 c.cntBorder c.verifiedCntOffs := by
    rw [e2, e3, hb2, construct_macBorder]
    omega
  refine ⟨e1, e2, hne, ?_, fun hlt => ?_, fun tr now pkt hp => ⟨fun h1 => ⟨fun hs => ?_,
    fun hs => ?_, ?_⟩, fun h1 hs => ?_⟩⟩
  · rw [e2, hb2, construct_macBorder]
    omega
  · have hlt2 : c.verifiedPktAddr < 0x200000000 := hlt
    rw [e2, hb2, construct_macBorder]
    omega
  · rw [e1] at hp
    rw [handleResponse_read tr now pkt c hs,
      recordRead_mac tr now pkt c h1 (hp ▸ hne) hp, andThen_ok, prepend_nil, checkRead_ctrl,
      (macChecked_macPkt _ _).1]
  · rw [e1] at hp
    rw [handleResponse_write tr now pkt c hs,
      recordWrite_mac tr now pkt c h1 (hp ▸ hne) hp, andThen_ok]
    simp only [if_true, prepend_nil]
    rw [checkWrite_ctrl, (chargedAt_macPkt _ _).1]
    exact ⟨rfl, trivial⟩
  · rw [e1] at hp
    exact handleRequestRetry_mac tr pkt c h1 (hp ▸ hne) hp
  · rw [handleResponse_read tr now pkt c hs, recordRead_data tr now pkt c h1, andThen_ok,
      prepend_nil, checkRead_ctrl, (macChecked_macPkt _ _).1, (macChecked_macPkt _ _).2]
    exact ⟨rfl, rfl⟩

set_option maxRecDepth 100000 in
/-- Witness for C22: in the read of address `0x1040` the MAC read is issued at
`0x208000410`, and its response is recorded in `macPkt`. -/
theorem mac_address_agreement_witness :
    alignDown 4 (add64 readingAt1040.macBorder (readingAt1040.verifiedPktAddr >>> 2)) =
      0x208000410 ∧
    (handleResponse acceptAll 1000 (respAt 0x208000410 16 true 1) readingAt1040).ctrl.macPkt =
      some (respAt 0x208000410 16 true 1) :=
  ⟨rfl,
    ((mac_address_agreement readingAt1040 ⟨rfl, rfl, rfl⟩ (by decide) rfl).2.2.2.2.2
      acceptAll 1000 (respAt 0x208000410 16 true 1) rfl).1 (by decide) |>.1 rfl⟩


/-! ## Address regions and slot matching -/

theorem slots_chargedAt (t : Nat) (c : Ctrl) : slots (chargedAt t c) = slots c := by
  unfold chargedAt
  split <;> rfl

theorem slots_macChecked (now : Nat) (c : Ctrl) : slots (macChecked now c) = slots c := by
  unfold macChecked
  split
  · exact slots_chargedAt _ _
  · rfl

theorem slots_metaPort_sendPacket (tr : Transport) (p : Packet) (c : Ctrl) :
    slots (metaPort_sendPacket tr p c).ctrl = slots c := by
  rw [metaPort_sendPacket_eq]
  by_cases hb : c.metaPort.blockedPacket.isSome = true
  · rw [if_pos hb]
  · rw [if_neg hb]
    by_cases ht : tr .metaPort p = true
    · rw [if_pos ht]
    · rw [if_neg ht]
      rfl

theorem slots_sendMtPkt (tr : Transport) (nth : Nat) (isRead : Bool) (c : Ctrl) :
    slots (sendMtPkt tr nth isRead c).ctrl = slots c := by
  rw [sendMtPkt_eq]
  exact slots_metaPort_sendPacket tr _ c

theorem andThen_ctrl_slots {α β : Type} (o : Outcome α) (f : α → M β)
    (hf : ∀ a c, slots (f a c).ctrl = slots c) : slots (o.andThen f).ctrl = slots o.ctrl := by
  obtain ⟨acts, c, r⟩ := o
  cases r with
  | ok a => rw [andThen_ok, prepend_ctrl, hf]
  | fatal k => rw [andThen_fatal]

theorem slots_checkRead (c : Ctrl) : slots (checkRead c).ctrl = slots c := by
  rw [checkRead_ctrl]

theorem slots_checkWrite (c : Ctrl) : slots (checkWrite c).ctrl = slots c := by
  rw [checkWrite_ctrl]

theorem slots_read (tr : Transport) (now : Nat) (pkt : Packet) (c : Ctrl)
    (hs : c.state = .Read) :
    slots (handleResponse tr now pkt c).ctrl = slots (recordRead tr now pkt c).ctrl := by
  rw [handleResponse_read tr now pkt c hs]
  exact andThen_ctrl_slots _ _ (fun _ c2 => slots_checkRead c2)

theorem slots_write (tr : Transport) (now : Nat) (pkt : Packet) (c : Ctrl)
    (hs : c.state = .Write) :
    slots (handleResponse tr now pkt c).ctrl = slots (recordWrite tr now pkt c).ctrl := by
  rw [handleResponse_write tr now pkt c hs]
  refine andThen_ctrl_slots _ _ (fun b c2 => ?_)
  cases b
  · rfl
  · exact slots_checkWrite c2

theorem slots_read_node (tr : Transport) (now : Nat) (pkt : Packet) (c : Ctrl)
    (hW : WellAddressed c) (i : Nat) (hi : i ≤ 5)
    (hp : pkt.addr = alignDown 6 (mtNodeAddr c i)) :
    slots (recordRead tr now pkt c).ctrl =
      (c.responsePkt, c.counterPkt, c.macPkt, c.mtPkts.set i (some pkt)) := by
  obtain ⟨h1, h2, h3⟩ := merkle_of_ge c hW pkt (hp ▸ (node_ge c hW hi).1)
  rcases Nat.lt_or_ge i 5 with hlt | hge
  · obtain ⟨hf, h5⟩ := (firstHit_read_level c hW pkt hi hp).1 hlt
    rw [recordRead_node tr now pkt c i h1 h2 h3 hf h5]
    split
    · rw [slots_macChecked, slots_chargedAt]
      rfl
    · rw [andThen_ctrl_slots _ _ (fun _ c2 => slots_macChecked now c2), slots_sendMtPkt,
        slots_chargedAt]
      rfl
  · have h5 : i = 5 := by omega
    subst h5
    have hf := (firstHit_read_level c hW pkt hi hp).2 rfl
    rw [recordRead_last tr now pkt c h1 h2 h3 hf hp, slots_macChecked]
    rfl

theorem slots_write_node (tr : Transport) (now : Nat) (pkt : Packet) (c : Ctrl)
    (hW : WellAddressed c) (i : Nat) (hi : i ≤ 5)
    (hp : pkt.addr = alignDown 3 (mtNodeAddr c i)) (hcmd : pkt.isRead = false) :
    slots (recordWrite tr now pkt c).ctrl =
      (c.responsePkt, c.counterPkt, c.macPkt, c.mtPkts.set i (some pkt)) := by
  obtain ⟨h1, h2, h3⟩ := merkle_of_ge c hW pkt (hp ▸ (node_ge c hW hi).2)
  have hf := firstHit_write_level c hW pkt hi hp
  rw [recordWrite_node tr now pkt c i h1 h2 h3 hcmd hf]
  split
  · rw [slots_chargedAt]
    rfl
  · rw [andThen_ctrl_slots _ _ (fun _ c2 => rfl), slots_sendMtPkt]
    rfl

theorem slots_write_probe (tr : Transport) (now : Nat) (pkt : Packet) (c : Ctrl)
    (hW : WellAddressed c) (i : Nat) (hi : i ≤ 5)
    (hp : pkt.addr = alignDown 6 (mtNodeAddr c i)) (hcmd : pkt.isRead = true) :
    slots (recordWrite tr now pkt c).ctrl = slots c := by
  obtain ⟨h1, h2, h3⟩ := merkle_of_ge c hW pkt (hp ▸ (node_ge c hW hi).1)
  rcases Nat.lt_or_ge i 5 with hlt | hge
  · obtain ⟨hf, _⟩ := (firstHit_read_level c hW pkt hi hp).1 hlt
    rw [recordWrite_probe tr now pkt c i h1 h2 h3 hcmd hf]
    split <;> rfl
  · have h5 : i = 5 := by omega
    subst h5
    have hf := (firstHit_read_level c hW pkt hi hp).2 rfl
    rw [recordWrite_probe_last tr now pkt c h1 h2 h3 hcmd hf]
    simp only []
    rw [slots_chargedAt]

/-- C23: with the constructed borders, a data address `A < DATA_SPACE` and
its counter offset.  The counter address lies in `[cntBorder, macBorder)`; the
MAC address (the one issued, which is the one tested) lies in
`[macBorder, mtBorders[0])`; for every level `i ≤ MT_LEVEL - 2` the 64-byte and
the 8-byte aligned level-`i` Merkle addresses lie in
`[mtBorders[i], mtBorders[i+1])`.  The regions are in increasing order
(`A < cntBorder`, and `mtBorders[i+1] ≤ mtBorders[j]` for `i < j`), so the data,
counter, MAC and per-level Merkle addresses are pairwise distinct.  In state
`Read`, `handleResponse` on a response at the data, counter, MAC or level-`i`
read address fills exactly `responsePkt`, `counterPkt`, `macPkt` or `mtPkts[i]`
and leaves the other slots as they were.  In state `Write` the same holds for
the data address (when the request needs a response), the counter address, the
MAC address and a write response at the 8-byte aligned level-`i` address; a
read response at a level's 64-byte aligned address (the probe) changes no slot. -/
theorem addresses_in_own_regions (c : Ctrl) (hW : WellAddressed c) :
    (c.cntBorder ≤ add64 c.cntBorder c.verifiedCntOffs ∧
      add64 c.cntBorder c.verifiedCntOffs < c.macBorder) ∧
    (alignDown 4 (add64 c.macBorder (c.verifiedPktAddr >>> 2)) =
        add64 c.macBorder (shl64 c.verifiedCntOffs 4) ∧
      c.macBorder ≤ add64 c.macBorder (shl64 c.verifiedCntOffs 4) ∧
      add64 c.macBorder (shl64 c.verifiedCntOffs 4) < c.mtBorders.getD 0 0) ∧
    (∀ i, i ≤ MT_LEVEL - 2 →
      (c.mtBorders.getD i 0 ≤ alignDown 6 (mtNodeAddr c i) ∧
        alignDown 6 (mtNodeAddr c i) < c.mtBorders.getD (i + 1) 0) ∧
      (c.mtBorders.getD i 0 ≤ alignDown 3 (mtNodeAddr c i) ∧
        alignDown 3 (mtNodeAddr c i) < c.mtBorders.getD (i + 1) 0)) ∧
    (c.verifiedPktAddr < c.cntBorder ∧
      ∀ i j, i < j → j ≤ MT_LEVEL - 1 → c.mtBorders.getD (i + 1) 0 ≤ c.mtBorders.getD j 0) ∧
    (c.verifiedPktAddr ≠ add64 c.cntBorder c.verifiedCntOffs ∧
      c.verifiedPktAddr ≠ add64 c.macBorder (shl64 c.verifiedCntOffs 4) ∧
      add64 c.cntBorder c.verifiedCntOffs ≠ add64 c.macBorder (shl64 c.verifiedCntOffs 4) ∧
      (∀ i, i ≤ MT_LEVEL - 2 → ∀ a,
        a = alignDown 6 (mtNodeAddr c i) ∨ a = alignDown 3 (mtNodeAddr c i) →
        a ≠ c.verifiedPktAddr ∧ a ≠ add64 c.cntBorder c.verifiedCntOffs ∧
        a ≠ add64 c.macBorder (shl64 c.verifiedCntOffs 4)) ∧
      (∀ i j, i ≤ MT_LEVEL - 2 → j ≤ MT_LEVEL - 2 → i ≠ j → ∀ a b,
        a = alignDown 6 (mtNodeAddr c i) ∨ a = alignDown 3 (mtNodeAddr c i) →
        b = alignDown 6 (mtNodeAddr c j) ∨ b = alignDown 3 (mtNodeAddr c j) → a ≠ b)) ∧
    (∀ (tr : Transport) (now : Nat) (pkt : Packet), c.state = .Read →
      (pkt.addr = c.verifiedPktAddr →
        slots (handleResponse tr now pkt c).ctrl =
          (some pkt, c.counterPkt, c.macPkt, c.mtPkts)) ∧
      (pkt.addr = add64 c.cntBorder c.verifiedCntOffs →
        slots (handleResponse tr now pkt c).ctrl =
          (c.responsePkt, some pkt, c.macPkt, c.mtPkts)) ∧
      (pkt.addr = alignDown 4 (add64 c.macBorder (c.verifiedPktAddr >>> 2)) →
        slots (handleResponse tr now pkt c).ctrl =
          (c.responsePkt, c.counterPkt, some pkt, c.mtPkts)) ∧
      (∀ i, i ≤ MT_LEVEL - 2 → pkt.addr = alignDown 6 (mtNodeAddr c i) →
        slots (handleResponse tr now pkt c).ctrl =
          (c.responsePkt, c.counterPkt, c.macPkt, c.mtPkts.set i (some pkt)))) ∧
    (∀ (tr : Transport) (now : Nat) (pkt : Packet), c.state = .Write →
      (pkt.addr = c.verifiedPktAddr → c.needsResponse = true →
        slots (handleResponse tr now pkt c).ctrl =
          (some pkt, c.counterPkt, c.macPkt, c.mtPkts)) ∧
      (pkt.addr = add64 c.cntBorder c.verifiedCntOffs →
        slots (handleResponse tr now pkt c).ctrl =
          (c.responsePkt, some pkt, c.macPkt, c.mtPkts)) ∧
      (pkt.addr = alignDown 4 (add64 c.macBorder (c.verifiedPktAddr >>> 2)) →
        slots (handleResponse tr now pkt c).ctrl =
          (c.responsePkt, c.counterPkt, some pkt, c.mtPkts)) ∧
      (∀ i, i ≤ MT_LEVEL - 2 → pkt.isRead = false →
        pkt.addr = alignDown 3 (mtNodeAddr c i) →
        slots (handleResponse tr now pkt c).ctrl =
          (c.responsePkt, c.counterPkt, c.macPkt, c.mtPkts.set i (some pkt))) ∧
      (∀ i, i ≤ MT_LEVEL - 2 → pkt.isRead = true →
        pkt.addr = alignDown 6 (mtNodeAddr c i) →
        slots (handleResponse tr now pkt c).ctrl = slots c)) := by
  obtain ⟨hB, hA, hC⟩ := hW
  have hW : WellAddressed c := ⟨hB, hA, hC⟩
  obtain ⟨s1, s2, s3, s4, s5⟩ := scalar_regions c hB hA hC
  have hmac : alignDown 4 (add64 c.macBorder (c.verifiedPktAddr >>> 2)) =
      add64 c.macBorder (shl64 c.verifiedCntOffs 4) := by
    rw [hB.2.1, hC]
    exact mac_issue_eq_test (by unfold W64; have : c.verifiedPktAddr < 0x200000000 := hA; omega)
  have hb0 : construct.mtBorders.getD 0 0 = 0x288000000 := by decide
  have hcb : c.cntBorder = 0x200000000 := hB.1.trans construct_cntBorder
  have hmb : c.macBorder = 0x208000000 := hB.2.1.trans construct_macBorder
  have hnode : ∀ i, i ≤ 5 → ∀ a,
      a = alignDown 6 (mtNodeAddr c i) ∨ a = alignDown 3 (mtNodeAddr c i) →
      construct.mtBorders.getD i 0 ≤ a ∧ a < construct.mtBorders.getD (i + 1) 0 ∧
      0x288000000 ≤ a := by
    intro i hi a ha
    have h := node_region c hB hA hC i hi
    have hg := node_ge c hW hi
    rcases ha with ha | ha <;> subst ha <;> omega
  refine ⟨?_, ⟨hmac, ?_, ?_⟩, fun i hi => ?_, ⟨?_, fun i j hij hj => ?_⟩,
    ⟨?_, ?_, ?_, fun i hi a ha => ?_, fun i j hi hj hij a b ha hb => ?_⟩,
    fun tr now pkt hs => ⟨fun hp => ?_, fun hp => ?_, fun hp => ?_, fun i hi hp => ?_⟩,
    fun tr now pkt hs => ⟨fun hp hn => ?_, fun hp => ?_, fun hp => ?_, fun i hi hc hp => ?_,
      fun i hi hc hp => ?_⟩⟩
  · omega
  · omega
  · rw [hB.2.2, hb0]
    exact s5
  · have h := node_region c hB hA hC i hi
    rw [hB.2.2]
    omega
  · omega
  · rw [hB.2.2]
    exact borders_step_le hij hj
  · omega
  · omega
  · omega
  · have h := (hnode i hi a ha).2.2
    omega
  · have hi5 : i ≤ 5 := hi
    have hj5 : j ≤ 5 := hj
    have h1 := hnode i hi a ha
    have h2 := hnode j hj b hb
    rcases Nat.lt_or_gt_of_ne hij with h | h
    · have h3 := borders_step_le h (by omega : j ≤ 6)
      omega
    · have h3 := borders_step_le h (by omega : i ≤ 6)
      omega
  · rw [slots_read tr now pkt c hs, recordRead_data tr now pkt c hp, slots_macChecked]
    rfl
  · rw [slots_read tr now pkt c hs, recordRead_cnt tr now pkt c (by omega) hp,
      slots_macChecked, slots_chargedAt]
    rfl
  · rw [hmac] at hp
    rw [slots_read tr now pkt c hs, recordRead_mac tr now pkt c (by omega) (by omega) hp,
      slots_macChecked]
    rfl
  · rw [slots_read tr now pkt c hs]
    exact slots_read_node tr now pkt c hW i hi hp
  · rw [slots_write tr now pkt c hs, recordWrite_data tr now pkt c hp, if_pos hn,
      slots_chargedAt]
    rfl
  · rw [slots_write tr now pkt c hs, recordWrite_cnt tr now pkt c (by omega) hp]
    rfl
  · rw [hmac] at hp
    rw [slots_write tr now pkt c hs, recordWrite_mac tr now pkt c (by omega) (by omega) hp,
      slots_chargedAt]
    rfl
  · rw [slots_write tr now pkt c hs]
    exact slots_write_node tr now pkt c hW i hi hp hc
  · rw [slots_write tr now pkt c hs]
    exact slots_write_probe tr now pkt c hW i hi hp hc

set_option maxRecDepth 100000 in
/-- Witness for C23: in the read of address `0x1040` the counter response at
`0x200000041` fills `counterPkt` only, and the level-3 response at
`0x289240000` fills `mtPkts[3]` only. -/
theorem addresses_in_own_regions_witness :
    WellAddressed readingAt1040 ∧
    slots (handleResponse acceptAll 1000 (respAt 0x200000041 64 true 1) readingAt1040).ctrl =
      (none, some (respAt 0x200000041 64 true 1), none, [none, none, none, none, none, none]) ∧
    slots (handleResponse acceptAll 1000 (respAt 0x289240000 64 true 0) readingAt1040).ctrl =
      (none, none, none, [none, none, none, some (respAt 0x289240000 64 true 0), none, none]) :=
  ⟨⟨⟨rfl, rfl, rfl⟩, by decide, rfl⟩,
    ((addresses_in_own_regions readingAt1040 ⟨⟨rfl, rfl, rfl⟩, by decide, rfl⟩).2.2.2.2.2.1
      acceptAll 1000 (respAt 0x200000041 64 true 1) rfl).2.1 rfl,
    ((addresses_in_own_regions readingAt1040 ⟨⟨rfl, rfl, rfl⟩, by decide, rfl⟩).2.2.2.2.2.1
      acceptAll 1000 (respAt 0x289240000 64 true 0) rfl).2.2.2 3 (by decide) rfl⟩


/-! ## The Merkle slots fit the state -/

theorem slotsInv_of_empty (c : Ctrl)
    (h : ∀ i, i < MT_LEVEL - 1 → c.mtPkts.getD i none = none) : SlotsInv c := by
  refine ⟨fun _ => h, fun _ i p hi hp => ?_, fun _ i p hi hp => ?_⟩
  · rw [h i hi] at hp
    cases hp
  · rw [h i hi] at hp
    cases hp

theorem mtSlotsValid_of_same {c0 c : Ctrl} (k : Nat) (hS : SameSlots c0 c)
    (hv : MtSlotsValid k c0) : MtSlotsValid k c := by
  obtain ⟨_, h2, h3, h4⟩ := hS
  intro i p hi hp
  rw [h4] at hp
  have := hv i p hi hp
  simp only [mtNodeAddr, h2, h3]
  exact this

theorem slotsInv_of_same (c0 : Ctrl) {c : Ctrl} (hS : SameSlots c0 c) (hI : SlotsInv c0) :
    SlotsInv c := by
  obtain ⟨h1, h2, h3, h4⟩ := hS
  refine ⟨fun hs => ?_, fun hs => ?_, fun hs => ?_⟩
  · rw [h4]
    exact hI.1 (h1 ▸ hs)
  · exact mtSlotsValid_of_same 6 ⟨h1, h2, h3, h4⟩ (hI.2.1 (h1 ▸ hs))
  · exact mtSlotsValid_of_same 3 ⟨h1, h2, h3, h4⟩ (hI.2.2 (h1 ▸ hs))

theorem slotsInv_construct : SlotsInv construct :=
  slotsInv_of_empty construct (fun i hi => by
    have h6 : MT_LEVEL - 1 = 6 := rfl
    rw [h6] at hi
    interval_cases i <;> rfl)

/-- Recording a write-path response keeps the Merkle slots valid. -/
theorem recordWrite_valid (tr : Transport) (now : Nat) (pkt : Packet) (mb : List Nat)
    (co : Nat) (nr : Bool) :
    Triple (fun _ => True) (fun _ => True)
      (fun c => c.mtBorders = mb ∧ c.verifiedCntOffs = co ∧ MtSlotsValid 3 c ∧
        c.needsResponse = nr)
      (recordWrite tr now pkt)
      (fun _ c => c.mtBorders = mb ∧ c.verifiedCntOffs = co ∧ MtSlotsValid 3 c ∧
        c.needsResponse = nr) := by
  unfold recordWrite
  dsimp only
  apply Triple.of_get
  intro c0 h0
  refine Triple.weaken (S := fun c => c.mtBorders = mb ∧ c.verifiedCntOffs = co ∧
    MtSlotsValid 3 c ∧ c.needsResponse = nr) ?_ (by rintro c rfl; exact h0) (fun _ _ h => h)
  repeat' (first
      | with_reducible apply Triple.of_get
      | with_reducible apply Triple.of_ite
      | with_reducible apply Triple.of_bind
      | (with_reducible apply Triple.of_modify_keep) <;> exact fun c hc => hc
      | (with_reducible apply updateChargeTime_triple_keep) <;> exact fun c t hc => hc
      | (with_reducible apply Triple.of_panic_if_keep) <;> (intros; trivial)
      | (with_reducible apply Triple.of_emit_keep) <;> trivial
      | with_reducible apply setMtPkt_valid
      | (with_reducible apply sendMtPkt_keeps_of) <;> (intros; trivial)
      | with_reducible apply Triple.of_pure_keep
      | with_reducible intro _
      | split)
  all_goals
    obtain ⟨hmb, hco, -, -⟩ := h0
    subst hmb hco
    first
      | assumption
      | exact of_decide_eq_true (firstHit_some ‹firstHit _ _ _ = some _›).2.2.1

theorem andThen_ok_left {α β : Type} {o : Outcome α} {f : α → M β} {b : β}
    (h : (o.andThen f).res = .ok b) : ∃ a, o.res = .ok a := by
  obtain ⟨acts, c, r⟩ := o
  cases r with
  | ok a => exact ⟨a, rfl⟩
  | fatal k =>
    rw [andThen_fatal] at h
    cases h

theorem andThen_fatal_cases {α β : Type} {o : Outcome α} {f : α → M β} {k : Fatal}
    (h : (o.andThen f).res = .fatal k) :
    o.res = .fatal k ∨ ∃ a, o.res = .ok a ∧ (f a o.ctrl).res = .fatal k := by
  obtain ⟨acts, c, r⟩ := o
  cases r with
  | ok a =>
    rw [andThen_ok, prepend_res] at h
    exact Or.inr ⟨a, rfl, h⟩
  | fatal k2 =>
    rw [andThen_fatal] at h
    cases h
    exact Or.inl rfl

/-! ### Which fatals a member function can end in -/

theorem metaPort_sendPacket_fatal (tr : Transport) (p : Packet) (c : Ctrl) (k : Fatal)
    (h : (metaPort_sendPacket tr p c).res = .fatal k) : k = .sendWhileBlocked := by
  rw [metaPort_sendPacket_eq] at h
  by_cases hb : c.metaPort.blockedPacket.isSome = true
  · rw [if_pos hb] at h
    cases h
    rfl
  · rw [if_neg hb] at h
    by_cases ht : tr .metaPort p = true
    · rw [if_pos ht] at h
      cases h
    · rw [if_neg ht] at h
      cases h

section FatalRules
variable {α β : Type} {E : Fatal → Prop}

theorem fatalsIn_pure (a : α) : FatalsIn E (pure a : M α) := by
  intro c k h
  cases h

theorem fatalsIn_bind {m : M α} {f : α → M β} (hm : FatalsIn E m)
    (hf : ∀ a, FatalsIn E (f a)) : FatalsIn E (m >>= f) := by
  intro c k h
  rcases andThen_fatal_cases (o := m c) (f := f) h with h1 | ⟨a, _, h2⟩
  · exact hm c k h1
  · exact hf a _ k h2

theorem fatalsIn_get {f : Ctrl → M β} (hf : ∀ c0, FatalsIn E (f c0)) :
    FatalsIn E (getCtrl >>= f) := by
  intro c k h
  exact hf c c k h

theorem fatalsIn_modify (g : Ctrl → Ctrl) : FatalsIn E (modifyCtrl g) := by
  intro c k h
  cases h

theorem fatalsIn_charge (t : Nat) : FatalsIn E (updateChargeTime t) := by
  intro c k h
  cases h

theorem fatalsIn_setMtPkt (i : Nat) (p : Packet) : FatalsIn E (setMtPkt i p) := by
  intro c k h
  cases h

theorem fatalsIn_emit (a : Action) : FatalsIn E (emit a) := by
  intro c k h
  cases h

theorem fatalsIn_panic_if (b : Bool) (k : Fatal) (hk : E k) : FatalsIn E (panic_if b k) := by
  intro c k2 h
  rw [panic_if_apply] at h
  cases b
  · cases h
  · cases h
    exact hk

theorem fatalsIn_ite {p : Prop} [Decidable p] {m1 m2 : M α} (h1 : FatalsIn E m1)
    (h2 : FatalsIn E m2) : FatalsIn E (if p then m1 else m2) := by
  split
  · exact h1
  · exact h2

theorem fatalsIn_sendMtPkt (tr : Transport) (nth : Nat) (isRead : Bool)
    (hk : E .sendWhileBlocked) : FatalsIn E (sendMtPkt tr nth isRead) := by
  intro c k h
  rw [sendMtPkt_eq] at h
  exact metaPort_sendPacket_fatal tr _ c k h ▸ hk

end FatalRules

/-- Recording a read-path response can only end in the blocked-slot panic. -/
theorem recordRead_fatal (tr : Transport) (now : Nat) (pkt : Packet) :
    FatalsIn (fun k => k = .sendWhileBlocked) (recordRead tr now pkt) := by
  unfold recordRead
  dsimp only
  repeat' (first
      | with_reducible apply fatalsIn_get
      | with_reducible apply fatalsIn_ite
      | with_reducible apply fatalsIn_bind
      | with_reducible apply fatalsIn_modify
      | with_reducible apply fatalsIn_charge
      | with_reducible apply fatalsIn_setMtPkt
      | (with_reducible apply fatalsIn_sendMtPkt) <;> rfl
      | with_reducible apply fatalsIn_pure
      | with_reducible intro _
      | split)

/-- Recording a write-path response can only end in the blocked-slot panic, a
failed assertion or the "Invalid addr" panic. -/
theorem recordWrite_fatal (tr : Transport) (now : Nat) (pkt : Packet) :
    FatalsIn (fun k => k = .sendWhileBlocked ∨ k = .assertFailed ∨ k = .invalidAddr)
      (recordWrite tr now pkt) := by
  unfold recordWrite
  dsimp only
  repeat' (first
      | with_reducible apply fatalsIn_get
      | with_reducible apply fatalsIn_ite
      | with_reducible apply fatalsIn_bind
      | with_reducible apply fatalsIn_modify
      | with_reducible apply fatalsIn_charge
      | with_reducible apply fatalsIn_setMtPkt
      | with_reducible apply fatalsIn_emit
      | (with_reducible apply fatalsIn_panic_if) <;> simp
      | (with_reducible apply fatalsIn_sendMtPkt) <;> simp
      | with_reducible apply fatalsIn_pure
      | with_reducible intro _
      | split)

/-- The sanity loop passes on valid slots once the first loop has passed. -/
theorem checkRead_sane (c : Ctrl) (hv : MtSlotsValid 6 c) :
    (mtWalkFinished c.mtPkts 0 (MT_LEVEL - 1) = true →
      sanityCheck c 6 0 (MT_LEVEL - 1) = .ok ()) ∧
    (checkRead c).res ≠ .fatal .mtNodeAddr ∧ (checkRead c).res ≠ .fatal .nullPacket := by
  have hs : mtWalkFinished c.mtPkts 0 (MT_LEVEL - 1) = true →
      sanityCheck c 6 0 (MT_LEVEL - 1) = .ok () := fun hw =>
    sanityCheck_ok c 6 0 (MT_LEVEL - 1) (fun j p _ h2 h3 => hv j p (by omega) h3) hw
  refine ⟨hs, ?_⟩
  rw [checkRead_eq]
  by_cases h1 : c.needsResponse = false
  · rw [if_pos h1]
    exact ⟨(by intro h; cases h), (by intro h; cases h)⟩
  · rw [if_neg h1]
    by_cases h2 : c.responsePkt = none ∨ c.counterPkt = none ∨ c.macPkt = none
    · rw [if_pos h2]
      exact ⟨(by intro h; cases h), (by intro h; cases h)⟩
    · rw [if_neg h2]
      by_cases h3 : mtWalkFinished c.mtPkts 0 (MT_LEVEL - 1) = false
      · rw [if_pos h3]
        exact ⟨(by intro h; cases h), (by intro h; cases h)⟩
      · rw [if_neg h3, hs (by simpa using h3)]
        exact ⟨(by intro h; cases h), (by intro h; cases h)⟩

theorem checkWrite_sane (c : Ctrl) (hv : MtSlotsValid 3 c) :
    (mtWalkFinished c.mtPkts 0 (MT_LEVEL - 1) = true →
      sanityCheck c 3 0 (MT_LEVEL - 1) = .ok ()) ∧
    (checkWrite c).res = .ok () := by
  have hs : mtWalkFinished c.mtPkts 0 (MT_LEVEL - 1) = true →
      sanityCheck c 3 0 (MT_LEVEL - 1) = .ok () := fun hw =>
    sanityCheck_ok c 3 0 (MT_LEVEL - 1) (fun j p _ h2 h3 => hv j p (by omega) h3) hw
  refine ⟨hs, ?_⟩
  rw [checkWrite_eq]
  by_cases h1 : c.needsResponse = true ∧ c.responsePkt = none
  · rw [if_pos h1]
  · rw [if_neg h1]
    by_cases h2 : c.counterPkt = none ∨ c.macPkt = none
    · rw [if_pos h2]
    · rw [if_neg h2]
      by_cases h3 : mtWalkFinished c.mtPkts 0 (MT_LEVEL - 1) = false
      · rw [if_pos h3]
      · rw [if_neg h3, hs (by simpa using h3)]

/-- In state `Read`, the object the completion check runs on has valid slots. -/
theorem recordRead_slots (tr : Transport) (now : Nat) (pkt : Packet) (c : Ctrl)
    (hv : MtSlotsValid 6 c) (hok : (recordRead tr now pkt c).res = .ok ()) :
    MtSlotsValid 6 (recordRead tr now pkt c).ctrl :=
  ((recordRead_valid tr now pkt c.mtBorders c.verifiedCntOffs c.needsResponse c
    ⟨rfl, rfl, hv, rfl⟩).ok_post hok).2.2.1

/-- In state `Write`, the object the completion check runs on has valid slots. -/
theorem recordWrite_slots (tr : Transport) (now : Nat) (pkt : Packet) (c : Ctrl)
    (hv : MtSlotsValid 3 c) {b : Bool} (hok : (recordWrite tr now pkt c).res = .ok b) :
    MtSlotsValid 3 (recordWrite tr now pkt c).ctrl :=
  ((recordWrite_valid tr now pkt c.mtBorders c.verifiedCntOffs c.needsResponse c
    ⟨rfl, rfl, hv, rfl⟩).ok_post hok).2.2.1

/-- The response handler never ends in one of the two fatals of the sanity loop. -/
theorem handleResponse_sane (tr : Transport) (now : Nat) (pkt : Packet) (c : Ctrl)
    (hI : SlotsInv c) :
    (handleResponse tr now pkt c).res ≠ .fatal .mtNodeAddr ∧
    (handleResponse tr now pkt c).res ≠ .fatal .nullPacket := by
  have key : ∀ k, k = Fatal.mtNodeAddr ∨ k = Fatal.nullPacket →
      (handleResponse tr now pkt c).res ≠ .fatal k := by
    intro k hk hres
    cases hs : c.state with
    | Idle =>
      rw [handleResponse_idle tr now pkt c hs] at hres
      rcases hk with rfl | rfl <;> cases hres
    | Read =>
      rw [handleResponse_read tr now pkt c hs] at hres
      rcases andThen_fatal_cases hres with h | ⟨a, ha, hf⟩
      · have hsat := recordRead_fatal tr now pkt c k h
        rcases hk with rfl | rfl <;> cases hsat
      · have hv := recordRead_slots tr now pkt c (hI.2.1 hs) ha
        have h2 := (checkRead_sane _ hv).2
        rcases hk with rfl | rfl
        · exact h2.1 hf
        · exact h2.2 hf
    | Write =>
      rw [handleResponse_write tr now pkt c hs] at hres
      rcases andThen_fatal_cases hres with h | ⟨a, ha, hf⟩
      · have hsat := recordWrite_fatal tr now pkt c k h
        rcases hk with rfl | rfl <;> simp at hsat
      · have hv := recordWrite_slots tr now pkt c (hI.2.2 hs) ha
        cases a with
        | false => cases hf
        | true =>
          have h2 := (checkWrite_sane _ hv).2
          simp only [if_true] at hf
          rw [h2] at hf
          cases hf
  exact ⟨key _ (Or.inl rfl), key _ (Or.inr rfl)⟩


/-! ## Every callback keeps the slots fitting the state -/

theorem sameSlots_refl (c : Ctrl) : SameSlots c c := ⟨rfl, rfl, rfl, rfl⟩

theorem sameSlots_metaPort_sendPacket (tr : Transport) (p : Packet) (c : Ctrl) :
    SameSlots c (metaPort_sendPacket tr p c).ctrl := by
  rw [metaPort_sendPacket_eq]
  by_cases hb : c.metaPort.blockedPacket.isSome = true
  · rw [if_pos hb]
    exact sameSlots_refl c
  · rw [if_neg hb]
    by_cases ht : tr .metaPort p = true
    · rw [if_pos ht]
      exact sameSlots_refl c
    · rw [if_neg ht]
      exact ⟨rfl, rfl, rfl, rfl⟩

theorem sameSlots_memPort_sendPacket (tr : Transport) (p : Packet) (c : Ctrl) :
    SameSlots c (memPort_sendPacket tr p c).ctrl := by
  rw [memPort_sendPacket_eq]
  by_cases hb : c.memPort.blockedPacket.isSome = true
  · rw [if_pos hb]
    exact sameSlots_refl c
  · rw [if_neg hb]
    by_cases ht : tr .memPort p = true
    · rw [if_pos ht]
      exact sameSlots_refl c
    · rw [if_neg ht]
      exact ⟨rfl, rfl, rfl, rfl⟩

theorem sameSlots_handleRequestRetry (tr : Transport) (p : Packet) (c0 c : Ctrl) :
    SameSlots c (handleRequestRetry tr p c0 c).ctrl := by
  have hmeta : SameSlots c ((metaPort_sendPacket tr p >>= fun _ => (pure () : M Unit)) c).ctrl := by
    simp only [bind_eq, pure_eq, M.bind_apply]
    rw [andThen_pure_ctrl]
    exact sameSlots_metaPort_sendPacket tr p c
  have hmem : SameSlots c ((memPort_sendPacket tr p >>= fun _ => (pure () : M Unit)) c).ctrl := by
    simp only [bind_eq, pure_eq, M.bind_apply]
    rw [andThen_pure_ctrl]
    exact sameSlots_memPort_sendPacket tr p c
  unfold handleRequestRetry
  by_cases h1 : p.addr = c0.verifiedPktAddr
  · rw [if_pos h1]
    exact hmem
  · rw [if_neg h1]
    by_cases h2 : p.addr = add64 c0.cntBorder c0.verifiedCntOffs
    · rw [if_pos h2]
      exact hmeta
    · rw [if_neg h2]
      by_cases h3 : p.addr = add64 c0.macBorder (shl64 c0.verifiedCntOffs 4)
      · rw [if_pos h3]
        exact hmeta
      · rw [if_neg h3]
        cases hm : retryMtLevel c0 p with
        | some _ => exact hmeta
        | none => exact sameSlots_refl c

theorem handleRequestIdle_mtPkts (tr : Transport) (pkt : Packet) (c : Ctrl) :
    (handleRequestIdle tr pkt c).ctrl.mtPkts = c.mtPkts := by
  have h : (handleRequestIdle tr pkt c).Sat (fun _ => True)
      (fun _ c' => c'.mtPkts = c.mtPkts) (fun _ c' => c'.mtPkts = c.mtPkts) := by
    simp only [handleRequestIdle, sendCntPkt, sendMacPkt, sendMtPkt, createMetaPkt]
    simp +contextual
  exact sat_ctrl h

theorem handleRequest_slotsInv (tr : Transport) (pkt : Packet) (c : Ctrl) (hI : SlotsInv c) :
    SlotsInv (handleRequest tr pkt c).ctrl := by
  by_cases hs : c.state = .Idle
  · rw [handleRequest_idle tr pkt c hs]
    refine slotsInv_of_empty _ (fun i hi => ?_)
    rw [handleRequestIdle_mtPkts]
    exact hI.1 hs i hi
  · rw [handleRequest_busy tr pkt c hs]
    exact slotsInv_of_same c (sameSlots_handleRequestRetry tr pkt c c) hI

theorem handleResponse_slotsInv (tr : Transport) (now : Nat) (pkt : Packet) (c : Ctrl)
    (hI : SlotsInv c) (hok : (handleResponse tr now pkt c).res = .ok ()) :
    SlotsInv (handleResponse tr now pkt c).ctrl := by
  have hst := ((handleResponse_sameUpstream tr now pkt c c ⟨rfl, rfl, rfl⟩).ok_post hok).1
  cases hs : c.state with
  | Idle =>
    rw [handleResponse_idle tr now pkt c hs] at hok
    cases hok
  | Read =>
    have hv : MtSlotsValid 6 (handleResponse tr now pkt c).ctrl := by
      rw [handleResponse_read tr now pkt c hs] at hok ⊢
      obtain ⟨a, ha⟩ := andThen_ok_left hok
      rw [andThen_of_ok _ ha, prepend_ctrl, checkRead_ctrl]
      exact recordRead_slots tr now pkt c (hI.2.1 hs) ha
    rw [hs] at hst
    refine ⟨fun h => ?_, fun _ => hv, fun h => ?_⟩
    · rw [hst] at h
      cases h
    · rw [hst] at h
      cases h
  | Write =>
    have hv : MtSlotsValid 3 (handleResponse tr now pkt c).ctrl := by
      rw [handleResponse_write tr now pkt c hs] at hok ⊢
      obtain ⟨a, ha⟩ := andThen_ok_left hok
      rw [andThen_of_ok _ ha, prepend_ctrl]
      have hv1 := recordWrite_slots tr now pkt c (hI.2.2 hs) ha
      cases a with
      | false => exact hv1
      | true =>
        simp only [if_true]
        rw [checkWrite_ctrl]
        exact hv1
    rw [hs] at hst
    refine ⟨fun h => ?_, fun h => ?_, fun _ => hv⟩
    · rw [hst] at h
      cases h
    · rw [hst] at h
      cases h

theorem processReadVerFinished_slotsInv (tr : Transport) (c : Ctrl) (hI : SlotsInv c) :
    SlotsInv (processReadVerFinished tr c).ctrl := by
  rw [processReadVerFinished_eq]
  cases hr : c.responsePkt with
  | none => exact hI
  | some p =>
    simp only
    by_cases hb : c.cpuSidePort.blockedPacket.isSome = true
    · rw [if_pos hb]
      exact hI
    · rw [if_neg hb]
      by_cases ht : tr .cpuSidePort p = true
      · rw [if_pos ht, prepend_ctrl]
        exact slotsInv_of_empty _ (teardown_tornDown c).1.2.2.2.2
      · rw [if_neg ht]
        exact slotsInv_of_same c ⟨rfl, rfl, rfl, rfl⟩ hI

theorem processWriteVerFinished_slotsInv (tr : Transport) (c : Ctrl) (hI : SlotsInv c) :
    SlotsInv (processWriteVerFinished tr c).ctrl := by
  rw [processWriteVerFinished_eq]
  by_cases hn : c.needsResponse = true
  · rw [if_pos hn]
    exact processReadVerFinished_slotsInv tr c hI
  · rw [if_neg hn]
    exact slotsInv_of_empty _ (teardown_tornDown c).1.2.2.2.2

theorem processSendMacWrite_slotsInv (tr : Transport) (c : Ctrl) (hI : SlotsInv c) :
    SlotsInv (processSendMacWrite tr c).ctrl := by
  have h : processSendMacWrite tr c = (sendMacPkt tr false c).andThen (fun _ => M.pure ()) := rfl
  rw [h, andThen_pure_ctrl, sendMacPkt_eq]
  exact slotsInv_of_same c (sameSlots_metaPort_sendPacket tr _ c) hI

theorem processSendNextMtWrite_slotsInv (tr : Transport) (c : Ctrl) (hI : SlotsInv c) :
    SlotsInv (processSendNextMtWrite tr c).ctrl := by
  rw [processSendNextMtWrite_eq]
  cases hf : firstHit (fun i => c.mtPkts.getD i none == none) 0 (MT_LEVEL - 1) with
  | none => exact hI
  | some i =>
    simp only
    rw [andThen_pure_ctrl, sendMtPkt_eq]
    exact slotsInv_of_same c (sameSlots_metaPort_sendPacket tr _ c) hI

/-- Every callback that returns keeps the Merkle slots fitting the state. -/
theorem step_slotsInv (tr : Transport) (now : Nat) (inp : Input) (c : Ctrl)
    (hI : SlotsInv c) (hok : (step tr now inp c).res = .ok ()) :
    SlotsInv (step tr now inp c).ctrl := by
  cases inp with
  | timingReq pkt =>
    rw [step_timingReq_eq, andThen_pure_ctrl]
    by_cases hs : c.state = .Idle
    · rw [recvTimingReq_idle tr pkt c hs, andThen_pure_ctrl, ← handleRequest_idle tr pkt c hs]
      exact handleRequest_slotsInv tr pkt c hI
    · rw [recvTimingReq_busy tr pkt c hs]
      exact slotsInv_of_same c ⟨rfl, rfl, rfl, rfl⟩ hI
  | timingResp pkt =>
    rw [step_timingResp_eq] at hok ⊢
    rw [andThen_pure_ctrl, andThen_pure_ctrl]
    obtain ⟨b, hb⟩ := andThen_pure_ok hok
    obtain ⟨u, hu⟩ := andThen_pure_ok hb
    exact handleResponse_slotsInv tr now pkt c hI hu
  | memReqRetry =>
    change SlotsInv (memPort_recvReqRetry tr c).ctrl
    rw [memPort_recvReqRetry_eq]
    cases hb : c.memPort.blockedPacket with
    | none => exact hI
    | some p =>
      exact handleRequest_slotsInv tr p _
        (slotsInv_of_same c ⟨rfl, rfl, rfl, rfl⟩ hI)
  | metaReqRetry =>
    change SlotsInv (metaPort_recvReqRetry tr c).ctrl
    rw [metaPort_recvReqRetry_eq]
    cases hb : c.metaPort.blockedPacket with
    | none => exact hI
    | some p =>
      exact handleRequest_slotsInv tr p _
        (slotsInv_of_same c ⟨rfl, rfl, rfl, rfl⟩ hI)
  | respRetry =>
    change (recvRespRetry tr now c).res = .ok () at hok
    change SlotsInv (recvRespRetry tr now c).ctrl
    rw [recvRespRetry_eq] at hok ⊢
    cases hb : c.cpuSidePort.blockedPacket with
    | none => exact hI
    | some p =>
      rw [hb] at hok
      exact handleResponse_slotsInv tr now p _
        (slotsInv_of_same c ⟨rfl, rfl, rfl, rfl⟩ hI) hok
  | fire ev =>
    cases ev with
    | readVerFinished => exact processReadVerFinished_slotsInv tr c hI
    | writeVerFinished => exact processWriteVerFinished_slotsInv tr c hI
    | sendMacWrite => exact processSendMacWrite_slotsInv tr c hI
    | sendNextMtWrite => exact processSendNextMtWrite_slotsInv tr c hI

theorem reachable_slotsInv {c : Ctrl} (h : Reachable c) : SlotsInv c := by
  induction h with
  | construct => exact slotsInv_construct
  | step c tr now inp _ _ hok ih => exact step_slotsInv tr now inp c ih hok


/-! ## The sanity check cannot fail -/

theorem andThen_pure_fatal {α β : Type} {o : Outcome α} {b : β} {k : Fatal}
    (h : (o.andThen (fun _ => M.pure b)).res = .fatal k) : o.res = .fatal k := by
  obtain ⟨acts, c, r⟩ := o
  cases r with
  | ok a => cases h
  | fatal k2 =>
    cases h
    rfl

theorem memPort_sendPacket_fatal (tr : Transport) (p : Packet) (c : Ctrl) (k : Fatal)
    (h : (memPort_sendPacket tr p c).res = .fatal k) : k = .sendWhileBlocked := by
  rw [memPort_sendPacket_eq] at h
  by_cases hb : c.memPort.blockedPacket.isSome = true
  · rw [if_pos hb] at h
    cases h
    rfl
  · rw [if_neg hb] at h
    by_cases ht : tr .memPort p = true
    · rw [if_pos ht] at h
      cases h
    · rw [if_neg ht] at h
      cases h

theorem handleRequestRetry_fatal (tr : Transport) (p : Packet) (c0 c : Ctrl) (k : Fatal)
    (h : (handleRequestRetry tr p c0 c).res = .fatal k) :
    k = .sendWhileBlocked ∨ k = .invalidBlockedPkt := by
  have hmeta : ((metaPort_sendPacket tr p >>= fun _ => (pure () : M Unit)) c).res = .fatal k →
      k = .sendWhileBlocked := fun h =>
    metaPort_sendPacket_fatal tr p c k (andThen_pure_fatal h)
  have hmem : ((memPort_sendPacket tr p >>= fun _ => (pure () : M Unit)) c).res = .fatal k →
      k = .sendWhileBlocked := fun h =>
    memPort_sendPacket_fatal tr p c k (andThen_pure_fatal h)
  unfold handleRequestRetry at h
  by_cases h1 : p.addr = c0.verifiedPktAddr
  · rw [if_pos h1] at h
    exact Or.inl (hmem h)
  · rw [if_neg h1] at h
    by_cases h2 : p.addr = add64 c0.cntBorder c0.verifiedCntOffs
    · rw [if_pos h2] at h
      exact Or.inl (hmeta h)
    · rw [if_neg h2] at h
      by_cases h3 : p.addr = add64 c0.macBorder (shl64 c0.verifiedCntOffs 4)
      · rw [if_pos h3] at h
        exact Or.inl (hmeta h)
      · rw [if_neg h3] at h
        cases hm : retryMtLevel c0 p with
        | some i =>
          rw [hm] at h
          exact Or.inl (hmeta h)
        | none =>
          rw [hm] at h
          cases h
          exact Or.inr rfl

theorem handleRequest_fatal (tr : Transport) (pkt : Packet) (c : Ctrl) (k : Fatal)
    (h : (handleRequest tr pkt c).res = .fatal k) :
    k = .sendWhileBlocked ∨ k = .invalidBlockedPkt := by
  by_cases hs : c.state = .Idle
  · rw [handleRequest_idle tr pkt c hs] at h
    exact Or.inl ((handleRequestIdle_sat tr pkt c).fatal_post h)
  · rw [handleRequest_busy tr pkt c hs] at h
    exact handleRequestRetry_fatal tr pkt c c k h

theorem processReadVerFinished_fatal (tr : Transport) (c : Ctrl) (k : Fatal)
    (h : (processReadVerFinished tr c).res = .fatal k) :
    k = .sendWhileBlocked ∨ k = .nullPacket := by
  rw [processReadVerFinished_eq] at h
  cases hr : c.responsePkt with
  | none =>
    rw [hr] at h
    simp only at h
    cases h
    split
    · exact Or.inl rfl
    · exact Or.inr rfl
  | some p =>
    rw [hr] at h
    simp only at h
    by_cases hb : c.cpuSidePort.blockedPacket.isSome = true
    · rw [if_pos hb] at h
      cases h
      exact Or.inl rfl
    · rw [if_neg hb] at h
      by_cases ht : tr .cpuSidePort p = true
      · rw [if_pos ht, prepend_res, (teardown_tornDown c).2.2.1] at h
        cases h
      · rw [if_neg ht] at h
        cases h

theorem processWriteVerFinished_fatal (tr : Transport) (c : Ctrl) (k : Fatal)
    (h : (processWriteVerFinished tr c).res = .fatal k) :
    k = .sendWhileBlocked ∨ k = .nullPacket := by
  rw [processWriteVerFinished_eq] at h
  by_cases hn : c.needsResponse = true
  · rw [if_pos hn] at h
    exact processReadVerFinished_fatal tr c k h
  · rw [if_neg hn, (teardown_tornDown c).2.2.1] at h
    cases h

theorem processSendMacWrite_fatal (tr : Transport) (c : Ctrl) (k : Fatal)
    (h : (processSendMacWrite tr c).res = .fatal k) : k = .sendWhileBlocked := by
  have e : processSendMacWrite tr c = (sendMacPkt tr false c).andThen (fun _ => M.pure ()) := rfl
  rw [e] at h
  have h2 := andThen_pure_fatal h
  rw [sendMacPkt_eq] at h2
  exact metaPort_sendPacket_fatal tr _ c k h2

theorem processSendNextMtWrite_fatal (tr : Transport) (c : Ctrl) (k : Fatal)
    (h : (processSendNextMtWrite tr c).res = .fatal k) :
    k = .sendWhileBlocked ∨ k = .assertFailed := by
  rw [processSendNextMtWrite_eq] at h
  cases hf : firstHit (fun i => c.mtPkts.getD i none == none) 0 (MT_LEVEL - 1) with
  | none =>
    rw [hf] at h
    cases h
    exact Or.inr rfl
  | some i =>
    rw [hf] at h
    have h2 := andThen_pure_fatal h
    rw [sendMtPkt_eq] at h2
    exact Or.inl (metaPort_sendPacket_fatal tr _ c k h2)

/-- On an object whose slots fit the state, no callback ends in the "mtNode's
addr is not valid" panic, and a response callback does not dereference an empty
Merkle slot. -/
theorem step_sane (tr : Transport) (now : Nat) (inp : Input) (c : Ctrl) (hI : SlotsInv c) :
    (step tr now inp c).res ≠ .fatal .mtNodeAddr ∧
    ((∃ pkt, inp = .timingResp pkt) ∨ inp = .respRetry →
      (step tr now inp c).res ≠ .fatal .nullPacket) := by
  cases inp with
  | timingReq pkt =>
    refine ⟨fun h => ?_, fun hk => ?_⟩
    · rw [step_timingReq_eq] at h
      have h2 := andThen_pure_fatal h
      by_cases hs : c.state = .Idle
      · rw [recvTimingReq_idle tr pkt c hs] at h2
        have h3 := (handleRequestIdle_sat tr pkt c).fatal_post (andThen_pure_fatal h2)
        cases h3
      · rw [recvTimingReq_busy tr pkt c hs] at h2
        cases h2
    · rcases hk with ⟨p, hp⟩ | hp <;> cases hp
  | timingResp pkt =>
    have hs := handleResponse_sane tr now pkt c hI
    refine ⟨fun h => ?_, fun _ h => ?_⟩
    · rw [step_timingResp_eq] at h
      exact hs.1 (andThen_pure_fatal (andThen_pure_fatal h))
    · rw [step_timingResp_eq] at h
      exact hs.2 (andThen_pure_fatal (andThen_pure_fatal h))
  | memReqRetry =>
    refine ⟨fun h => ?_, fun hk => ?_⟩
    · change (memPort_recvReqRetry tr c).res = _ at h
      rw [memPort_recvReqRetry_eq] at h
      cases hb : c.memPort.blockedPacket with
      | none =>
        rw [hb] at h
        cases h
      | some p =>
        rw [hb] at h
        rcases handleRequest_fatal tr p _ _ h with h3 | h3 <;> cases h3
    · rcases hk with ⟨p, hp⟩ | hp <;> cases hp
  | metaReqRetry =>
    refine ⟨fun h => ?_, fun hk => ?_⟩
    · change (metaPort_recvReqRetry tr c).res = _ at h
      rw [metaPort_recvReqRetry_eq] at h
      cases hb : c.metaPort.blockedPacket with
      | none =>
        rw [hb] at h
        cases h
      | some p =>
        rw [hb] at h
        rcases handleRequest_fatal tr p _ _ h with h3 | h3 <;> cases h3
    · rcases hk with ⟨p, hp⟩ | hp <;> cases hp
  | respRetry =>
    have key : ∀ k, k = Fatal.mtNodeAddr ∨ k = Fatal.nullPacket →
        (step tr now .respRetry c).res ≠ .fatal k := by
      intro k hk h
      change (recvRespRetry tr now c).res = _ at h
      rw [recvRespRetry_eq] at h
      cases hb : c.cpuSidePort.blockedPacket with
      | none =>
        rw [hb] at h
        rcases hk with rfl | rfl <;> cases h
      | some p =>
        rw [hb] at h
        have hs := handleResponse_sane tr now p
          { c with cpuSidePort := { c.cpuSidePort with blockedPacket := none } }
          (slotsInv_of_same c ⟨rfl, rfl, rfl, rfl⟩ hI)
        rcases hk with rfl | rfl
        · exact hs.1 h
        · exact hs.2 h
    exact ⟨key _ (Or.inl rfl), fun _ => key _ (Or.inr rfl)⟩
  | fire ev =>
    refine ⟨fun h => ?_, fun hk => ?_⟩
    · cases ev with
      | readVerFinished =>
        rcases processReadVerFinished_fatal tr c _ h with h3 | h3 <;> cases h3
      | writeVerFinished =>
        rcases processWriteVerFinished_fatal tr c _ h with h3 | h3 <;> cases h3
      | sendMacWrite =>
        have h3 := processSendMacWrite_fatal tr c _ h
        cases h3
      | sendNextMtWrite =>
        rcases processSendNextMtWrite_fatal tr c _ h with h3 | h3 <;> cases h3
    · rcases hk with ⟨p, hp⟩ | hp <;> cases hp

/-- The slots the sanity loop dereferences: once the first loop has passed,
every slot the loop reaches is filled, at the address of its level. -/
theorem sanity_dereferences (c : Ctrl) (k : Nat) (hv : MtSlotsValid k c)
    (hw : mtWalkFinished c.mtPkts 0 (MT_LEVEL - 1) = true) (i : Nat) (hi : i < MT_LEVEL - 1)
    (hreach : ∀ j, j < i → ∃ p, c.mtPkts.getD j none = some p ∧ p.accessDepth ≠ 0) :
    ∃ p, c.mtPkts.getD i none = some p ∧ p.addr = alignDown k (mtNodeAddr c i) := by
  have hsome : ∃ p, c.mtPkts.getD i none = some p := by
    rcases (mtWalkFinished_iff c.mtPkts 0 (MT_LEVEL - 1)).mp hw with
      ⟨m, _, _, ⟨p, hp, hp0⟩, hall⟩ | hall
    · rcases Nat.lt_trichotomy i m with h | h | h
      · obtain ⟨q, hq, _⟩ := hall i (Nat.zero_le _) h
        exact ⟨q, hq⟩
      · subst h
        exact ⟨p, hp⟩
      · obtain ⟨q, hq, hq0⟩ := hreach m h
        rw [hp] at hq
        cases hq
        exact absurd hp0 hq0
    · obtain ⟨q, hq, _⟩ := hall i (Nat.zero_le _) (by omega)
      exact ⟨q, hq⟩
  obtain ⟨p, hp⟩ := hsome
  exact ⟨p, hp, hv i p hi hp⟩

/-- C24: in every state reachable from construction through the callbacks
(whatever the transport answers, whatever responses arrive) the Merkle slots fit
the state: in `Idle` all are empty; in `Read` (`Write`) every filled `mtPkts[i]`
holds a packet at the 64-byte (8-byte) aligned level-`i` address for the current
`verifiedCntOffs`.  For every response handled in such a state, the object the
completion check runs on (the response recorded) has the same property, and when
the first loop of the check passes, every slot the sanity loop reaches is filled
at the expected address and the loop ends normally.  So `handleResponse` never
ends in the "mtNode's addr is not valid" panic nor dereferences an empty Merkle
slot, and no callback at all ends in that panic. -/
theorem sanity_check_cannot_fail (c : Ctrl) (hR : Reachable c) :
    SlotsInv c ∧
    (∀ (tr : Transport) (now : Nat) (pkt : Packet),
      (c.state = .Read → (recordRead tr now pkt c).res = .ok () →
        MtSlotsValid 6 (recordRead tr now pkt c).ctrl ∧
        (mtWalkFinished (recordRead tr now pkt c).ctrl.mtPkts 0 (MT_LEVEL - 1) = true →
          (∀ i, i < MT_LEVEL - 1 →
            (∀ j, j < i → ∃ p, (recordRead tr now pkt c).ctrl.mtPkts.getD j none = some p ∧
              p.accessDepth ≠ 0) →
            ∃ p, (recordRead tr now pkt c).ctrl.mtPkts.getD i none = some p ∧
              p.addr = alignDown 6 (mtNodeAddr (recordRead tr now pkt c).ctrl i)) ∧
          sanityCheck (recordRead tr now pkt c).ctrl 6 0 (MT_LEVEL - 1) = .ok ())) ∧
      (c.state = .Write → ∀ b, (recordWrite tr now pkt c).res = .ok b →
        MtSlotsValid 3 (recordWrite tr now pkt c).ctrl ∧
        (mtWalkFinished (recordWrite tr now pkt c).ctrl.mtPkts 0 (MT_LEVEL - 1) = true →
          (∀ i, i < MT_LEVEL - 1 →
            (∀ j, j < i → ∃ p, (recordWrite tr now pkt c).ctrl.mtPkts.getD j none = some p ∧
              p.accessDepth ≠ 0) →
            ∃ p, (recordWrite tr now pkt c).ctrl.mtPkts.getD i none = some p ∧
              p.addr = alignDown 3 (mtNodeAddr (recordWrite tr now pkt c).ctrl i)) ∧
          sanityCheck (recordWrite tr now pkt c).ctrl 3 0 (MT_LEVEL - 1) = .ok ())) ∧
      (handleResponse tr now pkt c).res ≠ .fatal .mtNodeAddr ∧
      (handleResponse tr now pkt c).res ≠ .fatal .nullPacket) ∧
    (∀ (tr : Transport) (now : Nat) (inp : Input),
      (step tr now inp c).res ≠ .fatal .mtNodeAddr ∧
      ((∃ pkt, inp = .timingResp pkt) ∨ inp = .respRetry →
        (step tr now inp c).res ≠ .fatal .nullPacket)) := by
  have hI := reachable_slotsInv hR
  refine ⟨hI, fun tr now pkt => ⟨fun hs hok => ?_, fun hs b hok => ?_,
    handleResponse_sane tr now pkt c hI⟩, fun tr now inp => step_sane tr now inp c hI⟩
  · have hv := recordRead_slots tr now pkt c (hI.2.1 hs) hok
    exact ⟨hv, fun hw => ⟨fun i hi hreach => sanity_dereferences _ 6 hv hw i hi hreach,
      (checkRead_sane _ hv).1 hw⟩⟩
  · have hv := recordWrite_slots tr now pkt c (hI.2.2 hs) hok
    exact ⟨hv, fun hw => ⟨fun i hi hreach => sanity_dereferences _ 3 hv hw i hi hreach,
      (checkWrite_sane _ hv).1 hw⟩⟩

set_option maxRecDepth 100000 in
/-- Witness for C24: after the read of address 0 has walked the levels 0 to 4,
the level-5 response at `0x289249000` passes the first loop, and the sanity loop
on the object with that response recorded ends normally. -/
theorem sanity_check_cannot_fail_witness :
    Reachable walkedToLast ∧
    mtWalkFinished
      (recordRead acceptAll 6000 (respAt 0x289249000 64 true 1) walkedToLast).ctrl.mtPkts 0
      (MT_LEVEL - 1) = true ∧
    sanityCheck (recordRead acceptAll 6000 (respAt 0x289249000 64 true 1) walkedToLast).ctrl
      6 0 (MT_LEVEL - 1) = .ok () :=
  have hR : Reachable walkedToLast :=
    reachable_of_runInputs acceptAll walkTrace construct walkedToLast Reachable.construct
      (by decide) (by rfl)
  ⟨hR, by rfl,
    (((sanity_check_cannot_fail walkedToLast hR).2.1 acceptAll 6000
      (respAt 0x289249000 64 true 1)).1 (by rfl) (by rfl)).2 (by rfl) |>.2⟩


/-! ## Sends that meet an occupied blocked slot -/

set_option maxRecDepth 100000 in
/-- C1 (what the code does): the constructed object is in `Idle` and receives a
read request at `0x1040`; the data port accepts the data read and the metadata
port refuses the counter read.  `recvTimingReq` takes the accepting branch, but
it does not return `true`: `handleRequest` captures the request, moves to
`Read`, hands the data read and the counter read to their ports, and the next
send, `sendMacPkt`, meets the refused counter read in the blocked slot and ends
the call in the "Should never try to send if blocked!" panic.  The same happens
when the MAC read is the one refused.  With every send accepted the same
request is accepted and `true` is returned. -/
theorem idle_request_ends_in_panic :
    construct.state = .Idle ∧
    (recvTimingReq refuseCounter readReq1040 construct).res = .fatal .sendWhileBlocked ∧
    (recvTimingReq refuseCounter readReq1040 construct).ctrl.state = .Read ∧
    (recvTimingReq refuseCounter readReq1040 construct).ctrl.verifiedPktAddr = 0x1040 ∧
    (recvTimingReq refuseCounter readReq1040 construct).acts =
      [.send .memPort readReq1040 true,
        .send .metaPort (createMetaPkt construct 0x200000041 1 true) false] ∧
    (recvTimingReq refuseCounter readReq1040 construct).ctrl.metaPort.blockedPacket =
      some (createMetaPkt construct 0x200000041 1 true) ∧
    (recvTimingReq refuseMac readReq1040 construct).res = .fatal .sendWhileBlocked ∧
    (recvTimingReq acceptAll readReq1040 construct).res = .ok true := by
  refine ⟨?_, ?_, ?_, ?_, ?_, ?_, ?_, ?_⟩ <;> rfl

set_option maxRecDepth 100000 in
/-- C18 (what the code does): the write of address `0x1000`.  The counter
response schedules the MAC-write and the next-MT-write events for the same
tick; the next-MT-write event issues the level-0 write at `0x288000008`, which
is accepted, and the MAC-write event issues the MAC write at `0x208000400`,
which the metadata port refuses: it waits in the blocked slot.  Every callback
of this run is allowed by the port protocol and returns.  The response to the
level-0 write, a write-command response at the 8-byte aligned level-0 address
with access depth 1, answers a pending request.  Handling it fills `mtPkts[0]`,
and the probe read `sendMtPkt(0, true)` meets the occupied blocked slot: the
call ends in the "Should never try to send if blocked!" panic and no packet is
issued. -/
theorem probe_read_meets_blocked_mac_write :
    Sys.run macRefusedRun Sys.init = some macRefusedSys ∧
    macRefusedSys.ctrl.state = .Write ∧
    macRefusedSys.ctrl.metaPort.blockedPacket =
      some (createMetaPkt construct 0x208000400 16 false) ∧
    macRefusedSys.pending = [writeReq1000, createMetaPkt construct 0x288000008 8 false] ∧
    alignDown 3 (mtNodeAddr macRefusedSys.ctrl 0) = 0x288000008 ∧
    macRefusedSys.allows (.timingResp (respAt 0x288000008 8 false 1)) = true ∧
    (handleResponse acceptAll 82000 (respAt 0x288000008 8 false 1) macRefusedSys.ctrl).res =
      .fatal .sendWhileBlocked ∧
    (handleResponse acceptAll 82000 (respAt 0x288000008 8 false 1) macRefusedSys.ctrl).acts =
      [] ∧
    (handleResponse acceptAll 82000 (respAt 0x288000008 8 false 1)
        macRefusedSys.ctrl).ctrl.mtPkts.getD 0 none = some (respAt 0x288000008 8 false 1) ∧
    (step acceptAll 82000 (.timingResp (respAt 0x288000008 8 false 1)) macRefusedSys.ctrl).res =
      .fatal .sendWhileBlocked := by
  refine ⟨?_, ?_, ?_, ?_, ?_, ?_, ?_, ?_, ?_, ?_⟩ <;> rfl

end SecCtrl
